import Mathlib

/-!
# OsmAnd native core: open-file registry, OBF structure scan, cache manifest, searches,
routing rules and the points and segments of the hierarchical routing

A shallow embedding of `native/src/binaryRead.cpp`.

* The protobuf `CodedInputStream` is a library collaborator.  An input stream is
  represented by the sequence of fields its `ReadTag` loop meets, each field carrying
  the values the read calls of that case deliver (`ReadTag` returning 0 is the end of
  the list).  Where the source ignores the result of a read, the field carries the
  value left in the variable; where it tests the result, a failed read is `none`
  (or a `false` flag next to the value left behind).
* 32-bit unsigned members are natural numbers; every assignment from a signed
  expression goes through `u32`.
* `std::string` is `String`, compared and searched through its list of characters.
* The structure declarations and constructors live in `binaryRead.h`, which is not
  among the sources read here: a newly constructed object has empty strings and
  vectors, null pointers and zero numeric members (the field defaults below).
  `MAP_VERSION`, defined in the same header, and the helper `getFileName` are
  parameters of the functions that use them; so is `SHIFT_COORDINATES`.
* Values of type `int` are integers, every sum and shift going through `i32`.
* `std::sort` is a parameter of the functions that call it, held to its contract
  (`IsStdSort`); the answer of `isCancelled()` is a member of the query.
* A search that seeks in the file takes the fields found at a position from a function
  of the position.
* The points of the hierarchical routing are reached through pointers: they live in a
  function from the number under which a point was created to the point, a pointer is
  that number, and an assignment through a pointer changes the function there.  A
  `std::map` searched by key is a function from the key to an optional value.
* An `at(i)` out of range throws: the functions that call it return an `Option`.  So do
  the functions that index a vector with `operator[]` without a test before it, `none`
  standing for an index out of range.
* The two `readInt` overloads are followed on the bytes left before the limit, each byte
  a natural number below 256.
* Values of type `double` are rational numbers.
-/

set_option autoImplicit false

namespace OsmAnd

/-! ## Machine integers and strings -/

/-- Conversion of a signed value to a 32-bit unsigned member (`uint32_t x = i`). -/
def u32 (i : Int) : Nat := (i % 4294967296).toNat

/-- Search of a pattern in a string: `s.find(pat) != string::npos`. -/
def strFind (s pat : String) : Bool :=
  s.data.tails.any (fun t => pat.data.isPrefixOf t)

/-- Suffix test `hasEnding(fullString, ending)`: compares the last `ending.length()`
characters of `fullString` with `ending`. -/
def hasEnding (fullString ending : String) : Bool :=
  if fullString.data.length ≥ ending.data.length then
    ((fullString.data.drop (fullString.data.length - ending.data.length)).take
      ending.data.length) == ending.data
  else
    false

/-! ## Indexes of an open file -/

/-- Root level of a map index (`MapRoot`); its tree bounds are filled by later,
query-time reads and stay empty while a file is opened. -/
structure MapRoot where
  length : Nat := 0
  filePointer : Nat := 0
  left : Nat := 0
  right : Nat := 0
  top : Nat := 0
  bottom : Nat := 0
  minZoom : Nat := 0
  maxZoom : Nat := 0

/-- Map index (`MapIndex`): header members set while a file is opened. -/
structure MapIndex where
  length : Nat := 0
  filePointer : Nat := 0
  name : String := ""
  levels : List MapRoot := []

/-- Node of a routing R-tree (`RouteSubregion`). `mapDataBlock` holds the
`shiftToData` value of the box, 0 while none has been read. -/
structure RouteSubregion where
  length : Nat := 0
  filePointer : Nat := 0
  mapDataBlock : Nat := 0
  left : Nat := 0
  right : Nat := 0
  top : Nat := 0
  bottom : Nat := 0
  subregions : List RouteSubregion

/-- Routing index (`RoutingIndex`): header members and the two lists of top-level
subregions. -/
structure RoutingIndex where
  length : Nat := 0
  filePointer : Nat := 0
  name : String := ""
  subregions : List RouteSubregion := []
  basesubregions : List RouteSubregion := []

/-- Location of the string table of a transport index (`IndexStringTable`). -/
structure IndexStringTable where
  fileOffset : Nat := 0
  length : Nat := 0

/-- Transport index (`TransportIndex`). `stringTable` is a pointer member, `none` is
the null pointer. -/
structure TransportIndex where
  length : Nat := 0
  filePointer : Nat := 0
  name : String := ""
  left : Nat := 0
  right : Nat := 0
  top : Nat := 0
  bottom : Nat := 0
  stopsFileOffset : Nat := 0
  stopsFileLength : Nat := 0
  incompleteRoutesOffset : Nat := 0
  incompleteRoutesLength : Nat := 0
  stringTable : Option IndexStringTable := none

/-- Top point box of an HH index (`HHRoutePointsBox`), header members only. -/
structure HHRoutePointsBox where
  length : Nat := 0
  filePointer : Nat := 0
  left : Nat := 0
  right : Nat := 0
  top : Nat := 0
  bottom : Nat := 0

/-- Hierarchical-routing index (`HHRouteIndex`). `top` is a shared pointer, `none`
is the null pointer. -/
structure HHRouteIndex where
  length : Nat := 0
  filePointer : Nat := 0
  name : String := ""
  edition : Nat := 0
  profile : String := ""
  profileParams : List String := []
  top : Option HHRoutePointsBox := none

/-- Entry of `BinaryMapFile::indexes`, the list of all parts in insertion order. -/
inductive BinaryPartIndex where
  | map (i : MapIndex)
  | routing (i : RoutingIndex)
  | transport (i : TransportIndex)
  | hh (i : HHRouteIndex)

/-- Open OBF file (`BinaryMapFile`). -/
structure BinaryMapFile where
  inputName : String := ""
  version : Nat := 0
  dateCreated : Nat := 0
  mapIndexes : List MapIndex := []
  routingIndexes : List RoutingIndex := []
  transportIndexes : List TransportIndex := []
  hhIndexes : List HHRouteIndex := []
  indexes : List BinaryPartIndex := []
  basemap : Bool := false
  external : Bool := false
  roadOnly : Bool := false
  liveMap : Bool := false

/-! ## Fields of the OBF messages read while a file is opened -/

/-- Field of a `MapRootLevel` message as `readMapLevel` meets it. -/
inductive MapRootLevelField where
  | maxZoom (v : Option Int)
  | minZoom (v : Option Int)
  | bottom (v : Option Int)
  | top (v : Option Int)
  | left (v : Option Int)
  | right (v : Option Int)
  | boxes
  | blocks
  | endGroup
  | unknown (skipped : Bool)

/-- Field of an `OsmAndMapIndex` message as `readMapIndex` meets it. -/
inductive MapIndexField where
  | name (ok : Bool) (v : String)
  | rules
  | levels (length filePointer : Nat) (body : List MapRootLevelField)
  | endGroup
  | unknown (skipped : Bool)

/-- Field of a `RouteDataBox` message as `readRouteTree` meets it. A `boxes` field
carries the child's length and position, the result `skipUnknownFields` would give
for it, and the child's own fields. -/
inductive RouteDataBoxField where
  | left (v : Option Int)
  | right (v : Option Int)
  | top (v : Option Int)
  | bottom (v : Option Int)
  | shiftToData (v : Option Nat)
  | boxes (length filePointer : Nat) (skipped : Bool) (body : List RouteDataBoxField)
  | endGroup
  | unknown (skipped : Bool)

/-- Field of a `RouteEncodingRule` message as `readRouteEncodingRule` meets it. -/
inductive RouteEncodingRuleField where
  | value (v : Option String)
  | tag (v : Option String)
  | id (v : Option Nat)
  | endGroup
  | unknown (skipped : Bool)

/-- Field of an `OsmAndRoutingIndex` message as `readRoutingIndex` meets it. -/
inductive RoutingIndexField where
  | name (ok : Bool) (v : String)
  | rules (body : List RouteEncodingRuleField)
  | rootBoxes (length filePointer : Nat) (body : List RouteDataBoxField)
  | basemapBoxes (length filePointer : Nat) (body : List RouteDataBoxField)
  | blocks
  | endGroup
  | unknown (skipped : Bool)

/-- Field of a `TransportStopsTree` message as `readTransportBounds` meets it. -/
inductive TransportStopsTreeField where
  | left (v : Option Int)
  | right (v : Option Int)
  | top (v : Option Int)
  | bottom (v : Option Int)
  | unknown (skipped : Bool)

/-- Field of an `OsmAndTransportIndex` message as `readTransportIndex` meets it. -/
inductive TransportIndexField where
  | routes
  | name (ok : Bool) (v : String)
  | stops (length offset : Nat) (body : List TransportStopsTreeField)
  | stringTable (length fileOffset : Nat)
  | incompleteRoutes (length offset : Nat)
  | unknown (skipped : Bool)

/-- Field of an `HHRoutePointsBox` message as `readPointBox` meets it. -/
inductive HHRoutePointsBoxField where
  | bottom (v : Int)
  | top (v : Int)
  | right (v : Int)
  | left (v : Int)
  | boxes
  | points
  | unknown

/-- Field of an `OsmAndHHRoutingIndex` message as `readHHIndex` meets it. -/
inductive HHRoutingIndexField where
  | edition (v : Option Nat)
  | profile (ok : Bool) (v : String)
  | profileParams (v : Option String)
  | pointBoxes (length filePointer : Nat) (body : List HHRoutePointsBoxField)
  | pointSegments
  | unknown (skipped : Bool)

/-- Field of the top-level `OsmAndStructure` message as `initMapStructure` meets it. -/
inductive StructureField where
  | version (v : Option Nat)
  | dateCreated (v : Option Nat)
  | mapIndex (length filePointer : Nat) (body : List MapIndexField)
  | routingIndex (length filePointer : Nat) (body : List RoutingIndexField)
  | transportIndex (length filePointer : Nat) (body : List TransportIndexField)
  | hhRoutingIndex (length filePointer : Nat) (body : List HHRoutingIndexField)
  | versionConfirm (v : Option Nat)
  | endGroup
  | unknown (skipped : Bool)

/-! ## Readers of the index headers -/

/-- Outcome of one pass through the body of a read loop: go on with the next field
in the new state, or leave the function with a result. -/
inductive Step (σ ρ : Type) where
  | next (s : σ)
  | done (r : ρ)

/-- One field of `readMapLevel(input, root, false)`. -/
def readMapLevelField (root : MapRoot) : MapRootLevelField → Step MapRoot (Bool × MapRoot)
  | .maxZoom none => .done (false, root)
  | .maxZoom (some z) => .next { root with maxZoom := u32 z }
  | .minZoom none => .done (false, root)
  | .minZoom (some z) => .next { root with minZoom := u32 z }
  | .bottom none => .done (false, root)
  | .bottom (some si) => .next { root with bottom := u32 si }
  | .top none => .done (false, root)
  | .top (some si) => .next { root with top := u32 si }
  | .left none => .done (false, root)
  | .left (some si) => .next { root with left := u32 si }
  | .right none => .done (false, root)
  | .right (some si) => .next { root with right := u32 si }
  | .boxes => .done (true, root)
  | .blocks => .done (true, root)
  | .endGroup => .done (true, root)
  | .unknown skipped => if skipped then .next root else .done (false, root)

/-- Reader `readMapLevel(input, root, initSubtrees = false)`: a `boxes` or `blocks`
field skips to the limit, after which `ReadTag` gives 0. -/
def readMapLevel : List MapRootLevelField → MapRoot → Bool × MapRoot
  | [], root => (true, root)
  | f :: rest, root =>
    match readMapLevelField root f with
    | .next root1 => readMapLevel rest root1
    | .done r => r

/-- One field of `readMapIndex(input, mapIndex, false)`. -/
def readMapIndexField (mapIndex : MapIndex) : MapIndexField → Step MapIndex (Bool × MapIndex)
  | .name ok v =>
    if ok then .next { mapIndex with name := v } else .done (false, { mapIndex with name := v })
  | .rules => .next mapIndex
  | .levels length filePointer body =>
    let mapLevel : MapRoot := { length := length, filePointer := filePointer }
    .next { mapIndex with levels := mapIndex.levels ++ [(readMapLevel body mapLevel).2] }
  | .endGroup => .done (true, mapIndex)
  | .unknown skipped => if skipped then .next mapIndex else .done (false, mapIndex)

/-- Reader `readMapIndex(input, mapIndex, onlyInitEncodingRules = false)`. -/
def readMapIndex : List MapIndexField → MapIndex → Bool × MapIndex
  | [], mapIndex => (true, mapIndex)
  | f :: rest, mapIndex =>
    match readMapIndexField mapIndex f with
    | .next m => readMapIndex rest m
    | .done r => r

/-- Edge of the parent box a delta is added to: `parentTree != NULL ? parentTree->e : 0`. -/
def parentEdge (parentTree : Option RouteSubregion) (e : RouteSubregion → Nat) : Int :=
  match parentTree with
  | some p => (e p : Int)
  | none => 0

mutual
/-- Reader `readRouteTree(input, thisTree, parentTree, ind, depth, readCoordinates)`;
the argument `i` is the local `int i`, 0 on entry. -/
def readRouteTree (parentTree : Option RouteSubregion) (depth : Int) (readCoordinates : Bool) :
    List RouteDataBoxField → RouteSubregion → Int → Bool × RouteSubregion
  | [], thisTree, _ => (true, thisTree)
  | f :: rest, thisTree, i =>
    match readRouteTreeField parentTree depth readCoordinates f thisTree i with
    | .next (t, i1) => readRouteTree parentTree depth readCoordinates rest t i1
    | .done r => r
/-- One field of `readRouteTree`. -/
def readRouteTreeField (parentTree : Option RouteSubregion) (depth : Int)
    (readCoordinates : Bool) :
    RouteDataBoxField → RouteSubregion → Int → Step (RouteSubregion × Int) (Bool × RouteSubregion)
  | .left v, thisTree, i =>
    let i1 := v.getD i
    .next (if readCoordinates then
      { thisTree with left := u32 (i1 + parentEdge parentTree RouteSubregion.left) }
      else thisTree, i1)
  | .right v, thisTree, i =>
    let i1 := v.getD i
    .next (if readCoordinates then
      { thisTree with right := u32 (i1 + parentEdge parentTree RouteSubregion.right) }
      else thisTree, i1)
  | .top v, thisTree, i =>
    let i1 := v.getD i
    .next (if readCoordinates then
      { thisTree with top := u32 (i1 + parentEdge parentTree RouteSubregion.top) }
      else thisTree, i1)
  | .bottom v, thisTree, i =>
    let i1 := v.getD i
    .next (if readCoordinates then
      { thisTree with bottom := u32 (i1 + parentEdge parentTree RouteSubregion.bottom) }
      else thisTree, i1)
  | .shiftToData v, thisTree, i =>
    .next ({ thisTree with mapDataBlock := v.getD thisTree.mapDataBlock }, i)
  | .boxes length filePointer skipped body, thisTree, i =>
    if depth ≠ 0 then
      let subregion : RouteSubregion :=
        { length := length, filePointer := filePointer, subregions := [] }
      let child := (readRouteTree (some thisTree) (depth - 1) true body subregion 0).2
      .next ({ thisTree with subregions := thisTree.subregions ++ [child] }, i)
    else if skipped then .next (thisTree, i) else .done (false, thisTree)
  | .endGroup, thisTree, _ => .done (true, thisTree)
  | .unknown skipped, thisTree, i =>
    if skipped then .next (thisTree, i) else .done (false, thisTree)
end

/-- One field of `readRoutingIndex`, as far as the header members and the subregions
go. The `rules` field feeds the encoding-rule table, whose members are kept apart in
`RouteRules` and followed by `readRoutingIndexRules`. A `blocks` field, and a box
field under `readOnlyRules`, seeks to the end of the index, after which `ReadTag`
gives 0. -/
def readRoutingIndexField (readOnlyRules : Bool) (routingIndex : RoutingIndex) :
    RoutingIndexField → Step RoutingIndex (Bool × RoutingIndex)
  | .name ok v =>
    if ok then .next { routingIndex with name := v }
    else .done (false, { routingIndex with name := v })
  | .rules _ => .next routingIndex
  | .rootBoxes length filePointer body =>
    if readOnlyRules then .done (true, routingIndex)
    else
      let subregion : RouteSubregion :=
        { length := length, filePointer := filePointer, subregions := [] }
      let sub := (readRouteTree none 0 true body subregion 0).2
      .next { routingIndex with subregions := routingIndex.subregions ++ [sub] }
  | .basemapBoxes length filePointer body =>
    if readOnlyRules then .done (true, routingIndex)
    else
      let subregion : RouteSubregion :=
        { length := length, filePointer := filePointer, subregions := [] }
      let sub := (readRouteTree none 0 true body subregion 0).2
      .next { routingIndex with basesubregions := routingIndex.basesubregions ++ [sub] }
  | .blocks => .done (true, routingIndex)
  | .endGroup => .done (true, routingIndex)
  | .unknown skipped => if skipped then .next routingIndex else .done (false, routingIndex)

/-- Reader `readRoutingIndex(input, routingIndex, readOnlyRules)`. -/
def readRoutingIndex (readOnlyRules : Bool) :
    List RoutingIndexField → RoutingIndex → Bool × RoutingIndex
  | [], routingIndex => (true, routingIndex)
  | f :: rest, routingIndex =>
    match readRoutingIndexField readOnlyRules routingIndex f with
    | .next r => readRoutingIndex readOnlyRules rest r
    | .done r => r

/-- One field of `readTransportBounds`. -/
def readTransportBoundsField (ind : TransportIndex) :
    TransportStopsTreeField → Step TransportIndex (Bool × TransportIndex)
  | .left none => .done (false, ind)
  | .left (some si) => .next { ind with left := u32 si }
  | .right none => .done (false, ind)
  | .right (some si) => .next { ind with right := u32 si }
  | .top none => .done (false, ind)
  | .top (some si) => .next { ind with top := u32 si }
  | .bottom none => .done (false, ind)
  | .bottom (some si) => .next { ind with bottom := u32 si }
  | .unknown skipped => if skipped then .next ind else .done (false, ind)

/-- Reader `readTransportBounds(input, ind)`. -/
def readTransportBounds : List TransportStopsTreeField → TransportIndex → Bool × TransportIndex
  | [], ind => (true, ind)
  | f :: rest, ind =>
    match readTransportBoundsField ind f with
    | .next t => readTransportBounds rest t
    | .done r => r

/-- One field of `readTransportIndex`. -/
def readTransportIndexField (ind : TransportIndex) :
    TransportIndexField → Step TransportIndex (Bool × TransportIndex)
  | .routes => .next ind
  | .name ok v =>
    if ok then .next { ind with name := v } else .done (false, { ind with name := v })
  | .stops length offset body =>
    .next (readTransportBounds body
      { ind with stopsFileLength := length, stopsFileOffset := offset }).2
  | .stringTable length fileOffset =>
    .next { ind with stringTable := some { fileOffset := fileOffset, length := length } }
  | .incompleteRoutes length offset =>
    .next { ind with incompleteRoutesLength := length, incompleteRoutesOffset := offset }
  | .unknown skipped => if skipped then .next ind else .done (false, ind)

/-- Reader `readTransportIndex(input, ind)`. -/
def readTransportIndex : List TransportIndexField → TransportIndex → Bool × TransportIndex
  | [], ind => (true, ind)
  | f :: rest, ind =>
    match readTransportIndexField ind f with
    | .next t => readTransportIndex rest t
    | .done r => r

/-- Edge of the parent point box: `parent ? parent->e : 0`. -/
def parentBoxEdge (parent : Option HHRoutePointsBox) (e : HHRoutePointsBox → Nat) : Int :=
  match parent with
  | some p => (e p : Int)
  | none => 0

/-- Loop of `readPointBox` when `hctx == nullptr`, as called by `readHHIndex`: once the
four edges are non-zero, and at a `boxes` or `points` field, the rest of the box is
skipped and `ReadTag` gives 0. -/
def readPointBoxLoop (parent : Option HHRoutePointsBox) :
    List HHRoutePointsBoxField → HHRoutePointsBox → HHRoutePointsBox
  | [], box => box
  | f :: rest, box =>
    if box.bottom ≠ 0 ∧ box.top ≠ 0 ∧ box.right ≠ 0 ∧ box.left ≠ 0 then box
    else
      match f with
      | .bottom v =>
        readPointBoxLoop parent rest
          { box with bottom := u32 (v + parentBoxEdge parent HHRoutePointsBox.bottom) }
      | .top v =>
        readPointBoxLoop parent rest
          { box with top := u32 (v + parentBoxEdge parent HHRoutePointsBox.top) }
      | .right v =>
        readPointBoxLoop parent rest
          { box with right := u32 (v + parentBoxEdge parent HHRoutePointsBox.right) }
      | .left v =>
        readPointBoxLoop parent rest
          { box with left := u32 (v + parentBoxEdge parent HHRoutePointsBox.left) }
      | .boxes => box
      | .points => box
      | .unknown => readPointBoxLoop parent rest box

/-- Reader `readPointBox(input, hhIndex, nullptr, mapId, mp, parent)`: a new box with
the length and position read, then the loop over its fields. -/
def readPointBox (length filePointer : Nat) (parent : Option HHRoutePointsBox)
    (body : List HHRoutePointsBoxField) : HHRoutePointsBox :=
  readPointBoxLoop parent body { length := length, filePointer := filePointer }

/-- One field of `readHHIndex`. -/
def readHHIndexField (hhIndex : HHRouteIndex) :
    HHRoutingIndexField → Step HHRouteIndex (Bool × HHRouteIndex)
  | .edition none => .done (false, hhIndex)
  | .edition (some v) => .next { hhIndex with edition := v % 18446744073709551616 }
  | .profile ok v =>
    if ok then .next { hhIndex with profile := v }
    else .done (false, { hhIndex with profile := v })
  | .profileParams none => .done (false, hhIndex)
  | .profileParams (some v) =>
    .next { hhIndex with profileParams := hhIndex.profileParams ++ [v] }
  | .pointBoxes length filePointer body =>
    .next { hhIndex with top := some (readPointBox length filePointer none body) }
  | .pointSegments => .done (true, hhIndex)
  | .unknown skipped => if skipped then .next hhIndex else .done (false, hhIndex)

/-- Loop of `readHHIndex`. -/
def readHHIndexLoop : List HHRoutingIndexField → HHRouteIndex → Bool × HHRouteIndex
  | [], hhIndex => (true, hhIndex)
  | f :: rest, hhIndex =>
    match readHHIndexField hhIndex f with
    | .next h => readHHIndexLoop rest h
    | .done r => r

/-- Reader `readHHIndex(input, hhIndex)`: clears `profileParams`, then reads the fields. -/
def readHHIndex (input : List HHRoutingIndexField) (hhIndex : HHRouteIndex) :
    Bool × HHRouteIndex :=
  readHHIndexLoop input { hhIndex with profileParams := [] }

/-! ## Scan of the top-level structure -/

/-- State of the loop of `initMapStructure`: the file and the local `versionConfirm`. -/
structure ScanState where
  file : BinaryMapFile
  versionConfirm : Nat

/-- One field of `initMapStructure`; `none` is a `return false` from inside the loop. -/
def initMapStructureField (useLive initRoutingOnly : Bool) (s : ScanState) :
    StructureField → Option ScanState
  | .version none => none
  | .version (some v) => some { s with file := { s.file with version := v % 4294967296 } }
  | .dateCreated none => none
  | .dateCreated (some v) =>
    some { s with file := { s.file with dateCreated := v % 18446744073709551616 } }
  | .mapIndex length filePointer body =>
    let mapIndex0 : MapIndex := { length := length, filePointer := filePointer }
    let mapIndex := if initRoutingOnly then mapIndex0 else (readMapIndex body mapIndex0).2
    some { s with file := { s.file with
      mapIndexes := s.file.mapIndexes ++ [mapIndex]
      indexes := s.file.indexes ++ [.map mapIndex]
      basemap := s.file.basemap || strFind mapIndex.name "basemap"
      external := s.file.external || strFind mapIndex.name "osmand_ext" } }
  | .routingIndex length filePointer body =>
    let routingIndex :=
      (readRoutingIndex false body { length := length, filePointer := filePointer }).2
    if !s.file.liveMap || useLive then
      some { s with file := { s.file with
        routingIndexes := s.file.routingIndexes ++ [routingIndex]
        indexes := s.file.indexes ++ [.routing routingIndex] } }
    else some s
  | .transportIndex length filePointer body =>
    let tIndex := (readTransportIndex body { length := length, filePointer := filePointer }).2
    some { s with file := { s.file with
      transportIndexes := s.file.transportIndexes ++ [tIndex]
      indexes := s.file.indexes ++ [.transport tIndex] } }
  | .hhRoutingIndex length filePointer body =>
    let hhIndex := (readHHIndex body { length := length, filePointer := filePointer }).2
    if !s.file.liveMap || useLive then
      some { s with file := { s.file with
        hhIndexes := s.file.hhIndexes ++ [hhIndex]
        indexes := s.file.indexes ++ [.hh hhIndex] } }
    else some s
  | .versionConfirm none => none
  | .versionConfirm (some v) => some { s with versionConfirm := v % 4294967296 }
  | .endGroup => some s
  | .unknown skipped => if skipped then some s else none

/-- Loop `while ((tag = input->ReadTag()) != 0)` of `initMapStructure`. -/
def initMapStructureLoop (useLive initRoutingOnly : Bool) :
    List StructureField → ScanState → Option ScanState
  | [], s => some s
  | f :: rest, s =>
    match initMapStructureField useLive initRoutingOnly s f with
    | none => none
    | some s1 => initMapStructureLoop useLive initRoutingOnly rest s1

/-- Scan `initMapStructure(input, file, useLive, initRoutingOnly)`. The result is the
file as the scan leaves it when the function returns `true`, and `none` when it returns
`false` (both callers then delete the file). `versionConfirm` starts at `(uint32_t)-2`. -/
def initMapStructure (MAP_VERSION : Nat) (input : List StructureField) (file : BinaryMapFile)
    (useLive initRoutingOnly : Bool) : Option BinaryMapFile :=
  let file0 := { file with external := strFind file.inputName "osmand_ext" }
  match initMapStructureLoop useLive initRoutingOnly input
      { file := file0, versionConfirm := 4294967294 } with
  | none => none
  | some s =>
    if s.file.version ≠ s.versionConfirm then none
    else if s.file.version ≠ MAP_VERSION then none
    else some s.file

/-! ## Cache manifest (`proto/osmand_index.pb.h`)

The generated message classes are not among the sources; the structures below have one
field for each accessor the code calls, named as the accessor. -/

namespace OBF

/-- Manifest record of a map level. -/
structure MapLevel where
  size : Nat := 0
  offset : Nat := 0
  left : Nat := 0
  right : Nat := 0
  top : Nat := 0
  bottom : Nat := 0
  minzoom : Nat := 0
  maxzoom : Nat := 0

/-- Manifest record of a map index. -/
structure MapPart where
  size : Nat := 0
  offset : Nat := 0
  name : String := ""
  levels : List MapLevel := []

/-- Manifest record of a routing subregion. -/
structure RoutingSubregion where
  size : Nat := 0
  offset : Nat := 0
  basemap : Bool := false
  left : Nat := 0
  right : Nat := 0
  top : Nat := 0
  bottom : Nat := 0
  shiftodata : Nat := 0

/-- Manifest record of a routing index. -/
structure RoutingPart where
  size : Nat := 0
  offset : Nat := 0
  name : String := ""
  subregions : List RoutingSubregion := []

/-- Manifest record of a transport index. -/
structure TransportPart where
  size : Nat := 0
  offset : Nat := 0
  name : String := ""
  left : Nat := 0
  right : Nat := 0
  top : Nat := 0
  bottom : Nat := 0
  stringtableoffset : Nat := 0
  stringtablelength : Nat := 0
  stopstableoffset : Nat := 0
  stopstablelength : Nat := 0
  incompleteroutesoffset : Nat := 0
  incompleterouteslength : Nat := 0

/-- Manifest record of an HH index. -/
structure HHRoutingPart where
  size : Nat := 0
  offset : Nat := 0
  edition : Nat := 0
  profile : String := ""
  profileparams : List String := []
  pointslength : Nat := 0
  pointsoffset : Nat := 0
  left : Nat := 0
  right : Nat := 0
  top : Nat := 0
  bottom : Nat := 0

/-- Manifest entry of one OBF file. -/
structure FileIndex where
  size : Nat := 0
  datemodified : Nat := 0
  filename : String := ""
  version : Nat := 0
  mapindex : List MapPart := []
  routingindex : List RoutingPart := []
  transportindex : List TransportPart := []
  hhroutingindex : List HHRoutingPart := []

/-- The manifest. -/
structure OsmAndStoredIndex where
  version : Nat := 0
  datecreated : Nat := 0
  fileindex : List FileIndex := []

end OBF

/-! ## Registry of open files -/

/-- Constant `CACHE_VERSION`. -/
def CACHE_VERSION : Nat := 5

/-- The globals of `binaryRead.cpp`: `openFiles`, `cache` (`none` is `NULL`) and
`cacheHasChanged`. -/
structure Globals where
  openFiles : List BinaryMapFile := []
  cache : Option OBF.OsmAndStoredIndex := none
  cacheHasChanged : Bool := false

/-- What the functions obtain from outside the process: `stat` of a path, the fields of
the OBF file behind `mapFile->getFD()`, the manifest `MergeFromCodedStream` parses from
a cache file (`none` when the file cannot be opened or parsed), and the clock. -/
structure Env where
  st_size : String → Nat
  st_mtime : String → Nat
  content : String → List StructureField
  manifest : String → Option OBF.OsmAndStoredIndex
  now : Nat

/-- Loop of `closeBinaryMapFile` over `openFiles`: erases the entry at the first
iterator whose `inputName` equals the argument. -/
def closeBinaryMapFileLoop (inputName : String) :
    List BinaryMapFile → Bool × List BinaryMapFile
  | [] => (false, [])
  | f :: rest =>
    if f.inputName == inputName then (true, rest)
    else
      let r := closeBinaryMapFileLoop inputName rest
      (r.1, f :: r.2)

/-- Function `closeBinaryMapFile(inputName)`. -/
def closeBinaryMapFile (inputName : String) (g : Globals) : Bool × Globals :=
  let r := closeBinaryMapFileLoop inputName g.openFiles
  (r.1, { g with openFiles := r.2 })

/-- Function `initMapFilesFromCache(inputName)`. -/
def initMapFilesFromCache (env : Env) (inputName : String) (g : Globals) : Bool × Globals :=
  match env.manifest inputName with
  | some c =>
    (true, { g with
      cache := if c.version = CACHE_VERSION then some c else none
      cacheHasChanged := false })
  | none => (false, g)

/-- Loop of `initBinaryMapFile` over `cache->fileindex`: the first entry whose filename
ends the path and whose size is the size of the file. -/
def findFileIndex (inputName : String) (st_size : Nat) :
    List OBF.FileIndex → Option OBF.FileIndex
  | [] => none
  | fi :: rest =>
    if hasEnding inputName fi.filename then
      if fi.size = st_size then some fi else findFileIndex inputName st_size rest
    else findFileIndex inputName st_size rest

/-- Map level built from its manifest record. -/
def mapRootFromCache (ml : OBF.MapLevel) : MapRoot :=
  { bottom := ml.bottom, left := ml.left, right := ml.right, top := ml.top,
    maxZoom := ml.maxzoom, minZoom := ml.minzoom, filePointer := ml.offset, length := ml.size }

/-- Map index built from its manifest record. -/
def mapIndexFromCache (mp : OBF.MapPart) : MapIndex :=
  { filePointer := mp.offset, length := mp.size, name := mp.name,
    levels := mp.levels.map mapRootFromCache }

/-- Transport index built from its manifest record. -/
def transportIndexFromCache (tp : OBF.TransportPart) : TransportIndex :=
  { filePointer := tp.offset, length := tp.size, name := tp.name,
    left := tp.left, right := tp.right, top := tp.top, bottom := tp.bottom,
    stringTable := some { fileOffset := tp.stringtableoffset, length := tp.stringtablelength },
    stopsFileOffset := tp.stopstableoffset, stopsFileLength := tp.stopstablelength,
    incompleteRoutesOffset := tp.incompleteroutesoffset,
    incompleteRoutesLength := tp.incompleterouteslength }

/-- Routing subregion built from its manifest record. -/
def routeSubregionFromCache (ml : OBF.RoutingSubregion) : RouteSubregion :=
  { bottom := ml.bottom, left := ml.left, right := ml.right, top := ml.top,
    mapDataBlock := ml.shiftodata, filePointer := ml.offset, length := ml.size,
    subregions := [] }

/-- Loop over `mp.subregions` when a routing index is hydrated: each record goes to
`basesubregions` or to `subregions`. -/
def addSubregionsFromCache (mi : RoutingIndex) : List OBF.RoutingSubregion → RoutingIndex
  | [] => mi
  | ml :: rest =>
    let mr := routeSubregionFromCache ml
    if ml.basemap then
      addSubregionsFromCache { mi with basesubregions := mi.basesubregions ++ [mr] } rest
    else
      addSubregionsFromCache { mi with subregions := mi.subregions ++ [mr] } rest

/-- Routing index built from its manifest record. -/
def routingIndexFromCache (mp : OBF.RoutingPart) : RoutingIndex :=
  addSubregionsFromCache { filePointer := mp.offset, length := mp.size, name := mp.name }
    mp.subregions

/-- HH index built from its manifest record. -/
def hhIndexFromCache (mp : OBF.HHRoutingPart) : HHRouteIndex :=
  { filePointer := mp.offset, length := mp.size, edition := mp.edition, profile := mp.profile,
    profileParams := mp.profileparams,
    top := some { bottom := mp.bottom, right := mp.right, left := mp.left, top := mp.top } }

/-- Loop over `fo->mapindex` of `initBinaryMapFile`. -/
def addMapIndexesFromCache (mapFile : BinaryMapFile) : List OBF.MapPart → BinaryMapFile
  | [] => mapFile
  | mp :: rest =>
    let mi := mapIndexFromCache mp
    addMapIndexesFromCache { mapFile with
      basemap := mapFile.basemap || strFind mi.name "basemap"
      mapIndexes := mapFile.mapIndexes ++ [mi]
      indexes := mapFile.indexes ++ [.map mi] } rest

/-- Loop over `fo->transportindex` of `initBinaryMapFile`. -/
def addTransportIndexesFromCache (mapFile : BinaryMapFile) :
    List OBF.TransportPart → BinaryMapFile
  | [] => mapFile
  | tp :: rest =>
    let ti := transportIndexFromCache tp
    addTransportIndexesFromCache { mapFile with
      transportIndexes := mapFile.transportIndexes ++ [ti]
      indexes := mapFile.indexes ++ [.transport ti] } rest

/-- Loop over `fo->routingindex` of `initBinaryMapFile`. -/
def addRoutingIndexesFromCache (mapFile : BinaryMapFile) :
    List OBF.RoutingPart → BinaryMapFile
  | [] => mapFile
  | mp :: rest =>
    let mi := routingIndexFromCache mp
    addRoutingIndexesFromCache { mapFile with
      routingIndexes := mapFile.routingIndexes ++ [mi]
      indexes := mapFile.indexes ++ [.routing mi] } rest

/-- Loop over `fo->hhroutingindex` of `initBinaryMapFile`. -/
def addHHIndexesFromCache (mapFile : BinaryMapFile) :
    List OBF.HHRoutingPart → BinaryMapFile
  | [] => mapFile
  | mp :: rest =>
    let mi := hhIndexFromCache mp
    addHHIndexesFromCache { mapFile with
      hhIndexes := mapFile.hhIndexes ++ [mi]
      indexes := mapFile.indexes ++ [.hh mi] } rest

/-- Branch `if (fo != NULL)` of `initBinaryMapFile`: the file is filled from the
manifest entry alone. -/
def initFromFileIndex (fo : OBF.FileIndex) (mapFile : BinaryMapFile)
    (useLive routingOnly : Bool) : BinaryMapFile :=
  let f0 := { mapFile with version := fo.version, dateCreated := fo.datemodified }
  let f1 := if !routingOnly then addMapIndexesFromCache f0 fo.mapindex else f0
  let f2 := addTransportIndexesFromCache f1 fo.transportindex
  let f3 := if !f2.liveMap || useLive then addRoutingIndexesFromCache f2 fo.routingindex else f2
  if !f3.liveMap then addHHIndexesFromCache f3 fo.hhroutingindex else f3

/-- The file `new BinaryMapFile()` of `initBinaryMapFile` after its three assignments. -/
def newMapFile (inputName : String) : BinaryMapFile :=
  { liveMap := strFind inputName "live/", inputName := inputName,
    roadOnly := strFind inputName ".road" }

/-- Lookup of the manifest entry `fo` in `initBinaryMapFile`. -/
def lookupCache (env : Env) (inputName : String) (g : Globals) : Option OBF.FileIndex :=
  match g.cache with
  | some c => findFileIndex inputName (env.st_size inputName) c.fileindex
  | none => none

/-- Function `initBinaryMapFile(inputName, useLive, routingOnly)`: the result is the
returned pointer (`none` is `NULL`) and the globals after the call. -/
def initBinaryMapFile (MAP_VERSION : Nat) (env : Env) (inputName : String)
    (useLive routingOnly : Bool) (g : Globals) : Option BinaryMapFile × Globals :=
  let g1 := (closeBinaryMapFile inputName g).2
  let mapFile := newMapFile inputName
  match lookupCache env inputName g1 with
  | some fo =>
    let mapFile1 := initFromFileIndex fo mapFile useLive routingOnly
    (some mapFile1, { g1 with openFiles := g1.openFiles ++ [mapFile1] })
  | none =>
    match initMapStructure MAP_VERSION (env.content inputName) mapFile useLive routingOnly with
    | none => (none, g1)
    | some mapFile1 => (some mapFile1, { g1 with openFiles := g1.openFiles ++ [mapFile1] })

/-! ## Writing the manifest -/

/-- The record `addRouteSubregion` fills for `sub`. The cast `(unsigned int)` is the
reduction modulo 2^32. -/
def routingSubregionOf (sub : RouteSubregion) (base : Bool) : OBF.RoutingSubregion :=
  { size := sub.length, offset := sub.filePointer, left := sub.left, right := sub.right,
    top := sub.top, basemap := base, bottom := sub.bottom,
    shiftodata :=
      if sub.mapDataBlock > sub.filePointer then
        (sub.mapDataBlock - sub.filePointer) % 4294967296
      else 0 }

/-- Function `addRouteSubregion(routing, sub, base)`: appends the record of `sub` to
`routing->subregions`. -/
def addRouteSubregion (routing : OBF.RoutingPart) (sub : RouteSubregion) (base : Bool) :
    OBF.RoutingPart :=
  { routing with subregions := routing.subregions ++ [routingSubregionOf sub base] }

/-- Record `addToCache` writes for a transport index; `none` when `index->stringTable`
is the null pointer, which the code dereferences. -/
def transportPartOf (index : TransportIndex) : Option OBF.TransportPart :=
  match index.stringTable with
  | none => none
  | some st =>
    some { size := index.length, offset := index.filePointer, name := index.name,
           left := index.left, right := index.right, top := index.top, bottom := index.bottom,
           stopstablelength := index.stopsFileLength, stopstableoffset := index.stopsFileOffset,
           incompleterouteslength := index.incompleteRoutesLength,
           incompleteroutesoffset := index.incompleteRoutesOffset,
           stringtablelength := st.length, stringtableoffset := st.fileOffset }

/-- Record `addToCache` writes for a routing index: header, then one `addRouteSubregion`
for each of `subregions` (`base = false`) and of `basesubregions` (`base = true`). -/
def routingPartOf (index : RoutingIndex) : OBF.RoutingPart :=
  let routing : OBF.RoutingPart :=
    { size := index.length, offset := index.filePointer, name := index.name }
  let routing1 := index.subregions.foldl (fun r sub => addRouteSubregion r sub false) routing
  index.basesubregions.foldl (fun r sub => addRouteSubregion r sub true) routing1

/-- Record `addToCache` writes for an HH index; `none` when `index->top` is the null
pointer, which the code dereferences. -/
def hhRoutingPartOf (index : HHRouteIndex) : Option OBF.HHRoutingPart :=
  match index.top with
  | none => none
  | some top =>
    some { size := index.length, offset := index.filePointer, edition := index.edition,
           profileparams := index.profileParams, profile := index.profile,
           pointslength := top.length, pointsoffset := top.filePointer,
           bottom := top.bottom, top := top.top, left := top.left, right := top.right }

/-- Records for a list of indexes, in order; `none` as soon as one record is `none`. -/
def partsOf {α β : Type} (part : α → Option β) : List α → Option (List β)
  | [] => some []
  | index :: rest =>
    match part index, partsOf part rest with
    | some p, some ps => some (p :: ps)
    | _, _ => none

/-- Loop of `addToCache` that deletes the first entry whose filename is `mapFileName`. -/
def deleteFileIndex (mapFileName : String) : List OBF.FileIndex → List OBF.FileIndex
  | [] => []
  | fi :: rest =>
    if mapFileName == fi.filename then rest else fi :: deleteFileIndex mapFileName rest

/-- The entry `addToCache` fills for `mapFile`; `none` when a null pointer is
dereferenced on the way. -/
def fileIndexOf (getFileName : String → String) (env : Env) (mapFile : BinaryMapFile) :
    Option OBF.FileIndex :=
  match partsOf transportPartOf mapFile.transportIndexes,
        partsOf hhRoutingPartOf mapFile.hhIndexes with
  | some transport, some hh =>
    some { datemodified :=
             if mapFile.dateCreated = 0 then env.st_mtime mapFile.inputName * 1000
             else mapFile.dateCreated,
           size := env.st_size mapFile.inputName,
           version := mapFile.version,
           filename := getFileName mapFile.inputName,
           transportindex := transport,
           routingindex := mapFile.routingIndexes.map routingPartOf,
           hhroutingindex := hh }
  | _, _ => none

/-- Function `addToCache(mapFile, routingOnly)`: the returned flag and the globals after
the call; `none` when a null pointer is dereferenced. `getFileName` is a helper defined
outside the sources read here. -/
def addToCache (getFileName : String → String) (env : Env) (mapFile : BinaryMapFile)
    (_routingOnly : Bool) (g : Globals) : Option (Bool × Globals) :=
  if mapFile.routingIndexes.length = 0 ∧ mapFile.hhIndexes.length = 0 then some (false, g)
  else
    let cache0 : OBF.OsmAndStoredIndex :=
      match g.cache with
      | none => { version := CACHE_VERSION, datecreated := env.now }
      | some c =>
        { c with fileindex := deleteFileIndex (getFileName mapFile.inputName) c.fileindex }
    match fileIndexOf getFileName env mapFile with
    | none => none
    | some fi =>
      some (true, { g with
        cacheHasChanged := true
        cache := some { cache0 with fileindex := cache0.fileindex ++ [fi] } })

/-- Function `cacheBinaryMapFileIfNeeded(inputName, routingOnly)`. -/
def cacheBinaryMapFileIfNeeded (MAP_VERSION : Nat) (getFileName : String → String)
    (env : Env) (inputName : String) (routingOnly : Bool) (g : Globals) :
    Option (Bool × Globals) :=
  let known :=
    match g.cache with
    | some c =>
      c.fileindex.any (fun fi =>
        hasEnding inputName fi.filename && decide (fi.size = env.st_size inputName))
    | none => false
  if known then some (false, g)
  else
    match initMapStructure MAP_VERSION (env.content inputName) (newMapFile inputName)
        true routingOnly with
    | none => some (false, g)
    | some mapFile => addToCache getFileName env mapFile routingOnly g

/-! ## Sequences of registry calls -/

/-- A call that changes the registry of open files, with the outside world it meets. -/
inductive RegistryCall where
  | init (env : Env) (inputName : String) (useLive routingOnly : Bool)
  | close (inputName : String)

/-- The globals after one call. -/
def runCall (MAP_VERSION : Nat) (g : Globals) : RegistryCall → Globals
  | .init env inputName useLive routingOnly =>
    (initBinaryMapFile MAP_VERSION env inputName useLive routingOnly g).2
  | .close inputName => (closeBinaryMapFile inputName g).2

/-- The globals after a sequence of calls, first call first. -/
def runCalls (MAP_VERSION : Nat) (g : Globals) (calls : List RegistryCall) : Globals :=
  calls.foldl (runCall MAP_VERSION) g

/-! ## Observations on a stream, used to state the properties -/

/-- The trailer of a stream: the value of the last `versionConfirm` field that is read,
`none` when the stream has no such field. -/
def trailerVersionConfirm : List StructureField → Option Nat
  | [] => none
  | f :: rest =>
    match trailerVersionConfirm rest with
    | some c => some c
    | none =>
      match f with
      | .versionConfirm (some v) => some (v % 4294967296)
      | _ => none

/-- The version a stream declares: the value of its last `version` field that is read,
and the value the file had before when the stream has none. -/
def headerVersion (initial : Nat) : List StructureField → Nat
  | [] => initial
  | f :: rest =>
    match f with
    | .version (some v) => headerVersion (v % 4294967296) rest
    | _ => headerVersion initial rest

/-! ## Observations used to state the cache equivalence -/

/-- What identifies a routing subregion box: offset, length and the four edges. -/
def boxKey (s : RouteSubregion) : Nat × Nat × Nat × Nat × Nat × Nat :=
  (s.filePointer, s.length, s.left, s.right, s.top, s.bottom)

/-- Offset, length, name and bounding boxes (those of its subregions, detailed and base)
of a routing index. -/
def routingKey (r : RoutingIndex) :
    Nat × Nat × String × List (Nat × Nat × Nat × Nat × Nat × Nat) ×
      List (Nat × Nat × Nat × Nat × Nat × Nat) :=
  (r.filePointer, r.length, r.name, r.subregions.map boxKey, r.basesubregions.map boxKey)

/-- Offset, length, name and top bounding box of an HH index. -/
def hhKey (h : HHRouteIndex) : Nat × Nat × String × Option (Nat × Nat × Nat × Nat) :=
  (h.filePointer, h.length, h.name, h.top.map (fun b => (b.left, b.right, b.top, b.bottom)))

/-- How two scans of one stream relate, the first made with `useLive = true` (as
`cacheBinaryMapFileIfNeeded` does), the second with any flags: same transport indexes,
and the routing and HH indexes of the second are those of the first, or none when the
file is a live map scanned without `useLive`. -/
def ScanRel (useLive : Bool) (a b : ScanState) : Prop :=
  a.file.liveMap = b.file.liveMap ∧
  b.file.transportIndexes = a.file.transportIndexes ∧
  b.file.routingIndexes = (if !b.file.liveMap || useLive then a.file.routingIndexes else []) ∧
  b.file.hhIndexes = (if !b.file.liveMap || useLive then a.file.hhIndexes else [])

/-! ## Concrete files, manifests and registries used in the examples -/

/-- The globals of a process that has opened nothing yet. -/
def emptyRegistry (cache : Option OBF.OsmAndStoredIndex) (cacheHasChanged : Bool) : Globals :=
  { openFiles := [], cache := cache, cacheHasChanged := cacheHasChanged }

/-- A world in which every path is a well-formed file of version 2 and size 10 without
indexes, and no manifest can be read. -/
def sampleEnv : Env :=
  { st_size := fun _ => 10, st_mtime := fun _ => 0,
    content := fun _ => [.version (some 2), .versionConfirm (some 2)],
    manifest := fun _ => none, now := 0 }

/-- A world in which every path is a file whose trailer (3) differs from its version
(2). -/
def corruptEnv : Env :=
  { st_size := fun _ => 10, st_mtime := fun _ => 0,
    content := fun _ => [.version (some 2), .versionConfirm (some 3)],
    manifest := fun _ => none, now := 0 }

/-- Globals with the file `a.obf` open and no cache. -/
def oneOpen : Globals :=
  { openFiles := [{ inputName := "a.obf", version := 2 }] }

/-- Globals with nothing open and a manifest of the current `CACHE_VERSION` whose entry
for `a.obf` (size 10) records file version 1. -/
def oldEntryCache : Globals :=
  { cache := some
      { version := 5, fileindex := [{ size := 10, filename := "a.obf", version := 1 }] } }

/-- A world in which every path is a file of version 2 and size 115 with a map index
(bytes 7 to 37), a routing index (bytes 42 to 82) with one root box at position 50 whose
`shiftToData` is 21, and a transport index (bytes 87 to 112). -/
def routedEnv : Env :=
  { st_size := fun _ => 115, st_mtime := fun _ => 0,
    content := fun _ =>
      [.version (some 2),
       .mapIndex 30 7 [.name true "m", .rules],
       .routingIndex 40 42
         [.name true "r",
          .rootBoxes 13 50
            [.left (some 1), .right (some 5), .top (some 2), .bottom (some 6),
             .shiftToData (some 21)],
          .blocks],
       .transportIndex 25 87 [.name true "t", .stringTable 5 92],
       .versionConfirm (some 2)],
    manifest := fun _ => none, now := 0 }

/-- The globals after `cacheBinaryMapFileIfNeeded("a.obf", false)` in `routedEnv`,
starting without a cache (`getFileName` leaves the bare name `a.obf` as it is). -/
def routedCache : Globals :=
  ((cacheBinaryMapFileIfNeeded 2 (fun p => p) routedEnv "a.obf" false {}).map
    (fun r => r.2)).getD {}

/-- The file a fresh `initBinaryMapFile("a.obf", false, false)` returns in `routedEnv`. -/
def routedFresh : BinaryMapFile :=
  (initBinaryMapFile 2 routedEnv "a.obf" false false {}).1.getD {}

/-- A world whose cache file parses to a manifest of version 4 with an entry for
`a.obf`. -/
def staleManifestEnv : Env :=
  { st_size := fun _ => 10, st_mtime := fun _ => 0,
    content := fun _ => [.version (some 2), .versionConfirm (some 2)],
    manifest := fun _ =>
      some { version := 4, fileindex := [{ size := 10, filename := "a.obf", version := 2 }] },
    now := 0 }

/-! ## Encoding rules of a routing index -/

/-- Modelled from the spec: an alternative of a conditional rule (`RouteTypeCondition`,
declared outside the sources read here): the condition, the value it selects and the id
of the rule bound to that value. -/
structure RouteTypeCondition where
  condition : String := ""
  value : String := ""
  ruleid : Nat := 0

/-- Modelled from the spec: class `RouteTypeRule` is declared outside the sources read
here. A rule carries its tag and value (`getTag`, `getValue`); a conditional rule
carries the list of its alternatives (`getConditions`). -/
structure RouteTypeRule where
  t : String
  v : String
  conditions : List RouteTypeCondition := []

/-- Modelled from the spec: what the constructor and accessors of `RouteTypeRule` derive
from the two strings, which the sources read here do not show: the alternatives of a
conditional value, and the tag a conditional tag stands for
(`getNonConditionalTag`). -/
structure RuleSyntax where
  conditions : String → String → List RouteTypeCondition
  nonConditionalTag : String → String

/-- Constructor `RouteTypeRule(tag, val)`. -/
def newRouteTypeRule (syn : RuleSyntax) (tag val : String) : RouteTypeRule :=
  { t := tag, v := val, conditions := syn.conditions tag val }

/-- Method `conditional()`: the rule has alternatives. -/
def RouteTypeRule.conditional (r : RouteTypeRule) : Bool := !r.conditions.isEmpty

/-- Prefix test `startsWith(s, pre)`. -/
def startsWith (s pre : String) : Bool := pre.data.isPrefixOf s.data

/-- The members of `RoutingIndex` that hold its encoding rules: the table, the map
`decodingRules` from `tag#value` to id (a list of pairs with distinct keys), and the
ids of the well-known rules. -/
structure RouteRules where
  routeEncodingRules : List RouteTypeRule := []
  decodingRules : List (String × Nat) := []
  nameTypeRule : Nat := 0
  refTypeRule : Nat := 0
  destinationTypeRule : Nat := 0
  destinationRefTypeRule : Nat := 0
  trafficSignals : Nat := 0
  stopMinor : Nat := 0
  stopSign : Nat := 0
  giveWaySign : Nat := 0
  directionTrafficSignalsForward : Nat := 0
  directionTrafficSignalsBackward : Nat := 0
  directionForward : Nat := 0
  directionBackward : Nat := 0
  maxheightForward : Nat := 0
  maxheightBackward : Nat := 0

/-- Loop `while (!(routeEncodingRules.size() > id)) push_back(empty)` of
`initRouteEncodingRule`; it runs at most `id + 1` times, the first argument. -/
def padRouteEncodingRules (id : Nat) (empty : RouteTypeRule) :
    Nat → List RouteTypeRule → List RouteTypeRule
  | 0, rules => rules
  | n + 1, rules =>
    if !(rules.length > id) then padRouteEncodingRules id empty n (rules ++ [empty])
    else rules

/-- The assignments of `initRouteEncodingRule` to the ids of the well-known rules. -/
def cacheRuleId (id : Nat) (tag val : String) (rr : RouteRules) : RouteRules :=
  if tag == "name" then { rr with nameTypeRule := id }
  else if tag == "ref" then { rr with refTypeRule := id }
  else if tag == "destination" || tag == "destination:forward" ||
      tag == "destination:backward" || startsWith tag "destination:lang:" then
    { rr with destinationTypeRule := id }
  else if tag == "destination:ref" || tag == "destination:ref:forward" ||
      tag == "destination:ref:backward" then
    { rr with destinationRefTypeRule := id }
  else if tag == "highway" && val == "traffic_signals" then { rr with trafficSignals := id }
  else if tag == "stop" && val == "minor" then { rr with stopMinor := id }
  else if tag == "highway" && val == "stop" then { rr with stopSign := id }
  else if tag == "highway" && val == "give_way" then { rr with giveWaySign := id }
  else if tag == "traffic_signals:direction" then
    if val == "forward" then { rr with directionTrafficSignalsForward := id }
    else if val == "backward" then { rr with directionTrafficSignalsBackward := id }
    else rr
  else if tag == "direction" then
    if val == "forward" then { rr with directionForward := id }
    else if val == "backward" then { rr with directionBackward := id }
    else rr
  else if tag == "maxheight:forward" && !val.isEmpty then { rr with maxheightForward := id }
  else if tag == "maxheight:backward" && !val.isEmpty then { rr with maxheightBackward := id }
  else rr

/-- Method `RoutingIndex::initRouteEncodingRule(id, tag, val)`. The slots the loop
appends are built by `RouteTypeRule empty(tag, val)`. -/
def initRouteEncodingRule (syn : RuleSyntax) (id : Nat) (tag val : String) (rr : RouteRules) :
    RouteRules :=
  let rule := newRouteTypeRule syn tag val
  let padded := padRouteEncodingRules id (newRouteTypeRule syn tag val) (id + 1)
    rr.routeEncodingRules
  cacheRuleId id tag val { rr with routeEncodingRules := padded.set id rule }

/-- Loop of `findOrCreateRouteType` from index `i` over the rest of the table: the first
index whose rule has the tag and the value. -/
def findRouteType (tag value : String) : Nat → List RouteTypeRule → Option Nat
  | _, [] => none
  | i, rtr :: rest =>
    if tag == rtr.t && value == rtr.v then some i else findRouteType tag value (i + 1) rest

/-- Method `RoutingIndex::findOrCreateRouteType(tag, value)`: the id returned and the
table after the call. -/
def findOrCreateRouteType (syn : RuleSyntax) (tag value : String)
    (rules : List RouteTypeRule) : Nat × List RouteTypeRule :=
  match findRouteType tag value 0 rules with
  | some i => (i, rules)
  | none => (rules.length, rules ++ [newRouteTypeRule syn tag value])

/-- Assignment `m[k] = v` on the map `decodingRules`. -/
def mapAssign (m : List (String × Nat)) (k : String) (v : Nat) : List (String × Nat) :=
  match m with
  | [] => [(k, v)]
  | (k1, v1) :: rest => if k1 == k then (k1, v) :: rest else (k1, v1) :: mapAssign rest k v

/-- Lookup `m.find(k)` on the map `decodingRules`. -/
def mapFind (m : List (String × Nat)) (k : String) : Option Nat :=
  match m with
  | [] => none
  | (k1, v1) :: rest => if k1 == k then some v1 else mapFind rest k

/-- The key `getTag() + "#" + getValue()` of `decodingRules`. -/
def ruleKey (tag value : String) : String := tag ++ "#" ++ value

/-- Loop `for (i = 1; i < routeEncodingRules.size(); i++) decodingRules[ks] = i` of
`searchRouteEncodingRule`, from index `i` over the rest of the table. -/
def fillDecodingRules : Nat → List RouteTypeRule → List (String × Nat) → List (String × Nat)
  | _, [], m => m
  | i, rt :: rest, m => fillDecodingRules (i + 1) rest (mapAssign m (ruleKey rt.t rt.v) i)

/-- Method `RoutingIndex::searchRouteEncodingRule(tag, value)`: the value returned
(`-1` is `4294967295` in the unsigned result type) and the rules after the call, whose
map has been filled if it was empty. -/
def searchRouteEncodingRule (tag value : String) (rr : RouteRules) : Nat × RouteRules :=
  let rr1 :=
    if rr.decodingRules.isEmpty then
      { rr with decodingRules :=
          fillDecodingRules 1 (rr.routeEncodingRules.drop 1) rr.decodingRules }
    else rr
  match mapFind rr1.decodingRules (ruleKey tag value) with
  | some i => (i, rr1)
  | none => (4294967295, rr1)

/-- Loop over `rtr.getConditions()` of `completeRouteEncodingRules`: each alternative
with a value is bound to the rule `findOrCreateRouteType(tag, c.value)` gives, which may
append to the table. -/
def bindConditions (syn : RuleSyntax) (tag : String) :
    List RouteTypeCondition → List RouteTypeRule →
      List RouteTypeCondition × List RouteTypeRule
  | [], rules => ([], rules)
  | c :: rest, rules =>
    if tag != "" && c.value != "" then
      let r := findOrCreateRouteType syn tag c.value rules
      let done := bindConditions syn tag rest r.2
      ({ c with ruleid := r.1 } :: done.1, done.2)
    else
      let done := bindConditions syn tag rest rules
      (c :: done.1, done.2)

/-- Loop `for (i = 0; i < routeEncodingRules.size(); i++)` of
`completeRouteEncodingRules` from index `i`; the size is read again at every pass, as
rules may have been appended. The first argument bounds the number of passes. The
references `rtr` and `c` are followed as if `push_back` never moved the table. -/
def completeRouteEncodingRulesFrom (syn : RuleSyntax) :
    Nat → Nat → List RouteTypeRule → List RouteTypeRule
  | 0, _, rules => rules
  | n + 1, i, rules =>
    match rules[i]? with
    | none => rules
    | some rtr =>
      if rtr.conditional then
        let bound := bindConditions syn (syn.nonConditionalTag rtr.t) rtr.conditions rules
        completeRouteEncodingRulesFrom syn n (i + 1)
          (bound.2.set i { rtr with conditions := bound.1 })
      else completeRouteEncodingRulesFrom syn n (i + 1) rules

/-- Method `RoutingIndex::completeRouteEncodingRules()`; the index `i` is a `uint32_t`,
so the loop makes at most 2^32 passes before it would wrap. -/
def completeRouteEncodingRules (syn : RuleSyntax) (rr : RouteRules) : RouteRules :=
  { rr with routeEncodingRules :=
      completeRouteEncodingRulesFrom syn 4294967296 0 rr.routeEncodingRules }

/-- State of the loop of `readRouteEncodingRule`: the locals `tagS`, `value` and the
parameter `id`. -/
structure RuleFields where
  tagS : String := ""
  value : String := ""
  id : Nat

/-- Loop of `readRouteEncodingRule`: `none` when the function returns inside the loop
(`false` on a failed read or skip, `true` on an end-group tag) without reaching
`initRouteEncodingRule`, and the locals at the end of the message otherwise. -/
def readRouteEncodingRuleLoop : List RouteEncodingRuleField → RuleFields → Option RuleFields
  | [], s => some s
  | .value none :: _, _ => none
  | .value (some v) :: rest, s => readRouteEncodingRuleLoop rest { s with value := v }
  | .tag none :: _, _ => none
  | .tag (some v) :: rest, s => readRouteEncodingRuleLoop rest { s with tagS := v }
  | .id none :: _, _ => none
  | .id (some v) :: rest, s => readRouteEncodingRuleLoop rest { s with id := v % 4294967296 }
  | .endGroup :: _, _ => none
  | .unknown skipped :: rest, s => if skipped then readRouteEncodingRuleLoop rest s else none

/-- Reader `readRouteEncodingRule(input, index, id)`, as far as the rules of the index
go. -/
def readRouteEncodingRule (syn : RuleSyntax) (input : List RouteEncodingRuleField) (id : Nat)
    (rr : RouteRules) : RouteRules :=
  match readRouteEncodingRuleLoop input { id := id } with
  | some s => initRouteEncodingRule syn s.id s.tagS s.value rr
  | none => rr

/-- Reader `readRoutingIndex(input, routingIndex, readOnlyRules)`, as far as the rules
of the index go; the second argument of the state is the local `defaultId`. The loop
takes the same way through the fields as `readRoutingIndex` above:
`completeRouteEncodingRules` is reached at the end of the fields, at a `blocks` field
and at a box field under `readOnlyRules`, and not when the function returns inside the
loop. -/
def readRoutingIndexRulesLoop (syn : RuleSyntax) (readOnlyRules : Bool) :
    List RoutingIndexField → Nat → RouteRules → Bool × RouteRules
  | [], _, rr => (true, completeRouteEncodingRules syn rr)
  | .name ok _ :: rest, defaultId, rr =>
    if ok then readRoutingIndexRulesLoop syn readOnlyRules rest defaultId rr else (false, rr)
  | .rules body :: rest, defaultId, rr =>
    readRoutingIndexRulesLoop syn readOnlyRules rest ((defaultId + 1) % 4294967296)
      (readRouteEncodingRule syn body defaultId rr)
  | .rootBoxes _ _ _ :: rest, defaultId, rr =>
    if readOnlyRules then (true, completeRouteEncodingRules syn rr)
    else readRoutingIndexRulesLoop syn readOnlyRules rest defaultId rr
  | .basemapBoxes _ _ _ :: rest, defaultId, rr =>
    if readOnlyRules then (true, completeRouteEncodingRules syn rr)
    else readRoutingIndexRulesLoop syn readOnlyRules rest defaultId rr
  | .blocks :: _, _, rr => (true, completeRouteEncodingRules syn rr)
  | .endGroup :: _, _, rr => (true, rr)
  | .unknown skipped :: rest, defaultId, rr =>
    if skipped then readRoutingIndexRulesLoop syn readOnlyRules rest defaultId rr
    else (false, rr)

/-- The rules of an index after `readRoutingIndex`, with `defaultId` starting at 1. -/
def readRoutingIndexRules (syn : RuleSyntax) (readOnlyRules : Bool)
    (input : List RoutingIndexField) (rr : RouteRules) : Bool × RouteRules :=
  readRoutingIndexRulesLoop syn readOnlyRules input 1 rr

/-- A `RuleSyntax` under which no rule is conditional. -/
def plainSyntax : RuleSyntax :=
  { conditions := fun _ _ => [], nonConditionalTag := fun t => t }


/-- A routing index of two rules with distinct pairs, `highway=primary` and
`highway=secondary`, as `readRoutingIndex` meets it. -/
def twoRuleIndex : List RoutingIndexField :=
  [.rules [.tag (some "highway"), .value (some "primary")],
   .rules [.tag (some "highway"), .value (some "secondary")]]

/-- A routing index of one rule whose value holds the separator of the keys of
`decodingRules`: tag `a`, value `b#c`. -/
def hashRuleIndex : List RoutingIndexField :=
  [.rules [.tag (some "a"), .value (some "b#c")]]

/-- The tags and values of a table, index by index. -/
def rulePairs (rules : List RouteTypeRule) : List (String × String) :=
  rules.map (fun r => (r.t, r.v))

/-! ## The result publisher -/

/-- Modelled from the spec: the members of `MapDataObject` (declared outside the sources
read here) that `ResultPublisher::publish` reads, the 64-bit signed id and the points, and
the maps `stringIds` and `objectNames` that `readMapDataBlocks` reads and fills, each kept
as the list of its entries. -/
structure MapDataObject where
  id : Int
  points : List (Int × Int) := []
  stringIds : List (String × Nat) := []
  objectNames : List (String × String) := []
deriving DecidableEq

/-- Modelled from the spec: the members of `FoundMapDataObject` (declared outside the
sources read here) that `ResultPublisher::publish` reads: the object and the zoom. -/
structure FoundMapDataObject where
  obj : MapDataObject
  zoom : Int
deriving DecidableEq

/-- Modelled from the spec: the members `result` and `ids` of `ResultPublisher` (declared
outside the sources read here); the map `ids` is a partial function on ids, empty in a
new publisher. -/
structure ResultPublisher where
  result : List FoundMapDataObject := []
  ids : Int → Option FoundMapDataObject := fun _ => none

/-- Method `ResultPublisher::publish(o)`: the value returned and the publisher after the
call. `front()` and `back()` are the first and last point; they are read only for an id
seen before at a zoom below 15. -/
def publish (p : ResultPublisher) (o : FoundMapDataObject) : Bool × ResultPublisher :=
  let r := o.obj
  if r.id > 0 then
    match p.ids r.id with
    | some ex =>
      if o.zoom >= 15 then (false, p)
      else
        let equalStart := ex.obj.points.head? == r.points.head?
        let equalEnd := ex.obj.points.getLast? == r.points.getLast?
        if equalStart && equalEnd then (false, p)
        else
          (true, { result := p.result ++ [o],
                   ids := fun k => if k = r.id then some o else p.ids k })
    | none =>
      (true, { result := p.result ++ [o],
               ids := fun k => if k = r.id then some o else p.ids k })
  else (true, { p with result := p.result ++ [o] })

/-- A sequence of `publish` calls on a publisher, one per object, in order. -/
def publishAll (p : ResultPublisher) : List FoundMapDataObject → ResultPublisher
  | [] => p
  | o :: rest => publishAll (publish p o).2 rest

/-- The objects of a result that carry the id. -/
def withId (id : Int) (result : List FoundMapDataObject) : List FoundMapDataObject :=
  result.filter (fun o => o.obj.id = id)

/-! ## Order of the block reads -/

/-- Contract of `std::sort(first, last, comp)`, which is outside the sources read here:
the range afterwards is a rearrangement of the range before, and no element stands
before one that `comp` orders before it. -/
def IsStdSort {α : Type} (comp : α → α → Bool) (sort : List α → List α) : Prop :=
  ∀ l : List α, (sort l).Perm l ∧ (sort l).Pairwise (fun a b => comp b a = false)

/-- Comparator `sortRouteRegions(i, j)`. -/
def sortRouteRegions (i j : RouteSubregion) : Bool := i.mapDataBlock < j.mapDataBlock

/-- Positions `readRouteMapObjects` seeks to, in order: `found` is sorted with
`sortRouteRegions` and each subregion in turn is sought at
`sub->filePointer + sub->mapDataBlock`, a sum of `uint32_t`. The block reads between the
seeks read the edges of the subregion and leave `found` as it is. -/
def readRouteMapObjects (sort : List RouteSubregion → List RouteSubregion)
    (found : List RouteSubregion) : List Nat :=
  (sort found).map (fun sub => (sub.filePointer + sub.mapDataBlock) % 4294967296)

/-- Insertion of an element into a sorted list, before the first element that `comp`
orders after it. -/
def insertSorted {α : Type} (comp : α → α → Bool) (a : α) : List α → List α
  | [] => [a]
  | b :: rest => if comp a b then a :: b :: rest else b :: insertSorted comp a rest

/-- A sort that keeps the contract of `std::sort`: insertion sort. -/
def insertSort {α : Type} (comp : α → α → Bool) : List α → List α
  | [] => []
  | a :: rest => insertSorted comp a (insertSort comp rest)

/-- Two routing leaves: one found at 100 with its data 900 further on, one found at 200
with its data 850 further on. -/
def crossedLeaves : List RouteSubregion :=
  [{ filePointer := 100, mapDataBlock := 900, subregions := [] },
   { filePointer := 200, mapDataBlock := 850, subregions := [] }]

/-! ## Queries and the coordinates of a map object -/

/-- Conversion of a value to `int`: its representative modulo 2^32 from -2^31 up to
2^31 - 1. -/
def i32 (i : Int) : Int := (i + 2147483648) % 4294967296 - 2147483648

/-- Modelled from the spec: the members of `SearchQuery` (declared outside the sources
read here) that the searches followed here read: the four edges of the query box, of type
`int`, the limit of a transport search, and the answer of `isCancelled()`, which no
function followed here changes. -/
structure SearchQuery where
  left : Int
  right : Int
  top : Int
  bottom : Int
  limit : Int := -1
  cancelled : Bool := false

/-- Modelled from the spec: the members of `MapTreeBounds` (declared outside the sources
read here) that the readers and searches set and read; the constructor zeroes them. -/
structure MapTreeBounds where
  length : Nat := 0
  filePointer : Nat := 0
  mapDataBlock : Nat := 0
  left : Nat := 0
  right : Nat := 0
  top : Nat := 0
  bottom : Nat := 0
deriving DecidableEq

/-- Constant `INT_MAXIMUM`. -/
def INT_MAXIMUM : Int := 0x7fffffff

/-- Constant `MASK_TO_READ = ~((1 << SHIFT_COORDINATES) - 1)`, an `int`; the constant
`SHIFT_COORDINATES` is defined outside the sources read here and is an argument. -/
def MASK_TO_READ (SHIFT_COORDINATES : Nat) : Int := -((2 ^ SHIFT_COORDINATES - 1 : Int)) - 1

/-- Expression `e & MASK_TO_READ` for an edge `e` of type `uint32_t`, stored in an `int`:
the mask is converted to unsigned, the result back to `int`. -/
def maskToRead (SHIFT_COORDINATES : Nat) (e : Nat) : Int :=
  i32 (Nat.land e (u32 (MASK_TO_READ SHIFT_COORDINATES)))

/-- First tag of a `MapData` message, as `readMapDataObject` tells it apart. -/
inductive MapDataFirstTag where
  | areaCoordinates
  | coordinates
  | other
deriving DecidableEq

/-- Locals of the coordinate loop of `readMapDataObject`, and the member
`req->cacheCoordinates`. -/
structure CoordinateLoop where
  px : Int
  py : Int
  contains : Bool := false
  minX : Int := INT_MAXIMUM
  maxX : Int := 0
  minY : Int := INT_MAXIMUM
  maxY : Int := 0
  cacheCoordinates : List (Int × Int) := []

/-- Test `req->left <= x && req->right >= x && req->top <= y && req->bottom >= y`. -/
def pointInQuery (req : SearchQuery) (x y : Int) : Bool :=
  decide (req.left ≤ x) && decide (req.right ≥ x) && decide (req.top ≤ y) &&
    decide (req.bottom ≥ y)

/-- Loop `while (input->BytesUntilLimit() > 0)` of `readMapDataObject` over the reads of
the coordinates field: each pass reads `x` and `y`; a read fails when the token is `none`
or the field has ended. The first component is false when the function returns `NULL`
inside the loop. The shift and the sum are taken in `int`. -/
def readCoordinatesLoop (SHIFT_COORDINATES : Nat) (req : SearchQuery) :
    List (Option Int) → CoordinateLoop → Bool × CoordinateLoop
  | [], s => (true, s)
  | none :: _, s => (false, s)
  | some _ :: [], s => (false, s)
  | some _ :: none :: _, s => (false, s)
  | some dx :: some dy :: rest, s =>
    let x := i32 (i32 (dx * 2 ^ SHIFT_COORDINATES) + s.px)
    let y := i32 (i32 (dy * 2 ^ SHIFT_COORDINATES) + s.py)
    let contains := s.contains || pointInQuery req x y
    readCoordinatesLoop SHIFT_COORDINATES req rest
      { px := x, py := y, contains := contains,
        minX := if !contains then min s.minX x else s.minX,
        maxX := if !contains then max s.maxX x else s.maxX,
        minY := if !contains then min s.minY y else s.minY,
        maxY := if !contains then max s.maxY y else s.maxY,
        cacheCoordinates := s.cacheCoordinates ++ [(x, y)] }

/-- Coordinate stage of `readMapDataObject(input, tree, req, root, baseId)`, from the
first tag to `if (!contains) return NULL`: whether the object goes on to the later stages
(false when the function has returned `NULL`), and `req->cacheCoordinates` afterwards;
its third argument is that member before the call. -/
def readMapDataObjectCoordinates (SHIFT_COORDINATES : Nat) (tree : MapTreeBounds)
    (req : SearchQuery) (cacheCoordinates : List (Int × Int)) (tag : MapDataFirstTag)
    (coordinates : List (Option Int)) : Bool × List (Int × Int) :=
  if tag ≠ .areaCoordinates ∧ tag ≠ .coordinates then (false, cacheCoordinates)
  else
    match readCoordinatesLoop SHIFT_COORDINATES req coordinates
        { px := maskToRead SHIFT_COORDINATES tree.left,
          py := maskToRead SHIFT_COORDINATES tree.top } with
    | (false, s) => (false, s.cacheCoordinates)
    | (true, s) =>
      let contains := s.contains ||
        (decide (s.maxX ≥ req.left) && decide (s.minX ≤ req.right) &&
          decide (s.minY ≤ req.bottom) && decide (s.maxY ≥ req.top))
      (contains, s.cacheCoordinates)

/-- The reads of a coordinates field whose pairs of deltas all decode. -/
def coordinateReads : List (Int × Int) → List (Option Int)
  | [] => []
  | (dx, dy) :: rest => some dx :: some dy :: coordinateReads rest

/-- A point lies in the query box. -/
def InQuery (req : SearchQuery) (x y : Int) : Prop :=
  req.left ≤ x ∧ x ≤ req.right ∧ req.top ≤ y ∧ y ≤ req.bottom

/-- A point lies in the minimum bounding rectangle of the vertices: between the least and
the greatest of their first coordinates, and of their second. -/
def InMbr (vs : List (Int × Int)) (x y : Int) : Prop :=
  (∃ a ∈ vs, a.1 ≤ x) ∧ (∃ b ∈ vs, x ≤ b.1) ∧ (∃ c ∈ vs, c.2 ≤ y) ∧ (∃ d ∈ vs, y ≤ d.2)

/-- What the locals of the coordinate loop hold about the vertices decoded so far: once
`contains` is set some vertex lies in the query box; until then none does, the four
running bounds enclose every vertex, and each bound is its initial value or is met by a
vertex. -/
def CoordinateInv (req : SearchQuery) (s : CoordinateLoop) : Prop :=
  (∀ v ∈ s.cacheCoordinates, v.1 ≤ 2147483647 ∧ v.2 ≤ 2147483647) ∧
  (s.contains = true → ∃ v ∈ s.cacheCoordinates, InQuery req v.1 v.2) ∧
  (s.contains = false →
    (∀ v ∈ s.cacheCoordinates, ¬ InQuery req v.1 v.2) ∧
    (∀ v ∈ s.cacheCoordinates,
      s.minX ≤ v.1 ∧ v.1 ≤ s.maxX ∧ s.minY ≤ v.2 ∧ v.2 ≤ s.maxY) ∧
    (s.minX = 2147483647 ∨ ∃ v ∈ s.cacheCoordinates, v.1 = s.minX) ∧
    (s.maxX = 0 ∨ ∃ v ∈ s.cacheCoordinates, v.1 = s.maxX) ∧
    (s.minY = 2147483647 ∨ ∃ v ∈ s.cacheCoordinates, v.2 = s.minY) ∧
    (s.maxY = 0 ∨ ∃ v ∈ s.cacheCoordinates, v.2 = s.maxY))

/-- A map tree whose left and top edges are 1000 and 2000. -/
def sampleTree : MapTreeBounds := { left := 1000, top := 2000, right := 5000, bottom := 6000 }

/-- A query box from (0, 0) to (1500, 2500). -/
def sampleQuery : SearchQuery := { left := 0, right := 1500, top := 0, bottom := 2500 }

/-! ## Search of the map tree -/

/-- Field of a `MapDataBox` message as `readMapTreeBounds` and `searchMapTreeBounds` meet
it. A `boxes` field carries the child's length and position and the child's own
fields. -/
inductive MapDataBoxField where
  | left (v : Option Int)
  | right (v : Option Int)
  | top (v : Option Int)
  | bottom (v : Option Int)
  | shiftToMapData (v : Option Nat)
  | ocean (v : Option Bool)
  | boxes (length filePointer : Nat) (body : List MapDataBoxField)
  | endGroup
  | unknown (skipped : Bool)

/-- Test `current->right < (uint)req->left || current->left > (uint)req->right ||
current->top > (uint)req->bottom || current->bottom < (uint)req->top`: the box lies
outside the query. -/
def outsideQuery (current : MapTreeBounds) (req : SearchQuery) : Bool :=
  decide (current.right < u32 req.left) || decide (current.left > u32 req.right) ||
    decide (current.top > u32 req.bottom) || decide (current.bottom < u32 req.top)

mutual
/-- Search `searchMapTreeBounds(input, current, parent, req, foundSubtrees)`: the value
returned, `*current` and `*foundSubtrees` afterwards; the fourth argument is the local
`init`, 0 on entry. The counters of `req` and the count of ocean tiles are not
followed. -/
def searchMapTreeBounds (req : SearchQuery) (parent : MapTreeBounds) :
    List MapDataBoxField → MapTreeBounds → Nat → List MapTreeBounds →
      Bool × MapTreeBounds × List MapTreeBounds
  | [], current, _, foundSubtrees => (true, current, foundSubtrees)
  | f :: rest, current, init, foundSubtrees =>
    if req.cancelled then (false, current, foundSubtrees)
    else if init = 15 ∧ outsideQuery current req = true then (false, current, foundSubtrees)
    else
      match searchMapTreeBoundsField req parent f current (if init = 15 then 0 else init)
          foundSubtrees with
      | .next (c, i, found) => searchMapTreeBounds req parent rest c i found
      | .done r => r
/-- One field of `searchMapTreeBounds`, after the tests at the head of the loop. -/
def searchMapTreeBoundsField (req : SearchQuery) (parent : MapTreeBounds) :
    MapDataBoxField → MapTreeBounds → Nat → List MapTreeBounds →
      Step (MapTreeBounds × Nat × List MapTreeBounds) (Bool × MapTreeBounds × List MapTreeBounds)
  | .left none, current, _, foundSubtrees => .done (false, current, foundSubtrees)
  | .left (some si), current, init, foundSubtrees =>
    .next ({ current with left := u32 (si + parent.left) }, init ||| 1, foundSubtrees)
  | .right none, current, _, foundSubtrees => .done (false, current, foundSubtrees)
  | .right (some si), current, init, foundSubtrees =>
    .next ({ current with right := u32 (si + parent.right) }, init ||| 2, foundSubtrees)
  | .top none, current, _, foundSubtrees => .done (false, current, foundSubtrees)
  | .top (some si), current, init, foundSubtrees =>
    .next ({ current with top := u32 (si + parent.top) }, init ||| 4, foundSubtrees)
  | .bottom none, current, _, foundSubtrees => .done (false, current, foundSubtrees)
  | .bottom (some si), current, init, foundSubtrees =>
    .next ({ current with bottom := u32 (si + parent.bottom) }, init ||| 8, foundSubtrees)
  | .shiftToMapData v, current, init, foundSubtrees =>
    let c : MapTreeBounds :=
      { current with
        mapDataBlock := (v.getD current.mapDataBlock + current.filePointer) % 4294967296 }
    .next (c, init, foundSubtrees ++ [c])
  | .ocean none, current, _, foundSubtrees => .done (false, current, foundSubtrees)
  | .ocean (some _), current, init, foundSubtrees => .next (current, init, foundSubtrees)
  | .boxes length filePointer body, current, init, foundSubtrees =>
    let child : MapTreeBounds := { length := length, filePointer := filePointer }
    .next (current, init, (searchMapTreeBounds req current body child 0 foundSubtrees).2.2)
  | .endGroup, current, _, foundSubtrees => .done (true, current, foundSubtrees)
  | .unknown skipped, current, init, foundSubtrees =>
    if skipped then .next (current, init, foundSubtrees)
    else .done (false, current, foundSubtrees)
end

/-- The upcast of a `MapRoot` to its base `MapTreeBounds`, as `searchMapData` passes
`root` for the parent. -/
def MapRoot.toMapTreeBounds (root : MapRoot) : MapTreeBounds :=
  { length := root.length, filePointer := root.filePointer, left := root.left,
    right := root.right, top := root.top, bottom := root.bottom }

/-- Comparator `sortTreeBounds(i, j)`. -/
def sortTreeBounds (i j : MapTreeBounds) : Bool := i.mapDataBlock < j.mapDataBlock

/-- What `searchMapData` does for one top-level bound that it searches: the local
`foundSubtrees` as `searchMapTreeBounds` leaves it, and the positions sought for the
block reads, in order. -/
structure BoundSearch where
  foundSubtrees : List MapTreeBounds
  blocks : List Nat
deriving DecidableEq

/-- Inner loop of `searchMapData` over the sorted `foundSubtrees`: each pass seeks to
`tree->mapDataBlock` and reads the block there with `readMapDataBlocks`, which leaves the
trees as they are. The first component is false when the function returns from inside the
loop. -/
def readFoundSubtrees (req : SearchQuery) : List MapTreeBounds → Bool × List Nat
  | [] => (true, [])
  | tree :: rest =>
    if req.cancelled then (false, [])
    else
      let r := readFoundSubtrees req rest
      (r.1, tree.mapDataBlock :: r.2)

/-- Loop of `searchMapData(input, root, ind, req)` over `root->bounds`, which are kept
apart from `MapRoot` here: the searches made, in order. The fields met after
`input->Seek(i->filePointer)` are `content i->filePointer`; `sort` is `std::sort`. -/
def searchMapData (sort : List MapTreeBounds → List MapTreeBounds)
    (content : Nat → List MapDataBoxField) (root : MapRoot) (req : SearchQuery) :
    List MapTreeBounds → List BoundSearch
  | [] => []
  | i :: rest =>
    if req.cancelled then []
    else if outsideQuery i req then searchMapData sort content root req rest
    else
      let foundSubtrees :=
        (searchMapTreeBounds req root.toMapTreeBounds (content i.filePointer) i 0 []).2.2
      let r := readFoundSubtrees req (sort foundSubtrees)
      if r.1 then
        { foundSubtrees := foundSubtrees, blocks := r.2 } ::
          searchMapData sort content root req rest
      else [{ foundSubtrees := foundSubtrees, blocks := r.2 }]

/-- The local `foundSubtrees` of `searchMapData` for the top-level bound `i`. -/
def discovered (content : Nat → List MapDataBoxField) (root : MapRoot) (req : SearchQuery)
    (i : MapTreeBounds) : List MapTreeBounds :=
  (searchMapTreeBounds req root.toMapTreeBounds (content i.filePointer) i 0 []).2.2

/-- A map level over the square from 0 to 100000. -/
def sampleRoot : MapRoot := { right := 100000, bottom := 100000 }

/-- A top-level bound found at position 10. -/
def sampleBound : MapTreeBounds :=
  { length := 60, filePointer := 10, right := 1000, bottom := 1000 }

/-- A file in which the bound at position 10 holds two child boxes, at 30 and 55, whose
data blocks lie 500 and 100 further on. -/
def sampleMapContent (p : Nat) : List MapDataBoxField :=
  if p = 10 then
    [.left (some 0), .right (some 1000), .top (some 0), .bottom (some 1000),
     .boxes 20 30 [.left (some 0), .right (some (-500)), .top (some 0), .bottom (some 0),
       .shiftToMapData (some 500)],
     .boxes 20 55 [.left (some 500), .right (some 0), .top (some 0), .bottom (some 0),
       .shiftToMapData (some 100)]]
  else []

/-! ## Readers of the boxes of the other trees -/

/-- Field of a `MapDataBox` message as `readMapTreeBounds` meets it: the reader knows the
four edges, and skips every other field. -/
inductive MapTreeBoundsField where
  | left (v : Option Int)
  | right (v : Option Int)
  | top (v : Option Int)
  | bottom (v : Option Int)
  | endGroup
  | unknown (skipped : Bool)

/-- Reader `readMapTreeBounds(input, tree, root)`. The local `init` stays 0, so the test
`init == 0xf` after the switch never holds. -/
def readMapTreeBounds (root : MapRoot) :
    List MapTreeBoundsField → MapTreeBounds → Bool × MapTreeBounds
  | [], tree => (true, tree)
  | .left none :: _, tree => (false, tree)
  | .left (some si) :: rest, tree =>
    readMapTreeBounds root rest { tree with left := u32 (si + root.left) }
  | .right none :: _, tree => (false, tree)
  | .right (some si) :: rest, tree =>
    readMapTreeBounds root rest { tree with right := u32 (si + root.right) }
  | .top none :: _, tree => (false, tree)
  | .top (some si) :: rest, tree =>
    readMapTreeBounds root rest { tree with top := u32 (si + root.top) }
  | .bottom none :: _, tree => (false, tree)
  | .bottom (some si) :: rest, tree =>
    readMapTreeBounds root rest { tree with bottom := u32 (si + root.bottom) }
  | .endGroup :: _, tree => (true, tree)
  | .unknown skipped :: rest, tree =>
    if skipped then readMapTreeBounds root rest tree else (false, tree)

/-- Field of an `HHRoutePointsBox` message as `readPointBox` meets it when `hctx` is not
null: a `boxes` field carries the child's length and position and the child's own fields,
a `points` field is read by `readPoint`. -/
inductive HHPointsBoxField where
  | bottom (v : Int)
  | top (v : Int)
  | right (v : Int)
  | left (v : Int)
  | boxes (length filePointer : Nat) (body : List HHPointsBoxField)
  | points
  | unknown

mutual
/-- Loop of `readPointBox` when `hctx` is not null: the box returned, and the offsets
`(box->left, box->top)` of the `readPoint` calls made so far, in order. The box of a
`boxes` field is read with this box as its parent and dropped. -/
def readPointBoxHctxLoop (parent : Option HHRoutePointsBox) :
    List HHPointsBoxField → HHRoutePointsBox → List (Int × Int) →
      HHRoutePointsBox × List (Int × Int)
  | [], box, points => (box, points)
  | f :: rest, box, points =>
    let r := readPointBoxHctxField parent f box points
    readPointBoxHctxLoop parent rest r.1 r.2
/-- One field of `readPointBox` when `hctx` is not null. -/
def readPointBoxHctxField (parent : Option HHRoutePointsBox) :
    HHPointsBoxField → HHRoutePointsBox → List (Int × Int) →
      HHRoutePointsBox × List (Int × Int)
  | .bottom v, box, points =>
    ({ box with bottom := u32 (v + parentBoxEdge parent HHRoutePointsBox.bottom) }, points)
  | .top v, box, points =>
    ({ box with top := u32 (v + parentBoxEdge parent HHRoutePointsBox.top) }, points)
  | .right v, box, points =>
    ({ box with right := u32 (v + parentBoxEdge parent HHRoutePointsBox.right) }, points)
  | .left v, box, points =>
    ({ box with left := u32 (v + parentBoxEdge parent HHRoutePointsBox.left) }, points)
  | .boxes length filePointer body, box, points =>
    (box, (readPointBoxHctxLoop (some box) body
      { length := length, filePointer := filePointer } points).2)
  | .points, box, points => (box, points ++ [(i32 box.left, i32 box.top)])
  | .unknown, box, points => (box, points)
end

/-- Reader `readPointBox(input, hhIndex, hctx, mapId, mp, parent)` when `hctx` is not
null: a new box with the length and position read, then the loop over its fields. -/
def readPointBoxHctx (length filePointer : Nat) (parent : Option HHRoutePointsBox)
    (body : List HHPointsBoxField) (points : List (Int × Int)) :
    HHRoutePointsBox × List (Int × Int) :=
  readPointBoxHctxLoop parent body { length := length, filePointer := filePointer } points

/-- Field of a `TransportStopsTree` message as `searchTransportTreeBounds` meets it. A
`leafs` field carries the offset of the stop, a `subtrees` field the child's length and
position and the child's own fields. -/
inductive TransportTreeSearchField where
  | bottom (v : Option Int)
  | left (v : Option Int)
  | right (v : Option Int)
  | top (v : Option Int)
  | leafs (stopOffset : Nat)
  | subtrees (length filePointer : Nat) (body : List TransportTreeSearchField)
  | baseId (v : Option Nat)
  | unknown (skipped : Bool)

/-- Locals of `searchTransportTreeBounds`, all of type `int`. -/
structure TransportTreeLocals where
  init : Nat := 0
  lastIndexResult : Int := -1
  cright : Int := 0
  cleft : Int := 0
  ctop : Int := 0
  cbottom : Int := 0

/-- A call `readTransportStop(stopOffset, stop, input, cleft, cright, ctop, cbottom, req,
stringTable)` that returned true, by its offset and the four edges passed; it stands for
the stop pushed to `req->transportResults`. -/
structure TransportStopRead where
  stopOffset : Nat
  pleft : Int
  pright : Int
  ptop : Int
  pbottom : Int
deriving DecidableEq

/-- Test `cright < req->left || cleft > req->right || ctop > req->bottom ||
cbottom < req->top` of `searchTransportTreeBounds`, on values of type `int`. -/
def outsideTransportQuery (s : TransportTreeLocals) (req : SearchQuery) : Bool :=
  decide (s.cright < req.left) || decide (s.cleft > req.right) ||
    decide (s.ctop > req.bottom) || decide (s.cbottom < req.top)

mutual
/-- Search `searchTransportTreeBounds(input, pleft, pright, ptop, pbottom, req,
stringTable)`: the value returned, the locals at the return and `req->transportResults`
afterwards. The result of `readTransportStop`, which depends on the bytes of the stop, is
the argument `readTransportStop`; the ids of the stops, which a `baseId` field moves, and
the counters of `req` are not followed. The limit is compared with the size of the
results as an unsigned value of 64 bits. -/
def searchTransportTreeBounds (readTransportStop : TransportStopRead → Bool)
    (req : SearchQuery) (pleft pright ptop pbottom : Int) :
    List TransportTreeSearchField → TransportTreeLocals → List TransportStopRead →
      Bool × TransportTreeLocals × List TransportStopRead
  | [], s, results => (true, s, results)
  | f :: rest, s, results =>
    if req.cancelled then (false, s, results)
    else if s.init = 15 ∧ outsideTransportQuery s req = true then
      (false, { s with init := 0 }, results)
    else
      match searchTransportTreeBoundsField readTransportStop req pleft pright ptop pbottom f
          { s with init := if s.init = 15 then 0 else s.init } results with
      | .next (s1, results1) =>
        searchTransportTreeBounds readTransportStop req pleft pright ptop pbottom rest s1
          results1
      | .done r => r
/-- One field of `searchTransportTreeBounds`, after the tests at the head of the loop. -/
def searchTransportTreeBoundsField (readTransportStop : TransportStopRead → Bool)
    (req : SearchQuery) (pleft pright ptop pbottom : Int) :
    TransportTreeSearchField → TransportTreeLocals → List TransportStopRead →
      Step (TransportTreeLocals × List TransportStopRead)
        (Bool × TransportTreeLocals × List TransportStopRead)
  | .bottom none, s, results => .done (false, s, results)
  | .bottom (some si), s, results =>
    .next ({ s with cbottom := i32 (si + pbottom), init := s.init ||| 1 }, results)
  | .left none, s, results => .done (false, s, results)
  | .left (some si), s, results =>
    .next ({ s with cleft := i32 (si + pleft), init := s.init ||| 2 }, results)
  | .right none, s, results => .done (false, s, results)
  | .right (some si), s, results =>
    .next ({ s with cright := i32 (si + pright), init := s.init ||| 4 }, results)
  | .top none, s, results => .done (false, s, results)
  | .top (some si), s, results =>
    .next ({ s with ctop := i32 (si + ptop), init := s.init ||| 8 }, results)
  | .leafs stopOffset, s, results =>
    let s1 : TransportTreeLocals :=
      if s.lastIndexResult = -1 then { s with lastIndexResult := i32 results.length } else s
    let stop : TransportStopRead :=
      { stopOffset := stopOffset, pleft := s.cleft, pright := s.cright, ptop := s.ctop,
        pbottom := s.cbottom }
    .next (s1, if readTransportStop stop then results ++ [stop] else results)
  | .subtrees _ _ body, s, results =>
    if req.limit = -1 ∨ (req.limit % 18446744073709551616).toNat ≥ results.length then
      .next (s, (searchTransportTreeBounds readTransportStop req s.cleft s.cright s.ctop
        s.cbottom body {} results).2.2)
    else .next (s, results)
  | .baseId none, s, results => .done (false, s, results)
  | .baseId (some _), s, results => .next (s, results)
  | .unknown skipped, s, results =>
    if skipped then .next (s, results) else .done (false, s, results)
end

/-- The four edges of a routing subregion: left, right, top, bottom. -/
def RouteSubregion.edges (t : RouteSubregion) : Nat × Nat × Nat × Nat :=
  (t.left, t.right, t.top, t.bottom)

/-- The four edges of a map tree: left, right, top, bottom. -/
def MapTreeBounds.edges (t : MapTreeBounds) : Nat × Nat × Nat × Nat :=
  (t.left, t.right, t.top, t.bottom)

/-- The four edges of a point box: left, right, top, bottom. -/
def HHRoutePointsBox.edges (t : HHRoutePointsBox) : Nat × Nat × Nat × Nat :=
  (t.left, t.right, t.top, t.bottom)

/-- The four edges held by the locals of `searchTransportTreeBounds`: left, right, top,
bottom. -/
def TransportTreeLocals.edges (s : TransportTreeLocals) : Int × Int × Int × Int :=
  (s.cleft, s.cright, s.ctop, s.cbottom)

/-- The field stores the delta of an edge. -/
def RouteDataBoxField.isEdge : RouteDataBoxField → Bool
  | .left _ => true
  | .right _ => true
  | .top _ => true
  | .bottom _ => true
  | _ => false

/-- The field stores the delta of an edge. -/
def MapTreeBoundsField.isEdge : MapTreeBoundsField → Bool
  | .left _ => true
  | .right _ => true
  | .top _ => true
  | .bottom _ => true
  | _ => false

/-- The field stores the delta of an edge. -/
def MapDataBoxField.isEdge : MapDataBoxField → Bool
  | .left _ => true
  | .right _ => true
  | .top _ => true
  | .bottom _ => true
  | _ => false

/-- The field stores the delta of an edge. -/
def HHPointsBoxField.isEdge : HHPointsBoxField → Bool
  | .left _ => true
  | .right _ => true
  | .top _ => true
  | .bottom _ => true
  | _ => false

/-- The field stores the delta of an edge. -/
def TransportTreeSearchField.isEdge : TransportTreeSearchField → Bool
  | .left _ => true
  | .right _ => true
  | .top _ => true
  | .bottom _ => true
  | _ => false

/-- The field stores the delta of an edge. -/
def HHRoutePointsBoxField.isEdge : HHRoutePointsBoxField → Bool
  | .left _ => true
  | .right _ => true
  | .top _ => true
  | .bottom _ => true
  | _ => false

/-! ## Search of the routing subregions -/

/-- Test `subreg->right >= (uint)q->left && (uint)q->right >= subreg->left &&
subreg->bottom >= (uint)q->top && (uint)q->bottom >= subreg->top` of
`searchRouteRegion`. -/
def intersectsQuery (subreg : RouteSubregion) (q : SearchQuery) : Bool :=
  decide (subreg.right ≥ u32 q.left) && decide (u32 q.right ≥ subreg.left) &&
    decide (subreg.bottom ≥ u32 q.top) && decide (u32 q.bottom ≥ subreg.top)

/-- Loop of `searchRouteRegion` over `subregions`: the subregions and `toLoad` after the
loop, `none` when a nested call gives none. The nested call is the argument `descend`.
The fields met after the seek to `subreg->filePointer` are `content subreg->filePointer`;
a subregion without children and without data block is first read from there by
`readRouteTree` with depth -1 and without coordinates. -/
def searchRouteRegionLoop
    (descend : List RouteSubregion → List RouteSubregion →
      Option (List RouteSubregion × List RouteSubregion))
    (content : Nat → List RouteDataBoxField) (q : SearchQuery) :
    List RouteSubregion → List RouteSubregion →
      Option (List RouteSubregion × List RouteSubregion)
  | [], toLoad => some ([], toLoad)
  | subreg :: rest, toLoad =>
    if intersectsQuery subreg q then
      let subreg1 :=
        if subreg.subregions.isEmpty && subreg.mapDataBlock == 0 then
          (readRouteTree none (-1) false (content subreg.filePointer) subreg 0).2
        else subreg
      match descend subreg1.subregions toLoad with
      | none => none
      | some (subs, toLoad1) =>
        let subreg2 : RouteSubregion := { subreg1 with subregions := subs }
        let toLoad2 := if subreg2.mapDataBlock ≠ 0 then toLoad1 ++ [subreg2] else toLoad1
        match searchRouteRegionLoop descend content q rest toLoad2 with
        | none => none
        | some (rest1, toLoad3) => some (subreg2 :: rest1, toLoad3)
    else
      match searchRouteRegionLoop descend content q rest toLoad with
      | none => none
      | some (rest1, toLoad1) => some (subreg :: rest1, toLoad1)

/-- Search `searchRouteRegion(input, fis, file, q, ind, subregions, toLoad, geocoding)`:
the subregions, which a read may have filled, and `toLoad` afterwards. The first argument
bounds the depth of the nested calls; `none` when it is used up. -/
def searchRouteRegion (content : Nat → List RouteDataBoxField) (q : SearchQuery) :
    Nat → List RouteSubregion → List RouteSubregion →
      Option (List RouteSubregion × List RouteSubregion)
  | 0, _, _ => none
  | fuel + 1, subregions, toLoad =>
    searchRouteRegionLoop (searchRouteRegion content q fuel) content q subregions toLoad

mutual
/-- Number of levels of a subregion: one more than that of its children. -/
def RouteSubregion.levels : RouteSubregion → Nat
  | ⟨_, _, _, _, _, _, _, subs⟩ => forestLevels subs + 1
/-- Number of levels of a forest of subregions. -/
def forestLevels : List RouteSubregion → Nat
  | [] => 0
  | s :: rest => max s.levels (forestLevels rest)
end

mutual
/-- The nodes of a subregion, each with its ancestors from the nearest on, and the
subregion itself last: the order in which `searchRouteRegion` leaves them. The argument
is the list of the ancestors of the subregion. -/
def RouteSubregion.nodes (anc : List RouteSubregion) :
    RouteSubregion → List (List RouteSubregion × RouteSubregion)
  | ⟨len, fp, mdb, l, r, t, b, subs⟩ =>
    forestNodes (⟨len, fp, mdb, l, r, t, b, subs⟩ :: anc) subs ++
      [(anc, ⟨len, fp, mdb, l, r, t, b, subs⟩)]
/-- The nodes of a forest of subregions, each with its ancestors. -/
def forestNodes (anc : List RouteSubregion) :
    List RouteSubregion → List (List RouteSubregion × RouteSubregion)
  | [] => []
  | s :: rest => s.nodes anc ++ forestNodes anc rest
end

/-- The bounding box of a subregion and the query box have a point in common. -/
def boxIntersects (s : RouteSubregion) (q : SearchQuery) : Bool :=
  decide ((s.left : Int) ≤ q.right) && decide (q.left ≤ (s.right : Int)) &&
    decide ((s.top : Int) ≤ q.bottom) && decide (q.top ≤ (s.bottom : Int))

/-- The nodes of a forest that have a data block and whose own box and all ancestors'
boxes intersect the query, in the order of `forestNodes`. -/
def intersectingLeaves (q : SearchQuery) (anc : List RouteSubregion)
    (forest : List RouteSubregion) : List RouteSubregion :=
  ((forestNodes anc forest).filter (fun p =>
    decide (p.2.mapDataBlock ≠ 0) && boxIntersects p.2 q &&
      p.1.all (fun a => boxIntersects a q))).map Prod.snd

/-- The forest is in memory: no node is without children and without data block, the
state in which `searchRouteRegion` reads a node from the file. -/
def InMemory (anc : List RouteSubregion) (forest : List RouteSubregion) : Prop :=
  ∀ p ∈ forestNodes anc forest, (p.2.subregions.isEmpty && p.2.mapDataBlock == 0) = false

/-- A forest in memory: a node over (0, 0)-(100, 100) with two leaves, the first over
(0, 0)-(40, 40) with its data 7 further on, the second over (60, 60)-(100, 100) with its
data 9 further on; and a second top node over (200, 200)-(300, 300) with a leaf inside. -/
def sampleForest : List RouteSubregion :=
  [{ filePointer := 10, right := 100, bottom := 100,
     subregions :=
      [{ filePointer := 20, mapDataBlock := 7, right := 40, bottom := 40, subregions := [] },
       { filePointer := 30, mapDataBlock := 9, left := 60, top := 60, right := 100,
         bottom := 100, subregions := [] }] },
   { filePointer := 40, left := 200, top := 200, right := 300, bottom := 300,
     subregions :=
      [{ filePointer := 50, mapDataBlock := 5, left := 200, top := 200, right := 300,
         bottom := 300, subregions := [] }] }]

/-- A query box from (10, 10) to (50, 50). -/
def smallQuery : SearchQuery := { left := 10, right := 50, top := 10, bottom := 50 }

/-! ## Conditional rules of a road -/

/-- Modelled from the spec: accessor `region->quickGetEncodingRule(id)`, declared outside
the sources read here: the rule at index `id` of the table; `none` stands for an index
past the table, which the accessor does not guard. -/
def quickGetEncodingRule (rules : List RouteTypeRule) (id : Nat) : Option RouteTypeRule :=
  rules[id]?

/-- Modelled from the spec: method `conditionalValue(time)` of `RouteTypeRule`, declared
outside the sources read here: the rule id of the first alternative whose condition holds
at the time, 0 when none holds. The argument `holds` tells which conditions hold at the
time. -/
def RouteTypeRule.conditionalValue (holds : String → Bool) (r : RouteTypeRule) : Nat :=
  match r.conditions.find? (fun c => holds c.condition) with
  | some c => c.ruleid
  | none => 0

/-- Inner loop `for (; ks < types.size(); ks++)` of `processConditionalTags` from index
`ks` over the rest of the list: the value of `ks` when the loop is left, which is the
size of the list when no entry has a rule with the tag; `none` when an entry is no index
of the table. -/
def findTypeWithTag (rules : List RouteTypeRule) (nonCondTag : String) :
    Nat → List Nat → Option Nat
  | ks, [] => some ks
  | ks, t :: rest =>
    match quickGetEncodingRule rules t with
    | none => none
    | some toReplace =>
      if toReplace.t == nonCondTag then some ks
      else findTypeWithTag rules nonCondTag (ks + 1) rest

/-- Loop `for (uint32_t i = 0; i < sz; i++)` of `processConditionalTags` over `types`,
from index `i` with the number of passes left as first argument; `conditionalValue` is
`r.conditionalValue(time)` for the time of the call. `none` when an id met is no index of
the table. -/
def processConditionalTagsFrom (rules : List RouteTypeRule)
    (conditionalValue : RouteTypeRule → Nat) : Nat → Nat → List Nat → Option (List Nat)
  | 0, _, types => some types
  | n + 1, i, types =>
    match types[i]? with
    | none => none
    | some ti =>
      match quickGetEncodingRule rules ti with
      | none => none
      | some r =>
        if r.conditional then
          let vl := conditionalValue r
          if vl > 0 then
            match quickGetEncodingRule rules vl with
            | none => none
            | some rtr =>
              match findTypeWithTag rules rtr.t 0 types with
              | none => none
              | some ks =>
                let types1 := if ks = types.length then types ++ [0] else types
                processConditionalTagsFrom rules conditionalValue n (i + 1) (types1.set ks vl)
          else processConditionalTagsFrom rules conditionalValue n (i + 1) types
        else processConditionalTagsFrom rules conditionalValue n (i + 1) types

/-- Method `RouteDataObject::processConditionalTags(time)`, as far as the list `types`
goes: the list afterwards. The second loop of the method treats each list of `pointTypes`
in the same way and is not followed. -/
def processConditionalTags (rules : List RouteTypeRule)
    (conditionalValue : RouteTypeRule → Nat) (types : List Nat) : Option (List Nat) :=
  processConditionalTagsFrom rules conditionalValue types.length 0 types

/-- The rule id a type resolves to at the time of the call: the value of its rule when
the rule is conditional and the value is above 0. -/
def activeValue (rules : List RouteTypeRule) (conditionalValue : RouteTypeRule → Nat)
    (t : Nat) : Option Nat :=
  match quickGetEncodingRule rules t with
  | none => none
  | some r => if r.conditional && decide (conditionalValue r > 0) then some (conditionalValue r)
    else none

/-- The tag of the rule of a type. -/
def typeTag (rules : List RouteTypeRule) (t : Nat) : Option String :=
  (quickGetEncodingRule rules t).map (fun r => r.t)

/-- Index of the first entry of a type list whose rule has the tag. -/
def firstWithTag (rules : List RouteTypeRule) (tag : String) : List Nat → Option Nat
  | [] => none
  | t :: rest =>
    if typeTag rules t = some tag then some 0
    else (firstWithTag rules tag rest).map (fun k => k + 1)

/-- What the claim says is done with a resolved rule id `v`: the first entry whose rule
has the tag of rule `v` is replaced by `v`, and `v` is appended when there is none. -/
def placeType (rules : List RouteTypeRule) (types : List Nat) (v : Nat) : List Nat :=
  match typeTag rules v with
  | none => types
  | some tag =>
    match firstWithTag rules tag types with
    | some ks => types.set ks v
    | none => types ++ [v]

/-- A `RuleSyntax` with one conditional value: `no @ (Mo-Fr 07:00-09:00)` has the one
alternative `no` under the condition `Mo-Fr 07:00-09:00`, and the tag
`access:conditional` stands for `access`. -/
def accessSyntax : RuleSyntax :=
  { conditions := fun _ v =>
      if v = "no @ (Mo-Fr 07:00-09:00)" then
        [{ condition := "Mo-Fr 07:00-09:00", value := "no" }]
      else []
    nonConditionalTag := fun t => if t = "access:conditional" then "access" else t }

/-- A routing index of the rules `highway=primary` and
`access:conditional=no @ (Mo-Fr 07:00-09:00)`. -/
def conditionalIndex : List RoutingIndexField :=
  [.rules [.tag (some "highway"), .value (some "primary")],
   .rules [.tag (some "access:conditional"), .value (some "no @ (Mo-Fr 07:00-09:00)")]]

/-- The table loaded from `conditionalIndex`: rule 1 is `highway=primary`, rule 2 the
conditional rule, and rule 3, `access=no`, the rule its alternative is bound to. -/
def conditionalTable : List RouteTypeRule :=
  (readRoutingIndexRules accessSyntax false conditionalIndex {}).2.routeEncodingRules

/-- A routing index as `conditionalIndex` with the rule `access=yes` after the two. -/
def accessIndex : List RoutingIndexField :=
  conditionalIndex ++ [.rules [.tag (some "access"), .value (some "yes")]]

/-- The table loaded from `accessIndex`: rules 1 and 2 as before, rule 3 is `access=yes`
and rule 4, `access=no`, the rule the alternative is bound to. -/
def accessTable : List RouteTypeRule :=
  (readRoutingIndexRules accessSyntax false accessIndex {}).2.routeEncodingRules

/-- Tuesday 08:00: the condition `Mo-Fr 07:00-09:00` holds. -/
def tuesdayMorning (condition : String) : Bool := condition = "Mo-Fr 07:00-09:00"

/-- A `RuleSyntax` in which the value `x @ (c)` has an alternative without value. -/
def emptyValueSyntax : RuleSyntax :=
  { conditions := fun _ v => if v = "x @ (c)" then [{ condition := "c", value := "" }] else []
    nonConditionalTag := fun t => if t = "access:conditional" then "access" else t }

/-- A routing index of one rule whose value has an alternative without value under
`emptyValueSyntax`. -/
def emptyValueIndex : List RoutingIndexField :=
  [.rules [.tag (some "access:conditional"), .value (some "x @ (c)")]]

/-- A `RuleSyntax` as `accessSyntax` with a second conditional value:
`destination @ (Mo-Fr 07:00-09:00)` has the one alternative `destination` under the same
condition. -/
def destinationSyntax : RuleSyntax :=
  { conditions := fun _ v =>
      if v = "no @ (Mo-Fr 07:00-09:00)" then
        [{ condition := "Mo-Fr 07:00-09:00", value := "no" }]
      else if v = "destination @ (Mo-Fr 07:00-09:00)" then
        [{ condition := "Mo-Fr 07:00-09:00", value := "destination" }]
      else []
    nonConditionalTag := fun t => if t = "access:conditional" then "access" else t }

/-- A routing index of the rules `highway=primary`,
`access:conditional=no @ (Mo-Fr 07:00-09:00)` and
`access:conditional=destination @ (Mo-Fr 07:00-09:00)`. -/
def destinationIndex : List RoutingIndexField :=
  [.rules [.tag (some "highway"), .value (some "primary")],
   .rules [.tag (some "access:conditional"), .value (some "no @ (Mo-Fr 07:00-09:00)")],
   .rules [.tag (some "access:conditional"),
     .value (some "destination @ (Mo-Fr 07:00-09:00)")]]

/-- The table loaded from `destinationIndex`: rule 1 is `highway=primary`, rules 2 and 3
are the conditional rules, and rules 4, `access=no`, and 5, `access=destination`, the
rules their alternatives are bound to. -/
def destinationTable : List RouteTypeRule :=
  (readRoutingIndexRules destinationSyntax false destinationIndex {}).2.routeEncodingRules

/-- Every alternative of the rule that has a value, the rule having a non-conditional
tag, is bound to an index of the table whose rule has that tag and that value. -/
def RuleBound (syn : RuleSyntax) (rules : List RouteTypeRule) (r : RouteTypeRule) : Prop :=
  r.conditional = true → syn.nonConditionalTag r.t ≠ "" →
    ∀ c ∈ r.conditions, c.value ≠ "" →
      ∃ tr, rules[c.ruleid]? = some tr ∧ tr.t = syn.nonConditionalTag r.t ∧ tr.v = c.value

/-- The second table has, at every index of the first, a rule with the same tag and
value. -/
def KeepsPairs (rules rules1 : List RouteTypeRule) : Prop :=
  ∀ (k : Nat) (r : RouteTypeRule), rules[k]? = some r →
    ∃ r1 : RouteTypeRule, rules1[k]? = some r1 ∧ r1.t = r.t ∧ r1.v = r.v

/-! ## Points and segments of the hierarchical routing -/

/-- Conversion of a value to `short`: its representative modulo 2^16 from -2^15 up to
2^15 - 1. -/
def i16 (i : Int) : Int := (i + 32768) % 65536 - 32768

/-- Modelled from the spec: a `NetworkDBSegment` (declared outside the sources read here)
as `createNetworkDBSegment(start, end, dist, direction, shortcut)` builds it. The points
are pointers, given by the number under which the point was created; `dist` is a
`double`, kept here as the exact quotient. -/
structure NetworkDBSegment where
  start : Nat
  end_ : Nat
  dist : Rat
  direction : Bool
  shortcut : Bool
deriving DecidableEq

/-- Modelled from the spec: the members of `NetworkDBPoint` (declared outside the sources
read here) that the functions followed here set and read; a new point has them zero,
empty or null. `dualPoint` is a pointer, `none` the null pointer; `connected` and
`connectedReverse` are the lists `connectedSet(false, ..)` and `connectedSet(true, ..)`
store and `conn(false)` and `conn(true)` give. -/
structure NetworkDBPoint where
  mapId : Int := 0
  fileId : Int := 0
  index : Int := 0
  startX : Int := 0
  startY : Int := 0
  endX : Int := 0
  endY : Int := 0
  roadId : Int := 0
  start : Int := 0
  end_ : Int := 0
  clusterId : Int := 0
  incomplete : Bool := false
  tagValues : List (String × String) := []
  dualPoint : Option Nat := none
  connected : List NetworkDBSegment := []
  connectedReverse : List NetworkDBSegment := []

/-- Field of an `HHRouteNetworkPoint` message as `readPoint` meets it; no read is tested,
so each field carries the value left in the variable read into. -/
inductive HHRouteNetworkPointField where
  | id (v : Int)
  | dx (value : Int)
  | dy (value : Int)
  | globalId (v : Int)
  | tagValueIds (tvIds : List Int)
  | roadId (v : Int)
  | roadStartEndIndex (value : Int)
  | clusterId (v : Int)
  | partialInd (v : Int)
  | dualPointId (v : Int)
  | dualClusterId (value : Int)
  | unknown

/-- Loop over the ids of a `tagValueIds` field: an id below the size of
`reg->encodingRules`, as an unsigned value, adds the pair at that index. -/
def readTagValueIds (encodingRules : List (String × String)) :
    List Int → List (String × String) → List (String × String)
  | [], tagValues => tagValues
  | tvId :: rest, tagValues =>
    if 0 ≤ tvId ∧ tvId.toNat < encodingRules.length then
      readTagValueIds encodingRules rest
        (tagValues ++ [encodingRules.getD tvId.toNat ("", "")])
    else readTagValueIds encodingRules rest tagValues

/-- Loop of `readPoint` up to the tag 0: the point `*pnt` and the local `dualIdPoint`. -/
def readPointLoop (encodingRules : List (String × String)) (dx dy : Int) :
    List HHRouteNetworkPointField → NetworkDBPoint → Int → NetworkDBPoint × Int
  | [], pnt, dualIdPoint => (pnt, dualIdPoint)
  | .id v :: rest, pnt, dualIdPoint =>
    readPointLoop encodingRules dx dy rest { pnt with fileId := v } dualIdPoint
  | .dx value :: rest, pnt, dualIdPoint =>
    readPointLoop encodingRules dx dy rest
      { pnt with startX := i32 (value + dx), endX := i32 (value + dx) } dualIdPoint
  | .dy value :: rest, pnt, dualIdPoint =>
    readPointLoop encodingRules dx dy rest
      { pnt with startY := i32 (value + dy), endY := i32 (value + dy) } dualIdPoint
  | .globalId v :: rest, pnt, dualIdPoint =>
    readPointLoop encodingRules dx dy rest { pnt with index := v } dualIdPoint
  | .tagValueIds tvIds :: rest, pnt, dualIdPoint =>
    readPointLoop encodingRules dx dy rest
      { pnt with tagValues := readTagValueIds encodingRules tvIds pnt.tagValues } dualIdPoint
  | .roadId v :: rest, pnt, dualIdPoint =>
    readPointLoop encodingRules dx dy rest { pnt with roadId := v } dualIdPoint
  | .roadStartEndIndex value :: rest, pnt, dualIdPoint =>
    let start := i16 (value >>> 1)
    readPointLoop encodingRules dx dy rest
      { pnt with start := start,
                 end_ := i16 (start + (if Int.tmod value 2 = 1 then 1 else -1)) } dualIdPoint
  | .clusterId v :: rest, pnt, dualIdPoint =>
    readPointLoop encodingRules dx dy rest { pnt with clusterId := v } dualIdPoint
  | .partialInd v :: rest, pnt, dualIdPoint =>
    readPointLoop encodingRules dx dy rest { pnt with incomplete := decide (v > 0) } dualIdPoint
  | .dualPointId v :: rest, pnt, _ => readPointLoop encodingRules dx dy rest pnt v
  | .dualClusterId _ :: rest, pnt, dualIdPoint =>
    readPointLoop encodingRules dx dy rest pnt dualIdPoint
  | .unknown :: rest, pnt, dualIdPoint => readPointLoop encodingRules dx dy rest pnt dualIdPoint

/-- The points a context has created: `points p` is the point created as number `p`, and
`count` the number of points created so far, which is the pointer the next
`createNetworkDBPoint()` gives. -/
structure HHPoints where
  points : Nat → NetworkDBPoint := fun _ => {}
  count : Nat := 0

/-- Assignment through a pointer: `p->member = ..`, as a change of the point `p`. -/
def setPoint (points : Nat → NetworkDBPoint) (p : Nat)
    (f : NetworkDBPoint → NetworkDBPoint) : Nat → NetworkDBPoint :=
  fun k => if k = p then f (points p) else points k

/-- Call `mp.insert(pair(index, pnt))` on the map from index to point, a partial function:
a key that the map holds keeps its point. -/
def mapInsert (mp : Int → Option Nat) (index : Int) (pnt : Nat) : Int → Option Nat :=
  if (mp index).isSome then mp else fun k => if k = index then some pnt else mp k

/-- The six assignments of `readPoint` under `if (dualIdPoint >= 0 && it != mp.end())`,
one by one, for the new point `pnt` and the point `d` found in the map:
`pnt->dualPoint = d`, `pnt->dualPoint->dualPoint = pnt`, the two assignments to the end
of the dual point and the two to the end of `pnt`. `pnt->dualPoint` is `d` throughout,
also when `d` is `pnt` itself. -/
def linkDual (points : Nat → NetworkDBPoint) (pnt d : Nat) : Nat → NetworkDBPoint :=
  let pts1 := setPoint points pnt (fun x => { x with dualPoint := some d })
  let pts2 := setPoint pts1 d (fun x => { x with dualPoint := some pnt })
  let pts3 := setPoint pts2 d (fun x => { x with endX := (pts2 pnt).startX })
  let pts4 := setPoint pts3 d (fun x => { x with endY := (pts3 pnt).startY })
  let pts5 := setPoint pts4 pnt (fun x => { x with endX := (pts4 d).startX })
  setPoint pts5 pnt (fun x => { x with endY := (pts5 d).startY })

/-- Function `readPoint(input, hctx, reg, mapId, mp, dx, dy)` with `hctx` not null: the
pointer returned, the points and the map `mp` afterwards. -/
def readPoint (encodingRules : List (String × String)) (mapId dx dy : Int)
    (fields : List HHRouteNetworkPointField) (st : HHPoints) (mp : Int → Option Nat) :
    Nat × HHPoints × (Int → Option Nat) :=
  let pnt := st.count
  let r := readPointLoop encodingRules dx dy fields { mapId := mapId } (-1)
  let dualIdPoint := r.2
  let pts0 : Nat → NetworkDBPoint := fun k => if k = pnt then r.1 else st.points k
  let mp1 := mapInsert mp r.1.index pnt
  match (if dualIdPoint ≥ 0 then mp1 dualIdPoint else none) with
  | some d => (pnt, { points := linkDual pts0 pnt d, count := pnt + 1 }, mp1)
  | none => (pnt, { points := pts0, count := pnt + 1 }, mp1)

/-- A sequence of `readPoint` calls into one map, one for each record: a record is the
offsets `dx` and `dy` of the call and the fields of the point. -/
def readPoints (encodingRules : List (String × String)) (mapId : Int) :
    List (Int × Int × List HHRouteNetworkPointField) → HHPoints → (Int → Option Nat) →
      HHPoints × (Int → Option Nat)
  | [], st, mp => (st, mp)
  | rec :: rest, st, mp =>
    let r := readPoint encodingRules mapId rec.1 rec.2.1 rec.2.2 st mp
    readPoints encodingRules mapId rest r.2.1 r.2.2

/-- What a record declares: the point and the local `dualIdPoint` at the tag 0, before the
point is linked. -/
def declared (encodingRules : List (String × String)) (mapId : Int)
    (rec : Int × Int × List HHRouteNetworkPointField) : NetworkDBPoint × Int :=
  readPointLoop encodingRules rec.1 rec.2.1 rec.2.2 { mapId := mapId } (-1)

/-- A point record with the index, the dual point id and the coordinates given, read at
the offsets (0, 0). -/
def pointRecord (index dualPointId x y : Int) : Int × Int × List HHRouteNetworkPointField :=
  (0, 0, [.globalId index, .dx x, .dy y, .dualPointId dualPointId])

/-- The records declare pairwise distinct indexes. -/
def DistinctIndexes (ds : List (NetworkDBPoint × Int)) : Prop :=
  ∀ (i j : Nat) (di dj : NetworkDBPoint × Int), ds[i]? = some di → ds[j]? = some dj →
    di.1.index = dj.1.index → i = j

/-- The dual points are declared both ways: a record that declares, with an id of 0 or
above, the index of a record of the list has an index of 0 or above itself, and that
record declares it back. -/
def SymmetricDuals (ds : List (NetworkDBPoint × Int)) : Prop :=
  ∀ (i j : Nat) (di dj : NetworkDBPoint × Int), ds[i]? = some di → ds[j]? = some dj →
    0 ≤ di.2 → di.2 = dj.1.index → dj.2 = di.1.index ∧ 0 ≤ di.1.index

/-- What holds of the points and the map after the records of the list have been read
into an empty map: the point of record `k` is point `k`, the map sends each index to its
point and holds nothing else, the points keep the start they declared, and a point whose
declared dual is a record of the list is linked to the point of that record and ends
where that point starts. -/
def PointsLinked (ds : List (NetworkDBPoint × Int)) (st : HHPoints)
    (mp : Int → Option Nat) : Prop :=
  st.count = ds.length ∧
  (∀ (k : Nat) (d : NetworkDBPoint × Int), ds[k]? = some d →
    mp d.1.index = some k ∧ (st.points k).startX = d.1.startX ∧
      (st.points k).startY = d.1.startY) ∧
  (∀ (key : Int) (k : Nat), mp key = some k →
    ∃ d : NetworkDBPoint × Int, ds[k]? = some d ∧ d.1.index = key) ∧
  ∀ (i j : Nat) (di dj : NetworkDBPoint × Int), ds[i]? = some di → ds[j]? = some dj →
    0 ≤ di.2 → di.2 = dj.1.index →
      (st.points i).dualPoint = some j ∧ (st.points i).endX = dj.1.startX ∧
        (st.points i).endY = dj.1.startY

/-- Loop `for (int i = 0; i < lst.size(); i++)` of `parseSegments` with `n` rounds left
at index `i`, the list `l` built so far. `none` stands for an `at(i)` out of range, which
throws. -/
def parseSegmentsFrom (pointSegments : List Int) (lst : List Nat) (pnt : Nat) (out : Bool) :
    Nat → Nat → List NetworkDBSegment → Option (List NetworkDBSegment)
  | 0, _, l => some l
  | n + 1, i, l =>
    match pointSegments[i]? with
    | none => none
    | some d =>
      if d ≤ 0 then parseSegmentsFrom pointSegments lst pnt out n (i + 1) l
      else
        match lst[i]? with
        | none => none
        | some p =>
          parseSegmentsFrom pointSegments lst pnt out n (i + 1)
            (l ++ [{ start := if out then pnt else p, end_ := if out then p else pnt,
                     dist := (d : Rat) / 10, direction := out, shortcut := false }])

/-- Function `parseSegments(ctx, pointSegments, lst, pnt, out)`: the segments created, in
the order of the list returned. `points` holds the points, `pnt` and the entries of `lst`
are pointers into it; the warning logged before the second `return l` is left out. -/
def parseSegments (points : Nat → NetworkDBPoint) (pointSegments : List Int)
    (lst : List Nat) (pnt : Nat) (out : Bool) : Option (List NetworkDBSegment) :=
  if pointSegments.length = 0 ∨ (points pnt).incomplete = true then some []
  else if pointSegments.length < lst.length then some []
  else parseSegmentsFrom pointSegments lst pnt out lst.length 0 []

/-- The segment `parseSegments` creates for the adjacency entry `d` and the neighbour
`p`. -/
def segmentOf (pnt : Nat) (out : Bool) (d : Int) (p : Nat) : NetworkDBSegment :=
  { start := if out then pnt else p, end_ := if out then p else pnt,
    dist := (d : Rat) / 10, direction := out, shortcut := false }

/-- Modelled from the spec: an `HHRouteBlockSegments` (declared outside the sources read
here) with the members `loadNetworkSegmentPoint` reads and writes; a block that
`createHHRouteBlockSegments()` gives has them zero and the child list empty. -/
structure HHRouteBlockSegments where
  idRangeStart : Int
  idRangeLength : Int
  profileId : Int
  length : Nat
  filePointer : Nat
  sublist : List HHRouteBlockSegments

/-- Modelled from the spec: `HHRoutingContext::checkId(searchInd, block)` (defined outside
the sources read here), `idRangeStart ≤ searchInd < idRangeStart + idRangeLength`. -/
def checkId (searchInd : Int) (block : HHRouteBlockSegments) : Bool :=
  decide (block.idRangeStart ≤ searchInd ∧
    searchInd < block.idRangeStart + block.idRangeLength)

/-- Field of an `HHRouteBlockSegments` message as `loadNetworkSegmentPoint` meets it. An
`innerBlocks` field carries the length `readInt` gives, the position of the input after
it and the fields of the inner block; a `pointSegments` field carries the two arrays
`setSegments` fills. -/
inductive HHRouteBlockSegmentsField where
  | idRangeLength (v : Int)
  | idRangeStart (v : Int)
  | profileId (v : Int)
  | innerBlocks (length filePointer : Nat) (body : List HHRouteBlockSegmentsField)
  | pointSegments (segmentsIn segmentsOut : List Int)
  | unknown

/-- What `loadNetworkSegmentPoint` does to the input: `seek p` is a call
`input->Seek(p)`, `read p` the reads of the loop on the block at position `p`, from
`PushLimit` on. -/
inductive StreamEvent where
  | seek (filePointer : Nat)
  | read (filePointer : Nat)
deriving DecidableEq

/-- What `loadNetworkSegmentPoint` changes besides the blocks: the points, the position
`input->TotalBytesRead()` of the input when a call starts and when it returns, and the
seeks and reads made on the input so far. -/
structure HHLoadState where
  points : Nat → NetworkDBPoint
  pos : Nat
  events : List StreamEvent

/-- Locals of the reading loop of `loadNetworkSegmentPoint`, with the block and the
state. -/
structure BlockRead where
  block : HHRouteBlockSegments
  loaded : Int
  ind : Int
  st : HHLoadState

mutual
/-- Reading loop of `loadNetworkSegmentPoint` over the fields of a block up to the tag 0.
A `Skip(input->BytesUntilLimit())` moves to the end of the block, so the next tag is 0
and the fields after it are not read. `none` stands for an exception of
`parseSegments`. -/
def loadNetworkSegmentPointLoop (getPoint : Int → Option Nat)
    (incoming outgoing : Nat → List Nat) (searchInd : Int) :
    List HHRouteBlockSegmentsField → BlockRead → Option BlockRead
  | [], r => some r
  | f :: rest, r =>
    match loadNetworkSegmentPointField getPoint incoming outgoing searchInd f r with
    | none => none
    | some (true, r1) =>
      loadNetworkSegmentPointLoop getPoint incoming outgoing searchInd rest r1
    | some (false, r1) => some r1
/-- One field of the reading loop: whether the loop goes on to the next field, and the
locals. For an `innerBlocks` field the call on the new child is followed into its own
reading loop: the child has no children yet and the input stands at its `filePointer`,
so the call starts reading at once; after it the input stands at the end of the child. -/
def loadNetworkSegmentPointField (getPoint : Int → Option Nat)
    (incoming outgoing : Nat → List Nat) (searchInd : Int) :
    HHRouteBlockSegmentsField → BlockRead → Option (Bool × BlockRead)
  | .idRangeLength v, r => some (true, { r with block := { r.block with idRangeLength := v } })
  | .idRangeStart v, r => some (true, { r with block := { r.block with idRangeStart := v } })
  | .profileId v, r => some (true, { r with block := { r.block with profileId := v } })
  | .innerBlocks length filePointer body, r =>
    if checkId searchInd r.block = false then some (false, r)
    else
      match loadNetworkSegmentPointLoop getPoint incoming outgoing searchInd body
          { block := { idRangeStart := 0, idRangeLength := 0, profileId := 0,
                       length := length, filePointer := filePointer, sublist := [] },
            loaded := 0, ind := 0,
            st := { r.st with events := r.st.events ++ [.read filePointer] } } with
      | none => none
      | some c =>
        some (true,
          { r with loaded := i32 (r.loaded + c.loaded),
                   block := { r.block with sublist := r.block.sublist ++ [c.block] },
                   st := { c.st with pos := filePointer + length } })
  | .pointSegments segmentsIn segmentsOut, r =>
    if checkId searchInd r.block = false then some (false, r)
    else
      match getPoint (i32 (r.ind + r.block.idRangeStart)) with
      | none => some (true, { r with ind := i32 (r.ind + 1) })
      | some point =>
        match parseSegments r.st.points segmentsIn (incoming point) point false with
        | none => none
        | some segsIn =>
          match parseSegments
              (setPoint r.st.points point (fun x => { x with connectedReverse := segsIn }))
              segmentsOut (outgoing point) point true with
          | none => none
          | some segsOut =>
            some (true,
              { r with ind := i32 (r.ind + 1),
                       loaded := i32 (r.loaded + (segsIn.length + segsOut.length : Nat)),
                       st := { r.st with
                         points := setPoint
                           (setPoint r.st.points point
                             (fun x => { x with connectedReverse := segsIn }))
                           point (fun x => { x with connected := segsOut }) } })
  | .unknown, r => some (true, r)
end

mutual
/-- Function `loadNetworkSegmentPoint(input, ctx, regCtx, block, searchInd)`: the value
returned, the block and the state afterwards, `none` for an exception. `content p` is
what the file holds at position `p`, read as the fields of a block; `getPoint` is
`regCtx->getPoint`, `incoming` and `outgoing` are `ctx->getIncomingPoints` and
`ctx->getOutgoingPoints`. -/
def loadNetworkSegmentPoint (content : Nat → List HHRouteBlockSegmentsField)
    (getPoint : Int → Option Nat) (incoming outgoing : Nat → List Nat) (searchInd : Int) :
    HHRouteBlockSegments → HHLoadState → Option (Int × HHRouteBlockSegments × HHLoadState)
  | ⟨idRangeStart, idRangeLength, profileId, length, filePointer, sublist⟩, st =>
    if sublist.length > 0 then
      match loadNetworkSegmentPointSublist content getPoint incoming outgoing searchInd
          sublist st with
      | none => none
      | some r =>
        some (r.1, ⟨idRangeStart, idRangeLength, profileId, length, filePointer, r.2.1⟩,
          r.2.2)
    else
      match loadNetworkSegmentPointLoop getPoint incoming outgoing searchInd
          (content filePointer)
          { block := ⟨idRangeStart, idRangeLength, profileId, length, filePointer, sublist⟩,
            loaded := 0, ind := 0,
            st := { points := st.points, pos := filePointer,
                    events := (if st.pos ≠ filePointer then st.events ++ [.seek filePointer]
                      else st.events) ++ [.read filePointer] } } with
      | none => none
      | some r => some (r.loaded, r.block, { r.st with pos := filePointer + length })
/-- Loop `for (auto * s : block->sublist)` of `loadNetworkSegmentPoint`: the value the
function returns, the children and the state afterwards. -/
def loadNetworkSegmentPointSublist (content : Nat → List HHRouteBlockSegmentsField)
    (getPoint : Int → Option Nat) (incoming outgoing : Nat → List Nat) (searchInd : Int) :
    List HHRouteBlockSegments → HHLoadState →
      Option (Int × List HHRouteBlockSegments × HHLoadState)
  | [], st => some (0, [], st)
  | s :: rest, st =>
    if checkId searchInd s = true then
      match loadNetworkSegmentPoint content getPoint incoming outgoing searchInd s st with
      | none => none
      | some r => some (r.1, r.2.1 :: rest, r.2.2)
    else
      match loadNetworkSegmentPointSublist content getPoint incoming outgoing searchInd
          rest st with
      | none => none
      | some r => some (r.1, s :: r.2.1, r.2.2)
end

/-- The fields of an inner block for the ids from 64 up to 96 that holds point segments
only, one `pointSegments` field for each pair of arrays. -/
def innerBlockFields (segs : List (List Int × List Int)) : List HHRouteBlockSegmentsField :=
  [.idRangeStart 64, .idRangeLength 32] ++ segs.map (fun s => .pointSegments s.1 s.2)

/-- The fields of a block for the ids from 0 up to 256 whose one inner block, of length
`length1` at position `filePointer1`, is that of `innerBlockFields`. -/
def outerBlockFields (length1 filePointer1 : Nat) (segs : List (List Int × List Int)) :
    List HHRouteBlockSegmentsField :=
  [.idRangeStart 0, .idRangeLength 256,
    .innerBlocks length1 filePointer1 (innerBlockFields segs)]

/-- The block for the ids from 0 up to 256 as `readRegionSegmentHeader` leaves it, with
the children given. -/
def outerBlock (length filePointer : Nat) (sublist : List HHRouteBlockSegments) :
    HHRouteBlockSegments :=
  { idRangeStart := 0, idRangeLength := 256, profileId := 0, length := length,
    filePointer := filePointer, sublist := sublist }

/-- The inner block for the ids from 64 up to 96 as `loadNetworkSegmentPoint` leaves it
in the child list. -/
def innerBlock (length1 filePointer1 : Nat) : HHRouteBlockSegments :=
  { idRangeStart := 64, idRangeLength := 32, profileId := 0, length := length1,
    filePointer := filePointer1, sublist := [] }

/-- A file with the outer block at position 100, 60 bytes long, and its inner block at
position 120, 40 bytes long, with the segments of two points. -/
def sampleSegments : Nat → List HHRouteBlockSegmentsField :=
  fun p =>
    if p = 100 then outerBlockFields 40 120 [([15], [25, 35]), ([], [45])]
    else if p = 120 then innerBlockFields [([15], [25, 35]), ([], [45])]
    else []

/-- The state before the first call on the sample file: new points only, the input at
position 0, nothing read so far. -/
def sampleLoadState : HHLoadState :=
  { points := fun _ => {}, pos := 0, events := [] }

/-- The points of the sample file: the ids 64 and 65 are the points 0 and 1. -/
def sampleGetPoint : Int → Option Nat :=
  fun i => if i = 64 then some 0 else if i = 65 then some 1 else none

/-- The neighbours in the sample: every point has the incoming point 3 and the outgoing
points 4 and 5. -/
def sampleIncoming : Nat → List Nat := fun _ => [3]

/-- The outgoing points in the sample. -/
def sampleOutgoing : Nat → List Nat := fun _ => [4, 5]

/-! ## Reads of four bytes -/

/-- Conversion of a signed value to a 64-bit unsigned variable (`uint64_t x = i`). -/
def u64 (i : Int) : Nat := (i % 18446744073709551616).toNat

/-- Conversion of a value to `int64_t`: its representative modulo 2^64 from -2^63 up to
2^63 - 1. -/
def i64 (i : Int) : Int :=
  (i + 9223372036854775808) % 18446744073709551616 - 9223372036854775808

/-- Call `input->ReadRaw(buf, 4)` on the bytes left before the current limit: the four
bytes read and the bytes left after them, `none` when fewer than four are left. -/
def readRaw4 : List Nat → Option ((Nat × Nat × Nat × Nat) × List Nat)
  | b0 :: b1 :: b2 :: b3 :: rest => some ((b0, b1, b2, b3), rest)
  | _ => none

/-- The expression `(buf[0] << 24) + (buf[1] << 16) + (buf[2] << 8) + buf[3]` of both
`readInt` overloads: the bytes are promoted to `int`, so every shift and sum is an `int`
and goes through `i32`. -/
def readIntValue (buf : Nat × Nat × Nat × Nat) : Int :=
  i32 (i32 (i32 (i32 ((buf.1 : Int) <<< 24) + i32 ((buf.2.1 : Int) <<< 16)) +
    i32 ((buf.2.2.1 : Int) <<< 8)) + (buf.2.2.2 : Int))

/-- Overload `readInt(CodedInputStream* input, uint32_t* sz)` on the bytes left before
the limit: `none` is the result `false`, otherwise the value stored in `*sz` and the
bytes left. -/
def readInt (bytes : List Nat) : Option (Nat × List Nat) :=
  match readRaw4 bytes with
  | none => none
  | some (buf, rest) => some (u32 (readIntValue buf), rest)

/-- Overload `readInt(CodedInputStream* input, uint64_t* sz)`: the same expression, an
`int`, stored in a 64-bit unsigned variable. -/
def readInt64 (bytes : List Nat) : Option (Nat × List Nat) :=
  match readRaw4 bytes with
  | none => none
  | some (buf, rest) => some (u64 (readIntValue buf), rest)

/-- The unsigned big-endian value of four bytes. -/
def bigEndian (buf : Nat × Nat × Nat × Nat) : Nat :=
  buf.1 * 16777216 + buf.2.1 * 65536 + buf.2.2.1 * 256 + buf.2.2.2

/-! ## Private access of a road -/

/-- Modelled from the spec: the values of `GeneralRouterProfile` (declared outside the
sources read here); `hasPrivateAccess` tells `CAR` and `BICYCLE` from the others. -/
inductive GeneralRouterProfile where
  | CAR
  | PEDESTRIAN
  | BICYCLE
  | BOAT
deriving DecidableEq

/-- Loop of `RouteDataObject::hasPrivateAccess(profile)` over the rest of `types`: the
value returned, `none` when a type is no id of the table. -/
def hasPrivateAccessFrom (rules : List RouteTypeRule) (profile : GeneralRouterProfile) :
    List Nat → Option Bool
  | [] => some false
  | t :: rest =>
    match quickGetEncodingRule rules t with
    | none => none
    | some r =>
      if r.v = "private" then
        if r.t = "vehicle" ∨ r.t = "access" then some true
        else if profile = .CAR then some (decide (r.t = "motorcar" ∨ r.t = "motor_vehicle"))
        else if profile = .BICYCLE then some (decide (r.t = "bicycle"))
        else hasPrivateAccessFrom rules profile rest
      else hasPrivateAccessFrom rules profile rest

/-- Method `RouteDataObject::hasPrivateAccess(profile)` of a road with the type list
`types` in a region with the table `rules`. -/
def hasPrivateAccess (rules : List RouteTypeRule) (types : List Nat)
    (profile : GeneralRouterProfile) : Option Bool :=
  hasPrivateAccessFrom rules profile types

/-- The tags that restrict a profile when their value is `private`, as the specification
of `hasPrivateAccess` has them: `vehicle` and `access` for every profile, `motorcar` and
`motor_vehicle` for `CAR`, `bicycle` for `BICYCLE`. -/
def restrictsProfile (profile : GeneralRouterProfile) (tag : String) : Bool :=
  decide (tag = "vehicle" ∨ tag = "access") ||
    (decide (profile = .CAR) && decide (tag = "motorcar" ∨ tag = "motor_vehicle")) ||
    (decide (profile = .BICYCLE) && decide (tag = "bicycle"))

/-- What the specification expects of `hasPrivateAccess`: some rule of the type list has
the value `private` and a tag that restricts the profile. -/
def somePrivateRule (rules : List RouteTypeRule) (types : List Nat)
    (profile : GeneralRouterProfile) : Bool :=
  types.any (fun t =>
    match quickGetEncodingRule rules t with
    | some r => decide (r.v = "private") && restrictsProfile profile r.t
    | none => false)

/-- A table with the rules 1 `bicycle=private`, 2 `access=private` and
3 `highway=residential`. -/
def accessRules : List RouteTypeRule :=
  [{ t := "", v := "" }, { t := "bicycle", v := "private" }, { t := "access", v := "private" },
    { t := "highway", v := "residential" }]

/-! ## Order of the rendering primitives -/

/-- The members of `MapDataObjectPrimitive` that `sortByOrder` reads: `points` is
`obj->points.size()`; `order`, a `double`, is kept as a rational number. -/
structure MapDataObjectPrimitive where
  points : Nat
  typeInd : Int
  order : Rat
  objectType : Int
deriving DecidableEq

/-- Comparator `sortByOrder(i, j)`. -/
def sortByOrder (i j : MapDataObjectPrimitive) : Bool :=
  if i.order = j.order then
    if i.typeInd = j.typeInd then decide (i.points < j.points)
    else if i.objectType = 3 then decide (i.typeInd > j.typeInd)
    else decide (i.typeInd < j.typeInd)
  else decide (i.order < j.order)

/-! ## Direction points of a routing configuration -/

/-- The members of `DirectionPoint` that `build` and `getTestKyivPoints` set. -/
structure DirectionPoint where
  x31 : Int := 0
  y31 : Int := 0
  tags : List (String × String) := []
deriving DecidableEq

/-- The direction points of a `RoutingConfiguration`: the `quad_tree` (declared outside
the sources read here) is kept as the list of the points inserted, each with the
rectangle `(left, top, right, bottom)` it was inserted with, in the order of the
inserts. -/
structure RoutingConfiguration where
  directionPoints : List (DirectionPoint × (Int × Int × Int × Int)) := []

/-- The member `directionPointsBuilder` of a `RoutingConfigurationBuilder`. -/
structure RoutingConfigurationBuilder where
  directionPointsBuilder : List DirectionPoint := []

/-- Method `setDirectionPoints(directionPoints)`. -/
def setDirectionPoints (b : RoutingConfigurationBuilder) (directionPoints : List DirectionPoint) :
    RoutingConfigurationBuilder :=
  { b with directionPointsBuilder := directionPoints }

/-- Loop `while (i < 2000)` of `getTestKyivPoints` with `n` rounds left at the counter
`i`. `rand k` is what the call number `k` of `rand()` gives, counted from the start of the
function; `get31TileNumberX` and `get31TileNumberY` are defined outside the sources read
here; the `double` values are kept as rational numbers. -/
def getTestKyivPointsFrom (rand : Nat → Nat) (RAND_MAX : Nat)
    (get31TileNumberX get31TileNumberY : Rat → Int) :
    Nat → Nat → List DirectionPoint → List DirectionPoint
  | 0, _, result => result
  | n + 1, i, result =>
    let diffLat : Rat := 504819 / 10000 - 504004 / 10000
    let diffLon : Rat := 305708 / 10000 - 304196 / 10000
    let rand1 : Rat := (rand (2 * i) : Rat) / (RAND_MAX : Rat) + 1
    let rand2 : Rat := (rand (2 * i + 1) : Rat) / (RAND_MAX : Rat) + 1
    let lat : Rat := rand1 * diffLat + 504004 / 10000
    let lon : Rat := rand2 * diffLon + 304196 / 10000
    getTestKyivPointsFrom rand RAND_MAX get31TileNumberX get31TileNumberY n (i + 1)
      (result ++ [{ x31 := get31TileNumberX lon, y31 := get31TileNumberY lat,
                    tags := [("motorcar", "no")] }])

/-- Method `getTestKyivPoints()`. -/
def getTestKyivPoints (rand : Nat → Nat) (RAND_MAX : Nat)
    (get31TileNumberX get31TileNumberY : Rat → Int) : List DirectionPoint :=
  getTestKyivPointsFrom rand RAND_MAX get31TileNumberX get31TileNumberY 2000 0 []

/-- Method `build(router, direction, memoryLimitMB, params)` as far as the direction
points go: the configuration returned and the builder afterwards. The router, the
attributes and the impassable roads, which the direction points do not depend on, are not
followed. -/
def build (rand : Nat → Nat) (RAND_MAX : Nat) (get31TileNumberX get31TileNumberY : Rat → Int)
    (b : RoutingConfigurationBuilder) : RoutingConfiguration × RoutingConfigurationBuilder :=
  let directionPointsBuilder :=
    getTestKyivPoints rand RAND_MAX get31TileNumberX get31TileNumberY
  let i : RoutingConfiguration :=
    if directionPointsBuilder.length > 0 then
      { directionPoints :=
          directionPointsBuilder.map (fun dp => (dp, (dp.x31, dp.y31, dp.x31, dp.y31))) }
    else {}
  (i, { b with directionPointsBuilder := directionPointsBuilder })

/-! ## Route segments -/

/-- Conversion of a value to `uint16_t`. -/
def u16 (i : Int) : Nat := (i % 65536).toNat

/-- The members of `RouteSegment` that `initRouteSegment` reads and the constructor
sets. `road` is the pointer to the road; `segmentStructure` is the structure the weak
pointer refers to, `none` when it is empty or expired. -/
structure RouteSegment where
  segmentStart : Nat
  segmentEnd : Nat
  road : Nat
  segmentStructure : Option Nat
deriving DecidableEq

/-- The segments and segment structures of a search. `segments p` is the segment created
as number `p`, a pointer being that number, and `count` the pointer the next
`make_shared<RouteSegment>` gives; `oppositeDirection k` is the map
`oppositeDirectionMapping` of the structure `k`, from a segment to a segment or to the
null pointer `none`. -/
structure SegmentHeap where
  segments : Nat → RouteSegment
  count : Nat
  oppositeDirection : Nat → Nat → Option Nat

/-- Method `RouteSegment::getOppositeDirection()` of the segment `s`. -/
def getOppositeDirection (h : SegmentHeap) (s : Nat) : Option Nat :=
  match (h.segments s).segmentStructure with
  | some k => h.oppositeDirection k s
  | none => none

/-- Method `RouteSegment::setOppositeDirection(value)` of the segment `s`. -/
def setOppositeDirection (h : SegmentHeap) (s : Nat) (value : Option Nat) : SegmentHeap :=
  match (h.segments s).segmentStructure with
  | some k =>
    { h with oppositeDirection := fun k1 key =>
        if k1 = k ∧ key = s then value else h.oppositeDirection k1 key }
  | none => h

/-- Function `RouteSegment::initRouteSegment(th, positiveDirection, segmentStructure)`:
the pointer returned (`none` is the null pointer) and the heap afterwards. The outer
`none` stands for the exception thrown when `segmentStart == segmentEnd`, and for the
call through the null pointer that `th->getOppositeDirection()` is when the structure of
`th` has expired. `pointsLength road` is `road->getPointsLength()`. -/
def initRouteSegment (pointsLength : Nat → Int) (th : Nat) (positiveDirection : Bool)
    (segmentStructure : Option Nat) (h : SegmentHeap) : Option (Option Nat × SegmentHeap) :=
  let t := h.segments th
  if t.segmentStart = 0 ∧ positiveDirection = false then some (none, h)
  else if (t.segmentStart : Int) = pointsLength t.road - 1 ∧ positiveDirection = true then
    some (none, h)
  else if t.segmentStart = t.segmentEnd then none
  else if positiveDirection = decide (t.segmentEnd > t.segmentStart) then some (some th, h)
  else
    match getOppositeDirection h th with
    | some o => some (some o, h)
    | none =>
      let seg : RouteSegment :=
        { segmentStart := u16 t.segmentStart,
          segmentEnd := u16 (if t.segmentEnd > t.segmentStart then (t.segmentStart : Int) - 1
            else (t.segmentStart : Int) + 1),
          road := t.road, segmentStructure := segmentStructure }
      let h1 : SegmentHeap :=
        { h with segments := fun p => if p = h.count then seg else h.segments p,
                 count := h.count + 1 }
      let h2 := setOppositeDirection h1 th (some h.count)
      match getOppositeDirection h2 th with
      | none => none
      | some o =>
        let h3 := setOppositeDirection h2 o (some th)
        some (getOppositeDirection h3 th, h3)

/-- A heap with the segment 0, from point `segmentStart` to point `segmentEnd` of the
road 0, in the structure 0, and no opposite direction recorded. -/
def oneSegment (segmentStart segmentEnd : Nat) : SegmentHeap :=
  { segments := fun _ =>
      { segmentStart := segmentStart, segmentEnd := segmentEnd, road := 0,
        segmentStructure := some 0 },
    count := 1,
    oppositeDirection := fun _ _ => none }

/-- What `initRouteSegment` keeps of the opposite directions recorded for the segments
created so far: the segment recorded for `s` is created, lies in the same structure and
on the same road, starts where `s` starts, ends on the other side of the start, and has
`s` recorded as its opposite direction. -/
def OppositeLinked (h : SegmentHeap) : Prop :=
  ∀ (s o : Nat), s < h.count → getOppositeDirection h s = some o →
    o < h.count ∧ o ≠ s ∧
    (h.segments o).segmentStructure = (h.segments s).segmentStructure ∧
    (h.segments o).road = (h.segments s).road ∧
    (h.segments o).segmentStart = (h.segments s).segmentStart ∧
    (h.segments o).segmentEnd + (h.segments s).segmentEnd =
      2 * (h.segments s).segmentStart ∧
    getOppositeDirection h o = some s

/-! ## Depth of the reads of a routing region -/

/-- The deepest nesting of `readRouteTree` calls inside a call of `readRouteTree` with
the depth `depth` on the fields given: a `boxes` field read with `depth != 0` is a nested
call with `depth - 1` on the fields of the box; the fields after a field that ends the
loop are not read. -/
def readRouteTreeCalls (depth : Int) : List RouteDataBoxField → Nat
  | [] => 0
  | .boxes _ _ skipped body :: rest =>
    if depth ≠ 0 then
      max (readRouteTreeCalls (depth - 1) body + 1) (readRouteTreeCalls depth rest)
    else if skipped then readRouteTreeCalls depth rest else 0
  | .endGroup :: _ => 0
  | .unknown skipped :: rest => if skipped then readRouteTreeCalls depth rest else 0
  | .left _ :: rest => readRouteTreeCalls depth rest
  | .right _ :: rest => readRouteTreeCalls depth rest
  | .top _ :: rest => readRouteTreeCalls depth rest
  | .bottom _ :: rest => readRouteTreeCalls depth rest
  | .shiftToData _ :: rest => readRouteTreeCalls depth rest

/-- The fields of a box at `filePointer` that holds `n` boxes one inside the other and
nothing else: a box field is a tag of one byte, a length of four bytes and the fields of
the box. -/
def nestedBoxes : Nat → Nat → List RouteDataBoxField
  | 0, _ => []
  | n + 1, filePointer =>
    [.boxes (5 * n) (filePointer + 5) true (nestedBoxes n (filePointer + 5))]

/-- A heap in which the opposite direction of the segment 0, from point 3 to point 4 of
the road 0, has been set by `setOppositeDirection` to the segment 1, from point 7 to point
8 of the road 9. -/
def foreignOpposite : SegmentHeap :=
  setOppositeDirection
    { segments := fun p =>
        if p = 1 then
          { segmentStart := 7, segmentEnd := 8, road := 9, segmentStructure := some 0 }
        else { segmentStart := 3, segmentEnd := 4, road := 0, segmentStructure := some 0 },
      count := 2,
      oppositeDirection := fun _ _ => none }
    0 (some 1)

/-! ## Road objects of a routing block -/

/-- Element `v[i]` of a vector at an index of type `int64_t` or `int`, converted to
`size_t`: `none` when the index is out of range. -/
def indexInt {α : Type} (v : List α) (i : Int) : Option α :=
  if 0 ≤ i then v[i.toNat]? else none

/-- Assignment `m[k] = v` on a map kept as the list of its entries: the entry of the key
is replaced, or a new entry is added at the end. -/
def assocAssign {κ β : Type} [DecidableEq κ] (m : List (κ × β)) (k : κ) (v : β) :
    List (κ × β) :=
  match m with
  | [] => [(k, v)]
  | (k1, v1) :: rest => if k1 = k then (k1, v) :: rest else (k1, v1) :: assocAssign rest k v

/-- Lookup of a key in a map kept as the list of its entries. -/
def assocFind {κ β : Type} [DecidableEq κ] (m : List (κ × β)) (k : κ) : Option β :=
  match m with
  | [] => none
  | (k1, v1) :: rest => if k1 = k then some v1 else assocFind rest k

/-- The members of `RestrictionInfo` (declared outside the sources read here) that
`readRouteTreeData` sets. -/
structure RestrictionInfo where
  to_ : Int := 0
  via : Int := 0
  type : Int := 0
deriving DecidableEq

/-- The members of `RouteDataObject` (declared outside the sources read here) that the
readers followed here set; a new object has them zero or empty. `names` is the map from
the name type to the name, kept as the list of its entries. -/
structure RouteDataObject where
  id : Int := 0
  types : List Nat := []
  pointsX : List Nat := []
  pointsY : List Nat := []
  namesIds : List (Nat × Nat) := []
  names : List (Int × String) := []
  restrictions : List RestrictionInfo := []
deriving DecidableEq

/-- Field of a `RouteData` message as `readRouteDataObject` meets it. A field with a
length carries `none` when the read of the length fails, and otherwise the reads of its
loop, each `none` when it fails. The fields `pointNames` and `pointTypes` fill members
that are not followed here and carry whether all their reads succeed. -/
inductive RouteDataField where
  | types (body : Option (List (Option Nat)))
  | routeId (v : Option Int)
  | points (body : Option (List (Option Int)))
  | stringNames (body : Option (List (Option Nat)))
  | pointNames (ok : Bool)
  | pointTypes (ok : Bool)
  | endGroup
  | unknown (skipped : Bool)

/-- Constant `ROUTE_SHIFT_COORDINATES`. -/
def ROUTE_SHIFT_COORDINATES : Nat := 4

/-- Loop of the `types` field of `readRouteDataObject`: `false` when a read fails. -/
def readRouteTypes : List (Option Nat) → RouteDataObject → Bool × RouteDataObject
  | [], obj => (true, obj)
  | none :: _, obj => (false, obj)
  | some t :: rest, obj => readRouteTypes rest { obj with types := obj.types ++ [t] }

/-- Loop of the `points` field of `readRouteDataObject` with the locals `px` and `py`:
two reads for each vertex; `false` when a read fails, which a single value left before the
limit makes the second read do. -/
def readRoutePoints : List (Option Int) → Int → Int → RouteDataObject → Bool × RouteDataObject
  | [], _, _, obj => (true, obj)
  | [_], _, _, obj => (false, obj)
  | none :: _ :: _, _, _, obj => (false, obj)
  | some _ :: none :: _, _, _, obj => (false, obj)
  | some sx :: some sy :: rest, px, py, obj =>
    let x := u32 (i32 (sx + px))
    let y := u32 (i32 (sy + py))
    readRoutePoints rest (i32 x) (i32 y)
      { obj with
        pointsX := obj.pointsX ++ [(x <<< ROUTE_SHIFT_COORDINATES) % 4294967296],
        pointsY := obj.pointsY ++ [(y <<< ROUTE_SHIFT_COORDINATES) % 4294967296] }

/-- Loop of the `stringNames` field of `readRouteDataObject`: two reads for each pair. -/
def readRouteStringNames : List (Option Nat) → RouteDataObject → Bool × RouteDataObject
  | [], obj => (true, obj)
  | [_], obj => (false, obj)
  | none :: _ :: _, obj => (false, obj)
  | some _ :: none :: _, obj => (false, obj)
  | some s :: some t :: rest, obj =>
    readRouteStringNames rest { obj with namesIds := obj.namesIds ++ [(s, t)] }

/-- One field of `readRouteDataObject(input, left, top, obj)`. -/
def readRouteDataObjectField (left top : Nat) :
    RouteDataField → RouteDataObject → Step RouteDataObject (Bool × RouteDataObject)
  | .types none, obj => .done (false, obj)
  | .types (some body), obj =>
    let r := readRouteTypes body obj
    if r.1 then .next r.2 else .done (false, r.2)
  | .routeId none, obj => .done (false, obj)
  | .routeId (some v), obj => .next { obj with id := v }
  | .points none, obj => .done (false, obj)
  | .points (some body), obj =>
    let r := readRoutePoints body (i32 (left >>> ROUTE_SHIFT_COORDINATES))
      (i32 (top >>> ROUTE_SHIFT_COORDINATES)) obj
    if r.1 then .next r.2 else .done (false, r.2)
  | .stringNames none, obj => .done (false, obj)
  | .stringNames (some body), obj =>
    let r := readRouteStringNames body obj
    if r.1 then .next r.2 else .done (false, r.2)
  | .pointNames ok, obj => if ok then .next obj else .done (false, obj)
  | .pointTypes ok, obj => if ok then .next obj else .done (false, obj)
  | .endGroup, obj => .done (true, obj)
  | .unknown skipped, obj => if skipped then .next obj else .done (false, obj)

/-- Reader `readRouteDataObject(input, left, top, obj)`: the value returned and the
object afterwards. -/
def readRouteDataObject (left top : Nat) :
    List RouteDataField → RouteDataObject → Bool × RouteDataObject
  | [], obj => (true, obj)
  | f :: rest, obj =>
    match readRouteDataObjectField left top f obj with
    | .next obj1 => readRouteDataObject left top rest obj1
    | .done r => r

/-- The reads of a `points` field that holds the delta pairs given. -/
def deltaReads : List (Int × Int) → List (Option Int)
  | [] => []
  | d :: rest => some d.1 :: some d.2 :: deltaReads rest

/-- Field of a `StringTable` message as `readStringTable` meets it; the result of
`ReadString` is not tested, so the field carries the string left in `s`. -/
inductive StringTableField where
  | s (v : String)
  | endGroup
  | unknown (skipped : Bool)

/-- Reader `readStringTable(input, list)`: the value returned and the list afterwards. -/
def readStringTable : List StringTableField → List String → Bool × List String
  | [], list => (true, list)
  | .s v :: rest, list => readStringTable rest (list ++ [v])
  | .endGroup :: _, list => (false, list)
  | .unknown skipped :: rest, list =>
    if skipped then readStringTable rest list else (false, list)

/-- Field of a `RestrictionData` message as `readRouteTreeData` meets it. -/
inductive RestrictionDataField where
  | from_ (v : Option Int)
  | to_ (v : Option Int)
  | via (v : Option Int)
  | type (v : Option Int)
  | endGroup
  | unknown (skipped : Bool)

/-- Loop of the `restrictions` field of `readRouteTreeData` with the locals `from` and
`info`: the locals when the loop ends at the tag 0, or the value with which
`readRouteTreeData` returns from inside the loop. -/
def readRestrictionData :
    List RestrictionDataField → Int → RestrictionInfo → Step (Int × RestrictionInfo) Bool
  | [], from_, info => .next (from_, info)
  | .from_ none :: _, _, _ => .done false
  | .from_ (some tm) :: rest, _, info => readRestrictionData rest tm info
  | .to_ none :: _, _, _ => .done false
  | .to_ (some tm) :: rest, from_, info =>
    readRestrictionData rest from_ { info with to_ := tm }
  | .via none :: _, _, _ => .done false
  | .via (some tm) :: rest, from_, info =>
    readRestrictionData rest from_ { info with via := tm }
  | .type none :: _, _, _ => .done false
  | .type (some tm) :: rest, from_, info =>
    readRestrictionData rest from_ { info with type := tm }
  | .endGroup :: _, _, _ => .done true
  | .unknown skipped :: rest, from_, info =>
    if skipped then readRestrictionData rest from_ info else .done false

/-- Field of an `IdTable` message as `readRouteTreeData` meets it: the delta, decoded
from its zigzag form by the read. -/
inductive IdTableField where
  | routeId (val : Option Int)
  | endGroup
  | unknown (skipped : Bool)

/-- Loop of the `idTable` field of `readRouteTreeData` with the local `routeId`: the table
when the loop ends at the tag 0, or the value with which `readRouteTreeData` returns from
inside the loop. -/
def readIdTable : List IdTableField → Int → List Int → Step (List Int) Bool
  | [], _, idTables => .next idTables
  | .routeId none :: _, _, _ => .done false
  | .routeId (some val) :: rest, routeId, idTables =>
    readIdTable rest (i64 (routeId + val)) (idTables ++ [i64 (routeId + val)])
  | .endGroup :: _, _, _ => .done true
  | .unknown skipped :: rest, routeId, idTables =>
    if skipped then readIdTable rest routeId idTables else .done false

/-- Field of a `RouteDataBlock` message as `readRouteTreeData` meets it. Each field
carries whether the read of its length succeeds, and its own fields; a `restrictions`
field also carries the values that the locals `from` and `info`, which are not
initialised, hold when the loop starts. -/
inductive RouteDataBlockField where
  | dataObjects (ok : Bool) (fields : List RouteDataField)
  | stringTable (ok : Bool) (fields : List StringTableField)
  | restrictions (ok : Bool) (from0 : Int) (info0 : RestrictionInfo)
      (fields : List RestrictionDataField)
  | idTable (ok : Bool) (fields : List IdTableField)
  | endGroup
  | unknown (skipped : Bool)

/-- Locals of `readRouteTreeData` and the vector `dataObjects`, whose null pointers are
`none`. `restrictions` is the map from the `from` index to the restrictions, kept as the
list of its entries in the order in which the keys came. -/
structure RouteTreeData where
  dataObjects : List (Option RouteDataObject) := []
  idTables : List Int := []
  restrictions : List (Int × List RestrictionInfo) := []
  stringTable : List String := []

/-- Call `v.resize(n, NULL)`. -/
def resizeNull {α : Type} (v : List (Option α)) (n : Nat) : List (Option α) :=
  v.take n ++ List.replicate (n - v.length) none

/-- Statement `restrictions[from].push_back(info)`. -/
def pushRestriction (m : List (Int × List RestrictionInfo)) (key : Int)
    (info : RestrictionInfo) : List (Int × List RestrictionInfo) :=
  assocAssign m key ((assocFind m key).getD [] ++ [info])

/-- One field of the reading loop of `readRouteTreeData(input, s, dataObjects,
routingIndex)` for a subregion with the corner `(left, top)`. The outer `none` stands for
an index out of range in `dataObjects[obj->id] = obj`; `.done` is a return from inside
the loop, with the value returned and the locals at that point. -/
def readRouteTreeDataField (left top : Nat) :
    RouteDataBlockField → RouteTreeData → Option (Step RouteTreeData (Bool × RouteTreeData))
  | .dataObjects ok fields, st =>
    if ok then
      let obj := (readRouteDataObject left top fields {}).2
      let dataObjects1 :=
        if (u32 st.dataObjects.length : Int) ≤ obj.id then
          resizeNull st.dataObjects (u32 ((u32 obj.id : Int) + 1))
        else st.dataObjects
      if 0 ≤ obj.id ∧ obj.id.toNat < dataObjects1.length then
        some (.next { st with dataObjects := dataObjects1.set obj.id.toNat (some obj) })
      else none
    else some (.done (false, st))
  | .stringTable ok fields, st =>
    if ok then
      some (.next { st with stringTable := (readStringTable fields st.stringTable).2 })
    else some (.done (false, st))
  | .restrictions ok from0 info0 fields, st =>
    if ok then
      match readRestrictionData fields from0 info0 with
      | .next (from_, info) =>
        some (.next { st with restrictions := pushRestriction st.restrictions from_ info })
      | .done b => some (.done (b, st))
    else some (.done (false, st))
  | .idTable ok fields, st =>
    if ok then
      match readIdTable fields 0 st.idTables with
      | .next idTables => some (.next { st with idTables := idTables })
      | .done b => some (.done (b, st))
    else some (.done (false, st))
  | .endGroup, st => some (.done (true, st))
  | .unknown skipped, st => if skipped then some (.next st) else some (.done (false, st))

/-- Reading loop of `readRouteTreeData`: the locals when the loop ends at the tag 0
(`.next`), or the value returned from inside the loop and the locals at that point
(`.done`). -/
def readRouteTreeDataLoop (left top : Nat) :
    List RouteDataBlockField → RouteTreeData →
      Option (Step RouteTreeData (Bool × RouteTreeData))
  | [], st => some (.next st)
  | f :: rest, st =>
    match readRouteTreeDataField left top f st with
    | none => none
    | some (.next st1) => readRouteTreeDataLoop left top rest st1
    | some (.done r) => some (.done r)

/-- Loop over the restrictions of one road: `to` becomes `idTables[to]`, and `via`, when
it is not 0, `idTables[via]`; `none` when an index is out of range. -/
def finalizeRestrictionInfos (idTables : List Int) :
    List RestrictionInfo → Option (List RestrictionInfo)
  | [] => some []
  | info :: rest =>
    match indexInt idTables info.to_ with
    | none => none
    | some to1 =>
      match (if info.via ≠ 0 then indexInt idTables info.via else some info.via) with
      | none => none
      | some via1 =>
        match finalizeRestrictionInfos idTables rest with
        | none => none
        | some rest1 => some ({ info with to_ := to1, via := via1 } :: rest1)

/-- Loop over the map `restrictions` after the reading loop: `fromr =
dataObjects[itRestrictions->first]`, and when it is not null its restrictions are set and
rewritten. `none` when an index is out of range. -/
def finalizeRestrictions (idTables : List Int) :
    List (Int × List RestrictionInfo) → List (Option RouteDataObject) →
      Option (List (Option RouteDataObject))
  | [], dataObjects => some dataObjects
  | (key, infos) :: rest, dataObjects =>
    match indexInt dataObjects key with
    | none => none
    | some none => finalizeRestrictions idTables rest dataObjects
    | some (some fromr) =>
      match finalizeRestrictionInfos idTables infos with
      | none => none
      | some infos1 =>
        finalizeRestrictions idTables rest
          (dataObjects.set key.toNat (some { fromr with restrictions := infos1 }))

/-- Loop over `namesIds` of one road: a string id below the size of the string table sets
the name of the type, another one is logged and left out. -/
def resolveNames (stringTable : List String) :
    List (Nat × Nat) → List (Int × String) → List (Int × String)
  | [], names => names
  | (first, second) :: rest, names =>
    if second ≥ stringTable.length then resolveNames stringTable rest names
    else
      resolveNames stringTable rest
        (assocAssign names (i32 first) (stringTable.getD second ""))

/-- Body of the loop over `dataObjects` after the reading loop, for an object that is not
null: the id is rewritten under the test `(uint)id < idTables.size()` and the names are
resolved. The point names, which are not followed here, are resolved under the same test
as the names. `none` when `idTables[id]` is out of range. -/
def finalizeObject (idTables : List Int) (stringTable : List String)
    (obj : RouteDataObject) : Option RouteDataObject :=
  match (if u32 obj.id < idTables.length then indexInt idTables obj.id else some obj.id) with
  | none => none
  | some id1 =>
    some { obj with id := id1, names := resolveNames stringTable obj.namesIds obj.names }

/-- Loop over `dataObjects` after the reading loop. -/
def finalizeObjects (idTables : List Int) (stringTable : List String) :
    List (Option RouteDataObject) → Option (List (Option RouteDataObject))
  | [] => some []
  | none :: rest =>
    match finalizeObjects idTables stringTable rest with
    | none => none
    | some rest1 => some (none :: rest1)
  | some obj :: rest =>
    match finalizeObject idTables stringTable obj with
    | none => none
    | some obj1 =>
      match finalizeObjects idTables stringTable rest with
      | none => none
      | some rest1 => some (some obj1 :: rest1)

/-- Reader `readRouteTreeData(input, s, dataObjects, routingIndex)` for a subregion with
the corner `(left, top)`: the value returned and `dataObjects` afterwards, `none` when an
index is out of range. A return from inside the reading loop leaves out the loops after
it. -/
def readRouteTreeData (left top : Nat) (fields : List RouteDataBlockField)
    (dataObjects : List (Option RouteDataObject)) :
    Option (Bool × List (Option RouteDataObject)) :=
  match readRouteTreeDataLoop left top fields { dataObjects := dataObjects } with
  | none => none
  | some (.done r) => some (r.1, r.2.dataObjects)
  | some (.next st) =>
    match finalizeRestrictions st.idTables st.restrictions st.dataObjects with
    | none => none
    | some dataObjects1 =>
      match finalizeObjects st.idTables st.stringTable dataObjects1 with
      | none => none
      | some dataObjects2 => some (true, dataObjects2)

/-- A block with the roads 0 and 1, the id table 100, 105 and one restriction from the
road `from_` to the road `to_`. -/
def restrictionBlock (from_ to_ : Int) : List RouteDataBlockField :=
  [.dataObjects true [.routeId (some 0)], .dataObjects true [.routeId (some 1)],
    .idTable true [.routeId (some 100), .routeId (some 5)],
    .restrictions true 0 {} [.from_ (some from_), .to_ (some to_), .type (some 2)]]

/-- The fields of an `IdTable` message that holds the deltas given. -/
def idTableOf (vals : List Int) : List IdTableField :=
  vals.map (fun val => .routeId (some val))

/-! ## Names of the objects of a map block -/

/-- Field of a `MapDataBlock` message as `readMapDataBlocks` meets it. The read of
`baseId` is not tested, so the field carries the value left in the variable; a
`dataObjects` field carries whether the read of its length succeeds and what
`readMapDataObject` returns, `none` for `NULL`; a `stringTable` field carries whether the
read of its length succeeds and the fields of the table. -/
inductive MapDataBlockField where
  | baseId (v : Nat)
  | stringTable (ok : Bool) (fields : List StringTableField)
  | dataObjects (ok : Bool) (mapObject : Option MapDataObject)
  | endGroup
  | unknown (skipped : Bool)

/-- Loop `while (val != (*obj)->stringIds.end())` of `readMapDataBlocks` over the string
ids of one object: `objectNames[val->first] = stringTable[val->second]`, with `none` when
the index is out of range. -/
def resolveObjectNames (stringTable : List String) :
    List (String × Nat) → List (String × String) → Option (List (String × String))
  | [], objectNames => some objectNames
  | (first, second) :: rest, objectNames =>
    match stringTable[second]? with
    | none => none
    | some name => resolveObjectNames stringTable rest (assocAssign objectNames first name)

/-- Loop of `readMapDataBlocks` over `results` once the string table is read. -/
def resolveResults (stringTable : List String) :
    List MapDataObject → Option (List MapDataObject)
  | [] => some []
  | obj :: rest =>
    match resolveObjectNames stringTable obj.stringIds obj.objectNames with
    | none => none
    | some objectNames =>
      match resolveResults stringTable rest with
      | none => none
      | some rest1 => some ({ obj with objectNames := objectNames } :: rest1)

/-- Locals of `readMapDataBlocks` and the publisher of the query. The objects of
`results` are the objects handed to the publisher: `results` holds them as they are at
this point of the loop. -/
structure MapDataBlocks where
  baseId : Nat := 0
  results : List MapDataObject := []
  publisher : ResultPublisher := {}

/-- One field of `readMapDataBlocks(input, req, tree, root)`, after the test of
`req->isCancelled()`. The outer `none` stands for an index out of range in
`stringTable[val->second]`; `req->publish(mapObject, root, req->zoom)` hands the object
with the zoom to `ResultPublisher::publish`. -/
def readMapDataBlocksField (zoom : Int) :
    MapDataBlockField → MapDataBlocks → Option (Step MapDataBlocks (Bool × MapDataBlocks))
  | .baseId v, st => some (.next { st with baseId := v })
  | .stringTable ok fields, st =>
    if ok then
      if st.results.length > 0 then
        match resolveResults (readStringTable fields []).2 st.results with
        | none => none
        | some results => some (.next { st with results := results })
      else some (.next st)
    else some (.done (false, st))
  | .dataObjects ok mapObject, st =>
    if ok then
      match mapObject with
      | none => some (.next st)
      | some o =>
        let o1 : MapDataObject := { o with id := i64 (o.id + st.baseId) }
        let r := publish st.publisher { obj := o1, zoom := zoom }
        if r.1 then some (.next { st with results := st.results ++ [o1], publisher := r.2 })
        else some (.next { st with publisher := r.2 })
    else some (.done (false, st))
  | .endGroup, st => some (.done (true, st))
  | .unknown skipped, st => if skipped then some (.next st) else some (.done (false, st))

/-- Loop of `readMapDataBlocks`. -/
def readMapDataBlocksLoop (req : SearchQuery) (zoom : Int) :
    List MapDataBlockField → MapDataBlocks → Option (Bool × MapDataBlocks)
  | [], st => some (true, st)
  | f :: rest, st =>
    if req.cancelled then some (false, st)
    else
      match readMapDataBlocksField zoom f st with
      | none => none
      | some (.next st1) => readMapDataBlocksLoop req zoom rest st1
      | some (.done r) => some r

/-- Reader `readMapDataBlocks(input, req, tree, root)` for a query at the zoom `zoom`
with the publisher given: the value returned, the objects accepted and the publisher
afterwards; `none` when a string id is out of the range of the string table. -/
def readMapDataBlocks (req : SearchQuery) (zoom : Int) (publisher : ResultPublisher)
    (fields : List MapDataBlockField) :
    Option (Bool × List MapDataObject × ResultPublisher) :=
  match readMapDataBlocksLoop req zoom fields { publisher := publisher } with
  | none => none
  | some r => some (r.1, r.2.results, r.2.publisher)

/-- A block with one object that has the name ids 0 and `id`, followed by a string table
of two strings. -/
def namedBlock (id : Nat) : List MapDataBlockField :=
  [.dataObjects true (some { id := 10, stringIds := [("name", 0), ("ref", id)] }),
    .stringTable true [.s "Main Street", .s "A1"]]

/-! ## Properties of the scan -/

/-- Effect of one field on the members the properties below depend on: only a
`versionConfirm` field changes the local, only a `version` field changes the version, and
the name and the flags set by `initBinaryMapFile` are kept. -/
theorem initMapStructureField_effect (useLive initRoutingOnly : Bool) (s s2 : ScanState)
    (f : StructureField)
    (hf : initMapStructureField useLive initRoutingOnly s f = some s2) :
    s2.versionConfirm =
      (match f with
        | .versionConfirm (some v) => v % 4294967296
        | _ => s.versionConfirm) ∧
    s2.file.version =
      (match f with
        | .version (some v) => v % 4294967296
        | _ => s.file.version) ∧
    s2.file.inputName = s.file.inputName ∧ s2.file.liveMap = s.file.liveMap ∧
    s2.file.roadOnly = s.file.roadOnly := by
  cases f with
  | version v =>
    cases v with
    | none => simp [initMapStructureField] at hf
    | some v =>
      simp only [initMapStructureField, Option.some.injEq] at hf
      subst hf
      simp
  | dateCreated v =>
    cases v with
    | none => simp [initMapStructureField] at hf
    | some v =>
      simp only [initMapStructureField, Option.some.injEq] at hf
      subst hf
      simp
  | mapIndex l p b =>
    simp only [initMapStructureField, Option.some.injEq] at hf
    subst hf
    simp
  | routingIndex l p b =>
    simp only [initMapStructureField] at hf
    split at hf <;> (simp only [Option.some.injEq] at hf; subst hf; simp)
  | transportIndex l p b =>
    simp only [initMapStructureField, Option.some.injEq] at hf
    subst hf
    simp
  | hhRoutingIndex l p b =>
    simp only [initMapStructureField] at hf
    split at hf <;> (simp only [Option.some.injEq] at hf; subst hf; simp)
  | versionConfirm v =>
    cases v with
    | none => simp [initMapStructureField] at hf
    | some v =>
      simp only [initMapStructureField, Option.some.injEq] at hf
      subst hf
      simp
  | endGroup =>
    simp only [initMapStructureField, Option.some.injEq] at hf
    subst hf
    simp
  | unknown sk =>
    cases sk with
    | false => simp [initMapStructureField] at hf
    | true =>
      simp only [initMapStructureField, if_true, Option.some.injEq] at hf
      subst hf
      simp

/-- On a completed loop the local `versionConfirm` is the trailer of the stream (or the
value it had on entry when the stream has no trailer), the version of the file is the
version the stream declares, and the name and the flags of the file are kept. -/
theorem initMapStructureLoop_versions (useLive initRoutingOnly : Bool) :
    ∀ (input : List StructureField) (s s1 : ScanState),
      initMapStructureLoop useLive initRoutingOnly input s = some s1 →
      s1.versionConfirm = (trailerVersionConfirm input).getD s.versionConfirm ∧
      s1.file.version = headerVersion s.file.version input ∧
      s1.file.inputName = s.file.inputName ∧ s1.file.liveMap = s.file.liveMap ∧
      s1.file.roadOnly = s.file.roadOnly := by
  intro input
  induction input with
  | nil =>
    intro s s1 h
    simp only [initMapStructureLoop, Option.some.injEq] at h
    subst h
    simp [trailerVersionConfirm, headerVersion]
  | cons f rest ih =>
    intro s s1 h
    simp only [initMapStructureLoop] at h
    cases hf : initMapStructureField useLive initRoutingOnly s f with
    | none => simp [hf] at h
    | some s2 =>
      simp only [hf] at h
      obtain ⟨h1, h2, h3, h4, h5⟩ := ih s2 s1 h
      obtain ⟨k1, k2, k3, k4, k5⟩ :=
        initMapStructureField_effect useLive initRoutingOnly s s2 f hf
      refine ⟨?_, ?_, h3.trans k3, h4.trans k4, h5.trans k5⟩
      · rw [h1]
        simp only [trailerVersionConfirm]
        cases hr : trailerVersionConfirm rest with
        | some c => simp
        | none =>
          simp only [Option.getD_none]
          rw [k1]
          cases f with
          | versionConfirm v => cases v <;> simp
          | _ => simp
      · rw [h2, k2]
        cases f with
        | version v => cases v <;> simp [headerVersion]
        | _ => simp [headerVersion]

/-- A stream without any `versionConfirm` field has no trailer. -/
theorem trailerVersionConfirm_eq_none :
    ∀ (input : List StructureField), (∀ v, StructureField.versionConfirm v ∉ input) →
      trailerVersionConfirm input = none := by
  intro input
  induction input with
  | nil => intro _; rfl
  | cons f rest ih =>
    intro h
    have hrest : trailerVersionConfirm rest = none :=
      ih (fun v hv => h v (List.mem_cons_of_mem _ hv))
    simp only [trailerVersionConfirm, hrest]
    cases f with
    | versionConfirm v => exact absurd (List.mem_cons_self _ _) (h v)
    | _ => rfl

/-- What a successful scan has checked: the version of the returned file is the version
the stream declares, equals the local `versionConfirm` at the end of the loop, and equals
`MAP_VERSION`. -/
theorem initMapStructure_some (MAP_VERSION : Nat) (input : List StructureField)
    (file : BinaryMapFile) (useLive initRoutingOnly : Bool) (f : BinaryMapFile)
    (h : initMapStructure MAP_VERSION input file useLive initRoutingOnly = some f) :
    f.version = headerVersion file.version input ∧
    f.version = (trailerVersionConfirm input).getD 4294967294 ∧
    f.version = MAP_VERSION ∧
    f.inputName = file.inputName ∧ f.liveMap = file.liveMap ∧
    f.roadOnly = file.roadOnly := by
  unfold initMapStructure at h
  simp only at h
  cases hl : initMapStructureLoop useLive initRoutingOnly input
      { file := { file with external := strFind file.inputName "osmand_ext" },
        versionConfirm := 4294967294 } with
  | none => simp [hl] at h
  | some s =>
    simp only [hl] at h
    obtain ⟨h1, h2, h3, h4, h5⟩ :=
      initMapStructureLoop_versions useLive initRoutingOnly input _ s hl
    simp only at h1 h2 h3 h4 h5
    split at h
    · simp at h
    · split at h
      · simp at h
      · simp only [Option.some.injEq] at h
        subst h
        rename_i hv hm
        simp only [ne_eq, not_not] at hv hm
        exact ⟨h2, hv.trans h1, hm, h3, h4, h5⟩

/-- C1: if `initMapStructure` returns success, the version of the file equals the
`versionConfirm` value read from the trailer of the stream and equals `MAP_VERSION`; and
whenever a trailer is present and differs from the version the stream declares,
`initMapStructure` returns failure. (`MAP_VERSION`, a parameter, is not the initial value
`(uint32_t)-2` of the local `versionConfirm`.) -/
theorem initMapStructure_version_trailer (MAP_VERSION : Nat) (hMV : MAP_VERSION ≠ 4294967294)
    (input : List StructureField) (file : BinaryMapFile) (useLive initRoutingOnly : Bool) :
    (∀ f, initMapStructure MAP_VERSION input file useLive initRoutingOnly = some f →
      f.version = headerVersion file.version input ∧
      trailerVersionConfirm input = some f.version ∧
      f.version = MAP_VERSION) ∧
    (∀ c, trailerVersionConfirm input = some c → c ≠ headerVersion file.version input →
      initMapStructure MAP_VERSION input file useLive initRoutingOnly = none) := by
  constructor
  · intro f h
    obtain ⟨h1, h2, h3, _⟩ :=
      initMapStructure_some MAP_VERSION input file useLive initRoutingOnly f h
    refine ⟨h1, ?_, h3⟩
    cases ht : trailerVersionConfirm input with
    | none =>
      rw [ht] at h2
      simp only [Option.getD_none] at h2
      exact absurd (h3.symm.trans h2) hMV
    | some c =>
      rw [ht] at h2
      simp only [Option.getD_some] at h2
      rw [h2]
  · intro c hc hne
    cases hr : initMapStructure MAP_VERSION input file useLive initRoutingOnly with
    | none => rfl
    | some f =>
      obtain ⟨h1, h2, _⟩ :=
        initMapStructure_some MAP_VERSION input file useLive initRoutingOnly f hr
      rw [hc] at h2
      simp only [Option.getD_some] at h2
      exact absurd (h2.symm.trans h1) hne

/-- Witness for C1: with `MAP_VERSION = 2`, the stream `version 2, versionConfirm 2` is
accepted and the statement applies to it. -/
theorem initMapStructure_version_trailer_witness :
    (2 : Nat) ≠ 4294967294 ∧
    (initMapStructure 2 [.version (some 2), .versionConfirm (some 2)] {} false false).isSome
      = true ∧
    ((∀ f, initMapStructure 2 [.version (some 2), .versionConfirm (some 2)] {} false false
        = some f →
      f.version = headerVersion ({} : BinaryMapFile).version
        [.version (some 2), .versionConfirm (some 2)] ∧
      trailerVersionConfirm [.version (some 2), .versionConfirm (some 2)] = some f.version ∧
      f.version = 2) ∧
    (∀ c, trailerVersionConfirm [.version (some 2), .versionConfirm (some 2)] = some c →
      c ≠ headerVersion ({} : BinaryMapFile).version
        [.version (some 2), .versionConfirm (some 2)] →
      initMapStructure 2 [.version (some 2), .versionConfirm (some 2)] {} false false
        = none)) :=
  ⟨by decide, by decide,
    initMapStructure_version_trailer 2 (by decide)
      [.version (some 2), .versionConfirm (some 2)] {} false false⟩

/-- C2: for a stream that contains no `versionConfirm` field, whatever its version field
holds, `initMapStructure` returns failure. (`MAP_VERSION`, a parameter, is not the
initial value `(uint32_t)-2` of the local `versionConfirm`.) -/
theorem initMapStructure_no_trailer (MAP_VERSION : Nat) (hMV : MAP_VERSION ≠ 4294967294)
    (input : List StructureField) (file : BinaryMapFile) (useLive initRoutingOnly : Bool)
    (hNo : ∀ v, StructureField.versionConfirm v ∉ input) :
    initMapStructure MAP_VERSION input file useLive initRoutingOnly = none := by
  cases hr : initMapStructure MAP_VERSION input file useLive initRoutingOnly with
  | none => rfl
  | some f =>
    obtain ⟨_, h2, h3, _⟩ :=
      initMapStructure_some MAP_VERSION input file useLive initRoutingOnly f hr
    rw [trailerVersionConfirm_eq_none input hNo] at h2
    simp only [Option.getD_none] at h2
    exact absurd (h3.symm.trans h2) hMV

/-- Witness for C2: with `MAP_VERSION = 2`, the stream holding only `version 2` is
rejected, and so is the stream holding only `version 4294967294`. -/
theorem initMapStructure_no_trailer_witness :
    (2 : Nat) ≠ 4294967294 ∧
    (∀ v, StructureField.versionConfirm v ∉ [StructureField.version (some 4294967294)]) ∧
    initMapStructure 2 [.version (some 4294967294)] {} false false = none :=
  ⟨by decide, (by simp),
    initMapStructure_no_trailer 2 (by decide) [.version (some 4294967294)] {} false false
      (by simp)⟩

/-! ## Properties of the registry -/

/-- The two ways the loop of `closeBinaryMapFile` ends: no entry has the name and the
list is returned as it is, or the list splits at the first entry with the name and that
entry alone is left out. -/
theorem closeBinaryMapFileLoop_cases (inputName : String) :
    ∀ files : List BinaryMapFile,
      ((∀ x ∈ files, x.inputName ≠ inputName) ∧
        closeBinaryMapFileLoop inputName files = (false, files)) ∨
      (∃ before f after, files = before ++ f :: after ∧ f.inputName = inputName ∧
        (∀ x ∈ before, x.inputName ≠ inputName) ∧
        closeBinaryMapFileLoop inputName files = (true, before ++ after)) := by
  intro files
  induction files with
  | nil => left; exact ⟨by simp, rfl⟩
  | cons f rest ih =>
    by_cases hf : f.inputName = inputName
    · right
      refine ⟨[], f, rest, rfl, hf, by simp, ?_⟩
      simp [closeBinaryMapFileLoop, hf]
    · have hb : (f.inputName == inputName) = false := by simpa using hf
      rcases ih with ⟨hall, hloop⟩ | ⟨before, x, after, hsplit, hx, hbefore, hloop⟩
      · left
        refine ⟨?_, ?_⟩
        · intro y hy
          rcases List.mem_cons.mp hy with rfl | hy
          · exact hf
          · exact hall y hy
        · simp [closeBinaryMapFileLoop, hb, hloop]
      · right
        refine ⟨f :: before, x, after, by simp [hsplit], hx, ?_, ?_⟩
        · intro y hy
          rcases List.mem_cons.mp hy with rfl | hy
          · exact hf
          · exact hbefore y hy
        · simp [closeBinaryMapFileLoop, hb, hloop]

/-- C6: `closeBinaryMapFile(path)` returns true iff some registry entry has `inputName`
equal to `path`; when it returns true it removes exactly the first such entry and keeps
all other entries in their previous order; when it returns false the registry (and
every other global) is unchanged. -/
theorem closeBinaryMapFile_first_entry (inputName : String) (g : Globals) :
    ((closeBinaryMapFile inputName g).1 = true ↔
      ∃ f ∈ g.openFiles, f.inputName = inputName) ∧
    ((closeBinaryMapFile inputName g).1 = true →
      ∃ before f after, g.openFiles = before ++ f :: after ∧ f.inputName = inputName ∧
        (∀ x ∈ before, x.inputName ≠ inputName) ∧
        (closeBinaryMapFile inputName g).2.openFiles = before ++ after) ∧
    ((closeBinaryMapFile inputName g).1 = false → (closeBinaryMapFile inputName g).2 = g) ∧
    (closeBinaryMapFile inputName g).2.cache = g.cache ∧
    (closeBinaryMapFile inputName g).2.cacheHasChanged = g.cacheHasChanged := by
  simp only [closeBinaryMapFile]
  rcases closeBinaryMapFileLoop_cases inputName g.openFiles with
    ⟨hall, hloop⟩ | ⟨before, x, after, hsplit, hx, hbefore, hloop⟩
  · rw [hloop]
    refine ⟨?_, by simp, ?_, by trivial, by trivial⟩
    · constructor
      · intro h; simp at h
      · rintro ⟨f, hf, hn⟩; exact absurd hn (hall f hf)
    · intro _
      cases g
      rfl
  · rw [hloop]
    refine ⟨?_, ?_, by simp, by trivial, by trivial⟩
    · constructor
      · intro _
        exact ⟨x, by simp [hsplit], hx⟩
      · intro _; rfl
    · intro _
      exact ⟨before, x, after, hsplit, hx, hbefore, rfl⟩


/-- The loop over the map records keeps the name, live flag and version of the file. -/
theorem addMapIndexesFromCache_frame :
    ∀ (parts : List OBF.MapPart) (mapFile : BinaryMapFile),
      (addMapIndexesFromCache mapFile parts).inputName = mapFile.inputName ∧
      (addMapIndexesFromCache mapFile parts).liveMap = mapFile.liveMap ∧
      (addMapIndexesFromCache mapFile parts).version = mapFile.version := by
  intro parts
  induction parts with
  | nil => intro mapFile; exact ⟨rfl, rfl, rfl⟩
  | cons mp rest ih =>
    intro mapFile
    simp only [addMapIndexesFromCache]
    exact ih _

/-- The loop over the transport records keeps the name, live flag and version of the
file. -/
theorem addTransportIndexesFromCache_frame :
    ∀ (parts : List OBF.TransportPart) (mapFile : BinaryMapFile),
      (addTransportIndexesFromCache mapFile parts).inputName = mapFile.inputName ∧
      (addTransportIndexesFromCache mapFile parts).liveMap = mapFile.liveMap ∧
      (addTransportIndexesFromCache mapFile parts).version = mapFile.version := by
  intro parts
  induction parts with
  | nil => intro mapFile; exact ⟨rfl, rfl, rfl⟩
  | cons mp rest ih =>
    intro mapFile
    simp only [addTransportIndexesFromCache]
    exact ih _

/-- The loop over the routing records keeps the name, live flag and version of the
file. -/
theorem addRoutingIndexesFromCache_frame :
    ∀ (parts : List OBF.RoutingPart) (mapFile : BinaryMapFile),
      (addRoutingIndexesFromCache mapFile parts).inputName = mapFile.inputName ∧
      (addRoutingIndexesFromCache mapFile parts).liveMap = mapFile.liveMap ∧
      (addRoutingIndexesFromCache mapFile parts).version = mapFile.version := by
  intro parts
  induction parts with
  | nil => intro mapFile; exact ⟨rfl, rfl, rfl⟩
  | cons mp rest ih =>
    intro mapFile
    simp only [addRoutingIndexesFromCache]
    exact ih _

/-- The loop over the HH records keeps the name, live flag and version of the
file. -/
theorem addHHIndexesFromCache_frame :
    ∀ (parts : List OBF.HHRoutingPart) (mapFile : BinaryMapFile),
      (addHHIndexesFromCache mapFile parts).inputName = mapFile.inputName ∧
      (addHHIndexesFromCache mapFile parts).liveMap = mapFile.liveMap ∧
      (addHHIndexesFromCache mapFile parts).version = mapFile.version := by
  intro parts
  induction parts with
  | nil => intro mapFile; exact ⟨rfl, rfl, rfl⟩
  | cons mp rest ih =>
    intro mapFile
    simp only [addHHIndexesFromCache]
    exact ih _

/-- A file hydrated from a manifest entry keeps its name and live flag and takes the
version recorded in the entry. -/
theorem initFromFileIndex_frame (fo : OBF.FileIndex) (mapFile : BinaryMapFile)
    (useLive routingOnly : Bool) :
    (initFromFileIndex fo mapFile useLive routingOnly).inputName = mapFile.inputName ∧
    (initFromFileIndex fo mapFile useLive routingOnly).liveMap = mapFile.liveMap ∧
    (initFromFileIndex fo mapFile useLive routingOnly).version = fo.version := by
  cases routingOnly <;> cases hl : mapFile.liveMap <;> cases useLive <;>
    simp [initFromFileIndex, hl, addMapIndexesFromCache_frame,
      addTransportIndexesFromCache_frame, addRoutingIndexesFromCache_frame,
      addHHIndexesFromCache_frame]

/-- The two branches of `initBinaryMapFile`, after the initial `closeBinaryMapFile`: the
manifest entry found for the path decides between hydration and scan. -/
theorem initBinaryMapFile_eq (MAP_VERSION : Nat) (env : Env) (inputName : String)
    (useLive routingOnly : Bool) (g : Globals) :
    initBinaryMapFile MAP_VERSION env inputName useLive routingOnly g =
      match lookupCache env inputName g with
      | some fo =>
        (some (initFromFileIndex fo (newMapFile inputName) useLive routingOnly),
          { (closeBinaryMapFile inputName g).2 with
            openFiles := (closeBinaryMapFile inputName g).2.openFiles ++
              [initFromFileIndex fo (newMapFile inputName) useLive routingOnly] })
      | none =>
        match initMapStructure MAP_VERSION (env.content inputName) (newMapFile inputName)
            useLive routingOnly with
        | none => (none, (closeBinaryMapFile inputName g).2)
        | some mapFile1 =>
          (some mapFile1,
            { (closeBinaryMapFile inputName g).2 with
              openFiles := (closeBinaryMapFile inputName g).2.openFiles ++ [mapFile1] }) := by
  rfl

/-- A successful `initBinaryMapFile` returns a file named by the path and appends it to
the registry left by `closeBinaryMapFile`; a failed one leaves the globals as
`closeBinaryMapFile` left them. -/
theorem initBinaryMapFile_result (MAP_VERSION : Nat) (env : Env) (inputName : String)
    (useLive routingOnly : Bool) (g : Globals) :
    (∀ f, (initBinaryMapFile MAP_VERSION env inputName useLive routingOnly g).1 = some f →
      f.inputName = inputName ∧
      (initBinaryMapFile MAP_VERSION env inputName useLive routingOnly g).2 =
        { (closeBinaryMapFile inputName g).2 with
          openFiles := (closeBinaryMapFile inputName g).2.openFiles ++ [f] }) ∧
    ((initBinaryMapFile MAP_VERSION env inputName useLive routingOnly g).1 = none →
      (initBinaryMapFile MAP_VERSION env inputName useLive routingOnly g).2 =
        (closeBinaryMapFile inputName g).2) := by
  rw [initBinaryMapFile_eq]
  cases hl : lookupCache env inputName g with
  | some fo =>
    simp only
    refine ⟨?_, by simp⟩
    intro f hf
    simp only [Option.some.injEq] at hf
    subst hf
    exact ⟨(initFromFileIndex_frame fo _ useLive routingOnly).1, rfl⟩
  | none =>
    simp only
    cases hs : initMapStructure MAP_VERSION (env.content inputName) (newMapFile inputName)
        useLive routingOnly with
    | none => simp
    | some f1 =>
      simp only
      refine ⟨?_, by simp⟩
      intro f hf
      simp only [Option.some.injEq] at hf
      subst hf
      exact ⟨(initMapStructure_some _ _ _ _ _ _ hs).2.2.2.1, rfl⟩


/-- When the names in the registry are pairwise distinct, `closeBinaryMapFile` keeps them
so and leaves no entry with the closed name. -/
theorem closeBinaryMapFile_nodup (inputName : String) (g : Globals)
    (h : (g.openFiles.map (fun f => f.inputName)).Nodup) :
    ((closeBinaryMapFile inputName g).2.openFiles.map (fun f => f.inputName)).Nodup ∧
    ∀ x ∈ (closeBinaryMapFile inputName g).2.openFiles, x.inputName ≠ inputName := by
  simp only [closeBinaryMapFile]
  rcases closeBinaryMapFileLoop_cases inputName g.openFiles with
    ⟨hall, hloop⟩ | ⟨before, x, after, hsplit, hx, hbefore, hloop⟩
  · rw [hloop]
    exact ⟨h, hall⟩
  · rw [hloop]
    rw [hsplit] at h
    simp only [List.map_append, List.map_cons] at h
    rw [List.nodup_middle, List.nodup_cons] at h
    obtain ⟨hnot, hnd⟩ := h
    refine ⟨by simpa using hnd, ?_⟩
    intro y hy hyn
    apply hnot
    rw [hx, ← hyn, ← List.map_append]
    exact List.mem_map_of_mem _ hy

/-- Pairwise distinct names are kept by `initBinaryMapFile`. -/
theorem initBinaryMapFile_nodup (MAP_VERSION : Nat) (env : Env) (inputName : String)
    (useLive routingOnly : Bool) (g : Globals)
    (h : (g.openFiles.map (fun f => f.inputName)).Nodup) :
    ((initBinaryMapFile MAP_VERSION env inputName useLive routingOnly g).2.openFiles.map
      (fun f => f.inputName)).Nodup := by
  obtain ⟨hnd, hno⟩ := closeBinaryMapFile_nodup inputName g h
  obtain ⟨hsome, hnone⟩ :=
    initBinaryMapFile_result MAP_VERSION env inputName useLive routingOnly g
  cases hr : (initBinaryMapFile MAP_VERSION env inputName useLive routingOnly g).1 with
  | none => rw [hnone hr]; exact hnd
  | some f =>
    obtain ⟨hname, hg⟩ := hsome f hr
    rw [hg]
    simp only [List.map_append, List.map_cons, List.map_nil]
    rw [List.nodup_append]
    refine ⟨hnd, List.nodup_singleton _, ?_⟩
    intro a ha hb
    rw [List.mem_singleton] at hb
    rw [List.mem_map] at ha
    obtain ⟨y, hy, hya⟩ := ha
    exact hno y hy (hya.trans (hb.trans hname))

/-- Pairwise distinct names are kept by every sequence of calls. -/
theorem runCalls_nodup (MAP_VERSION : Nat) :
    ∀ (calls : List RegistryCall) (g : Globals),
      (g.openFiles.map (fun f => f.inputName)).Nodup →
      ((runCalls MAP_VERSION g calls).openFiles.map (fun f => f.inputName)).Nodup := by
  intro calls
  induction calls with
  | nil => intro g h; exact h
  | cons c rest ih =>
    intro g h
    simp only [runCalls, List.foldl_cons]
    apply ih
    cases c with
    | init env inputName useLive routingOnly =>
      exact initBinaryMapFile_nodup MAP_VERSION env inputName useLive routingOnly g h
    | close inputName => exact (closeBinaryMapFile_nodup inputName g h).1

/-- C5: starting from the empty registry, after any sequence of `initBinaryMapFile` and
`closeBinaryMapFile` calls no two registry entries have the same `inputName`; and after
a successful `initBinaryMapFile(path)` made in such a state exactly one entry has
`inputName = path`, it is the newly opened file, and it is last in the registry. -/
theorem registry_names_unique (MAP_VERSION : Nat) (cache : Option OBF.OsmAndStoredIndex)
    (changed : Bool) (calls : List RegistryCall) :
    ((runCalls MAP_VERSION (emptyRegistry cache changed) calls).openFiles.map
      (fun f => f.inputName)).Nodup ∧
    ∀ (env : Env) (path : String) (useLive routingOnly : Bool) (f : BinaryMapFile),
      (initBinaryMapFile MAP_VERSION env path useLive routingOnly
        (runCalls MAP_VERSION (emptyRegistry cache changed) calls)).1 = some f →
      f.inputName = path ∧
      (initBinaryMapFile MAP_VERSION env path useLive routingOnly
        (runCalls MAP_VERSION (emptyRegistry cache changed) calls)).2.openFiles.getLast?
          = some f ∧
      (initBinaryMapFile MAP_VERSION env path useLive routingOnly
        (runCalls MAP_VERSION (emptyRegistry cache changed) calls)).2.openFiles.filter
          (fun x => x.inputName == path) = [f] := by
  have hinv : ((runCalls MAP_VERSION (emptyRegistry cache changed) calls).openFiles.map
      (fun f => f.inputName)).Nodup :=
    runCalls_nodup MAP_VERSION calls _ (by simp [emptyRegistry])
  refine ⟨hinv, ?_⟩
  intro env path useLive routingOnly f hf
  obtain ⟨hname, hg⟩ :=
    (initBinaryMapFile_result MAP_VERSION env path useLive routingOnly _).1 f hf
  obtain ⟨_, hno⟩ := closeBinaryMapFile_nodup path _ hinv
  refine ⟨hname, ?_, ?_⟩
  · rw [hg]
    simp
  · rw [hg]
    simp only [List.filter_append]
    have h1 : List.filter (fun x => x.inputName == path)
        (closeBinaryMapFile path
          (runCalls MAP_VERSION (emptyRegistry cache changed) calls)).2.openFiles = [] := by
      rw [List.filter_eq_nil_iff]
      intro x hx
      simpa using hno x hx
    rw [h1]
    simp [List.filter, hname]

/-- Witness for C5: `a.obf` is opened, then `b.obf`, then `a.obf` again. -/
theorem registry_names_unique_witness :
    (initBinaryMapFile 2 sampleEnv "a.obf" false false
      (runCalls 2 (emptyRegistry none false)
        [.init sampleEnv "a.obf" false false, .init sampleEnv "b.obf" false false])).1.isSome
      = true ∧
    ∀ f : BinaryMapFile,
      (initBinaryMapFile 2 sampleEnv "a.obf" false false
        (runCalls 2 (emptyRegistry none false)
          [.init sampleEnv "a.obf" false false, .init sampleEnv "b.obf" false false])).1
        = some f →
      f.inputName = "a.obf" ∧
      (initBinaryMapFile 2 sampleEnv "a.obf" false false
        (runCalls 2 (emptyRegistry none false)
          [.init sampleEnv "a.obf" false false,
           .init sampleEnv "b.obf" false false])).2.openFiles.getLast? = some f ∧
      (initBinaryMapFile 2 sampleEnv "a.obf" false false
        (runCalls 2 (emptyRegistry none false)
          [.init sampleEnv "a.obf" false false,
           .init sampleEnv "b.obf" false false])).2.openFiles.filter
          (fun x => x.inputName == "a.obf") = [f] :=
  ⟨by decide, fun f hf =>
    (registry_names_unique 2 none false
      [.init sampleEnv "a.obf" false false, .init sampleEnv "b.obf" false false]).2
      sampleEnv "a.obf" false false f hf⟩

example : ((initBinaryMapFile 2 sampleEnv "a.obf" false false
      (runCalls 2 (emptyRegistry none false)
        [.init sampleEnv "a.obf" false false, .init sampleEnv "b.obf" false false])).2.openFiles.map (fun f => f.inputName)) = ["b.obf", "a.obf"] := by decide


/-- Function `initBinaryMapFile` leaves `cache` as it is. -/
theorem initBinaryMapFile_cache (MAP_VERSION : Nat) (env : Env) (inputName : String)
    (useLive routingOnly : Bool) (g : Globals) :
    (initBinaryMapFile MAP_VERSION env inputName useLive routingOnly g).2.cache = g.cache := by
  obtain ⟨hsome, hnone⟩ :=
    initBinaryMapFile_result MAP_VERSION env inputName useLive routingOnly g
  cases hr : (initBinaryMapFile MAP_VERSION env inputName useLive routingOnly g).1 with
  | none => rw [hnone hr]; rfl
  | some f => rw [(hsome f hr).2]; rfl

/-- No sequence of `initBinaryMapFile` and `closeBinaryMapFile` calls changes `cache`. -/
theorem runCalls_cache (MAP_VERSION : Nat) :
    ∀ (calls : List RegistryCall) (g : Globals),
      (runCalls MAP_VERSION g calls).cache = g.cache := by
  intro calls
  induction calls with
  | nil => intro g; rfl
  | cons c rest ih =>
    intro g
    simp only [runCalls, List.foldl_cons]
    have h := ih (runCall MAP_VERSION g c)
    simp only [runCalls] at h
    rw [h]
    cases c with
    | init env inputName useLive routingOnly =>
      exact initBinaryMapFile_cache MAP_VERSION env inputName useLive routingOnly g
    | close inputName => rfl

/-- C4, counterexample: with `a.obf` open, a new `initBinaryMapFile("a.obf")` on a file
whose trailer differs from its version fails (returns null), and the registry, which
held one entry before the call, is empty after it. -/
theorem initBinaryMapFile_failure_closes_previous :
    (initBinaryMapFile 2 corruptEnv "a.obf" false false oneOpen).1.isNone = true ∧
    (oneOpen.openFiles.map (fun f => f.inputName)) = ["a.obf"] ∧
    (initBinaryMapFile 2 corruptEnv "a.obf" false false oneOpen).2.openFiles.length = 0 ∧
    (initBinaryMapFile 2 corruptEnv "a.obf" false false oneOpen).2.openFiles
      ≠ oneOpen.openFiles := by
  refine ⟨by decide, by decide, by decide, ?_⟩
  intro h
  have hl := congrArg List.length h
  revert hl
  decide

/-- C4, amended: if `initBinaryMapFile(path)` fails it returns null and leaves the
globals as the `closeBinaryMapFile(path)` it starts with left them: either no entry was
named `path` and the registry is exactly what it was before the call, or the first entry
named `path` has been removed and every other entry is kept in order; nothing is added. -/
theorem initBinaryMapFile_failure_registry (MAP_VERSION : Nat) (env : Env) (path : String)
    (useLive routingOnly : Bool) (g : Globals)
    (hfail : (initBinaryMapFile MAP_VERSION env path useLive routingOnly g).1 = none) :
    (initBinaryMapFile MAP_VERSION env path useLive routingOnly g).2
      = (closeBinaryMapFile path g).2 ∧
    (((∀ x ∈ g.openFiles, x.inputName ≠ path) ∧
        (initBinaryMapFile MAP_VERSION env path useLive routingOnly g).2 = g) ∨
      (∃ before f after, g.openFiles = before ++ f :: after ∧ f.inputName = path ∧
        (∀ x ∈ before, x.inputName ≠ path) ∧
        (initBinaryMapFile MAP_VERSION env path useLive routingOnly g).2.openFiles
          = before ++ after)) := by
  have hg := (initBinaryMapFile_result MAP_VERSION env path useLive routingOnly g).2 hfail
  refine ⟨hg, ?_⟩
  rw [hg]
  simp only [closeBinaryMapFile]
  rcases closeBinaryMapFileLoop_cases path g.openFiles with
    ⟨hall, hloop⟩ | ⟨before, x, after, hsplit, hx, hbefore, hloop⟩
  · left
    rw [hloop]
    exact ⟨hall, by cases g; rfl⟩
  · right
    rw [hloop]
    exact ⟨before, x, after, hsplit, hx, hbefore, rfl⟩

/-- Witness for C4: the failing reopen of `a.obf` in `corruptEnv`. -/
theorem initBinaryMapFile_failure_registry_witness :
    (initBinaryMapFile 2 corruptEnv "a.obf" false false oneOpen).1 = none ∧
    (initBinaryMapFile 2 corruptEnv "a.obf" false false oneOpen).2
      = (closeBinaryMapFile "a.obf" oneOpen).2 :=
  ⟨by rfl, (initBinaryMapFile_failure_registry 2 corruptEnv "a.obf" false false oneOpen
    (by rfl)).1⟩

/-- C3, counterexample: with `MAP_VERSION = 2` and a manifest entry for `a.obf` that
records version 1, `initBinaryMapFile("a.obf")` succeeds and adds a file of version 1 to
the registry. -/
theorem initBinaryMapFile_cache_version_unchecked :
    ((initBinaryMapFile 2 sampleEnv "a.obf" false false oldEntryCache).1.map
      (fun f => f.version)) = some 1 ∧
    ((initBinaryMapFile 2 sampleEnv "a.obf" false false oldEntryCache).2.openFiles.map
      (fun f => f.version)) = [1] ∧
    (1 : Nat) ≠ 2 := by
  decide


/-- C3, amended: a file that `initBinaryMapFile` adds to the registry after scanning it
(no manifest entry matched) has version equal to `MAP_VERSION`, and a scanned file whose
declared version is another one is rejected (null is returned and nothing is added); a
file hydrated from a manifest entry is added with the version recorded in that entry,
which is not compared with `MAP_VERSION`. -/
theorem initBinaryMapFile_version (MAP_VERSION : Nat) (env : Env) (path : String)
    (useLive routingOnly : Bool) (g : Globals) :
    (lookupCache env path g = none →
      (∀ f, (initBinaryMapFile MAP_VERSION env path useLive routingOnly g).1 = some f →
        f.version = MAP_VERSION ∧
        (initBinaryMapFile MAP_VERSION env path useLive routingOnly g).2.openFiles
          = (closeBinaryMapFile path g).2.openFiles ++ [f]) ∧
      (headerVersion (newMapFile path).version (env.content path) ≠ MAP_VERSION →
        (initBinaryMapFile MAP_VERSION env path useLive routingOnly g).1 = none ∧
        (initBinaryMapFile MAP_VERSION env path useLive routingOnly g).2
          = (closeBinaryMapFile path g).2)) ∧
    (∀ fo, lookupCache env path g = some fo →
      ∃ f, (initBinaryMapFile MAP_VERSION env path useLive routingOnly g).1 = some f ∧
        f.version = fo.version ∧
        (initBinaryMapFile MAP_VERSION env path useLive routingOnly g).2.openFiles
          = (closeBinaryMapFile path g).2.openFiles ++ [f]) := by
  rw [initBinaryMapFile_eq]
  constructor
  · intro hl
    rw [hl]
    simp only
    cases hs : initMapStructure MAP_VERSION (env.content path) (newMapFile path)
        useLive routingOnly with
    | none => simp
    | some f1 =>
      simp only
      obtain ⟨h1, _, h3, _⟩ := initMapStructure_some _ _ _ _ _ _ hs
      constructor
      · intro f hf
        simp only [Option.some.injEq] at hf
        subst hf
        exact ⟨h3, rfl⟩
      · intro hne
        exact absurd (h1.symm.trans h3) hne
  · intro fo hl
    rw [hl]
    exact ⟨_, rfl, (initFromFileIndex_frame fo _ useLive routingOnly).2.2, rfl⟩

/-- Witness for C3: the hydration of `a.obf` from the entry of `oldEntryCache`. -/
theorem initBinaryMapFile_version_witness :
    lookupCache sampleEnv "a.obf" oldEntryCache
      = some { size := 10, filename := "a.obf", version := 1 } ∧
    ∃ f, (initBinaryMapFile 2 sampleEnv "a.obf" false false oldEntryCache).1 = some f ∧
      f.version = ({ size := 10, filename := "a.obf", version := 1 } : OBF.FileIndex).version ∧
      (initBinaryMapFile 2 sampleEnv "a.obf" false false oldEntryCache).2.openFiles
        = (closeBinaryMapFile "a.obf" oldEntryCache).2.openFiles ++ [f] :=
  ⟨by rfl, (initBinaryMapFile_version 2 sampleEnv "a.obf" false false oldEntryCache).2 _
    (by rfl)⟩

/-- `hasEnding` is the suffix relation on the characters of the two strings. -/
theorem hasEnding_iff (fullString ending : String) :
    hasEnding fullString ending = true ↔ ending.data <:+ fullString.data := by
  unfold hasEnding
  split
  · rename_i hle
    have hlen : (List.drop (fullString.data.length - ending.data.length)
        fullString.data).length = ending.data.length := by
      rw [List.length_drop]; omega
    rw [List.take_of_length_le (le_of_eq hlen)]
    rw [beq_iff_eq, List.suffix_iff_eq_drop]
    exact eq_comm
  · rename_i hle
    constructor
    · intro h; cases h
    · intro h
      exact absurd h.length_le hle

/-- The loop over the manifest entries finds an entry iff one matches. -/
theorem findFileIndex_some (inputName : String) (st_size : Nat) :
    ∀ l : List OBF.FileIndex,
      ((findFileIndex inputName st_size l).isSome = true ↔
        ∃ fi ∈ l, hasEnding inputName fi.filename = true ∧ fi.size = st_size) ∧
      (∀ fo, findFileIndex inputName st_size l = some fo →
        fo ∈ l ∧ hasEnding inputName fo.filename = true ∧ fo.size = st_size) := by
  intro l
  induction l with
  | nil => simp [findFileIndex]
  | cons fi rest ih =>
    obtain ⟨ih1, ih2⟩ := ih
    by_cases h1 : hasEnding inputName fi.filename = true
    · by_cases h2 : fi.size = st_size
      · simp only [findFileIndex, h1, h2, if_true]
        constructor
        · simp only [Option.isSome_some, true_iff]
          exact ⟨fi, List.mem_cons_self _ _, h1, h2⟩
        · intro fo hfo
          simp only [Option.some.injEq] at hfo
          subst hfo
          exact ⟨List.mem_cons_self _ _, h1, h2⟩
      · simp only [findFileIndex, h1, h2, if_true, if_false]
        constructor
        · rw [ih1]
          constructor
          · rintro ⟨x, hx, hh⟩
            exact ⟨x, List.mem_cons_of_mem _ hx, hh⟩
          · rintro ⟨x, hx, hh⟩
            rcases List.mem_cons.mp hx with rfl | hx
            · exact absurd hh.2 h2
            · exact ⟨x, hx, hh⟩
        · intro fo hfo
          obtain ⟨a, b⟩ := ih2 fo hfo
          exact ⟨List.mem_cons_of_mem _ a, b⟩
    · simp only [findFileIndex, h1]
      constructor
      · simp only [Bool.false_eq_true, if_false]
        rw [ih1]
        constructor
        · rintro ⟨x, hx, hh⟩
          exact ⟨x, List.mem_cons_of_mem _ hx, hh⟩
        · rintro ⟨x, hx, hh⟩
          rcases List.mem_cons.mp hx with rfl | hx
          · exact absurd hh.1 h1
          · exact ⟨x, hx, hh⟩
      · intro fo hfo
        simp only [Bool.false_eq_true, if_false] at hfo
        obtain ⟨a, b⟩ := ih2 fo hfo
        exact ⟨List.mem_cons_of_mem _ a, b⟩

/-- C7: `initBinaryMapFile` hydrates a file from the cache manifest iff the manifest
holds an entry whose filename is a suffix of the opened path and whose recorded size
equals the size of the file: the lookup finds an entry exactly in that case, the entry
found is such an entry of the manifest and the result is the file filled from it; in
every other case (no cache, no suffix match, size mismatch) the result is that of the
full scan `initMapStructure` of the file. -/
theorem initBinaryMapFile_cache_hit_iff (MAP_VERSION : Nat) (env : Env) (path : String)
    (useLive routingOnly : Bool) (g : Globals) :
    ((lookupCache env path g).isSome = true ↔
      ∃ c, g.cache = some c ∧
        ∃ fi ∈ c.fileindex, fi.filename.data <:+ path.data ∧ fi.size = env.st_size path) ∧
    (∀ fo, lookupCache env path g = some fo →
      (∃ c, g.cache = some c ∧ fo ∈ c.fileindex) ∧
      fo.filename.data <:+ path.data ∧ fo.size = env.st_size path ∧
      initBinaryMapFile MAP_VERSION env path useLive routingOnly g =
        (some (initFromFileIndex fo (newMapFile path) useLive routingOnly),
          { (closeBinaryMapFile path g).2 with
            openFiles := (closeBinaryMapFile path g).2.openFiles ++
              [initFromFileIndex fo (newMapFile path) useLive routingOnly] })) ∧
    (lookupCache env path g = none →
      initBinaryMapFile MAP_VERSION env path useLive routingOnly g =
        match initMapStructure MAP_VERSION (env.content path) (newMapFile path)
            useLive routingOnly with
        | none => (none, (closeBinaryMapFile path g).2)
        | some mapFile1 =>
          (some mapFile1,
            { (closeBinaryMapFile path g).2 with
              openFiles := (closeBinaryMapFile path g).2.openFiles ++ [mapFile1] })) := by
  refine ⟨?_, ?_, ?_⟩
  · unfold lookupCache
    cases hc : g.cache with
    | none => simp
    | some c =>
      simp only [Option.some.injEq, exists_eq_left']
      rw [(findFileIndex_some path (env.st_size path) c.fileindex).1]
      constructor
      · rintro ⟨fi, hfi, h1, h2⟩
        exact ⟨fi, hfi, (hasEnding_iff _ _).mp h1, h2⟩
      · rintro ⟨fi, hfi, h1, h2⟩
        exact ⟨fi, hfi, (hasEnding_iff _ _).mpr h1, h2⟩
  · intro fo hfo
    have hfo2 := hfo
    unfold lookupCache at hfo2
    cases hc : g.cache with
    | none => simp [hc] at hfo2
    | some c =>
      simp only [hc] at hfo2
      obtain ⟨a, b, d⟩ := (findFileIndex_some path (env.st_size path) c.fileindex).2 fo hfo2
      refine ⟨⟨c, rfl, a⟩, (hasEnding_iff _ _).mp b, d, ?_⟩
      rw [initBinaryMapFile_eq, hfo]
  · intro hl
    rw [initBinaryMapFile_eq, hl]

/-- C10: if the manifest parsed by `initMapFilesFromCache` carries a version different
from `CACHE_VERSION`, no cache is retained, and after any further sequence of
`initBinaryMapFile` and `closeBinaryMapFile` calls there is still none, so that every
later `initBinaryMapFile` finds no entry and performs the full scan. -/
theorem initMapFilesFromCache_version_mismatch (MAP_VERSION : Nat) (env : Env)
    (cachePath : String) (g : Globals) (c : OBF.OsmAndStoredIndex)
    (hparse : env.manifest cachePath = some c) (hver : c.version ≠ CACHE_VERSION) :
    (initMapFilesFromCache env cachePath g).1 = true ∧
    (initMapFilesFromCache env cachePath g).2.cache = none ∧
    ∀ (calls : List RegistryCall) (env2 : Env) (path : String) (useLive routingOnly : Bool),
      (runCalls MAP_VERSION (initMapFilesFromCache env cachePath g).2 calls).cache = none ∧
      lookupCache env2 path
        (runCalls MAP_VERSION (initMapFilesFromCache env cachePath g).2 calls) = none ∧
      initBinaryMapFile MAP_VERSION env2 path useLive routingOnly
          (runCalls MAP_VERSION (initMapFilesFromCache env cachePath g).2 calls) =
        match initMapStructure MAP_VERSION (env2.content path) (newMapFile path)
            useLive routingOnly with
        | none =>
          (none, (closeBinaryMapFile path
            (runCalls MAP_VERSION (initMapFilesFromCache env cachePath g).2 calls)).2)
        | some mapFile1 =>
          (some mapFile1,
            { (closeBinaryMapFile path
                (runCalls MAP_VERSION (initMapFilesFromCache env cachePath g).2 calls)).2 with
              openFiles := (closeBinaryMapFile path
                (runCalls MAP_VERSION (initMapFilesFromCache env cachePath g).2
                  calls)).2.openFiles ++ [mapFile1] }) := by
  have h0 : (initMapFilesFromCache env cachePath g).2.cache = none := by
    simp [initMapFilesFromCache, hparse, hver]
  refine ⟨by simp [initMapFilesFromCache, hparse], h0, ?_⟩
  intro calls env2 path useLive routingOnly
  have h1 : (runCalls MAP_VERSION (initMapFilesFromCache env cachePath g).2 calls).cache
      = none := by
    rw [runCalls_cache, h0]
  have h2 : lookupCache env2 path
      (runCalls MAP_VERSION (initMapFilesFromCache env cachePath g).2 calls) = none := by
    unfold lookupCache
    rw [h1]
  refine ⟨h1, h2, ?_⟩
  rw [initBinaryMapFile_eq, h2]


/-- The loop over the map records appends one index for each record to the list of
map indexes and leaves the other three lists as they are. -/
theorem addMapIndexesFromCache_lists :
    ∀ (parts : List OBF.MapPart) (f : BinaryMapFile),
      (addMapIndexesFromCache f parts).mapIndexes
        = f.mapIndexes ++ parts.map mapIndexFromCache ∧
      (addMapIndexesFromCache f parts).transportIndexes = f.transportIndexes ∧
      (addMapIndexesFromCache f parts).routingIndexes = f.routingIndexes ∧
      (addMapIndexesFromCache f parts).hhIndexes = f.hhIndexes := by
  intro parts
  induction parts with
  | nil => intro f; simp [addMapIndexesFromCache]
  | cons mp rest ih =>
    intro f
    simp only [addMapIndexesFromCache]
    obtain ⟨a, b, c, d⟩ := ih { f with
      basemap := f.basemap || strFind (mapIndexFromCache mp).name "basemap"
      mapIndexes := f.mapIndexes ++ [mapIndexFromCache mp]
      indexes := f.indexes ++ [.map (mapIndexFromCache mp)] }
    exact ⟨by rw [a]; simp, b, c, d⟩

/-- The loop over the transport records appends one index for each record to the list of
transport indexes and leaves the other three lists as they are. -/
theorem addTransportIndexesFromCache_lists :
    ∀ (parts : List OBF.TransportPart) (f : BinaryMapFile),
      (addTransportIndexesFromCache f parts).mapIndexes = f.mapIndexes ∧
      (addTransportIndexesFromCache f parts).transportIndexes
        = f.transportIndexes ++ parts.map transportIndexFromCache ∧
      (addTransportIndexesFromCache f parts).routingIndexes = f.routingIndexes ∧
      (addTransportIndexesFromCache f parts).hhIndexes = f.hhIndexes := by
  intro parts
  induction parts with
  | nil => intro f; simp [addTransportIndexesFromCache]
  | cons mp rest ih =>
    intro f
    simp only [addTransportIndexesFromCache]
    obtain ⟨a, b, c, d⟩ := ih { f with
      transportIndexes := f.transportIndexes ++ [transportIndexFromCache mp]
      indexes := f.indexes ++ [.transport (transportIndexFromCache mp)] }
    exact ⟨a, by rw [b]; simp, c, d⟩

/-- The loop over the routing records appends one index for each record to the list of
routing indexes and leaves the other three lists as they are. -/
theorem addRoutingIndexesFromCache_lists :
    ∀ (parts : List OBF.RoutingPart) (f : BinaryMapFile),
      (addRoutingIndexesFromCache f parts).mapIndexes = f.mapIndexes ∧
      (addRoutingIndexesFromCache f parts).transportIndexes = f.transportIndexes ∧
      (addRoutingIndexesFromCache f parts).routingIndexes
        = f.routingIndexes ++ parts.map routingIndexFromCache ∧
      (addRoutingIndexesFromCache f parts).hhIndexes = f.hhIndexes := by
  intro parts
  induction parts with
  | nil => intro f; simp [addRoutingIndexesFromCache]
  | cons mp rest ih =>
    intro f
    simp only [addRoutingIndexesFromCache]
    obtain ⟨a, b, c, d⟩ := ih { f with
      routingIndexes := f.routingIndexes ++ [routingIndexFromCache mp]
      indexes := f.indexes ++ [.routing (routingIndexFromCache mp)] }
    exact ⟨a, b, by rw [c]; simp, d⟩

/-- The loop over the HH records appends one index for each record to the list of
HH indexes and leaves the other three lists as they are. -/
theorem addHHIndexesFromCache_lists :
    ∀ (parts : List OBF.HHRoutingPart) (f : BinaryMapFile),
      (addHHIndexesFromCache f parts).mapIndexes = f.mapIndexes ∧
      (addHHIndexesFromCache f parts).transportIndexes = f.transportIndexes ∧
      (addHHIndexesFromCache f parts).routingIndexes = f.routingIndexes ∧
      (addHHIndexesFromCache f parts).hhIndexes
        = f.hhIndexes ++ parts.map hhIndexFromCache := by
  intro parts
  induction parts with
  | nil => intro f; simp [addHHIndexesFromCache]
  | cons mp rest ih =>
    intro f
    simp only [addHHIndexesFromCache]
    obtain ⟨a, b, c, d⟩ := ih { f with
      hhIndexes := f.hhIndexes ++ [hhIndexFromCache mp]
      indexes := f.indexes ++ [.hh (hhIndexFromCache mp)] }
    exact ⟨a, b, c, by rw [d]; simp⟩

/-- The index lists of a file hydrated from a manifest entry. -/
theorem initFromFileIndex_lists (fo : OBF.FileIndex) (f : BinaryMapFile)
    (useLive routingOnly : Bool) :
    (initFromFileIndex fo f useLive routingOnly).mapIndexes
      = f.mapIndexes ++ (if routingOnly then [] else fo.mapindex.map mapIndexFromCache) ∧
    (initFromFileIndex fo f useLive routingOnly).transportIndexes
      = f.transportIndexes ++ fo.transportindex.map transportIndexFromCache ∧
    (initFromFileIndex fo f useLive routingOnly).routingIndexes
      = f.routingIndexes ++
        (if !f.liveMap || useLive then fo.routingindex.map routingIndexFromCache else []) ∧
    (initFromFileIndex fo f useLive routingOnly).hhIndexes
      = f.hhIndexes ++ (if !f.liveMap then fo.hhroutingindex.map hhIndexFromCache else []) := by
  cases routingOnly <;> cases hl : f.liveMap <;> cases useLive <;>
    simp [initFromFileIndex, hl, addMapIndexesFromCache_lists, addMapIndexesFromCache_frame,
      addTransportIndexesFromCache_lists, addTransportIndexesFromCache_frame,
      addRoutingIndexesFromCache_lists, addRoutingIndexesFromCache_frame,
      addHHIndexesFromCache_lists, addHHIndexesFromCache_frame]


/-- A transport index written to the manifest and built back is the same index. -/
theorem transportIndex_roundtrip (t : TransportIndex) (p : OBF.TransportPart)
    (h : transportPartOf t = some p) : transportIndexFromCache p = t := by
  unfold transportPartOf at h
  cases hst : t.stringTable with
  | none => simp [hst] at h
  | some st =>
    simp only [hst, Option.some.injEq] at h
    subst h
    cases t
    simp only at hst
    subst hst
    rfl

/-- An HH index written to the manifest and built back has the same offset, length,
edition, profile and top bounds; its name is not written. -/
theorem hhIndex_roundtrip (x : HHRouteIndex) (p : OBF.HHRoutingPart)
    (h : hhRoutingPartOf x = some p) :
    (hhIndexFromCache p).filePointer = x.filePointer ∧
    (hhIndexFromCache p).length = x.length ∧
    (hhIndexFromCache p).edition = x.edition ∧
    (hhIndexFromCache p).profile = x.profile ∧
    (hhIndexFromCache p).profileParams = x.profileParams ∧
    (hhIndexFromCache p).top.map (fun b => (b.left, b.right, b.top, b.bottom))
      = x.top.map (fun b => (b.left, b.right, b.top, b.bottom)) := by
  unfold hhRoutingPartOf at h
  cases ht : x.top with
  | none => simp [ht] at h
  | some top =>
    simp only [ht, Option.some.injEq] at h
    subst h
    simp [hhIndexFromCache]

/-- Records of a list written with `partsOf` and mapped back agree with the list on
every observation the single round trip keeps. -/
theorem partsOf_roundtrip {α β γ : Type} (part : α → Option β) (back : β → α) (key : α → γ)
    (hrt : ∀ a p, part a = some p → key (back p) = key a) :
    ∀ (l : List α) (ps : List β), partsOf part l = some ps →
      (ps.map back).map key = l.map key := by
  intro l
  induction l with
  | nil =>
    intro ps h
    simp only [partsOf, Option.some.injEq] at h
    subst h
    rfl
  | cons a rest ih =>
    intro ps h
    simp only [partsOf] at h
    cases hp : part a with
    | none => simp [hp] at h
    | some p =>
      cases hr : partsOf part rest with
      | none => simp [hp, hr] at h
      | some qs =>
        simp only [hp, hr, Option.some.injEq] at h
        subst h
        simp only [List.map_cons, List.cons.injEq]
        exact ⟨hrt a p hp, ih qs hr⟩

/-- Repeated `addRouteSubregion` appends the records of the subregions in order. -/
theorem foldl_addRouteSubregion (base : Bool) :
    ∀ (subs : List RouteSubregion) (routing : OBF.RoutingPart),
      subs.foldl (fun r sub => addRouteSubregion r sub base) routing =
        { routing with
          subregions := routing.subregions ++ subs.map (fun s => routingSubregionOf s base) } := by
  intro subs
  induction subs with
  | nil => intro routing; simp
  | cons s rest ih =>
    intro routing
    rw [List.foldl_cons, ih]
    simp [addRouteSubregion]

/-- The loop that hydrates the subregions of a routing index sends the records flagged
`basemap` to `basesubregions` and the others to `subregions`, in order. -/
theorem addSubregionsFromCache_eq :
    ∀ (l : List OBF.RoutingSubregion) (mi : RoutingIndex),
      addSubregionsFromCache mi l =
        { mi with
          subregions := mi.subregions ++
            (l.filter (fun ml => !ml.basemap)).map routeSubregionFromCache
          basesubregions := mi.basesubregions ++
            (l.filter (fun ml => ml.basemap)).map routeSubregionFromCache } := by
  intro l
  induction l with
  | nil => intro mi; simp [addSubregionsFromCache]
  | cons ml rest ih =>
    intro mi
    cases hb : ml.basemap <;> simp [addSubregionsFromCache, hb, ih]

/-- A routing index written to the manifest and built back has the same offset, length,
name and subregion boxes. -/
theorem routingIndex_roundtrip (r : RoutingIndex) :
    routingKey (routingIndexFromCache (routingPartOf r)) = routingKey r := by
  have h1 : ∀ l : List RouteSubregion,
      List.filter (fun ml => !ml.basemap) (l.map (fun s => routingSubregionOf s false))
        = l.map (fun s => routingSubregionOf s false) := by
    intro l; induction l <;> simp_all [routingSubregionOf]
  have h2 : ∀ l : List RouteSubregion,
      List.filter (fun ml => !ml.basemap) (l.map (fun s => routingSubregionOf s true))
        = [] := by
    intro l; induction l <;> simp_all [routingSubregionOf]
  have h3 : ∀ l : List RouteSubregion,
      List.filter (fun ml => ml.basemap) (l.map (fun s => routingSubregionOf s false))
        = [] := by
    intro l; induction l <;> simp_all [routingSubregionOf]
  have h4 : ∀ l : List RouteSubregion,
      List.filter (fun ml => ml.basemap) (l.map (fun s => routingSubregionOf s true))
        = l.map (fun s => routingSubregionOf s true) := by
    intro l; induction l <;> simp_all [routingSubregionOf]
  have h5 : ∀ (b : Bool) (l : List RouteSubregion),
      List.map boxKey (List.map routeSubregionFromCache
        (l.map (fun s => routingSubregionOf s b))) = l.map boxKey := by
    intro b l
    induction l with
    | nil => rfl
    | cons s rest ih =>
      simp only [List.map_cons, ih, List.cons.injEq, and_true]
      rfl
  simp only [routingIndexFromCache, routingPartOf, foldl_addRouteSubregion,
    addSubregionsFromCache_eq, routingKey, List.nil_append, List.filter_append, h1, h2, h3, h4,
    List.append_nil, List.map_append, h5]


/-- One field keeps the relation between the two scans. -/
theorem initMapStructureField_rel (useLive ro roW : Bool) (a b a2 b2 : ScanState)
    (f : StructureField) (hr : ScanRel useLive a b)
    (ha : initMapStructureField true roW a f = some a2)
    (hb : initMapStructureField useLive ro b f = some b2) :
    ScanRel useLive a2 b2 := by
  obtain ⟨r1, r2, r3, r4⟩ := hr
  cases f with
  | version v =>
    cases v with
    | none => simp [initMapStructureField] at ha
    | some v =>
      simp only [initMapStructureField, Option.some.injEq] at ha hb
      subst ha; subst hb
      exact ⟨r1, r2, r3, r4⟩
  | dateCreated v =>
    cases v with
    | none => simp [initMapStructureField] at ha
    | some v =>
      simp only [initMapStructureField, Option.some.injEq] at ha hb
      subst ha; subst hb
      exact ⟨r1, r2, r3, r4⟩
  | mapIndex l p body =>
    simp only [initMapStructureField, Option.some.injEq] at ha hb
    subst ha; subst hb
    exact ⟨r1, r2, r3, r4⟩
  | routingIndex l p body =>
    simp only [initMapStructureField, Bool.or_true, if_true, Option.some.injEq] at ha hb
    subst ha
    split at hb
    · rename_i hc
      simp only [Option.some.injEq] at hb
      subst hb
      refine ⟨r1, r2, ?_, ?_⟩
      · simp only [hc, if_true] at r3 ⊢
        rw [r3]
      · simp only [hc, if_true] at r4 ⊢
        exact r4
    · rename_i hc
      simp only [Option.some.injEq] at hb
      subst hb
      refine ⟨r1, r2, ?_, ?_⟩
      · simp only [hc] at r3 ⊢
        simpa using r3
      · simp only [hc] at r4 ⊢
        simpa using r4
  | transportIndex l p body =>
    simp only [initMapStructureField, Option.some.injEq] at ha hb
    subst ha; subst hb
    exact ⟨r1, by simp [r2], r3, r4⟩
  | hhRoutingIndex l p body =>
    simp only [initMapStructureField, Bool.or_true, if_true, Option.some.injEq] at ha hb
    subst ha
    split at hb
    · rename_i hc
      simp only [Option.some.injEq] at hb
      subst hb
      refine ⟨r1, r2, ?_, ?_⟩
      · simp only [hc, if_true] at r3 ⊢
        exact r3
      · simp only [hc, if_true] at r4 ⊢
        rw [r4]
    · rename_i hc
      simp only [Option.some.injEq] at hb
      subst hb
      refine ⟨r1, r2, ?_, ?_⟩
      · simp only [hc] at r3 ⊢
        simpa using r3
      · simp only [hc] at r4 ⊢
        simpa using r4
  | versionConfirm v =>
    cases v with
    | none => simp [initMapStructureField] at ha
    | some v =>
      simp only [initMapStructureField, Option.some.injEq] at ha hb
      subst ha; subst hb
      exact ⟨r1, r2, r3, r4⟩
  | endGroup =>
    simp only [initMapStructureField, Option.some.injEq] at ha hb
    subst ha; subst hb
    exact ⟨r1, r2, r3, r4⟩
  | unknown sk =>
    cases sk with
    | false => simp [initMapStructureField] at ha
    | true =>
      simp only [initMapStructureField, if_true, Option.some.injEq] at ha hb
      subst ha; subst hb
      exact ⟨r1, r2, r3, r4⟩

/-- The loop keeps the relation between the two scans. -/
theorem initMapStructureLoop_rel (useLive ro roW : Bool) :
    ∀ (input : List StructureField) (a b a1 b1 : ScanState), ScanRel useLive a b →
      initMapStructureLoop true roW input a = some a1 →
      initMapStructureLoop useLive ro input b = some b1 →
      ScanRel useLive a1 b1 := by
  intro input
  induction input with
  | nil =>
    intro a b a1 b1 hr ha hb
    simp only [initMapStructureLoop, Option.some.injEq] at ha hb
    subst ha; subst hb
    exact hr
  | cons f rest ih =>
    intro a b a1 b1 hr ha hb
    simp only [initMapStructureLoop] at ha hb
    cases hfa : initMapStructureField true roW a f with
    | none => simp [hfa] at ha
    | some a2 =>
      cases hfb : initMapStructureField useLive ro b f with
      | none => simp [hfb] at hb
      | some b2 =>
        simp only [hfa] at ha
        simp only [hfb] at hb
        exact ih a2 b2 a1 b1 (initMapStructureField_rel useLive ro roW a b a2 b2 f hr hfa hfb)
          ha hb

/-- The scan made for the cache (`useLive = true`) and a scan of the same stream with
any flags: same transport indexes, and the routing and HH indexes of the first are
those of the second unless the file is a live map scanned without `useLive`. -/
theorem initMapStructure_rel (MAP_VERSION : Nat) (input : List StructureField)
    (file : BinaryMapFile) (useLive ro roW : Bool) (scanned fresh : BinaryMapFile)
    (h0r : file.routingIndexes = []) (h0h : file.hhIndexes = [])
    (ha : initMapStructure MAP_VERSION input file true roW = some scanned)
    (hb : initMapStructure MAP_VERSION input file useLive ro = some fresh) :
    fresh.transportIndexes = scanned.transportIndexes ∧
    fresh.routingIndexes = (if !file.liveMap || useLive then scanned.routingIndexes else []) ∧
    fresh.hhIndexes = (if !file.liveMap || useLive then scanned.hhIndexes else []) := by
  unfold initMapStructure at ha hb
  simp only at ha hb
  cases hla : initMapStructureLoop true roW input
      { file := { file with external := strFind file.inputName "osmand_ext" },
        versionConfirm := 4294967294 } with
  | none => simp [hla] at ha
  | some a1 =>
    cases hlb : initMapStructureLoop useLive ro input
        { file := { file with external := strFind file.inputName "osmand_ext" },
          versionConfirm := 4294967294 } with
    | none => simp [hlb] at hb
    | some b1 =>
      simp only [hla] at ha
      simp only [hlb] at hb
      have hrel := initMapStructureLoop_rel useLive ro roW input _ _ a1 b1
        ⟨rfl, rfl, by simp [h0r], by simp [h0h]⟩ hla hlb
      have hlive := (initMapStructureLoop_versions useLive ro input _ b1 hlb).2.2.2.1
      simp only at hlive
      split at ha
      · simp at ha
      · split at ha
        · simp at ha
        · split at hb
          · simp at hb
          · split at hb
            · simp at hb
            · simp only [Option.some.injEq] at ha hb
              subst ha; subst hb
              obtain ⟨_, r2, r3, r4⟩ := hrel
              rw [hlive] at r3 r4
              exact ⟨r2, r3, r4⟩


/-- Reader `readHHIndex` never assigns the name of the index. -/
theorem readHHIndexLoop_name :
    ∀ (input : List HHRoutingIndexField) (h : HHRouteIndex),
      (readHHIndexLoop input h).2.name = h.name := by
  intro input
  induction input with
  | nil => intro h; rfl
  | cons f rest ih =>
    intro h
    simp only [readHHIndexLoop]
    cases f with
    | edition v => cases v <;> simp [readHHIndexField, ih]
    | profile ok v => cases ok <;> simp [readHHIndexField, ih]
    | profileParams v => cases v <;> simp [readHHIndexField, ih]
    | pointBoxes l p b => simp [readHHIndexField, ih]
    | pointSegments => simp [readHHIndexField]
    | unknown sk => cases sk <;> simp [readHHIndexField, ih]

/-- No HH index found by a scan has a name: `readHHIndex` reads none. -/
theorem initMapStructureLoop_hh_name (useLive ro : Bool) :
    ∀ (input : List StructureField) (s s1 : ScanState),
      (∀ h ∈ s.file.hhIndexes, h.name = "") →
      initMapStructureLoop useLive ro input s = some s1 →
      ∀ h ∈ s1.file.hhIndexes, h.name = "" := by
  intro input
  induction input with
  | nil =>
    intro s s1 h0 h
    simp only [initMapStructureLoop, Option.some.injEq] at h
    subst h
    exact h0
  | cons f rest ih =>
    intro s s1 h0 h
    simp only [initMapStructureLoop] at h
    cases hf : initMapStructureField useLive ro s f with
    | none => simp [hf] at h
    | some s2 =>
      simp only [hf] at h
      refine ih s2 s1 ?_ h
      cases f with
      | version v =>
        cases v with
        | none => simp [initMapStructureField] at hf
        | some v =>
          simp only [initMapStructureField, Option.some.injEq] at hf
          subst hf
          exact h0
      | dateCreated v =>
        cases v with
        | none => simp [initMapStructureField] at hf
        | some v =>
          simp only [initMapStructureField, Option.some.injEq] at hf
          subst hf
          exact h0
      | mapIndex l p b =>
        simp only [initMapStructureField, Option.some.injEq] at hf
        subst hf
        exact h0
      | routingIndex l p b =>
        simp only [initMapStructureField] at hf
        split at hf <;> (simp only [Option.some.injEq] at hf; subst hf; exact h0)
      | transportIndex l p b =>
        simp only [initMapStructureField, Option.some.injEq] at hf
        subst hf
        exact h0
      | hhRoutingIndex l p b =>
        simp only [initMapStructureField] at hf
        split at hf
        · simp only [Option.some.injEq] at hf
          subst hf
          intro h hh
          simp only [List.mem_append, List.mem_singleton] at hh
          rcases hh with hh | hh
          · exact h0 h hh
          · rw [hh]
            simp [readHHIndex, readHHIndexLoop_name]
        · simp only [Option.some.injEq] at hf
          subst hf
          exact h0
      | versionConfirm v =>
        cases v with
        | none => simp [initMapStructureField] at hf
        | some v =>
          simp only [initMapStructureField, Option.some.injEq] at hf
          subst hf
          exact h0
      | endGroup =>
        simp only [initMapStructureField, Option.some.injEq] at hf
        subst hf
        exact h0
      | unknown sk =>
        cases sk with
        | false => simp [initMapStructureField] at hf
        | true =>
          simp only [initMapStructureField, if_true, Option.some.injEq] at hf
          subst hf
          exact h0

/-- The HH indexes of a scanned file have the empty name. -/
theorem initMapStructure_hh_name (MAP_VERSION : Nat) (input : List StructureField)
    (file : BinaryMapFile) (useLive ro : Bool) (f : BinaryMapFile)
    (h0 : file.hhIndexes = [])
    (h : initMapStructure MAP_VERSION input file useLive ro = some f) :
    ∀ x ∈ f.hhIndexes, x.name = "" := by
  unfold initMapStructure at h
  simp only at h
  cases hl : initMapStructureLoop useLive ro input
      { file := { file with external := strFind file.inputName "osmand_ext" },
        versionConfirm := 4294967294 } with
  | none => simp [hl] at h
  | some s =>
    simp only [hl] at h
    have hn := initMapStructureLoop_hh_name useLive ro input _ s (by simp [h0]) hl
    split at h
    · simp at h
    · split at h
      · simp at h
      · simp only [Option.some.injEq] at h
        subst h
        exact hn

/-- What `cacheBinaryMapFileIfNeeded` leaves when it starts without a cache and returns
`true`: a manifest holding the one entry written for the file it scanned. -/
theorem cacheBinaryMapFileIfNeeded_written (MAP_VERSION : Nat) (getFileName : String → String)
    (env : Env) (path : String) (roW : Bool) (g0 g1 : Globals)
    (hcache : g0.cache = none)
    (hwrite : cacheBinaryMapFileIfNeeded MAP_VERSION getFileName env path roW g0
      = some (true, g1)) :
    ∃ scanned fi,
      initMapStructure MAP_VERSION (env.content path) (newMapFile path) true roW
        = some scanned ∧
      fileIndexOf getFileName env scanned = some fi ∧
      g1.cache = some { version := CACHE_VERSION, datecreated := env.now, fileindex := [fi] } := by
  unfold cacheBinaryMapFileIfNeeded at hwrite
  simp only [hcache, Bool.false_eq_true, if_false] at hwrite
  cases hs : initMapStructure MAP_VERSION (env.content path) (newMapFile path) true roW with
  | none => simp [hs] at hwrite
  | some scanned =>
    simp only [hs] at hwrite
    unfold addToCache at hwrite
    split at hwrite
    · simp at hwrite
    · cases hfi : fileIndexOf getFileName env scanned with
      | none => simp [hfi] at hwrite
      | some fi =>
        simp only [hfi, hcache, Option.some.injEq, Prod.mk.injEq, true_and] at hwrite
        subst hwrite
        exact ⟨scanned, fi, rfl, hfi, by simp⟩

/-- C8, amended: for a file for which `cacheBinaryMapFileIfNeeded`, starting without a
cache, writes a manifest entry (it has a routing or an HH index), opening it fresh and
opening it through that entry produce the same transport indexes and routing indexes
with identical offset, length, name and bounding boxes, for every setting of `useLive`
and `routingOnly`, and the same HH indexes (offset, length, name, top bounds) when the
path is not a live map or `useLive` is false; map indexes are not written to the
manifest by `addToCache`, so the file opened through the entry has none. `getFileName`,
a helper outside the sources, is assumed to return an ending of the path. -/
theorem cache_open_same_indexes (MAP_VERSION : Nat) (getFileName : String → String)
    (env : Env) (path : String) (useLive routingOnly roW : Bool) (g0 g1 : Globals)
    (fresh : BinaryMapFile)
    (hcache : g0.cache = none)
    (hname : hasEnding path (getFileName path) = true)
    (hwrite : cacheBinaryMapFileIfNeeded MAP_VERSION getFileName env path roW g0
      = some (true, g1))
    (hfresh : (initBinaryMapFile MAP_VERSION env path useLive routingOnly g0).1 = some fresh) :
    ∃ cached, (initBinaryMapFile MAP_VERSION env path useLive routingOnly g1).1 = some cached ∧
      cached.transportIndexes = fresh.transportIndexes ∧
      cached.routingIndexes.map routingKey = fresh.routingIndexes.map routingKey ∧
      ((strFind path "live/" = false ∨ useLive = false) →
        cached.hhIndexes.map hhKey = fresh.hhIndexes.map hhKey) ∧
      cached.mapIndexes = [] := by
  obtain ⟨scanned, fi, hs, hfi, hg1⟩ :=
    cacheBinaryMapFileIfNeeded_written MAP_VERSION getFileName env path roW g0 g1 hcache hwrite
  -- the fresh open is a scan
  have hl0 : lookupCache env path g0 = none := by simp [lookupCache, hcache]
  rw [initBinaryMapFile_eq, hl0] at hfresh
  simp only at hfresh
  cases hf : initMapStructure MAP_VERSION (env.content path) (newMapFile path)
      useLive routingOnly with
  | none => simp [hf] at hfresh
  | some fresh1 =>
    simp only [hf, Option.some.injEq] at hfresh
    subst hfresh
    obtain ⟨r2, r3, r4⟩ := initMapStructure_rel MAP_VERSION (env.content path)
      (newMapFile path) useLive routingOnly roW scanned fresh1 rfl rfl hs hf
    have hsname : scanned.inputName = path :=
      (initMapStructure_some _ _ _ _ _ _ hs).2.2.2.1
    have hhn := initMapStructure_hh_name MAP_VERSION _ _ _ _ scanned rfl hs
    -- the entry written
    unfold fileIndexOf at hfi
    cases htp : partsOf transportPartOf scanned.transportIndexes with
    | none => simp [htp] at hfi
    | some tps =>
      cases hhp : partsOf hhRoutingPartOf scanned.hhIndexes with
      | none => simp [htp, hhp] at hfi
      | some hps =>
        simp only [htp, hhp, Option.some.injEq] at hfi
        -- the cache open finds it
        have hl1 : lookupCache env path g1 = some fi := by
          simp only [lookupCache, hg1, findFileIndex]
          subst hfi
          simp [hsname, hname]
        rw [initBinaryMapFile_eq, hl1]
        refine ⟨_, rfl, ?_⟩
        obtain ⟨l1, l2, l3, l4⟩ :=
          initFromFileIndex_lists fi (newMapFile path) useLive routingOnly
        have hlive : (newMapFile path).liveMap = strFind path "live/" := rfl
        have e1 : (newMapFile path).mapIndexes = [] := rfl
        have e2 : (newMapFile path).transportIndexes = [] := rfl
        have e3 : (newMapFile path).routingIndexes = [] := rfl
        have e4 : (newMapFile path).hhIndexes = [] := rfl
        rw [l1, l2, l3, l4, e1, e2, e3, e4]
        subst hfi
        simp only [List.nil_append]
        refine ⟨?_, ?_, ?_, ?_⟩
        · rw [r2]
          have := partsOf_roundtrip transportPartOf transportIndexFromCache id
            (fun a p h => transportIndex_roundtrip a p h) scanned.transportIndexes tps htp
          simpa using this
        · rw [r3]
          split
          · simp only [List.map_map]
            apply List.map_congr_left
            intro r _
            exact routingIndex_roundtrip r
          · rfl
        · intro hcond
          rw [r4, hlive]
          have hrt := partsOf_roundtrip hhRoutingPartOf hhIndexFromCache
            (fun h => (h.filePointer, h.length,
              h.top.map (fun b => (b.left, b.right, b.top, b.bottom))))
            (fun a p h => by
              obtain ⟨a1, a2, _, _, _, a6⟩ := hhIndex_roundtrip a p h
              simp only [a1, a2, a6]) scanned.hhIndexes hps hhp
          cases hlv : strFind path "live/" with
          | true =>
            rcases hcond with hcond | hcond
            · rw [hlv] at hcond; cases hcond
            · subst hcond; simp
          | false =>
            simp only [Bool.not_false, Bool.true_or, if_true]
            have hk : ∀ l : List HHRouteIndex, (∀ x ∈ l, x.name = "") →
                l.map hhKey = l.map (fun h => ((h.filePointer, h.length, "",
                  h.top.map (fun b => (b.left, b.right, b.top, b.bottom))) :
                  Nat × Nat × String × Option (Nat × Nat × Nat × Nat))) := by
              intro l hl
              apply List.map_congr_left
              intro x hx
              simp [hhKey, hl x hx]
            rw [hk scanned.hhIndexes hhn]
            rw [hk (hps.map hhIndexFromCache) (by
              intro x hx
              simp only [List.mem_map] at hx
              obtain ⟨p, _, rfl⟩ := hx
              rfl)]
            have := congrArg (List.map (fun k : Nat × Nat × Option (Nat × Nat × Nat × Nat) =>
              ((k.1, k.2.1, "", k.2.2) : Nat × Nat × String × Option (Nat × Nat × Nat × Nat))))
              hrt
            simpa [List.map_map, Function.comp] using this
        · cases routingOnly <;> simp


/-- C8, counterexample: for a file with a map index and a routing index,
`cacheBinaryMapFileIfNeeded` writes an entry; the fresh open has the map index (offset
7, length 30, name `m`), the open through the entry has no map index. -/
theorem cache_open_drops_map_indexes :
    (cacheBinaryMapFileIfNeeded 2 (fun p => p) routedEnv "a.obf" false {}).map (fun r => r.1)
      = some true ∧
    (initBinaryMapFile 2 routedEnv "a.obf" false false {}).1.map
      (fun f => f.mapIndexes.map (fun m => (m.filePointer, m.length, m.name)))
      = some [(7, 30, "m")] ∧
    (initBinaryMapFile 2 routedEnv "a.obf" false false routedCache).1.map
      (fun f => f.mapIndexes.map (fun m => (m.filePointer, m.length, m.name)))
      = some [] := by
  decide

/-- Witness for C8: the file of `routedEnv`, opened fresh and through the entry written
for it. -/
theorem cache_open_same_indexes_witness :
    ∃ cached, (initBinaryMapFile 2 routedEnv "a.obf" false false routedCache).1 = some cached ∧
      cached.transportIndexes = routedFresh.transportIndexes ∧
      cached.routingIndexes.map routingKey = routedFresh.routingIndexes.map routingKey ∧
      ((strFind "a.obf" "live/" = false ∨ false = false) →
        cached.hhIndexes.map hhKey = routedFresh.hhIndexes.map hhKey) ∧
      cached.mapIndexes = [] :=
  cache_open_same_indexes 2 (fun p => p) routedEnv "a.obf" false false false {} routedCache
    routedFresh rfl (by decide) (by rfl) (by rfl)

/-- C9, the code at a failing input: the fresh scan reads `shiftToData = 21` for the
root box at position 50; `addRouteSubregion` writes `shiftodata = 0` to the manifest
(21 is not greater than 50); the open through the manifest stores 0 in `mapDataBlock`. -/
theorem addRouteSubregion_shift_lost :
    (initBinaryMapFile 2 routedEnv "a.obf" false false {}).1.map
      (fun f => f.routingIndexes.map (fun r => r.subregions.map
        (fun s => (s.filePointer, s.mapDataBlock)))) = some [[(50, 21)]] ∧
    routedCache.cache.map (fun c => c.fileindex.map (fun fi => fi.routingindex.map
      (fun r => r.subregions.map (fun s => (s.offset, s.shiftodata))))) = some [[[(50, 0)]]] ∧
    (initBinaryMapFile 2 routedEnv "a.obf" false false routedCache).1.map
      (fun f => f.routingIndexes.map (fun r => r.subregions.map
        (fun s => (s.filePointer, s.mapDataBlock)))) = some [[(50, 0)]] := by
  decide

/-- Witness for C10: a cache file of version 4 read while a valid manifest with an entry
for `a.obf` was held: the manifest is gone and a later lookup of `a.obf` finds nothing. -/
theorem initMapFilesFromCache_version_mismatch_witness :
    staleManifestEnv.manifest "cache"
      = some { version := 4, fileindex := [{ size := 10, filename := "a.obf", version := 2 }] } ∧
    (4 : Nat) ≠ CACHE_VERSION ∧
    (initMapFilesFromCache staleManifestEnv "cache" oldEntryCache).2.cache = none ∧
    lookupCache staleManifestEnv "a.obf"
      (runCalls 2 (initMapFilesFromCache staleManifestEnv "cache" oldEntryCache).2
        [.close "b.obf"]) = none :=
  ⟨rfl, by decide,
    (initMapFilesFromCache_version_mismatch 2 staleManifestEnv "cache" oldEntryCache
      { version := 4, fileindex := [{ size := 10, filename := "a.obf", version := 2 }] }
      rfl (by decide)).2.1,
    ((initMapFilesFromCache_version_mismatch 2 staleManifestEnv "cache" oldEntryCache
      { version := 4, fileindex := [{ size := 10, filename := "a.obf", version := 2 }] }
      rfl (by decide)).2.2 [.close "b.obf"] staleManifestEnv "a.obf" false false).2.1⟩


/-! ## Properties of the encoding rules -/

/-- The padding loop appends copies of the filler until the table is longer than `id`,
or until its bound of passes is used up. -/
theorem padRouteEncodingRules_eq (id : Nat) (empty : RouteTypeRule) :
    ∀ (n : Nat) (rules : List RouteTypeRule),
      padRouteEncodingRules id empty n rules =
        rules ++ List.replicate (min n (id + 1 - rules.length)) empty := by
  intro n
  induction n with
  | zero => intro rules; simp [padRouteEncodingRules]
  | succ n ih =>
    intro rules
    simp only [padRouteEncodingRules]
    by_cases h : rules.length > id
    · have h0 : id + 1 - rules.length = 0 := by omega
      simp [h, h0]
    · have h1 : id + 1 - rules.length = (id + 1 - (rules.length + 1)) + 1 := by omega
      simp only [h, decide_False, Bool.not_false, if_true, ih, List.length_append,
        List.length_singleton, List.append_assoc, List.singleton_append]
      rw [h1, Nat.succ_min_succ, List.replicate_succ]

/-- The ids of the well-known rules are kept apart from the table. -/
theorem cacheRuleId_rules (id : Nat) (tag val : String) (rr : RouteRules) :
    (cacheRuleId id tag val rr).routeEncodingRules = rr.routeEncodingRules ∧
    (cacheRuleId id tag val rr).decodingRules = rr.decodingRules := by
  constructor
  · simp only [cacheRuleId, apply_ite RouteRules.routeEncodingRules, ite_self]
  · simp only [cacheRuleId, apply_ite RouteRules.decodingRules, ite_self]

/-- The table after `initRouteEncodingRule`: the old table, padded with copies of the
new rule up to index `id`, with the new rule at `id`. -/
theorem initRouteEncodingRule_rules (syn : RuleSyntax) (id : Nat) (tag val : String)
    (rr : RouteRules) :
    (initRouteEncodingRule syn id tag val rr).routeEncodingRules =
      (rr.routeEncodingRules ++
        List.replicate (id + 1 - rr.routeEncodingRules.length)
          (newRouteTypeRule syn tag val)).set id (newRouteTypeRule syn tag val) := by
  unfold initRouteEncodingRule
  have h : min (id + 1) (id + 1 - rr.routeEncodingRules.length)
      = id + 1 - rr.routeEncodingRules.length := by omega
  simp only [(cacheRuleId_rules _ _ _ _).1, padRouteEncodingRules_eq, h]

/-- C17: `initRouteEncodingRule(id, tag, value)` leaves the table with
`routeEncodingRules[id] = (tag, value)` and size `max(old size, id + 1)`, and leaves
every entry at an index `j < old size` with `j ≠ id` unchanged, for every id and every
prior table. -/
theorem initRouteEncodingRule_table (syn : RuleSyntax) (id : Nat) (tag val : String)
    (rr : RouteRules) :
    (initRouteEncodingRule syn id tag val rr).routeEncodingRules.length
      = max rr.routeEncodingRules.length (id + 1) ∧
    (∃ r, (initRouteEncodingRule syn id tag val rr).routeEncodingRules[id]? = some r ∧
      r.t = tag ∧ r.v = val) ∧
    ∀ j, j < rr.routeEncodingRules.length → j ≠ id →
      (initRouteEncodingRule syn id tag val rr).routeEncodingRules[j]?
        = rr.routeEncodingRules[j]? := by
  rw [initRouteEncodingRule_rules]
  refine ⟨?_, ?_, ?_⟩
  · simp only [List.length_set, List.length_append, List.length_replicate]
    omega
  · refine ⟨newRouteTypeRule syn tag val, ?_, rfl, rfl⟩
    rw [List.getElem?_set_self]
    have : id < rr.routeEncodingRules.length + (id + 1 - rr.routeEncodingRules.length) := by
      omega
    simp [this]
  · intro j hj hne
    rw [List.getElem?_set_ne (Ne.symm hne), List.getElem?_append_left hj]

example : ((initRouteEncodingRule plainSyntax 1 "highway" "primary" {}).routeEncodingRules.map
    (fun r => (r.t, r.v))) = [("highway", "primary"), ("highway", "primary")] := by decide

/-- Every slot the padding loop of `initRouteEncodingRule` creates holds a rule built from
the tag and the value of the call. -/
theorem initRouteEncodingRule_filler (syn : RuleSyntax) (id : Nat) (tag val : String)
    (rr : RouteRules) (j : Nat) (h1 : rr.routeEncodingRules.length ≤ j) (h2 : j < id) :
    (initRouteEncodingRule syn id tag val rr).routeEncodingRules[j]?
      = some (newRouteTypeRule syn tag val) := by
  rw [initRouteEncodingRule_rules, List.getElem?_set_ne (by omega),
    List.getElem?_append_right h1, List.getElem?_replicate]
  have : j - rr.routeEncodingRules.length < id + 1 - rr.routeEncodingRules.length := by omega
  simp [this]

/-- C18 (the code departs from the claim): `initRouteEncodingRule(1, "highway", "primary")`
on an empty table creates slot 0 as a copy of the rule: the slot carries the tag and the
value, and the search `findOrCreateRouteType("highway", "primary")` matches it and
returns 0. -/
theorem initRouteEncodingRule_filler_holds_rule :
    rulePairs (initRouteEncodingRule plainSyntax 1 "highway" "primary" {}).routeEncodingRules
      = [("highway", "primary"), ("highway", "primary")] ∧
    (findOrCreateRouteType plainSyntax "highway" "primary"
      (initRouteEncodingRule plainSyntax 1 "highway" "primary" {}).routeEncodingRules).1 = 0 := by
  decide

/-- C19 (the code departs from the claim): after `readRoutingIndex` on an index of the two
rules `highway=primary` and `highway=secondary`, the indices 0 and 1 of the table both
hold `highway=primary`. -/
theorem readRoutingIndex_duplicate_pair :
    (readRoutingIndexRules plainSyntax false twoRuleIndex {}).1 = true ∧
    rulePairs (readRoutingIndexRules plainSyntax false twoRuleIndex {}).2.routeEncodingRules
      = [("highway", "primary"), ("highway", "primary"), ("highway", "secondary")] := by
  decide

/-- Lookup after an assignment on the map `decodingRules`. -/
theorem mapFind_mapAssign (m : List (String × Nat)) (k : String) (v : Nat) (k2 : String) :
    mapFind (mapAssign m k v) k2 = if k = k2 then some v else mapFind m k2 := by
  induction m with
  | nil => simp [mapAssign, mapFind]
  | cons p rest ih =>
    obtain ⟨k1, v1⟩ := p
    by_cases h1 : k1 = k
    · subst h1
      by_cases h2 : k1 = k2 <;> simp [mapAssign, mapFind, h2]
    · by_cases h2 : k1 = k2
      · subst h2
        have h3 : ¬ k = k1 := fun h => h1 h.symm
        simp [mapAssign, mapFind, h1, h3]
      · simp [mapAssign, mapFind, h1, h2, ih]

/-- A key found after the filling loop was in the map before or is the key of a rule the
loop went over, found at the index of that rule. -/
theorem fillDecodingRules_some (k : String) :
    ∀ (rest : List RouteTypeRule) (i : Nat) (m : List (String × Nat)) (r : Nat),
      mapFind (fillDecodingRules i rest m) k = some r →
        mapFind m k = some r ∨
          ∃ j rt, rest[j]? = some rt ∧ ruleKey rt.t rt.v = k ∧ r = i + j := by
  intro rest
  induction rest with
  | nil => intro i m r h; exact Or.inl h
  | cons rt rest ih =>
    intro i m r h
    simp only [fillDecodingRules] at h
    rcases ih (i + 1) _ r h with h1 | ⟨j, rt2, hj, hk, hr⟩
    · rw [mapFind_mapAssign] at h1
      by_cases hk : ruleKey rt.t rt.v = k
      · rw [if_pos hk] at h1
        refine Or.inr ⟨0, rt, by simp, hk, ?_⟩
        simp only [Option.some.injEq] at h1
        omega
      · rw [if_neg hk] at h1
        exact Or.inl h1
    · exact Or.inr ⟨j + 1, rt2, by simpa using hj, hk, by omega⟩

/-- A key not found after the filling loop was not in the map before and is the key of no
rule the loop went over. -/
theorem fillDecodingRules_none (k : String) :
    ∀ (rest : List RouteTypeRule) (i : Nat) (m : List (String × Nat)),
      mapFind (fillDecodingRules i rest m) k = none →
        mapFind m k = none ∧ ∀ rt ∈ rest, ruleKey rt.t rt.v ≠ k := by
  intro rest
  induction rest with
  | nil => intro i m h; exact ⟨h, by simp⟩
  | cons rt rest ih =>
    intro i m h
    simp only [fillDecodingRules] at h
    obtain ⟨h1, h2⟩ := ih (i + 1) _ h
    rw [mapFind_mapAssign] at h1
    by_cases hk : ruleKey rt.t rt.v = k
    · rw [if_pos hk] at h1
      cases h1
    · rw [if_neg hk] at h1
      refine ⟨h1, ?_⟩
      intro rt2 hrt2
      rcases List.mem_cons.1 hrt2 with h3 | h3
      · subst h3; exact hk
      · exact h2 rt2 h3

/-- Two lists split at a first occurrence of the same character are split alike. -/
theorem split_at_first (c : Char) :
    ∀ (l1 l2 r1 r2 : List Char), c ∉ l1 → c ∉ l2 → l1 ++ c :: r1 = l2 ++ c :: r2 →
      l1 = l2 ∧ r1 = r2 := by
  intro l1
  induction l1 with
  | nil =>
    intro l2 r1 r2 _ h2 h
    cases l2 with
    | nil => simpa using h
    | cons a l2 =>
      simp only [List.nil_append, List.cons_append, List.cons.injEq] at h
      exact absurd (by simp [h.1]) h2
  | cons a l1 ih =>
    intro l2 r1 r2 h1 h2 h
    cases l2 with
    | nil =>
      simp only [List.nil_append, List.cons_append, List.cons.injEq] at h
      exact absurd (by simp [h.1]) h1
    | cons b l2 =>
      simp only [List.cons_append, List.cons.injEq] at h
      have h3 := ih l2 r1 r2 (fun hc => h1 (List.mem_cons_of_mem _ hc))
        (fun hc => h2 (List.mem_cons_of_mem _ hc)) h.2
      exact ⟨by rw [h.1, h3.1], h3.2⟩

/-- The key of `decodingRules` tells tag and value apart when the tags hold no `#`. -/
theorem ruleKey_inj (t1 v1 t2 v2 : String) (h1 : '#' ∉ t1.data) (h2 : '#' ∉ t2.data)
    (h : ruleKey t1 v1 = ruleKey t2 v2) : t1 = t2 ∧ v1 = v2 := by
  have hd : (ruleKey t1 v1).data = (ruleKey t2 v2).data := by rw [h]
  simp only [ruleKey, String.data_append] at hd
  rw [List.append_assoc, List.append_assoc] at hd
  have := split_at_first '#' t1.data t2.data v1.data v2.data h1 h2 (by simpa using hd)
  exact ⟨String.ext this.1, String.ext this.2⟩

/-- C20 (counterexample): on the table loaded from an index whose one rule has tag `a` and
value `b#c`, the first call `searchRouteEncodingRule("a#b", "c")` returns 1, although no
rule of the table has tag `a#b` and value `c`. -/
theorem searchRouteEncodingRule_key_collision :
    rulePairs (readRoutingIndexRules plainSyntax false hashRuleIndex {}).2.routeEncodingRules
      = [("a", "b#c"), ("a", "b#c")] ∧
    (readRoutingIndexRules plainSyntax false hashRuleIndex {}).2.decodingRules = [] ∧
    (searchRouteEncodingRule "a#b" "c"
      (readRoutingIndexRules plainSyntax false hashRuleIndex {}).2).1 = 1 := by
  decide

/-- C20 (amended): the first call of `searchRouteEncodingRule(tag, value)` on a table of
fewer than 2^32 rules returns an id `i ≥ 1` such that the string `tag#value` of
`routeEncodingRules[i]` equals that of the searched pair whenever such an `i` exists, and
`-1` as an unsigned 32-bit value otherwise; where neither the searched tag nor the tag of
the rule holds a `#`, equal strings mean exactly that tag and exactly that value. -/
theorem searchRouteEncodingRule_first_call (tag value : String) (rr : RouteRules)
    (h0 : rr.decodingRules = []) (_hlen : rr.routeEncodingRules.length < 4294967296) :
    ((∃ i rt, 1 ≤ i ∧ rr.routeEncodingRules[i]? = some rt ∧
        ruleKey rt.t rt.v = ruleKey tag value) →
      1 ≤ (searchRouteEncodingRule tag value rr).1 ∧
      ∃ rt, rr.routeEncodingRules[(searchRouteEncodingRule tag value rr).1]? = some rt ∧
        ruleKey rt.t rt.v = ruleKey tag value) ∧
    ((¬ ∃ i rt, 1 ≤ i ∧ rr.routeEncodingRules[i]? = some rt ∧
        ruleKey rt.t rt.v = ruleKey tag value) →
      (searchRouteEncodingRule tag value rr).1 = 4294967295) ∧
    (∀ rt : RouteTypeRule, '#' ∉ tag.data → '#' ∉ rt.t.data →
      (ruleKey rt.t rt.v = ruleKey tag value ↔ rt.t = tag ∧ rt.v = value)) := by
  have hs : (searchRouteEncodingRule tag value rr).1 =
      match mapFind (fillDecodingRules 1 (rr.routeEncodingRules.drop 1) [])
        (ruleKey tag value) with
      | some i => i
      | none => 4294967295 := by
    simp only [searchRouteEncodingRule, h0, List.isEmpty_nil, if_true]
    split <;> rename_i h <;> simp only [h]
  refine ⟨?_, ?_, ?_⟩
  · rintro ⟨i, rt, hi, hrt, hk⟩
    cases hf : mapFind (fillDecodingRules 1 (rr.routeEncodingRules.drop 1) [])
        (ruleKey tag value) with
    | none =>
      have hn := (fillDecodingRules_none _ _ _ _ hf).2 rt (by
        rw [List.mem_iff_getElem?]
        refine ⟨i - 1, ?_⟩
        rw [List.getElem?_drop]
        have : 1 + (i - 1) = i := by omega
        rw [this]; exact hrt)
      exact absurd hk hn
    | some r =>
      have hv : (searchRouteEncodingRule tag value rr).1 = r := by rw [hs, hf]
      rw [hv]
      rcases fillDecodingRules_some _ _ _ _ _ hf with h1 | ⟨j, rt2, hj, hk2, hr⟩
      · simp [mapFind] at h1
      · refine ⟨by omega, rt2, ?_, hk2⟩
        rw [List.getElem?_drop] at hj
        rw [hr]; exact hj
  · intro hno
    cases hf : mapFind (fillDecodingRules 1 (rr.routeEncodingRules.drop 1) [])
        (ruleKey tag value) with
    | none => rw [hs, hf]
    | some r =>
      rcases fillDecodingRules_some _ _ _ _ _ hf with h1 | ⟨j, rt2, hj, hk2, hr⟩
      · simp [mapFind] at h1
      · rw [List.getElem?_drop] at hj
        exact absurd ⟨1 + j, rt2, by omega, hj, hk2⟩ hno
  · intro rt h1 h2
    constructor
    · intro h; exact ruleKey_inj _ _ _ _ h2 h1 h
    · rintro ⟨ha, hb⟩; rw [ha, hb]

/-- Witness of C20: the table loaded from the index of `highway=primary` and
`highway=secondary`. -/
theorem searchRouteEncodingRule_first_call_witness :
    (searchRouteEncodingRule "highway" "secondary"
      (readRoutingIndexRules plainSyntax false twoRuleIndex {}).2).1 = 2 ∧
    ((¬ ∃ i rt, 1 ≤ i ∧
        (readRoutingIndexRules plainSyntax false twoRuleIndex {}).2.routeEncodingRules[i]?
          = some rt ∧ ruleKey rt.t rt.v = ruleKey "highway" "tertiary") →
      (searchRouteEncodingRule "highway" "tertiary"
        (readRoutingIndexRules plainSyntax false twoRuleIndex {}).2).1 = 4294967295) :=
  ⟨by decide,
   (searchRouteEncodingRule_first_call "highway" "tertiary"
      (readRoutingIndexRules plainSyntax false twoRuleIndex {}).2 (by decide) (by decide)).2.1⟩

/-! ## Properties of the result publisher -/

/-- One `publish` call at zoom 15 or above keeps the invariant of the positive ids: the
result holds one object of an id the map knows and none of an id it does not know. -/
theorem publish_inv (p : ResultPublisher) (o : FoundMapDataObject) (hz : 15 ≤ o.zoom)
    (hp : ∀ id : Int, 0 < id →
      (withId id p.result).length = if (p.ids id).isSome then 1 else 0) :
    ∀ id : Int, 0 < id →
      (withId id (publish p o).2.result).length
        = if ((publish p o).2.ids id).isSome then 1 else 0 := by
  intro id hid
  have h := hp id hid
  unfold publish
  by_cases h1 : o.obj.id > 0
  · simp only [h1, if_true]
    cases hf : p.ids o.obj.id with
    | some ex => simpa [hz] using h
    | none =>
      by_cases h2 : id = o.obj.id
      · subst h2
        rw [hf] at h
        simp only [withId] at h ⊢
        simp [List.filter_append, h]
      · have h3 : ¬ o.obj.id = id := fun e => h2 e.symm
        simp only [withId] at h ⊢
        simp [List.filter_append, h, h2, h3]
  · have h3 : ¬ o.obj.id = id := by omega
    simp only [withId] at h ⊢
    simp [h1, List.filter_append, h, h3]

/-- A sequence of `publish` calls at zoom 15 or above keeps the invariant of the positive
ids. -/
theorem publishAll_inv :
    ∀ (os : List FoundMapDataObject) (p : ResultPublisher), (∀ o ∈ os, 15 ≤ o.zoom) →
      (∀ id : Int, 0 < id →
        (withId id p.result).length = if (p.ids id).isSome then 1 else 0) →
      ∀ id : Int, 0 < id →
        (withId id (publishAll p os).result).length
          = if ((publishAll p os).ids id).isSome then 1 else 0 := by
  intro os
  induction os with
  | nil => intro p _ hp; exact hp
  | cons o rest ih =>
    intro p hz hp
    simp only [publishAll]
    exact ih _ (fun x hx => hz x (List.mem_cons_of_mem _ hx))
      (publish_inv p o (hz o (List.mem_cons_self _ _)) hp)

/-- The map of a publisher knows a positive id after a `publish` call if it knew it before
or the call carried it. -/
theorem publish_ids (p : ResultPublisher) (o : FoundMapDataObject) (id : Int) (hid : 0 < id)
    (h : (p.ids id).isSome ∨ o.obj.id = id) : ((publish p o).2.ids id).isSome := by
  unfold publish
  by_cases h1 : o.obj.id > 0
  · simp only [h1, if_true]
    cases hf : p.ids o.obj.id with
    | some ex =>
      have hk : (p.ids id).isSome := by
        rcases h with h | h
        · exact h
        · rw [← h, hf]; rfl
      by_cases hzz : o.zoom ≥ 15
      · simpa [hzz] using hk
      · simp only [hzz, if_false]
        split
        · exact hk
        · by_cases h2 : id = o.obj.id <;> simp [h2, hk]
    | none =>
      by_cases h2 : id = o.obj.id
      · simp [h2]
      · rcases h with h | h
        · simp [h2, h]
        · exact absurd h.symm h2
  · rcases h with h | h
    · simpa [h1] using h
    · omega

/-- The map of a publisher knows every positive id it knew before a sequence of calls and
every positive id the sequence carried. -/
theorem publishAll_ids (id : Int) (hid : 0 < id) :
    ∀ (os : List FoundMapDataObject) (p : ResultPublisher),
      ((p.ids id).isSome ∨ ∃ o ∈ os, o.obj.id = id) → ((publishAll p os).ids id).isSome := by
  intro os
  induction os with
  | nil =>
    intro p h
    rcases h with h | ⟨o, ho, _⟩
    · exact h
    · cases ho
  | cons o rest ih =>
    intro p h
    simp only [publishAll]
    apply ih
    rcases h with h | ⟨x, hx, hxid⟩
    · exact Or.inl (publish_ids p o id hid (Or.inl h))
    · rcases List.mem_cons.1 hx with h2 | h2
      · subst h2; exact Or.inl (publish_ids p x id hid (Or.inr hxid))
      · exact Or.inr ⟨x, h2, hxid⟩

/-- C16 (counterexample): two objects of id 0 published at zoom 15 are both accepted and
both in the result. -/
theorem publish_id_zero_twice :
    (publish (publish {} { obj := { id := 0 }, zoom := 15 }).2
      { obj := { id := 0 }, zoom := 15 }).1 = true ∧
    (publishAll {} [{ obj := { id := 0 }, zoom := 15 },
      { obj := { id := 0 }, zoom := 15 }]).result
      = [{ obj := { id := 0 }, zoom := 15 }, { obj := { id := 0 }, zoom := 15 }] := by
  decide

/-- One `publish` call appends the object to the result or leaves the result as it is, and
an object it appends under an id above 0 is none of the objects with an id of 0 or
below. -/
theorem publish_nonpositive (p : ResultPublisher) (o : FoundMapDataObject) :
    (publish p o).2.result.filter (fun x => decide (x.obj.id ≤ 0))
      = p.result.filter (fun x => decide (x.obj.id ≤ 0))
          ++ [o].filter (fun x => decide (x.obj.id ≤ 0)) := by
  unfold publish
  by_cases h1 : o.obj.id > 0
  · have h2 : ¬ o.obj.id ≤ 0 := by omega
    simp only [h1, if_true]
    cases hf : p.ids o.obj.id with
    | some ex =>
      by_cases hzz : o.zoom ≥ 15
      · simp [hzz, h2]
      · simp only [hzz, if_false]
        split <;> simp [List.filter_append, h2]
    | none => simp [List.filter_append, h2]
  · simp [h1, List.filter_append]

/-- A sequence of `publish` calls adds to the objects of the result with an id of 0 or
below those of the sequence, all of them and in their order. -/
theorem publishAll_nonpositive :
    ∀ (os : List FoundMapDataObject) (p : ResultPublisher),
      (publishAll p os).result.filter (fun x => decide (x.obj.id ≤ 0))
        = p.result.filter (fun x => decide (x.obj.id ≤ 0))
            ++ os.filter (fun x => decide (x.obj.id ≤ 0)) := by
  intro os
  induction os with
  | nil => intro p; simp [publishAll]
  | cons o rest ih =>
    intro p
    simp only [publishAll]
    rw [ih, publish_nonpositive, List.append_assoc, ← List.filter_append]
    rfl

/-- C16 (amended): for every sequence of `publish` calls on a new publisher whose objects
all carry zoom 15 or above, and for every object id above 0, at most one object with that
id is in the result, and a further object with an id the sequence has carried is
rejected: `publish` returns false and leaves the publisher as it is. Objects with an id
of 0 or below are not deduplicated: a call with such an object, on any publisher and at
any zoom, returns true and appends the object to the result, so that the result of the
sequence holds every object of the sequence with an id of 0 or below, in the order of the
calls. -/
theorem publishAll_unique (os : List FoundMapDataObject) (hz : ∀ o ∈ os, 15 ≤ o.zoom) :
    (∀ id : Int, 0 < id →
      (withId id (publishAll {} os).result).length ≤ 1 ∧
      ∀ o : FoundMapDataObject, 15 ≤ o.zoom → o.obj.id = id → (∃ x ∈ os, x.obj.id = id) →
        (publish (publishAll {} os) o).1 = false ∧
        (publish (publishAll {} os) o).2.result = (publishAll {} os).result) ∧
    (∀ (p : ResultPublisher) (o : FoundMapDataObject), o.obj.id ≤ 0 →
      (publish p o).1 = true ∧ (publish p o).2.result = p.result ++ [o] ∧
      (publish p o).2.ids = p.ids) ∧
    (publishAll {} os).result.filter (fun x => decide (x.obj.id ≤ 0))
      = os.filter (fun x => decide (x.obj.id ≤ 0)) := by
  refine ⟨?_, ?_, ?_⟩
  · intro id hid
    constructor
    · have h := publishAll_inv os {} hz (by intro i _; simp [withId]) id hid
      rw [h]; split <;> omega
    · intro o hzo hoid hseen
      have hk := publishAll_ids id hid os {} (Or.inr hseen)
      obtain ⟨ex, hex⟩ := Option.isSome_iff_exists.1 hk
      have hpos : o.obj.id > 0 := by omega
      rw [← hoid] at hex
      simp [publish, hpos, hex, hzo]
  · intro p o ho
    have h1 : ¬ o.obj.id > 0 := by omega
    simp [publish, h1]
  · rw [publishAll_nonpositive]
    simp

/-- Witness of C16: the id 7 published three times at zoom 15 and 16, between two objects
of id 0. -/
theorem publishAll_unique_witness :
    (withId 7 (publishAll {} [{ obj := { id := 7 }, zoom := 15 },
      { obj := { id := 0 }, zoom := 15 }, { obj := { id := 7 }, zoom := 16 },
      { obj := { id := 0 }, zoom := 15 }, { obj := { id := 7 }, zoom := 15 }]).result).length
      ≤ 1 ∧
    (publishAll {} [{ obj := { id := 7 }, zoom := 15 },
      { obj := { id := 0 }, zoom := 15 }, { obj := { id := 7 }, zoom := 16 },
      { obj := { id := 0 }, zoom := 15 }, { obj := { id := 7 }, zoom := 15 }]).result
      = [{ obj := { id := 7 }, zoom := 15 }, { obj := { id := 0 }, zoom := 15 },
         { obj := { id := 0 }, zoom := 15 }] :=
  ⟨((publishAll_unique [{ obj := { id := 7 }, zoom := 15 },
      { obj := { id := 0 }, zoom := 15 }, { obj := { id := 7 }, zoom := 16 },
      { obj := { id := 0 }, zoom := 15 }, { obj := { id := 7 }, zoom := 15 }]
    (by decide)).1 7 (by decide)).1, by decide⟩

/-! ## Properties of the order of the block reads -/

/-- Insertion into a list rearranges the list with the element in front. -/
theorem insertSorted_perm {α : Type} (comp : α → α → Bool) (a : α) :
    ∀ l : List α, (insertSorted comp a l).Perm (a :: l) := by
  intro l
  induction l with
  | nil => exact List.Perm.refl _
  | cons b rest ih =>
    simp only [insertSorted]
    split
    · exact List.Perm.refl _
    · exact (List.Perm.cons b ih).trans (List.Perm.swap a b rest)

/-- Insertion sort under a comparator that is asymmetric and transitive keeps the
contract of `std::sort`. -/
theorem insertSort_isStdSort {α : Type} (comp : α → α → Bool)
    (hasym : ∀ a b, comp a b = true → comp b a = false)
    (htrans : ∀ a b c, comp a b = true → comp b c = true → comp a c = true) :
    IsStdSort comp (insertSort comp) := by
  have hins : ∀ (a : α) (l : List α), l.Pairwise (fun x y => comp y x = false) →
      (insertSorted comp a l).Pairwise (fun x y => comp y x = false) := by
    intro a l
    induction l with
    | nil => intro _; simp [insertSorted]
    | cons b rest ih =>
      intro hl
      obtain ⟨hb, hrest⟩ := List.pairwise_cons.1 hl
      simp only [insertSorted]
      by_cases hc : comp a b = true
      · simp only [hc, if_true]
        refine List.pairwise_cons.2 ⟨?_, hl⟩
        intro x hx
        rcases List.mem_cons.1 hx with h | h
        · subst h; exact hasym _ _ hc
        · cases hxa : comp x a with
          | false => rfl
          | true =>
            have := htrans x a b hxa hc
            rw [hb x h] at this
            cases this
      · simp only [hc]
        refine List.pairwise_cons.2 ⟨?_, ih hrest⟩
        intro x hx
        rcases List.mem_cons.1 ((insertSorted_perm comp a rest).subset hx) with h | h
        · subst h; simpa using hc
        · exact hb x h
  intro l
  induction l with
  | nil => exact ⟨List.Perm.refl _, List.Pairwise.nil⟩
  | cons a rest ih =>
    simp only [insertSort]
    exact ⟨(insertSorted_perm comp a _).trans (List.Perm.cons a ih.1), hins a _ ih.2⟩

/-- The comparator `sortRouteRegions` is asymmetric and transitive, so insertion sort
under it keeps the contract of `std::sort`. -/
theorem insertSort_sortRouteRegions : IsStdSort sortRouteRegions (insertSort sortRouteRegions) := by
  apply insertSort_isStdSort
  · intro a b h
    simp only [sortRouteRegions, decide_eq_true_eq, decide_eq_false_iff_not] at h ⊢
    omega
  · intro a b c h1 h2
    simp only [sortRouteRegions, decide_eq_true_eq] at h1 h2 ⊢
    omega

/-- A sorted rearrangement of two elements of which the second is ordered before the
first is the two elements swapped. -/
theorem sorted_pair_swapped {α : Type} (comp : α → α → Bool) (a b : α) (s : List α)
    (hperm : s.Perm [a, b]) (hsorted : s.Pairwise (fun x y => comp y x = false))
    (hba : comp b a = true) : s = [b, a] := by
  have hlen := hperm.length_eq
  match s, hlen with
  | [x, y], _ =>
    have hx : x ∈ [a, b] := hperm.subset (by simp)
    have hxy : comp y x = false := (List.pairwise_cons.1 hsorted).1 y (by simp)
    rcases List.mem_cons.1 hx with h | h
    · subst h
      have h2 := (List.perm_cons x).1 hperm
      have hy : y = b := List.perm_singleton.1 h2 |> fun e => by simpa using e
      subst hy
      rw [hba] at hxy; cases hxy
    · have hx2 : x = b := by simpa using h
      subst hx2
      have h2 := (List.perm_cons x).1 (hperm.trans (List.Perm.swap x a []))
      have hy : y = a := List.perm_singleton.1 h2 |> fun e => by simpa using e
      subst hy
      rfl

/-- C14 (the code departs from the claim): for the leaves at 100 and 200 whose data lie
900 and 850 further on, `readRouteMapObjects` sorts by the relative `mapDataBlock` and
seeks to 1050 first and to 1000 second, under every sort that keeps the contract of
`std::sort`. -/
theorem readRouteMapObjects_seeks_descend (sort : List RouteSubregion → List RouteSubregion)
    (hsort : IsStdSort sortRouteRegions sort) :
    readRouteMapObjects sort crossedLeaves = [1050, 1000] := by
  have h := hsort crossedLeaves
  have hs := sorted_pair_swapped sortRouteRegions _ _ _ h.1 h.2 (by decide)
  simp only [readRouteMapObjects, hs]
  decide

/-- Witness of C14: insertion sort under `sortRouteRegions`. -/
theorem readRouteMapObjects_seeks_descend_witness :
    readRouteMapObjects (insertSort sortRouteRegions) crossedLeaves = [1050, 1000] :=
  readRouteMapObjects_seeks_descend (insertSort sortRouteRegions) insertSort_sortRouteRegions

/-! ## Properties of the coordinate stage -/

/-- An `int` is at most 2^31 - 1 and at least -2^31. -/
theorem i32_range (z : Int) : -2147483648 ≤ i32 z ∧ i32 z ≤ 2147483647 := by
  unfold i32; omega

/-- An `int` value is kept by the conversion to `int`. -/
theorem i32_id (z : Int) (h1 : -2147483648 ≤ z) (h2 : z ≤ 2147483647) : i32 z = z := by
  unfold i32; omega

/-- The point test of the loop decides membership in the query box. -/
theorem pointInQuery_iff (req : SearchQuery) (x y : Int) :
    pointInQuery req x y = true ↔ InQuery req x y := by
  simp only [pointInQuery, InQuery, Bool.and_eq_true, decide_eq_true_eq, ge_iff_le]
  tauto

/-- One pass of the coordinate loop keeps `CoordinateInv`. -/
theorem coordinate_step_inv (req : SearchQuery) (s : CoordinateLoop) (x y : Int)
    (hx : x ≤ 2147483647) (hy : y ≤ 2147483647) (h : CoordinateInv req s) :
    CoordinateInv req
      { px := x, py := y, contains := s.contains || pointInQuery req x y,
        minX := if !(s.contains || pointInQuery req x y) then min s.minX x else s.minX,
        maxX := if !(s.contains || pointInQuery req x y) then max s.maxX x else s.maxX,
        minY := if !(s.contains || pointInQuery req x y) then min s.minY y else s.minY,
        maxY := if !(s.contains || pointInQuery req x y) then max s.maxY y else s.maxY,
        cacheCoordinates := s.cacheCoordinates ++ [(x, y)] } := by
  obtain ⟨hr, ht, hf⟩ := h
  refine ⟨?_, ?_, ?_⟩
  · intro v hv
    rcases List.mem_append.1 hv with h1 | h1
    · exact hr v h1
    · simp only [List.mem_singleton] at h1; subst h1; exact ⟨hx, hy⟩
  · intro hc
    simp only [Bool.or_eq_true] at hc
    rcases hc with hc | hc
    · obtain ⟨v, hv, hq⟩ := ht hc
      exact ⟨v, List.mem_append_left _ hv, hq⟩
    · exact ⟨(x, y), by simp, (pointInQuery_iff req x y).1 hc⟩
  · intro hc
    simp only [Bool.or_eq_false_iff] at hc
    obtain ⟨hc1, hc2⟩ := hc
    obtain ⟨hn, hb, h1, h2, h3, h4⟩ := hf hc1
    have hnq : ¬ InQuery req x y := by
      intro hq; rw [(pointInQuery_iff req x y).2 hq] at hc2; cases hc2
    simp only [hc1, hc2, Bool.or_false, Bool.not_false, if_true]
    refine ⟨?_, ?_, ?_, ?_, ?_, ?_⟩
    · intro v hv
      rcases List.mem_append.1 hv with h5 | h5
      · exact hn v h5
      · simp only [List.mem_singleton] at h5; subst h5; exact hnq
    · intro v hv
      rcases List.mem_append.1 hv with h5 | h5
      · have := hb v h5
        refine ⟨?_, ?_, ?_, ?_⟩ <;> omega
      · simp only [List.mem_singleton] at h5; subst h5
        refine ⟨?_, ?_, ?_, ?_⟩ <;> omega
    · rcases le_total s.minX x with h5 | h5
      · rw [min_eq_left h5]
        rcases h1 with h1 | ⟨v, hv, hv1⟩
        · exact Or.inl h1
        · exact Or.inr ⟨v, List.mem_append_left _ hv, hv1⟩
      · rw [min_eq_right h5]; exact Or.inr ⟨(x, y), by simp, rfl⟩
    · rcases le_total s.maxX x with h5 | h5
      · rw [max_eq_right h5]; exact Or.inr ⟨(x, y), by simp, rfl⟩
      · rw [max_eq_left h5]
        rcases h2 with h2 | ⟨v, hv, hv1⟩
        · exact Or.inl h2
        · exact Or.inr ⟨v, List.mem_append_left _ hv, hv1⟩
    · rcases le_total s.minY y with h5 | h5
      · rw [min_eq_left h5]
        rcases h3 with h3 | ⟨v, hv, hv1⟩
        · exact Or.inl h3
        · exact Or.inr ⟨v, List.mem_append_left _ hv, hv1⟩
      · rw [min_eq_right h5]; exact Or.inr ⟨(x, y), by simp, rfl⟩
    · rcases le_total s.maxY y with h5 | h5
      · rw [max_eq_right h5]; exact Or.inr ⟨(x, y), by simp, rfl⟩
      · rw [max_eq_left h5]
        rcases h4 with h4 | ⟨v, hv, hv1⟩
        · exact Or.inl h4
        · exact Or.inr ⟨v, List.mem_append_left _ hv, hv1⟩

/-- The coordinate loop over reads that all decode runs to the end of the field, decodes
one vertex for each pair of deltas, and keeps `CoordinateInv`. -/
theorem readCoordinatesLoop_inv (shift : Nat) (req : SearchQuery) :
    ∀ (deltas : List (Int × Int)) (s : CoordinateLoop), CoordinateInv req s →
      ∃ s1, readCoordinatesLoop shift req (coordinateReads deltas) s = (true, s1) ∧
        CoordinateInv req s1 ∧
        s1.cacheCoordinates.length = s.cacheCoordinates.length + deltas.length := by
  intro deltas
  induction deltas with
  | nil => intro s h; exact ⟨s, rfl, h, rfl⟩
  | cons d rest ih =>
    intro s h
    obtain ⟨dx, dy⟩ := d
    simp only [coordinateReads, readCoordinatesLoop]
    obtain ⟨s1, h1, h2, h3⟩ := ih _ (coordinate_step_inv req s _ _ (i32_range _).2
      (i32_range _).2 h)
    refine ⟨s1, h1, h2, ?_⟩
    rw [h3]
    simp
    omega

/-- The coordinate stage over reads that all decode: the loop ends in locals that keep
`CoordinateInv`, and the object goes on when `contains` is set or the running bounds
pass the last test. -/
theorem readMapDataObjectCoordinates_eq (shift : Nat) (tree : MapTreeBounds)
    (req : SearchQuery) (cache0 : List (Int × Int)) (tag : MapDataFirstTag)
    (deltas : List (Int × Int)) (htag : tag = .areaCoordinates ∨ tag = .coordinates) :
    ∃ s1 : CoordinateLoop, CoordinateInv req s1 ∧
      s1.cacheCoordinates.length = deltas.length ∧
      readMapDataObjectCoordinates shift tree req cache0 tag (coordinateReads deltas) =
        (s1.contains || (decide (s1.maxX ≥ req.left) && decide (s1.minX ≤ req.right) &&
          decide (s1.minY ≤ req.bottom) && decide (s1.maxY ≥ req.top)),
         s1.cacheCoordinates) := by
  have h0 : CoordinateInv req
      { px := maskToRead shift tree.left, py := maskToRead shift tree.top } := by
    refine ⟨by simp, by simp, ?_⟩
    intro _
    simp [INT_MAXIMUM]
  obtain ⟨s1, h1, h2, h3⟩ := readCoordinatesLoop_inv shift req deltas _ h0
  refine ⟨s1, h2, by simpa using h3, ?_⟩
  have ht : ¬ (tag ≠ .areaCoordinates ∧ tag ≠ .coordinates) := by
    rcases htag with h | h <;> simp [h]
  simp only [readMapDataObjectCoordinates, ht, if_false, h1]

/-- C15: for every map data object whose coordinates field decodes to at least one vertex
with non-negative coordinates, and every query box Q, `readMapDataObject` returns `NULL`
at the coordinate stage iff the minimum bounding rectangle of all its decoded vertices
has no point in common with Q; equivalently the object is kept iff some vertex lies in Q
or the rectangle has a point in common with Q. One vertex is decoded for each pair of
deltas. -/
theorem readMapDataObject_coordinate_stage (shift : Nat) (tree : MapTreeBounds)
    (req : SearchQuery) (cache0 : List (Int × Int)) (tag : MapDataFirstTag)
    (deltas : List (Int × Int)) (htag : tag = .areaCoordinates ∨ tag = .coordinates)
    (hne : deltas ≠ []) (hq : req.left ≤ req.right ∧ req.top ≤ req.bottom)
    (hpos : ∀ v ∈
      (readMapDataObjectCoordinates shift tree req cache0 tag (coordinateReads deltas)).2,
      0 ≤ v.1 ∧ 0 ≤ v.2) :
    (readMapDataObjectCoordinates shift tree req cache0 tag
      (coordinateReads deltas)).2.length = deltas.length ∧
    ((readMapDataObjectCoordinates shift tree req cache0 tag (coordinateReads deltas)).1 = false ↔
      ¬ ∃ x y, InMbr (readMapDataObjectCoordinates shift tree req cache0 tag
        (coordinateReads deltas)).2 x y ∧ InQuery req x y) ∧
    ((readMapDataObjectCoordinates shift tree req cache0 tag (coordinateReads deltas)).1 = true ↔
      (∃ v ∈ (readMapDataObjectCoordinates shift tree req cache0 tag
        (coordinateReads deltas)).2, InQuery req v.1 v.2) ∨
      ∃ x y, InMbr (readMapDataObjectCoordinates shift tree req cache0 tag
        (coordinateReads deltas)).2 x y ∧ InQuery req x y) := by
  obtain ⟨s1, hinv, hlen, heq⟩ := readMapDataObjectCoordinates_eq shift tree req cache0 tag
    deltas htag
  rw [heq] at hpos ⊢
  simp only at hpos ⊢
  obtain ⟨hr, ht, hf⟩ := hinv
  have hvertex : ∀ v ∈ s1.cacheCoordinates, InQuery req v.1 v.2 →
      ∃ x y, InMbr s1.cacheCoordinates x y ∧ InQuery req x y := by
    intro v hv hvq
    exact ⟨v.1, v.2, ⟨⟨v, hv, le_refl _⟩, ⟨v, hv, le_refl _⟩, ⟨v, hv, le_refl _⟩,
      ⟨v, hv, le_refl _⟩⟩, hvq⟩
  have hkey : (s1.contains || (decide (s1.maxX ≥ req.left) && decide (s1.minX ≤ req.right) &&
      decide (s1.minY ≤ req.bottom) && decide (s1.maxY ≥ req.top))) = true ↔
      ∃ x y, InMbr s1.cacheCoordinates x y ∧ InQuery req x y := by
    cases hc : s1.contains with
    | true =>
      obtain ⟨v, hv, hvq⟩ := ht hc
      simp only [Bool.true_or, true_iff]
      exact hvertex v hv hvq
    | false =>
      obtain ⟨hn, hb, h1, h2, h3, h4⟩ := hf hc
      obtain ⟨v0, hv0⟩ : ∃ v0, v0 ∈ s1.cacheCoordinates := by
        cases hcc : s1.cacheCoordinates with
        | nil =>
          rw [hcc] at hlen
          exact absurd (List.length_eq_zero.1 hlen.symm) hne
        | cons a l => exact ⟨a, by simp⟩
      have hb0 := hb v0 hv0
      have hr0 := hr v0 hv0
      have hp0 := hpos v0 hv0
      obtain ⟨a, ha, ha1⟩ : ∃ a ∈ s1.cacheCoordinates, a.1 = s1.minX := by
        rcases h1 with h1 | h1
        · exact ⟨v0, hv0, by omega⟩
        · exact h1
      obtain ⟨b, hb1, hb2⟩ : ∃ b ∈ s1.cacheCoordinates, b.1 = s1.maxX := by
        rcases h2 with h2 | h2
        · exact ⟨v0, hv0, by omega⟩
        · exact h2
      obtain ⟨c, hc1, hc2⟩ : ∃ c ∈ s1.cacheCoordinates, c.2 = s1.minY := by
        rcases h3 with h3 | h3
        · exact ⟨v0, hv0, by omega⟩
        · exact h3
      obtain ⟨d, hd1, hd2⟩ : ∃ d ∈ s1.cacheCoordinates, d.2 = s1.maxY := by
        rcases h4 with h4 | h4
        · exact ⟨v0, hv0, by omega⟩
        · exact h4
      simp only [Bool.false_or, Bool.and_eq_true, decide_eq_true_eq, ge_iff_le]
      constructor
      · rintro ⟨⟨⟨g1, g2⟩, g3⟩, g4⟩
        refine ⟨max s1.minX req.left, max s1.minY req.top,
          ⟨⟨a, ha, ?_⟩, ⟨b, hb1, ?_⟩, ⟨c, hc1, ?_⟩, ⟨d, hd1, ?_⟩⟩, ?_, ?_, ?_, ?_⟩ <;>
          omega
      · rintro ⟨x, y, ⟨⟨a1, ha1m, ha1x⟩, ⟨b1, hb1m, hb1x⟩, ⟨c1, hc1m, hc1y⟩,
          ⟨d1, hd1m, hd1y⟩⟩, q1, q2, q3, q4⟩
        have := hb a1 ha1m
        have := hb b1 hb1m
        have := hb c1 hc1m
        have := hb d1 hd1m
        refine ⟨⟨⟨?_, ?_⟩, ?_⟩, ?_⟩ <;> omega
  refine ⟨hlen, ?_, ?_⟩
  · rw [← hkey]; simp
  · rw [hkey]
    constructor
    · intro h; exact Or.inr h
    · rintro (⟨v, hv, hvq⟩ | h)
      · exact hvertex v hv hvq
      · exact h

/-- Witness of C15: under the tree at (1000, 2000) with shift 5, the deltas (1, 1) and
(100, 100) decode to the vertices (1024, 2016) and (4224, 5216); the first lies in the
query box from (0, 0) to (1500, 2500), and the object is kept. -/
theorem readMapDataObject_coordinate_stage_witness :
    readMapDataObjectCoordinates 5 sampleTree sampleQuery [] .coordinates
      (coordinateReads [(1, 1), (100, 100)]) = (true, [(1024, 2016), (4224, 5216)]) ∧
    ((readMapDataObjectCoordinates 5 sampleTree sampleQuery [] .coordinates
      (coordinateReads [(1, 1), (100, 100)])).1 = true ↔
      (∃ v ∈ (readMapDataObjectCoordinates 5 sampleTree sampleQuery [] .coordinates
        (coordinateReads [(1, 1), (100, 100)])).2, InQuery sampleQuery v.1 v.2) ∨
      ∃ x y, InMbr (readMapDataObjectCoordinates 5 sampleTree sampleQuery [] .coordinates
        (coordinateReads [(1, 1), (100, 100)])).2 x y ∧ InQuery sampleQuery x y) :=
  ⟨by decide,
   (readMapDataObject_coordinate_stage 5 sampleTree sampleQuery [] .coordinates
      [(1, 1), (100, 100)] (Or.inr rfl) (by simp) (by decide) (by decide)).2.2⟩

/-! ## Properties of the search of the map tree -/

/-- The comparator `sortTreeBounds` is asymmetric and transitive, so insertion sort under
it keeps the contract of `std::sort`. -/
theorem insertSort_sortTreeBounds : IsStdSort sortTreeBounds (insertSort sortTreeBounds) := by
  apply insertSort_isStdSort
  · intro a b h
    simp only [sortTreeBounds, decide_eq_true_eq, decide_eq_false_iff_not] at h ⊢
    omega
  · intro a b c h1 h2
    simp only [sortTreeBounds, decide_eq_true_eq] at h1 h2 ⊢
    omega

/-- The inner loop of `searchMapData`, when the query is not cancelled, seeks to the
data block of every tree, in the order of the trees. -/
theorem readFoundSubtrees_eq (req : SearchQuery) (hc : req.cancelled = false) :
    ∀ l : List MapTreeBounds,
      readFoundSubtrees req l = (true, l.map (fun t => t.mapDataBlock)) := by
  intro l
  induction l with
  | nil => rfl
  | cons t rest ih => simp [readFoundSubtrees, hc, ih]

/-- The loop of `searchMapData`, when the query is not cancelled, searches every
top-level bound that is not outside the query, and reads the blocks of what it found in
the order `std::sort` gives. -/
theorem searchMapData_eq (sort : List MapTreeBounds → List MapTreeBounds)
    (content : Nat → List MapDataBoxField) (root : MapRoot) (req : SearchQuery)
    (hc : req.cancelled = false) :
    ∀ bounds : List MapTreeBounds,
      searchMapData sort content root req bounds =
        (bounds.filter (fun i => !outsideQuery i req)).map (fun i =>
          { foundSubtrees := discovered content root req i,
            blocks := (sort (discovered content root req i)).map (fun t => t.mapDataBlock) }) := by
  intro bounds
  induction bounds with
  | nil => rfl
  | cons i rest ih =>
    cases ho : outsideQuery i req with
    | true => simp [searchMapData, hc, ho, ih]
    | false => simp [searchMapData, hc, ho, ih, readFoundSubtrees_eq req hc, discovered]

/-- C13: in `searchMapData`, when the query is not cancelled, the searches made are those
of the top-level bounds that intersect the query, in order; for each of them the data
blocks are read in non-decreasing order of their absolute `mapDataBlock` offset, and the
blocks read are exactly, with multiplicity, those of the leaves `searchMapTreeBounds`
discovered. -/
theorem searchMapData_blocks_sorted (sort : List MapTreeBounds → List MapTreeBounds)
    (hsort : IsStdSort sortTreeBounds sort) (content : Nat → List MapDataBoxField)
    (root : MapRoot) (req : SearchQuery) (hc : req.cancelled = false)
    (bounds : List MapTreeBounds) :
    (searchMapData sort content root req bounds).map (fun e => e.foundSubtrees) =
      (bounds.filter (fun i => !outsideQuery i req)).map (discovered content root req) ∧
    ∀ e ∈ searchMapData sort content root req bounds,
      e.blocks.Pairwise (fun a b => a ≤ b) ∧
      e.blocks.Perm (e.foundSubtrees.map (fun t => t.mapDataBlock)) := by
  rw [searchMapData_eq sort content root req hc]
  constructor
  · simp [List.map_map, Function.comp_def]
  · intro e he
    obtain ⟨i, _, rfl⟩ := List.mem_map.1 he
    have h := hsort (discovered content root req i)
    refine ⟨?_, h.1.map _⟩
    rw [List.pairwise_map]
    refine h.2.imp ?_
    intro a b hab
    simp only [sortTreeBounds, decide_eq_false_iff_not] at hab
    omega

/-- Witness of C13: the bound at position 10 discovers the blocks at 530 and 155, which
are read at 155 first and at 530 second. -/
theorem searchMapData_blocks_sorted_witness :
    (searchMapData (insertSort sortTreeBounds) sampleMapContent sampleRoot sampleQuery
      [sampleBound]).map (fun e => (e.foundSubtrees.map (fun t => t.mapDataBlock), e.blocks))
      = [([530, 155], [155, 530])] ∧
    ∀ e ∈ searchMapData (insertSort sortTreeBounds) sampleMapContent sampleRoot sampleQuery
        [sampleBound],
      e.blocks.Pairwise (fun a b => a ≤ b) ∧
      e.blocks.Perm (e.foundSubtrees.map (fun t => t.mapDataBlock)) :=
  ⟨by decide,
   (searchMapData_blocks_sorted (insertSort sortTreeBounds) insertSort_sortTreeBounds
      sampleMapContent sampleRoot sampleQuery rfl [sampleBound]).2⟩

/-! ## Properties of the edges of the boxes -/

/-- The loop of `readRouteTree` over fields that store no edge leaves the edges of the
box as they are. -/
theorem readRouteTree_edges (parentTree : Option RouteSubregion) (depth : Int)
    (readCoordinates : Bool) :
    ∀ (rest : List RouteDataBoxField) (t : RouteSubregion) (i : Int),
      (∀ f ∈ rest, f.isEdge = false) →
        (readRouteTree parentTree depth readCoordinates rest t i).2.edges = t.edges := by
  intro rest
  induction rest with
  | nil => intro t i _; simp [readRouteTree]
  | cons f rest ih =>
    intro t i h
    have hf := h f (List.mem_cons_self _ _)
    have hr : ∀ g ∈ rest, g.isEdge = false := fun g hg => h g (List.mem_cons_of_mem _ hg)
    cases f with
    | left v => simp [RouteDataBoxField.isEdge] at hf
    | right v => simp [RouteDataBoxField.isEdge] at hf
    | top v => simp [RouteDataBoxField.isEdge] at hf
    | bottom v => simp [RouteDataBoxField.isEdge] at hf
    | shiftToData v =>
      simp only [readRouteTree, readRouteTreeField]
      rw [ih _ _ hr]; rfl
    | boxes length filePointer skipped body =>
      simp only [readRouteTree, readRouteTreeField]
      by_cases hd : depth ≠ 0
      · rw [if_pos hd]
        simp only []
        rw [ih _ _ hr]; rfl
      · rw [if_neg hd]
        cases skipped with
        | true => simp only [if_true]; exact ih _ _ hr
        | false => simp
    | endGroup => simp [readRouteTree, readRouteTreeField]
    | unknown skipped =>
      simp only [readRouteTree, readRouteTreeField]
      cases skipped with
      | true => simp only [if_true]; exact ih _ _ hr
      | false => simp

/-- The loop of `readMapTreeBounds` over fields that store no edge leaves the edges of the
tree as they are. -/
theorem readMapTreeBounds_edges (root : MapRoot) :
    ∀ (rest : List MapTreeBoundsField) (t : MapTreeBounds),
      (∀ f ∈ rest, f.isEdge = false) → (readMapTreeBounds root rest t).2.edges = t.edges := by
  intro rest
  induction rest with
  | nil => intro t _; simp [readMapTreeBounds]
  | cons f rest ih =>
    intro t h
    have hf := h f (List.mem_cons_self _ _)
    have hr : ∀ g ∈ rest, g.isEdge = false := fun g hg => h g (List.mem_cons_of_mem _ hg)
    cases f with
    | left v => simp [MapTreeBoundsField.isEdge] at hf
    | right v => simp [MapTreeBoundsField.isEdge] at hf
    | top v => simp [MapTreeBoundsField.isEdge] at hf
    | bottom v => simp [MapTreeBoundsField.isEdge] at hf
    | endGroup => simp [readMapTreeBounds]
    | unknown skipped =>
      cases skipped with
      | true => simp only [readMapTreeBounds, if_true]; exact ih _ hr
      | false => simp [readMapTreeBounds]

/-- The loop of `searchMapTreeBounds` over fields that store no edge leaves the edges of
the box as they are. -/
theorem searchMapTreeBounds_edges (req : SearchQuery) (parent : MapTreeBounds) :
    ∀ (rest : List MapDataBoxField) (t : MapTreeBounds) (init : Nat)
      (found : List MapTreeBounds), (∀ f ∈ rest, f.isEdge = false) →
        (searchMapTreeBounds req parent rest t init found).2.1.edges = t.edges := by
  intro rest
  induction rest with
  | nil => intro t init found _; simp [searchMapTreeBounds]
  | cons f rest ih =>
    intro t init found h
    have hf := h f (List.mem_cons_self _ _)
    have hr : ∀ g ∈ rest, g.isEdge = false := fun g hg => h g (List.mem_cons_of_mem _ hg)
    simp only [searchMapTreeBounds]
    split
    · rfl
    · split
      · rfl
      · cases f with
        | left v => simp [MapDataBoxField.isEdge] at hf
        | right v => simp [MapDataBoxField.isEdge] at hf
        | top v => simp [MapDataBoxField.isEdge] at hf
        | bottom v => simp [MapDataBoxField.isEdge] at hf
        | shiftToMapData v =>
          simp only [searchMapTreeBoundsField]
          rw [ih _ _ _ hr]; rfl
        | ocean v =>
          cases v with
          | none => simp [searchMapTreeBoundsField]
          | some b => simp only [searchMapTreeBoundsField]; exact ih _ _ _ hr
        | boxes length filePointer body =>
          simp only [searchMapTreeBoundsField]; exact ih _ _ _ hr
        | endGroup => simp [searchMapTreeBoundsField]
        | unknown skipped =>
          cases skipped with
          | true => simp only [searchMapTreeBoundsField, if_true]; exact ih _ _ _ hr
          | false => simp [searchMapTreeBoundsField]

/-- The loop of `readPointBox` over fields that store no edge leaves the edges of the box
as they are. -/
theorem readPointBoxHctxLoop_edges (parent : Option HHRoutePointsBox) :
    ∀ (rest : List HHPointsBoxField) (t : HHRoutePointsBox) (points : List (Int × Int)),
      (∀ f ∈ rest, f.isEdge = false) →
        (readPointBoxHctxLoop parent rest t points).1.edges = t.edges := by
  intro rest
  induction rest with
  | nil => intro t points _; simp [readPointBoxHctxLoop]
  | cons f rest ih =>
    intro t points h
    have hf := h f (List.mem_cons_self _ _)
    have hr : ∀ g ∈ rest, g.isEdge = false := fun g hg => h g (List.mem_cons_of_mem _ hg)
    cases f with
    | left v => simp [HHPointsBoxField.isEdge] at hf
    | right v => simp [HHPointsBoxField.isEdge] at hf
    | top v => simp [HHPointsBoxField.isEdge] at hf
    | bottom v => simp [HHPointsBoxField.isEdge] at hf
    | boxes length filePointer body =>
      simp only [readPointBoxHctxLoop, readPointBoxHctxField]; exact ih _ _ hr
    | points => simp only [readPointBoxHctxLoop, readPointBoxHctxField]; exact ih _ _ hr
    | unknown => simp only [readPointBoxHctxLoop, readPointBoxHctxField]; exact ih _ _ hr

/-- The loop of `searchTransportTreeBounds` over fields that store no edge leaves the
edges held by the locals as they are. -/
theorem searchTransportTreeBounds_edges (rts : TransportStopRead → Bool) (req : SearchQuery)
    (pleft pright ptop pbottom : Int) :
    ∀ (rest : List TransportTreeSearchField) (s : TransportTreeLocals)
      (results : List TransportStopRead), (∀ f ∈ rest, f.isEdge = false) →
        (searchTransportTreeBounds rts req pleft pright ptop pbottom rest s results).2.1.edges
          = s.edges := by
  intro rest
  induction rest with
  | nil => intro s results _; simp [searchTransportTreeBounds]
  | cons f rest ih =>
    intro s results h
    have hf := h f (List.mem_cons_self _ _)
    have hr : ∀ g ∈ rest, g.isEdge = false := fun g hg => h g (List.mem_cons_of_mem _ hg)
    simp only [searchTransportTreeBounds]
    split
    · rfl
    · split
      · rfl
      · cases f with
        | left v => simp [TransportTreeSearchField.isEdge] at hf
        | right v => simp [TransportTreeSearchField.isEdge] at hf
        | top v => simp [TransportTreeSearchField.isEdge] at hf
        | bottom v => simp [TransportTreeSearchField.isEdge] at hf
        | leafs stopOffset =>
          simp only [searchTransportTreeBoundsField]
          rw [ih _ _ hr]
          split <;> rfl
        | subtrees length filePointer body =>
          simp only [searchTransportTreeBoundsField]
          by_cases hl : req.limit = -1 ∨
              (req.limit % 18446744073709551616).toNat ≥ results.length
          · rw [if_pos hl]; simp only []; rw [ih _ _ hr]; rfl
          · rw [if_neg hl]; simp only []; rw [ih _ _ hr]; rfl
        | baseId v =>
          cases v with
          | none => simp [searchTransportTreeBoundsField]; rfl
          | some b => simp only [searchTransportTreeBoundsField]; rw [ih _ _ hr]; rfl
        | unknown skipped =>
          cases skipped with
          | true => simp only [searchTransportTreeBoundsField, if_true]; rw [ih _ _ hr]; rfl
          | false => simp [searchTransportTreeBoundsField]; rfl

/-- The loop of `readPointBox` with a null `hctx` over fields that store no edge leaves
the edges of the box as they are. -/
theorem readPointBoxLoop_edges (parent : Option HHRoutePointsBox) :
    ∀ (rest : List HHRoutePointsBoxField) (t : HHRoutePointsBox),
      (∀ f ∈ rest, f.isEdge = false) → (readPointBoxLoop parent rest t).edges = t.edges := by
  intro rest
  induction rest with
  | nil => intro t _; simp [readPointBoxLoop]
  | cons f rest ih =>
    intro t h
    have hf := h f (List.mem_cons_self _ _)
    have hr : ∀ g ∈ rest, g.isEdge = false := fun g hg => h g (List.mem_cons_of_mem _ hg)
    simp only [readPointBoxLoop]
    split
    · rfl
    · cases f with
      | left v => simp [HHRoutePointsBoxField.isEdge] at hf
      | right v => simp [HHRoutePointsBoxField.isEdge] at hf
      | top v => simp [HHRoutePointsBoxField.isEdge] at hf
      | bottom v => simp [HHRoutePointsBoxField.isEdge] at hf
      | boxes => rfl
      | points => rfl
      | unknown => exact ih _ hr

/-- A value from 0 up to 2^32 - 1 is kept by the conversion to a 32-bit unsigned
member. -/
theorem u32_id (z : Int) (h1 : 0 ≤ z) (h2 : z < 4294967296) : (u32 z : Int) = z := by
  unfold u32
  rw [Int.toNat_of_nonneg (Int.emod_nonneg _ (by decide))]
  exact Int.emod_eq_of_lt h1 h2

/-- C11: for every box read by the R-tree readers from the four deltas of its edges,
followed by fields that store no edge, each edge is the corresponding edge of the parent
passed to the reader plus the delta stored for that edge, as a value of the 32-bit type
of the edge; a box read without a parent (a null parent, or zero for the parent's edges)
gets its stored values. The readers are `readRouteTree` with `readCoordinates`,
`readPointBox` (with `hctx`, and without for the top box), `readMapTreeBounds`,
`searchMapTreeBounds` and `searchTransportTreeBounds` (for a query that is not
cancelled). A sum from 0 up to 2^32 - 1 is kept as it is by the unsigned type, a sum
from -2^31 up to 2^31 - 1 by `int`. -/
theorem box_edges_parent_plus_delta :
    (∀ (p : RouteSubregion) (depth dL dR dT dB : Int) (rest : List RouteDataBoxField)
        (t : RouteSubregion) (i : Int), (∀ f ∈ rest, f.isEdge = false) →
      (readRouteTree (some p) depth true
        (.left (some dL) :: .right (some dR) :: .top (some dT) :: .bottom (some dB) :: rest)
        t i).2.edges
        = (u32 (dL + p.left), u32 (dR + p.right), u32 (dT + p.top), u32 (dB + p.bottom))) ∧
    (∀ (depth dL dR dT dB : Int) (rest : List RouteDataBoxField) (t : RouteSubregion)
        (i : Int), (∀ f ∈ rest, f.isEdge = false) →
      (readRouteTree none depth true
        (.left (some dL) :: .right (some dR) :: .top (some dT) :: .bottom (some dB) :: rest)
        t i).2.edges = (u32 dL, u32 dR, u32 dT, u32 dB)) ∧
    (∀ (p : HHRoutePointsBox) (length filePointer : Nat) (dL dR dT dB : Int)
        (rest : List HHPointsBoxField) (points : List (Int × Int)),
        (∀ f ∈ rest, f.isEdge = false) →
      (readPointBoxHctx length filePointer (some p)
        (.left dL :: .right dR :: .top dT :: .bottom dB :: rest) points).1.edges
        = (u32 (dL + p.left), u32 (dR + p.right), u32 (dT + p.top), u32 (dB + p.bottom))) ∧
    (∀ (length filePointer : Nat) (dL dR dT dB : Int) (rest : List HHPointsBoxField)
        (points : List (Int × Int)), (∀ f ∈ rest, f.isEdge = false) →
      (readPointBoxHctx length filePointer none
        (.left dL :: .right dR :: .top dT :: .bottom dB :: rest) points).1.edges
        = (u32 dL, u32 dR, u32 dT, u32 dB)) ∧
    (∀ (length filePointer : Nat) (dL dR dT dB : Int) (rest : List HHRoutePointsBoxField),
        (∀ f ∈ rest, f.isEdge = false) →
      (readPointBox length filePointer none
        (.left dL :: .right dR :: .top dT :: .bottom dB :: rest)).edges
        = (u32 dL, u32 dR, u32 dT, u32 dB)) ∧
    (∀ (root : MapRoot) (dL dR dT dB : Int) (rest : List MapTreeBoundsField)
        (t : MapTreeBounds), (∀ f ∈ rest, f.isEdge = false) →
      (readMapTreeBounds root
        (.left (some dL) :: .right (some dR) :: .top (some dT) :: .bottom (some dB) :: rest)
        t).2.edges
        = (u32 (dL + root.left), u32 (dR + root.right), u32 (dT + root.top),
            u32 (dB + root.bottom))) ∧
    (∀ (req : SearchQuery) (parent : MapTreeBounds) (dL dR dT dB : Int)
        (rest : List MapDataBoxField) (t : MapTreeBounds) (found : List MapTreeBounds),
        req.cancelled = false → (∀ f ∈ rest, f.isEdge = false) →
      (searchMapTreeBounds req parent
        (.left (some dL) :: .right (some dR) :: .top (some dT) :: .bottom (some dB) :: rest)
        t 0 found).2.1.edges
        = (u32 (dL + parent.left), u32 (dR + parent.right), u32 (dT + parent.top),
            u32 (dB + parent.bottom))) ∧
    (∀ (rts : TransportStopRead → Bool) (req : SearchQuery) (pleft pright ptop pbottom : Int)
        (dL dR dT dB : Int) (rest : List TransportTreeSearchField)
        (results : List TransportStopRead),
        req.cancelled = false → (∀ f ∈ rest, f.isEdge = false) →
      (searchTransportTreeBounds rts req pleft pright ptop pbottom
        (.bottom (some dB) :: .left (some dL) :: .right (some dR) :: .top (some dT) :: rest)
        {} results).2.1.edges
        = (i32 (dL + pleft), i32 (dR + pright), i32 (dT + ptop), i32 (dB + pbottom))) ∧
    (∀ (rts : TransportStopRead → Bool) (req : SearchQuery) (dL dR dT dB : Int)
        (rest : List TransportTreeSearchField) (results : List TransportStopRead),
        req.cancelled = false → (∀ f ∈ rest, f.isEdge = false) →
      (searchTransportTreeBounds rts req 0 0 0 0
        (.bottom (some dB) :: .left (some dL) :: .right (some dR) :: .top (some dT) :: rest)
        {} results).2.1.edges = (i32 dL, i32 dR, i32 dT, i32 dB)) ∧
    (∀ z : Int, 0 ≤ z → z < 4294967296 → (u32 z : Int) = z) ∧
    (∀ z : Int, -2147483648 ≤ z → z ≤ 2147483647 → i32 z = z) := by
  refine ⟨?_, ?_, ?_, ?_, ?_, ?_, ?_, ?_, ?_, u32_id, i32_id⟩
  · intro p depth dL dR dT dB rest t i h
    simp only [readRouteTree, readRouteTreeField, Option.getD_some, if_true]
    rw [readRouteTree_edges _ _ _ rest _ _ h]
    simp [RouteSubregion.edges, parentEdge]
  · intro depth dL dR dT dB rest t i h
    simp only [readRouteTree, readRouteTreeField, Option.getD_some, if_true]
    rw [readRouteTree_edges _ _ _ rest _ _ h]
    simp [RouteSubregion.edges, parentEdge]
  · intro p length filePointer dL dR dT dB rest points h
    simp only [readPointBoxHctx, readPointBoxHctxLoop, readPointBoxHctxField]
    rw [readPointBoxHctxLoop_edges _ rest _ _ h]
    simp [HHRoutePointsBox.edges, parentBoxEdge]
  · intro length filePointer dL dR dT dB rest points h
    simp only [readPointBoxHctx, readPointBoxHctxLoop, readPointBoxHctxField]
    rw [readPointBoxHctxLoop_edges _ rest _ _ h]
    simp [HHRoutePointsBox.edges, parentBoxEdge]
  · intro length filePointer dL dR dT dB rest h
    simp only [readPointBox, readPointBoxLoop, ne_eq, not_true_eq_false, false_and, and_false,
      if_false, parentBoxEdge, add_zero]
    rw [readPointBoxLoop_edges _ rest _ h]
    rfl
  · intro root dL dR dT dB rest t h
    simp only [readMapTreeBounds]
    rw [readMapTreeBounds_edges _ rest _ h]
    rfl
  · intro req parent dL dR dT dB rest t found hc h
    simp only [searchMapTreeBounds, searchMapTreeBoundsField, hc, Bool.false_eq_true,
      if_false, Nat.reduceOr, Nat.reduceEqDiff, false_and]
    rw [searchMapTreeBounds_edges _ _ rest _ _ _ h]
    rfl
  · intro rts req pleft pright ptop pbottom dL dR dT dB rest results hc h
    simp only [searchTransportTreeBounds, searchTransportTreeBoundsField, hc, Bool.false_eq_true,
      if_false, Nat.reduceOr, Nat.reduceEqDiff, false_and]
    rw [searchTransportTreeBounds_edges _ _ _ _ _ _ rest _ _ h]
    rfl
  · intro rts req dL dR dT dB rest results hc h
    simp only [searchTransportTreeBounds, searchTransportTreeBoundsField, hc, Bool.false_eq_true,
      if_false, Nat.reduceOr, Nat.reduceEqDiff, false_and]
    rw [searchTransportTreeBounds_edges _ _ _ _ _ _ rest _ _ h]
    simp [TransportTreeLocals.edges]

/-! ## Properties of the search of the routing subregions -/

/-- The levels of a subregion are one more than those of its children. -/
theorem RouteSubregion.levels_eq (s : RouteSubregion) :
    s.levels = forestLevels s.subregions + 1 := by
  cases s; simp [RouteSubregion.levels]

/-- The nodes of a subregion are those of its children, under one more ancestor, and then
the subregion itself. -/
theorem RouteSubregion.nodes_eq (anc : List RouteSubregion) (s : RouteSubregion) :
    s.nodes anc = forestNodes (s :: anc) s.subregions ++ [(anc, s)] := by
  cases s; simp [RouteSubregion.nodes]

/-- Every node of a forest has the ancestors of the forest among its ancestors. -/
theorem forestNodes_ancestors :
    ∀ (n : Nat) (forest : List RouteSubregion) (anc : List RouteSubregion),
      forestLevels forest ≤ n → ∀ p ∈ forestNodes anc forest, ∀ a ∈ anc, a ∈ p.1 := by
  intro n
  induction n with
  | zero =>
    intro forest anc h p hp
    cases forest with
    | nil => simp [forestNodes] at hp
    | cons s rest =>
      simp only [forestLevels, RouteSubregion.levels_eq] at h
      omega
  | succ n ih =>
    intro forest
    induction forest with
    | nil => intro anc _ p hp; simp [forestNodes] at hp
    | cons s rest ihl =>
      intro anc h p hp a ha
      simp only [forestLevels, RouteSubregion.levels_eq] at h
      simp only [forestNodes, RouteSubregion.nodes_eq, List.mem_append,
        List.mem_singleton] at hp
      rcases hp with (hp | hp) | hp
      · exact ih s.subregions (s :: anc) (by omega) p hp a (List.mem_cons_of_mem _ ha)
      · subst hp; exact ha
      · exact ihl anc (by omega) p hp a ha

/-- For a query box with coordinates from 0 up to 2^31 - 1, the test of
`searchRouteRegion` holds exactly when the box of the subregion and the query box have a
point in common. -/
theorem intersectsQuery_eq (s : RouteSubregion) (q : SearchQuery)
    (hq : 0 ≤ q.left ∧ q.left < 2147483648 ∧ 0 ≤ q.right ∧ q.right < 2147483648 ∧
      0 ≤ q.top ∧ q.top < 2147483648 ∧ 0 ≤ q.bottom ∧ q.bottom < 2147483648) :
    intersectsQuery s q = boxIntersects s q := by
  have hl := u32_id q.left hq.1 (by omega)
  have hr := u32_id q.right hq.2.2.1 (by omega)
  have ht := u32_id q.top hq.2.2.2.2.1 (by omega)
  have hb := u32_id q.bottom hq.2.2.2.2.2.2.1 (by omega)
  unfold intersectsQuery boxIntersects
  rw [Bool.eq_iff_iff]
  simp only [Bool.and_eq_true, decide_eq_true_eq, ge_iff_le]
  constructor
  · rintro ⟨⟨⟨h1, h2⟩, h3⟩, h4⟩
    refine ⟨⟨⟨?_, ?_⟩, ?_⟩, ?_⟩ <;> omega
  · rintro ⟨⟨⟨h1, h2⟩, h3⟩, h4⟩
    refine ⟨⟨⟨?_, ?_⟩, ?_⟩, ?_⟩ <;> omega

/-- The leaves to load of a forest are those under its first subregion, then that
subregion if it qualifies, then those of the other subregions. -/
theorem intersectingLeaves_cons (q : SearchQuery) (anc : List RouteSubregion)
    (s : RouteSubregion) (rest : List RouteSubregion) :
    intersectingLeaves q anc (s :: rest) =
      intersectingLeaves q (s :: anc) s.subregions ++
        (if (decide (s.mapDataBlock ≠ 0) && boxIntersects s q &&
            anc.all (fun a => boxIntersects a q)) = true then [s] else []) ++
        intersectingLeaves q anc rest := by
  simp only [intersectingLeaves, forestNodes, RouteSubregion.nodes_eq, List.filter_append,
    List.map_append]
  congr 2
  by_cases h : (decide (s.mapDataBlock ≠ 0) && boxIntersects s q &&
      anc.all (fun a => boxIntersects a q)) = true
  · rw [if_pos h, List.filter_cons_of_pos (by simpa using h)]; rfl
  · rw [if_neg h, List.filter_cons_of_neg (by simpa using h)]; rfl

/-- Under a subregion whose box does not intersect the query there is no leaf to load. -/
theorem intersectingLeaves_outside (q : SearchQuery) (anc : List RouteSubregion)
    (s : RouteSubregion) (forest : List RouteSubregion) (h : boxIntersects s q = false) :
    intersectingLeaves q (s :: anc) forest = [] := by
  simp only [intersectingLeaves, List.map_eq_nil_iff, List.filter_eq_nil_iff]
  intro p hp
  have hs := forestNodes_ancestors _ forest (s :: anc) (le_refl _) p hp s
    (List.mem_cons_self _ _)
  have : p.1.all (fun a => boxIntersects a q) = false := by
    rw [List.all_eq_false]
    exact ⟨s, hs, by simp [h]⟩
  simp [this]

/-- The search of a forest in memory, with fuel above its levels and under ancestors that
all intersect the query, leaves the forest as it is and appends the leaves to load. -/
theorem searchRouteRegion_inMemory (content : Nat → List RouteDataBoxField) (q : SearchQuery)
    (hq : 0 ≤ q.left ∧ q.left < 2147483648 ∧ 0 ≤ q.right ∧ q.right < 2147483648 ∧
      0 ≤ q.top ∧ q.top < 2147483648 ∧ 0 ≤ q.bottom ∧ q.bottom < 2147483648) :
    ∀ (fuel : Nat) (anc forest toLoad : List RouteSubregion),
      (∀ a ∈ anc, boxIntersects a q = true) → InMemory anc forest →
      forestLevels forest < fuel →
        searchRouteRegion content q fuel forest toLoad =
          some (forest, toLoad ++ intersectingLeaves q anc forest) := by
  intro fuel
  induction fuel with
  | zero => intro _ _ _ _ _ h; omega
  | succ fuel ih =>
    intro anc forest
    simp only [searchRouteRegion]
    induction forest with
    | nil =>
      intro toLoad _ _ _
      simp [searchRouteRegionLoop, intersectingLeaves, forestNodes]
    | cons s rest ihl =>
      intro toLoad hanc hmem hlev
      simp only [forestLevels, RouteSubregion.levels_eq] at hlev
      have hm1 : InMemory (s :: anc) s.subregions := by
        intro p hp
        apply hmem p
        simp only [forestNodes, RouteSubregion.nodes_eq, List.mem_append]
        exact Or.inl (Or.inl hp)
      have hm2 : (s.subregions.isEmpty && s.mapDataBlock == 0) = false := by
        apply hmem (anc, s)
        simp [forestNodes, RouteSubregion.nodes_eq]
      have hm3 : InMemory anc rest := by
        intro p hp
        apply hmem p
        simp only [forestNodes, List.mem_append]
        exact Or.inr hp
      have heta : ({ s with subregions := s.subregions } : RouteSubregion) = s := by
        cases s; rfl
      rw [intersectingLeaves_cons]
      simp only [searchRouteRegionLoop, intersectsQuery_eq s q hq]
      cases hi : boxIntersects s q with
      | true =>
        have hanc1 : ∀ a ∈ s :: anc, boxIntersects a q = true := by
          intro a ha
          rcases List.mem_cons.1 ha with h | h
          · rw [h]; exact hi
          · exact hanc a h
        have hall : anc.all (fun a => boxIntersects a q) = true := by
          rw [List.all_eq_true]; exact hanc
        simp only [if_true, hm2, Bool.false_eq_true, if_false,
          ih (s :: anc) s.subregions toLoad hanc1 hm1 (by omega), heta, hall, Bool.and_true,
          Bool.true_and]
        by_cases hd : s.mapDataBlock ≠ 0
        · rw [if_pos hd, if_pos (decide_eq_true hd), ihl _ hanc hm3 (by omega)]
          simp only [List.append_assoc]
        · rw [if_neg hd, if_neg (by simpa using hd), ihl _ hanc hm3 (by omega)]
          simp only [List.append_assoc, List.nil_append]
      | false =>
        simp only [Bool.false_eq_true, if_false, ihl _ hanc hm3 (by omega),
          intersectingLeaves_outside q anc s _ hi, Bool.and_false, Bool.false_and,
          List.nil_append]

/-- C12: for every forest of routing subregions in memory and every query box Q with
coordinates from 0 up to 2^31 - 1, `searchRouteRegion` (given fuel above the levels of the
forest) leaves the forest as it is and appends to `toLoad` exactly the nodes that have
`mapDataBlock ≠ 0` and whose own box and all ancestors' boxes intersect Q, each once, in
the order of the walk; and on every forest, a subregion whose box fails the test of the
search is passed over: it is returned as it is and the search goes on with the
subregions after it. -/
theorem searchRouteRegion_prunes (content : Nat → List RouteDataBoxField) (q : SearchQuery)
    (forest toLoad : List RouteSubregion) (fuel : Nat)
    (hq : 0 ≤ q.left ∧ q.left < 2147483648 ∧ 0 ≤ q.right ∧ q.right < 2147483648 ∧
      0 ≤ q.top ∧ q.top < 2147483648 ∧ 0 ≤ q.bottom ∧ q.bottom < 2147483648)
    (hmem : InMemory [] forest) (hfuel : forestLevels forest < fuel) :
    searchRouteRegion content q fuel forest toLoad =
      some (forest, toLoad ++
        ((forestNodes [] forest).filter (fun p =>
          decide (p.2.mapDataBlock ≠ 0) && boxIntersects p.2 q &&
            p.1.all (fun a => boxIntersects a q))).map Prod.snd) ∧
    (∀ s ∈ intersectingLeaves q [] forest, s.mapDataBlock ≠ 0 ∧ boxIntersects s q = true) ∧
    (∀ (n : Nat) (s : RouteSubregion) (rest toLoad1 : List RouteSubregion),
      boxIntersects s q = false →
        searchRouteRegion content q (n + 1) (s :: rest) toLoad1 =
          (searchRouteRegion content q (n + 1) rest toLoad1).map
            (fun r => (s :: r.1, r.2))) := by
  refine ⟨?_, ?_, ?_⟩
  · exact searchRouteRegion_inMemory content q hq fuel [] forest toLoad (by simp) hmem hfuel
  · intro s hs
    simp only [intersectingLeaves, List.mem_map, List.mem_filter, Bool.and_eq_true,
      decide_eq_true_eq] at hs
    obtain ⟨p, ⟨_, ⟨h1, h2⟩, _⟩, rfl⟩ := hs
    exact ⟨h1, h2⟩
  · intro n s rest toLoad1 hs
    simp only [searchRouteRegion, searchRouteRegionLoop, intersectsQuery_eq s q hq, hs,
      Bool.false_eq_true, if_false]
    cases searchRouteRegionLoop (searchRouteRegion content q n) content q rest toLoad1 with
    | none => rfl
    | some r => rfl

/-- Witness of C12: in the sample forest under the query from (10, 10) to (50, 50), the
first top node and its first leaf intersect the query, the second leaf and the second top
node do not; the leaf found at 20 alone is appended. -/
theorem searchRouteRegion_prunes_witness :
    (searchRouteRegion (fun _ => []) smallQuery 3 sampleForest []).map
        (fun r => r.2.map (fun s => s.filePointer)) = some [20] ∧
    searchRouteRegion (fun _ => []) smallQuery 3 sampleForest [] =
      some (sampleForest, [] ++
        ((forestNodes [] sampleForest).filter (fun p =>
          decide (p.2.mapDataBlock ≠ 0) && boxIntersects p.2 smallQuery &&
            p.1.all (fun a => boxIntersects a smallQuery))).map Prod.snd) :=
  ⟨by decide,
   (searchRouteRegion_prunes (fun _ => []) smallQuery sampleForest [] 3 (by decide)
      (by simp [InMemory, sampleForest, forestNodes, RouteSubregion.nodes])
      (by decide)).1⟩


/-! ## Properties of the conditional rules -/

/-- An index found by the loop of `findOrCreateRouteType` is the first, from the start of
the loop, whose rule has the tag and the value. -/
theorem findRouteType_some (tag value : String) :
    ∀ (rules : List RouteTypeRule) (k i : Nat), findRouteType tag value k rules = some i →
      ∃ j rt, i = k + j ∧ rules[j]? = some rt ∧ rt.t = tag ∧ rt.v = value ∧
        ∀ j1, j1 < j → ∀ r1, rules[j1]? = some r1 → ¬ (r1.t = tag ∧ r1.v = value) := by
  intro rules
  induction rules with
  | nil => intro k i h; simp [findRouteType] at h
  | cons rtr rest ih =>
    intro k i h
    simp only [findRouteType] at h
    by_cases hm : (tag == rtr.t && value == rtr.v) = true
    · rw [if_pos hm] at h
      simp only [Bool.and_eq_true, beq_iff_eq] at hm
      refine ⟨0, rtr, ?_, by simp, hm.1.symm, hm.2.symm, ?_⟩
      · simp only [Option.some.injEq] at h; omega
      · intro j1 hj1; omega
    · rw [if_neg hm] at h
      simp only [Bool.and_eq_true, beq_iff_eq] at hm
      obtain ⟨j, rt, hi, hj, ht, hv, hmin⟩ := ih (k + 1) i h
      refine ⟨j + 1, rt, by omega, by simpa using hj, ht, hv, ?_⟩
      intro j1 hj1 r1 hr1
      cases j1 with
      | zero =>
        simp only [List.getElem?_cons_zero, Option.some.injEq] at hr1
        subst hr1
        intro hc; exact hm ⟨hc.1.symm, hc.2.symm⟩
      | succ j2 =>
        simp only [List.getElem?_cons_succ] at hr1
        exact hmin j2 (by omega) r1 hr1

/-- When the loop of `findOrCreateRouteType` finds nothing, no rule it went over has the
tag and the value. -/
theorem findRouteType_none (tag value : String) :
    ∀ (rules : List RouteTypeRule) (k : Nat), findRouteType tag value k rules = none →
      ∀ rt ∈ rules, ¬ (rt.t = tag ∧ rt.v = value) := by
  intro rules
  induction rules with
  | nil => intro k _ rt hrt; cases hrt
  | cons rtr rest ih =>
    intro k h rt hrt
    simp only [findRouteType] at h
    by_cases hm : (tag == rtr.t && value == rtr.v) = true
    · rw [if_pos hm] at h; cases h
    · rw [if_neg hm] at h
      simp only [Bool.and_eq_true, beq_iff_eq] at hm
      rcases List.mem_cons.1 hrt with h1 | h1
      · subst h1; intro hc; exact hm ⟨hc.1.symm, hc.2.symm⟩
      · exact ih (k + 1) h rt h1

/-- The index `findOrCreateRouteType` returns holds, in the table it leaves, a rule with
the tag and the value, and the table it leaves starts with the table it was given. -/
theorem findOrCreateRouteType_index (syn : RuleSyntax) (tag value : String)
    (rules : List RouteTypeRule) :
    (∃ rt, (findOrCreateRouteType syn tag value rules).2[
        (findOrCreateRouteType syn tag value rules).1]? = some rt ∧
      rt.t = tag ∧ rt.v = value) ∧
    ∃ extra, (findOrCreateRouteType syn tag value rules).2 = rules ++ extra := by
  unfold findOrCreateRouteType
  cases hf : findRouteType tag value 0 rules with
  | some i =>
    obtain ⟨j, rt, hi, hj, ht, hv, _⟩ := findRouteType_some tag value rules 0 i hf
    have : i = j := by omega
    subst this
    exact ⟨⟨rt, hj, ht, hv⟩, [], by simp⟩
  | none =>
    exact ⟨⟨newRouteTypeRule syn tag value, by simp, rfl, rfl⟩, _, rfl⟩

/-- C21: on a table of fewer than 2^32 rules, `findOrCreateRouteType(tag, value)` returns
the smallest index whose rule has that tag and value and leaves the table unchanged when
such an index exists; otherwise it appends exactly one rule with the tag and the value
and returns its index, the old table size. A second call with the same arguments returns
the same id and does not change the table. -/
theorem findOrCreateRouteType_find_or_append (syn : RuleSyntax) (tag value : String)
    (rules : List RouteTypeRule) (_hlen : rules.length < 4294967296) :
    ((∃ rt ∈ rules, rt.t = tag ∧ rt.v = value) →
      (findOrCreateRouteType syn tag value rules).2 = rules ∧
      ∃ rt, rules[(findOrCreateRouteType syn tag value rules).1]? = some rt ∧
        rt.t = tag ∧ rt.v = value ∧
        ∀ j, j < (findOrCreateRouteType syn tag value rules).1 →
          ∀ r1, rules[j]? = some r1 → ¬ (r1.t = tag ∧ r1.v = value)) ∧
    ((¬ ∃ rt ∈ rules, rt.t = tag ∧ rt.v = value) →
      (findOrCreateRouteType syn tag value rules).1 = rules.length ∧
      ∃ r, (findOrCreateRouteType syn tag value rules).2 = rules ++ [r] ∧
        r.t = tag ∧ r.v = value) ∧
    findOrCreateRouteType syn tag value (findOrCreateRouteType syn tag value rules).2 =
      findOrCreateRouteType syn tag value rules := by
  have hsome : ∀ i, findRouteType tag value 0 rules = some i →
      findOrCreateRouteType syn tag value rules = (i, rules) := by
    intro i h; simp [findOrCreateRouteType, h]
  have hnone : findRouteType tag value 0 rules = none →
      findOrCreateRouteType syn tag value rules =
        (rules.length, rules ++ [newRouteTypeRule syn tag value]) := by
    intro h; simp [findOrCreateRouteType, h]
  refine ⟨?_, ?_, ?_⟩
  · rintro ⟨rt0, hrt0, h0⟩
    cases hf : findRouteType tag value 0 rules with
    | none => exact absurd h0 (findRouteType_none tag value rules 0 hf rt0 hrt0)
    | some i =>
      obtain ⟨j, rt, hi, hj, ht, hv, hmin⟩ := findRouteType_some tag value rules 0 i hf
      have : i = j := by omega
      subst this
      rw [hsome i hf]
      exact ⟨rfl, rt, hj, ht, hv, hmin⟩
  · intro hno
    cases hf : findRouteType tag value 0 rules with
    | some i =>
      obtain ⟨j, rt, _, hj, ht, hv, _⟩ := findRouteType_some tag value rules 0 i hf
      exact absurd ⟨rt, List.mem_iff_getElem?.2 ⟨_, hj⟩, ht, hv⟩ hno
    | none =>
      rw [hnone hf]
      exact ⟨rfl, _, rfl, rfl, rfl⟩
  · cases hf : findRouteType tag value 0 rules with
    | some i =>
      rw [hsome i hf]
      exact hsome i hf
    | none =>
      rw [hnone hf]
      have hnew : findRouteType tag value 0 (rules ++ [newRouteTypeRule syn tag value])
          = some rules.length := by
        have key : ∀ (l : List RouteTypeRule) (k : Nat),
            (∀ rt ∈ l, ¬ (rt.t = tag ∧ rt.v = value)) →
            findRouteType tag value k (l ++ [newRouteTypeRule syn tag value])
              = some (k + l.length) := by
          intro l
          induction l with
          | nil => intro k _; simp [findRouteType, newRouteTypeRule]
          | cons a l ih =>
            intro k hl
            have ha := hl a (List.mem_cons_self _ _)
            have hm : ¬ ((tag == a.t && value == a.v) = true) := by
              simp only [Bool.and_eq_true, beq_iff_eq]
              intro hc; exact ha ⟨hc.1.symm, hc.2.symm⟩
            have hi := ih (k + 1) (fun rt hrt => hl rt (List.mem_cons_of_mem _ hrt))
            simp only [List.cons_append, findRouteType, if_neg hm, List.append_eq, hi,
              List.length_cons, Option.some.injEq]
            omega
        simpa using key rules 0 (findRouteType_none tag value rules 0 hf)
      simp [findOrCreateRouteType, hnew]

/-- Witness of C21: in the table loaded from the rules `highway=primary` and
`highway=secondary`, the pair `highway=secondary` is found at index 2 and the pair
`highway=tertiary` is appended at index 3. -/
theorem findOrCreateRouteType_find_or_append_witness :
    (findOrCreateRouteType plainSyntax "highway" "secondary"
      (readRoutingIndexRules plainSyntax false twoRuleIndex {}).2.routeEncodingRules).1 = 2 ∧
    (findOrCreateRouteType plainSyntax "highway" "tertiary"
      (readRoutingIndexRules plainSyntax false twoRuleIndex {}).2.routeEncodingRules).1 = 3 ∧
    findOrCreateRouteType plainSyntax "highway" "tertiary"
        (findOrCreateRouteType plainSyntax "highway" "tertiary"
          (readRoutingIndexRules plainSyntax false twoRuleIndex {}).2.routeEncodingRules).2 =
      findOrCreateRouteType plainSyntax "highway" "tertiary"
        (readRoutingIndexRules plainSyntax false twoRuleIndex {}).2.routeEncodingRules :=
  ⟨by decide, by decide,
   (findOrCreateRouteType_find_or_append plainSyntax "highway" "tertiary"
      (readRoutingIndexRules plainSyntax false twoRuleIndex {}).2.routeEncodingRules
      (by decide)).2.2⟩

/-- A table that starts with another keeps its pairs. -/
theorem keepsPairs_append (rules extra : List RouteTypeRule) :
    KeepsPairs rules (rules ++ extra) := by
  intro k r hk
  have hlt : k < rules.length := by
    by_contra hc
    rw [List.getElem?_eq_none (by omega)] at hk
    cases hk
  exact ⟨r, by rw [List.getElem?_append_left hlt]; exact hk, rfl, rfl⟩

/-- Keeping the pairs is transitive. -/
theorem keepsPairs_trans (a b c : List RouteTypeRule) (h1 : KeepsPairs a b)
    (h2 : KeepsPairs b c) : KeepsPairs a c := by
  intro k r hk
  obtain ⟨r1, hr1, ht1, hv1⟩ := h1 k r hk
  obtain ⟨r2, hr2, ht2, hv2⟩ := h2 k r1 hr1
  exact ⟨r2, hr2, by rw [ht2, ht1], by rw [hv2, hv1]⟩

/-- A rule bound in a table is bound in every table that keeps its pairs. -/
theorem ruleBound_keeps (syn : RuleSyntax) (rules rules1 : List RouteTypeRule)
    (r : RouteTypeRule) (hk : KeepsPairs rules rules1) (h : RuleBound syn rules r) :
    RuleBound syn rules1 r := by
  intro hc ht c hcm hv
  obtain ⟨tr, htr, h1, h2⟩ := h hc ht c hcm hv
  obtain ⟨tr1, htr1, h3, h4⟩ := hk _ tr htr
  exact ⟨tr1, htr1, by rw [h3, h1], by rw [h4, h2]⟩

/-- The loop over the alternatives of a rule leaves a table that starts with the table it
was given, keeps the number of the alternatives, and binds every alternative with a value
to an index whose rule has the tag and that value. -/
theorem bindConditions_bound (syn : RuleSyntax) (tag : String) :
    ∀ (cs : List RouteTypeCondition) (rules : List RouteTypeRule),
      (∃ extra, (bindConditions syn tag cs rules).2 = rules ++ extra) ∧
      (bindConditions syn tag cs rules).1.length = cs.length ∧
      ∀ c ∈ (bindConditions syn tag cs rules).1, tag ≠ "" → c.value ≠ "" →
        ∃ tr, (bindConditions syn tag cs rules).2[c.ruleid]? = some tr ∧
          tr.t = tag ∧ tr.v = c.value := by
  intro cs
  induction cs with
  | nil =>
    intro rules
    exact ⟨⟨[], by simp [bindConditions]⟩, rfl, by intro c hc; simp [bindConditions] at hc⟩
  | cons c rest ih =>
    intro rules
    by_cases hg : (tag != "" && c.value != "") = true
    · obtain ⟨⟨e2, he2⟩, hl2, hb2⟩ := ih (findOrCreateRouteType syn tag c.value rules).2
      obtain ⟨⟨tr, htr, ht, hv⟩, e1, he1⟩ := findOrCreateRouteType_index syn tag c.value rules
      simp only [bindConditions, if_pos hg]
      refine ⟨⟨e1 ++ e2, by rw [he2, he1, List.append_assoc]⟩, by simp [hl2], ?_⟩
      intro c1 hc1 htag hval
      rcases List.mem_cons.1 hc1 with h1 | h1
      · subst h1
        obtain ⟨tr1, htr1, ht1, hv1⟩ := (he2 ▸ keepsPairs_append _ e2) _ tr htr
        exact ⟨tr1, htr1, by rw [ht1, ht], by rw [hv1, hv]⟩
      · exact hb2 c1 h1 htag hval
    · obtain ⟨⟨e2, he2⟩, hl2, hb2⟩ := ih rules
      simp only [bindConditions, if_neg hg]
      refine ⟨⟨e2, he2⟩, by simp [hl2], ?_⟩
      intro c1 hc1 htag hval
      rcases List.mem_cons.1 hc1 with h1 | h1
      · subst h1
        exfalso
        apply hg
        simp [htag, hval]
      · exact hb2 c1 h1 htag hval

/-- The loop of `completeRouteEncodingRules` from index `i`, when every rule before `i` is
bound and the table it leaves is not longer than the passes reach, leaves every rule
bound. -/
theorem completeRouteEncodingRulesFrom_bound (syn : RuleSyntax) :
    ∀ (n i : Nat) (rules : List RouteTypeRule),
      (∀ j, j < i → ∀ r, rules[j]? = some r → RuleBound syn rules r) →
      (completeRouteEncodingRulesFrom syn n i rules).length ≤ i + n →
      ∀ (j : Nat) (r : RouteTypeRule),
        (completeRouteEncodingRulesFrom syn n i rules)[j]? = some r →
        RuleBound syn (completeRouteEncodingRulesFrom syn n i rules) r := by
  intro n
  induction n with
  | zero =>
    intro i rules hinv hlen j r hj
    simp only [completeRouteEncodingRulesFrom] at hlen hj ⊢
    have hlt : j < rules.length := by
      by_contra hc
      rw [List.getElem?_eq_none (by omega)] at hj
      cases hj
    exact hinv j (by omega) r hj
  | succ n ih =>
    intro i rules hinv hlen
    simp only [completeRouteEncodingRulesFrom] at hlen ⊢
    cases hi : rules[i]? with
    | none =>
      simp only [hi] at hlen ⊢
      intro j r hj
      have hlt : j < rules.length := by
        by_contra hc
        rw [List.getElem?_eq_none (by omega)] at hj
        cases hj
      have hil : rules.length ≤ i := by
        by_contra hc
        rw [List.getElem?_eq_getElem (by omega)] at hi
        cases hi
      exact hinv j (by omega) r hj
    | some rtr =>
      simp only [hi] at hlen ⊢
      have hilt : i < rules.length := by
        by_contra hc
        rw [List.getElem?_eq_none (by omega)] at hi
        cases hi
      cases hc : rtr.conditional with
      | false =>
        simp only [hc, Bool.false_eq_true, if_false] at hlen ⊢
        apply ih (i + 1) rules ?_ (by omega)
        intro j hj r hr
        by_cases hji : j = i
        · subst hji
          rw [hi] at hr
          simp only [Option.some.injEq] at hr
          subst hr
          intro hcc
          rw [hc] at hcc
          cases hcc
        · exact hinv j (by omega) r hr
      | true =>
        simp only [hc, if_true] at hlen ⊢
        obtain ⟨⟨extra, hext⟩, hbl, hbb⟩ :=
          bindConditions_bound syn (syn.nonConditionalTag rtr.t) rtr.conditions rules
        have hk1 : KeepsPairs rules
            (bindConditions syn (syn.nonConditionalTag rtr.t) rtr.conditions rules).2 := by
          rw [hext]; exact keepsPairs_append _ _
        have hk2 : KeepsPairs
            (bindConditions syn (syn.nonConditionalTag rtr.t) rtr.conditions rules).2
            ((bindConditions syn (syn.nonConditionalTag rtr.t) rtr.conditions rules).2.set i
              { rtr with conditions :=
                  (bindConditions syn (syn.nonConditionalTag rtr.t) rtr.conditions rules).1 }) := by
          intro k r hk
          by_cases hki : k = i
          · subst hki
            have hlt : k < (bindConditions syn (syn.nonConditionalTag rtr.t) rtr.conditions
                rules).2.length := by
              rw [hext, List.length_append]; omega
            refine ⟨_, by rw [List.getElem?_set_self hlt], ?_, ?_⟩
            · rw [hext, List.getElem?_append_left hilt, hi] at hk
              simp only [Option.some.injEq] at hk
              rw [← hk]
            · rw [hext, List.getElem?_append_left hilt, hi] at hk
              simp only [Option.some.injEq] at hk
              rw [← hk]
          · exact ⟨r, by rw [List.getElem?_set_ne (Ne.symm hki)]; exact hk, rfl, rfl⟩
        apply ih (i + 1) _ ?_ (by omega)
        intro j hj r hr
        by_cases hji : j = i
        · subst hji
          have hlt : j < (bindConditions syn (syn.nonConditionalTag rtr.t) rtr.conditions
              rules).2.length := by
            rw [hext, List.length_append]; omega
          rw [List.getElem?_set_self hlt] at hr
          simp only [Option.some.injEq] at hr
          subst hr
          intro _ htag c hcm hval
          obtain ⟨tr, htr, ht, hv⟩ := hbb c hcm htag hval
          obtain ⟨tr1, htr1, ht1, hv1⟩ := hk2 _ tr htr
          exact ⟨tr1, htr1, by rw [ht1, ht], by rw [hv1, hv]⟩
        · rw [List.getElem?_set_ne (Ne.symm hji), hext,
            List.getElem?_append_left (by omega)] at hr
          exact ruleBound_keeps syn _ _ r (keepsPairs_trans _ _ _ hk1 hk2)
            (hinv j (by omega) r hr)

/-- C22 (counterexample): in the table loaded from an index whose one rule has an
alternative without value, the alternative keeps the rule id 0 after
`completeRouteEncodingRules`, and the rule at index 0 has the tag `access:conditional`,
not the non-conditional tag `access`. -/
theorem completeRouteEncodingRules_unbound_alternative :
    (readRoutingIndexRules emptyValueSyntax false emptyValueIndex {}).2.routeEncodingRules.map
        (fun r => (r.t, r.conditional, r.conditions.map (fun c => (c.value, c.ruleid))))
      = [("access:conditional", true, [("", 0)]), ("access:conditional", true, [("", 0)])] ∧
    emptyValueSyntax.nonConditionalTag "access:conditional" = "access" := by
  decide

/-- The loop over the alternatives of a rule keeps their number, their conditions and
their values, and leaves an alternative as it is when the tag is empty or the alternative
has no value. -/
theorem bindConditions_keeps (syn : RuleSyntax) (tag : String) :
    ∀ (cs : List RouteTypeCondition) (rules : List RouteTypeRule),
      (bindConditions syn tag cs rules).1.length = cs.length ∧
      ∀ (k : Nat) (c0 : RouteTypeCondition), cs[k]? = some c0 →
        ∃ c, (bindConditions syn tag cs rules).1[k]? = some c ∧
          c.condition = c0.condition ∧ c.value = c0.value ∧
          ((tag = "" ∨ c0.value = "") → c = c0) := by
  intro cs
  induction cs with
  | nil => intro rules; exact ⟨rfl, by intro k c0 h; simp at h⟩
  | cons c rest ih =>
    intro rules
    by_cases hg : (tag != "" && c.value != "") = true
    · obtain ⟨hl, hk⟩ := ih (findOrCreateRouteType syn tag c.value rules).2
      simp only [bindConditions, if_pos hg]
      refine ⟨by simp [hl], ?_⟩
      intro k c0 hc0
      cases k with
      | zero =>
        simp only [List.getElem?_cons_zero, Option.some.injEq] at hc0
        subst hc0
        refine ⟨{ c with ruleid := (findOrCreateRouteType syn tag c.value rules).1 },
          by simp, rfl, rfl, ?_⟩
        intro hor
        exfalso
        simp only [Bool.and_eq_true, bne_iff_ne, ne_eq] at hg
        rcases hor with h | h
        · exact hg.1 h
        · exact hg.2 h
      | succ k1 =>
        simp only [List.getElem?_cons_succ] at hc0 ⊢
        exact hk k1 c0 hc0
    · obtain ⟨hl, hk⟩ := ih rules
      simp only [bindConditions, if_neg hg]
      refine ⟨by simp [hl], ?_⟩
      intro k c0 hc0
      cases k with
      | zero =>
        simp only [List.getElem?_cons_zero, Option.some.injEq] at hc0
        subst hc0
        exact ⟨_, by simp, rfl, rfl, fun _ => rfl⟩
      | succ k1 =>
        simp only [List.getElem?_cons_succ] at hc0 ⊢
        exact hk k1 c0 hc0

/-- The loop over the alternatives of a rule leaves the table it was given followed by
rules that the constructor has built from their tag and value. -/
theorem bindConditions_appended (syn : RuleSyntax) (tag : String) :
    ∀ (cs : List RouteTypeCondition) (rules : List RouteTypeRule),
      ∃ extra, (bindConditions syn tag cs rules).2 = rules ++ extra ∧
        ∀ e ∈ extra, e = newRouteTypeRule syn e.t e.v := by
  intro cs
  induction cs with
  | nil => intro rules; exact ⟨[], by simp [bindConditions], by intro e he; cases he⟩
  | cons c rest ih =>
    intro rules
    by_cases hg : (tag != "" && c.value != "") = true
    · simp only [bindConditions, if_pos hg]
      have h1 : ∃ e1, (findOrCreateRouteType syn tag c.value rules).2 = rules ++ e1 ∧
          ∀ e ∈ e1, e = newRouteTypeRule syn e.t e.v := by
        unfold findOrCreateRouteType
        cases findRouteType tag c.value 0 rules with
        | some i => exact ⟨[], by simp, by intro e he; cases he⟩
        | none =>
          refine ⟨[newRouteTypeRule syn tag c.value], rfl, ?_⟩
          intro e he
          simp only [List.mem_singleton] at he
          subst he
          rfl
      obtain ⟨e1, he1, hp1⟩ := h1
      obtain ⟨e2, he2, hp2⟩ := ih (findOrCreateRouteType syn tag c.value rules).2
      refine ⟨e1 ++ e2, by rw [he2, he1, List.append_assoc], ?_⟩
      intro e he
      rcases List.mem_append.1 he with h | h
      · exact hp1 e h
      · exact hp2 e h
    · simp only [bindConditions, if_neg hg]
      exact ih rules

/-- The loop of `completeRouteEncodingRules` from index `i` keeps every rule of the table
at its index with its tag, its value and the number, conditions and values of its
alternatives, leaves the rules before `i` as they are, and changes no alternative that
has no value or whose rule has an empty non-conditional tag; the same holds of the rules
it appends, which start as the constructor builds them. -/
theorem completeRouteEncodingRulesFrom_keeps (syn : RuleSyntax) :
    ∀ (n i : Nat) (rules : List RouteTypeRule),
      (∀ (j : Nat) (r0 : RouteTypeRule), rules[j]? = some r0 →
        ∃ r, (completeRouteEncodingRulesFrom syn n i rules)[j]? = some r ∧
          (j < i → r = r0) ∧ r.t = r0.t ∧ r.v = r0.v ∧
          r.conditions.length = r0.conditions.length ∧
          ∀ (k : Nat) (c0 : RouteTypeCondition), r0.conditions[k]? = some c0 →
            ∃ c, r.conditions[k]? = some c ∧ c.condition = c0.condition ∧
              c.value = c0.value ∧
              ((syn.nonConditionalTag r0.t = "" ∨ c0.value = "") → c = c0)) ∧
      (∀ (j : Nat) (r : RouteTypeRule), rules.length ≤ j →
        (completeRouteEncodingRulesFrom syn n i rules)[j]? = some r →
          r.conditions.length = (syn.conditions r.t r.v).length ∧
          ∀ (k : Nat) (c0 : RouteTypeCondition), (syn.conditions r.t r.v)[k]? = some c0 →
            ∃ c, r.conditions[k]? = some c ∧ c.condition = c0.condition ∧
              c.value = c0.value ∧
              ((syn.nonConditionalTag r.t = "" ∨ c0.value = "") → c = c0)) := by
  have hrefl : ∀ (i : Nat) (rules : List RouteTypeRule),
      (∀ (j : Nat) (r0 : RouteTypeRule), rules[j]? = some r0 →
        ∃ r, rules[j]? = some r ∧
          (j < i → r = r0) ∧ r.t = r0.t ∧ r.v = r0.v ∧
          r.conditions.length = r0.conditions.length ∧
          ∀ (k : Nat) (c0 : RouteTypeCondition), r0.conditions[k]? = some c0 →
            ∃ c, r.conditions[k]? = some c ∧ c.condition = c0.condition ∧
              c.value = c0.value ∧
              ((syn.nonConditionalTag r0.t = "" ∨ c0.value = "") → c = c0)) ∧
      (∀ (j : Nat) (r : RouteTypeRule), rules.length ≤ j →
        rules[j]? = some r →
          r.conditions.length = (syn.conditions r.t r.v).length ∧
          ∀ (k : Nat) (c0 : RouteTypeCondition), (syn.conditions r.t r.v)[k]? = some c0 →
            ∃ c, r.conditions[k]? = some c ∧ c.condition = c0.condition ∧
              c.value = c0.value ∧
              ((syn.nonConditionalTag r.t = "" ∨ c0.value = "") → c = c0)) := by
    intro i rules
    constructor
    · intro j r0 hj
      exact ⟨r0, hj, fun _ => rfl, rfl, rfl, rfl, fun k c0 hk => ⟨c0, hk, rfl, rfl, fun _ => rfl⟩⟩
    · intro j r hj hr
      rw [List.getElem?_eq_none hj] at hr
      cases hr
  intro n
  induction n with
  | zero =>
    intro i rules
    simp only [completeRouteEncodingRulesFrom]
    exact hrefl i rules
  | succ n ih =>
    intro i rules
    simp only [completeRouteEncodingRulesFrom]
    cases hi : rules[i]? with
    | none => exact hrefl i rules
    | some rtr =>
      simp only []
      have hilt : i < rules.length := by
        by_contra hc
        rw [List.getElem?_eq_none (by omega)] at hi
        cases hi
      cases hc : rtr.conditional with
      | false =>
        simp only [Bool.false_eq_true, if_false]
        obtain ⟨h1, h2⟩ := ih (i + 1) rules
        refine ⟨?_, h2⟩
        intro j r0 hj
        obtain ⟨r, a, b, c⟩ := h1 j r0 hj
        exact ⟨r, a, fun hji => b (by omega), c⟩
      | true =>
        simp only [if_true]
        obtain ⟨extra, hext, hnew⟩ :=
          bindConditions_appended syn (syn.nonConditionalTag rtr.t) rtr.conditions rules
        obtain ⟨hbl, hbk⟩ :=
          bindConditions_keeps syn (syn.nonConditionalTag rtr.t) rtr.conditions rules
        generalize hb : bindConditions syn (syn.nonConditionalTag rtr.t) rtr.conditions rules
          = bound at hext hbl hbk ⊢
        have hlen2 : bound.2.length = rules.length + extra.length := by
          rw [hext, List.length_append]
        obtain ⟨h1, h2⟩ := ih (i + 1) (bound.2.set i { rtr with conditions := bound.1 })
        constructor
        · intro j r0 hj
          have hjlt : j < rules.length := by
            by_contra hcc
            rw [List.getElem?_eq_none (by omega)] at hj
            cases hj
          by_cases hji : j = i
          · subst hji
            rw [hi] at hj
            simp only [Option.some.injEq] at hj
            subst hj
            obtain ⟨r, a, b, _⟩ := h1 j { rtr with conditions := bound.1 }
              (by rw [List.getElem?_set_self (by omega)])
            have e := b (by omega)
            subst e
            exact ⟨_, a, fun hh => absurd hh (by omega), rfl, rfl, hbl, hbk⟩
          · obtain ⟨r, a, b, c⟩ := h1 j r0
              (by rw [List.getElem?_set_ne (Ne.symm hji), hext,
                    List.getElem?_append_left hjlt]; exact hj)
            exact ⟨r, a, fun hh => b (by omega), c⟩
        · intro j r hj hr
          by_cases hj2 : j < bound.2.length
          · have hmem : ∃ e, bound.2[j]? = some e ∧ e ∈ extra := by
              rw [hext, List.getElem?_append_right hj]
              have hlt : j - rules.length < extra.length := by omega
              exact ⟨extra[j - rules.length], List.getElem?_eq_getElem hlt,
                List.getElem_mem _⟩
            obtain ⟨e, he, hem⟩ := hmem
            have hne : i ≠ j := by omega
            obtain ⟨r1, a, _, ht, hv, hl, hk⟩ := h1 j e
              (by rw [List.getElem?_set_ne hne]; exact he)
            rw [hr] at a
            simp only [Option.some.injEq] at a
            subst a
            have hcons : e.conditions = syn.conditions r.t r.v := by
              rw [hnew e hem, ht, hv]; rfl
            rw [← hcons, ht]
            exact ⟨hl, hk⟩
          · exact h2 j r (by rw [List.length_set]; omega) hr

/-- C22 (amended): after `completeRouteEncodingRules` on a table that it leaves with
fewer than 2^32 rules, for every conditional rule of the table whose non-conditional tag
is not empty and each of its alternatives `c` whose value is not empty, `c.ruleid` is an
index of the same table and the rule stored there has the non-conditional tag of the
conditional rule and the value of `c`. An alternative with an empty value, or of a rule
with an empty non-conditional tag, keeps the rule id it had: every rule of the table
given stands at its index with its tag, its value and its alternatives in their order
with their conditions and values, such an alternative with the rule id it had before the
call; and so does every rule the call has appended, its alternatives being those the
constructor gives for its tag and value. -/
theorem completeRouteEncodingRules_alternatives_bound (syn : RuleSyntax) (rr : RouteRules)
    (hlen : (completeRouteEncodingRules syn rr).routeEncodingRules.length < 4294967296) :
    (∀ (i : Nat) (r : RouteTypeRule),
      (completeRouteEncodingRules syn rr).routeEncodingRules[i]? = some r →
      r.conditional = true → syn.nonConditionalTag r.t ≠ "" →
        ∀ c ∈ r.conditions, c.value ≠ "" →
          ∃ tr, (completeRouteEncodingRules syn rr).routeEncodingRules[c.ruleid]? = some tr ∧
            tr.t = syn.nonConditionalTag r.t ∧ tr.v = c.value) ∧
    (∀ (i : Nat) (r0 : RouteTypeRule), rr.routeEncodingRules[i]? = some r0 →
      ∃ r, (completeRouteEncodingRules syn rr).routeEncodingRules[i]? = some r ∧
        r.t = r0.t ∧ r.v = r0.v ∧ r.conditions.length = r0.conditions.length ∧
        ∀ (k : Nat) (c0 : RouteTypeCondition), r0.conditions[k]? = some c0 →
          ∃ c, r.conditions[k]? = some c ∧ c.condition = c0.condition ∧
            c.value = c0.value ∧
            ((syn.nonConditionalTag r0.t = "" ∨ c0.value = "") → c.ruleid = c0.ruleid)) ∧
    (∀ (i : Nat) (r : RouteTypeRule), rr.routeEncodingRules.length ≤ i →
      (completeRouteEncodingRules syn rr).routeEncodingRules[i]? = some r →
        r.conditions.length = (syn.conditions r.t r.v).length ∧
        ∀ (k : Nat) (c0 : RouteTypeCondition), (syn.conditions r.t r.v)[k]? = some c0 →
          ∃ c, r.conditions[k]? = some c ∧ c.condition = c0.condition ∧
            c.value = c0.value ∧
            ((syn.nonConditionalTag r.t = "" ∨ c0.value = "") → c.ruleid = c0.ruleid)) := by
  obtain ⟨h1, h2⟩ :=
    completeRouteEncodingRulesFrom_keeps syn 4294967296 0 rr.routeEncodingRules
  simp only [completeRouteEncodingRules] at hlen ⊢
  refine ⟨?_, ?_, ?_⟩
  · intro i r hr
    exact completeRouteEncodingRulesFrom_bound syn 4294967296 0 rr.routeEncodingRules
      (by intro j hj; omega) (by omega) i r hr
  · intro i r0 hr0
    obtain ⟨r, a, _, ht, hv, hl, hk⟩ := h1 i r0 hr0
    refine ⟨r, a, ht, hv, hl, ?_⟩
    intro k c0 hc0
    obtain ⟨c, b1, b2, b3, b4⟩ := hk k c0 hc0
    exact ⟨c, b1, b2, b3, fun h => by rw [b4 h]⟩
  · intro i r hi hr
    obtain ⟨hl, hk⟩ := h2 i r hi hr
    refine ⟨hl, ?_⟩
    intro k c0 hc0
    obtain ⟨c, b1, b2, b3, b4⟩ := hk k c0 hc0
    exact ⟨c, b1, b2, b3, fun h => by rw [b4 h]⟩

/-- Witness of C22: in the table loaded from `conditionalIndex`, the alternative `no` of
rule 2 is bound to rule 3, which is `access=no`. -/
theorem completeRouteEncodingRules_alternatives_bound_witness :
    rulePairs (completeRouteEncodingRules accessSyntax
        { routeEncodingRules := conditionalTable }).routeEncodingRules
      = [("highway", "primary"), ("highway", "primary"),
         ("access:conditional", "no @ (Mo-Fr 07:00-09:00)"), ("access", "no")] ∧
    ∀ (i : Nat) (r : RouteTypeRule), (completeRouteEncodingRules accessSyntax
        { routeEncodingRules := conditionalTable }).routeEncodingRules[i]? = some r →
      r.conditional = true → accessSyntax.nonConditionalTag r.t ≠ "" →
        ∀ c ∈ r.conditions, c.value ≠ "" →
          ∃ tr, (completeRouteEncodingRules accessSyntax
              { routeEncodingRules := conditionalTable }).routeEncodingRules[c.ruleid]? = some tr ∧
            tr.t = accessSyntax.nonConditionalTag r.t ∧ tr.v = c.value :=
  ⟨by decide,
   (completeRouteEncodingRules_alternatives_bound accessSyntax
     { routeEncodingRules := conditionalTable } (by decide)).1⟩

/-- The first index under a tag is an index of the list, whose entry has a rule with the
tag, and no entry before it has one. -/
theorem firstWithTag_some (rules : List RouteTypeRule) (tag : String) :
    ∀ (types : List Nat) (ks : Nat), firstWithTag rules tag types = some ks →
      ∃ t, types[ks]? = some t ∧ typeTag rules t = some tag ∧
        ∀ (j : Nat) (t1 : Nat), j < ks → types[j]? = some t1 → typeTag rules t1 ≠ some tag := by
  intro types
  induction types with
  | nil => intro ks h; simp [firstWithTag] at h
  | cons t rest ih =>
    intro ks h
    simp only [firstWithTag] at h
    by_cases ht : typeTag rules t = some tag
    · rw [if_pos ht] at h
      simp only [Option.some.injEq] at h
      subst h
      exact ⟨t, by simp, ht, by intro j t1 hj; omega⟩
    · rw [if_neg ht] at h
      cases hr : firstWithTag rules tag rest with
      | none => rw [hr] at h; cases h
      | some k =>
        rw [hr] at h
        simp only [Option.map_some', Option.some.injEq] at h
        subst h
        obtain ⟨t2, h1, h2, h3⟩ := ih k hr
        refine ⟨t2, by simpa using h1, h2, ?_⟩
        intro j t1 hj hj1
        cases j with
        | zero =>
          simp only [List.getElem?_cons_zero, Option.some.injEq] at hj1
          subst hj1; exact ht
        | succ j2 =>
          simp only [List.getElem?_cons_succ] at hj1
          exact h3 j2 t1 (by omega) hj1

/-- When there is no first index under a tag, no entry has a rule with the tag. -/
theorem firstWithTag_none (rules : List RouteTypeRule) (tag : String) :
    ∀ types : List Nat, firstWithTag rules tag types = none →
      ∀ t ∈ types, typeTag rules t ≠ some tag := by
  intro types
  induction types with
  | nil => intro _ t ht; cases ht
  | cons t rest ih =>
    intro h t1 ht1
    simp only [firstWithTag] at h
    by_cases ht : typeTag rules t = some tag
    · rw [if_pos ht] at h; cases h
    · rw [if_neg ht] at h
      rcases List.mem_cons.1 ht1 with h1 | h1
      · subst h1; exact ht
      · cases hr : firstWithTag rules tag rest with
        | none => exact ih hr t1 h1
        | some k => rw [hr] at h; cases h

/-- On a list whose entries are indices of the table, the inner loop of
`processConditionalTags` leaves `ks` at the first index under the tag, and at the size of
the list when there is none. -/
theorem findTypeWithTag_eq (rules : List RouteTypeRule) (tag : String) :
    ∀ (types : List Nat) (k : Nat), (∀ t ∈ types, (quickGetEncodingRule rules t).isSome) →
      findTypeWithTag rules tag k types =
        some (match firstWithTag rules tag types with
          | some j => k + j
          | none => k + types.length) := by
  intro types
  induction types with
  | nil => intro k _; simp [findTypeWithTag, firstWithTag]
  | cons t rest ih =>
    intro k hv
    obtain ⟨r, hr⟩ := Option.isSome_iff_exists.1 (hv t (List.mem_cons_self _ _))
    have hrest : ∀ t1 ∈ rest, (quickGetEncodingRule rules t1).isSome :=
      fun t1 h1 => hv t1 (List.mem_cons_of_mem _ h1)
    simp only [findTypeWithTag, hr, firstWithTag, typeTag, Option.map_some',
      Option.some.injEq]
    by_cases ht : r.t = tag
    · simp [ht]
    · have hb : ¬ ((r.t == tag) = true) := by simpa using ht
      rw [if_neg hb, if_neg ht, ih (k + 1) hrest]
      cases firstWithTag rules tag rest with
      | none =>
        simp only [Option.map_none', List.length_cons, Option.some.injEq, Nat.add_assoc,
          Nat.add_comm 1]
      | some j =>
        simp only [Option.map_some', Option.some.injEq, Nat.add_assoc, Nat.add_comm 1]

/-- What the body of the loop of `processConditionalTags` does with the list for the rule
id `vl` is what `placeType` does. -/
theorem placeType_eq (rules : List RouteTypeRule) (types : List Nat) (vl : Nat)
    (rtr : RouteTypeRule) (hr : quickGetEncodingRule rules vl = some rtr) :
    (if (match firstWithTag rules rtr.t types with
          | some j => 0 + j
          | none => 0 + types.length) = types.length then types ++ [0] else types).set
        (match firstWithTag rules rtr.t types with
          | some j => 0 + j
          | none => 0 + types.length) vl = placeType rules types vl := by
  simp only [placeType, typeTag, hr, Option.map_some']
  cases hf : firstWithTag rules rtr.t types with
  | none => simp
  | some j =>
    obtain ⟨t, ht, _, _⟩ := firstWithTag_some rules rtr.t types j hf
    have hlt : j < types.length := by
      by_contra hc
      rw [List.getElem?_eq_none (by omega)] at ht
      cases ht
    have hne : ¬ (j = types.length) := by omega
    simp only [Nat.zero_add, if_neg hne]

/-- Placing a rule id in a list changes the entry at the first index under the tag of the
rule, or appends an entry; any entry of the new list is an entry of the old or the rule
id. -/
theorem placeType_getElem (rules : List RouteTypeRule) (types : List Nat) (v : Nat) :
    types.length ≤ (placeType rules types v).length ∧
    (∀ t ∈ placeType rules types v, t ∈ types ∨ t = v) ∧
    ∀ (k : Nat) (t : Nat), types[k]? = some t →
      (placeType rules types v)[k]? = some t ∨
        ((placeType rules types v)[k]? = some v ∧ typeTag rules t = typeTag rules v) := by
  cases hv : typeTag rules v with
  | none =>
    have e : placeType rules types v = types := by simp [placeType, hv]
    rw [e]
    exact ⟨le_refl _, fun t ht => Or.inl ht, fun k t hk => Or.inl hk⟩
  | some tag =>
    cases hf : firstWithTag rules tag types with
    | none =>
      have e : placeType rules types v = types ++ [v] := by simp [placeType, hv, hf]
      rw [e]
      refine ⟨by simp, ?_, ?_⟩
      · intro t ht
        simp only [List.mem_append, List.mem_singleton] at ht
        exact ht
      · intro k t hk
        have hlt : k < types.length := by
          by_contra hc
          rw [List.getElem?_eq_none (by omega)] at hk
          cases hk
        exact Or.inl (by rw [List.getElem?_append_left hlt]; exact hk)
    | some ks =>
      obtain ⟨t0, ht0, htag, _⟩ := firstWithTag_some rules tag types ks hf
      have e : placeType rules types v = types.set ks v := by simp [placeType, hv, hf]
      rw [e]
      refine ⟨by simp, ?_, ?_⟩
      · intro t ht
        rcases List.mem_or_eq_of_mem_set ht with h | h
        · exact Or.inl h
        · exact Or.inr h
      · intro k t hk
        by_cases hks : k = ks
        · subst hks
          have hlt : k < types.length := by
            by_contra hc
            rw [List.getElem?_eq_none (by omega)] at hk
            cases hk
          rw [ht0] at hk
          simp only [Option.some.injEq] at hk
          subst hk
          exact Or.inr ⟨by rw [List.getElem?_set_self hlt], htag⟩
        · exact Or.inl (by rw [List.getElem?_set_ne (Ne.symm hks)]; exact hk)

/-- One pass of the loop of `processConditionalTags` over a list whose entries are indices
of the table: an entry that resolves to no rule id leaves the list as it is, an entry
that resolves to the rule id `v` has `v` placed in the list. -/
theorem processConditionalTagsFrom_step (rules : List RouteTypeRule)
    (cv : RouteTypeRule → Nat) (n i : Nat) (cur : List Nat) (c : Nat)
    (hc : cur[i]? = some c) (hvalid : ∀ t ∈ cur, (quickGetEncodingRule rules t).isSome) :
    processConditionalTagsFrom rules cv (n + 1) i cur =
      match activeValue rules cv c with
      | none => processConditionalTagsFrom rules cv n (i + 1) cur
      | some v =>
        match quickGetEncodingRule rules v with
        | none => none
        | some _ => processConditionalTagsFrom rules cv n (i + 1) (placeType rules cur v) := by
  obtain ⟨r, hr⟩ := Option.isSome_iff_exists.1 (hvalid c (List.mem_iff_getElem?.2 ⟨i, hc⟩))
  simp only [processConditionalTagsFrom, hc, hr, activeValue]
  cases hcond : r.conditional with
  | false => simp
  | true =>
    by_cases hpos : cv r > 0
    · simp only [if_true, hpos, decide_True, Bool.and_self]
      cases hv : quickGetEncodingRule rules (cv r) with
      | none => rfl
      | some rtr =>
        simp only [findTypeWithTag_eq rules rtr.t cur 0 hvalid]
        rw [placeType_eq rules cur (cv r) rtr hv]
    · simp [hpos]

/-- The loop of `processConditionalTags` from index `i`, over a list that holds at the
indices still to visit the entries given, or in their place entries that resolve to no
rule id where the entry given resolves to none either: when the rules resolved are no
active conditional rules and no entry that resolves to a rule id carries the tag of a
resolved rule, the loop places the resolved rule ids one after the other. -/
theorem processConditionalTagsFrom_fold (rules : List RouteTypeRule)
    (cv : RouteTypeRule → Nat) :
    ∀ (entries : List Nat) (i : Nat) (cur : List Nat),
      i + entries.length ≤ cur.length →
      (∀ (k e c : Nat), entries[k]? = some e → cur[i + k]? = some c →
        c = e ∨ (activeValue rules cv c = none ∧ activeValue rules cv e = none)) →
      (∀ t ∈ cur, (quickGetEncodingRule rules t).isSome) →
      (∀ e ∈ entries, ∀ v, activeValue rules cv e = some v →
        (quickGetEncodingRule rules v).isSome ∧ activeValue rules cv v = none ∧
          ∀ e1 ∈ entries, activeValue rules cv e1 ≠ none →
            typeTag rules e1 ≠ typeTag rules v) →
      processConditionalTagsFrom rules cv entries.length i cur =
        some ((entries.filterMap (activeValue rules cv)).foldl (placeType rules) cur) := by
  intro entries
  induction entries with
  | nil => intro i cur _ _ _ _; simp [processConditionalTagsFrom]
  | cons e0 es ih =>
    intro i cur hlen hinv hvalid htarget
    simp only [List.length_cons] at hlen
    have hi : i < cur.length := by omega
    have hc : cur[i]? = some cur[i] := List.getElem?_eq_getElem hi
    have h0 := hinv 0 e0 cur[i] (by simp) (by simp [hi])
    have htarget1 : ∀ e ∈ es, ∀ v, activeValue rules cv e = some v →
        (quickGetEncodingRule rules v).isSome ∧ activeValue rules cv v = none ∧
          ∀ e1 ∈ es, activeValue rules cv e1 ≠ none →
            typeTag rules e1 ≠ typeTag rules v := by
      intro e he v hv
      obtain ⟨a, b, c⟩ := htarget e (List.mem_cons_of_mem _ he) v hv
      exact ⟨a, b, fun e1 he1 => c e1 (List.mem_cons_of_mem _ he1)⟩
    rw [List.length_cons, processConditionalTagsFrom_step rules cv es.length i cur cur[i] hc
      hvalid]
    cases hav : activeValue rules cv cur[i] with
    | none =>
      have he0 : activeValue rules cv e0 = none := by
        rcases h0 with h | h
        · rw [← h]; exact hav
        · exact h.2
      simp only [List.filterMap_cons, he0]
      apply ih (i + 1) cur (by omega) ?_ hvalid htarget1
      intro k e c hk hck
      exact hinv (k + 1) e c (by simpa using hk) (by rw [← hck]; congr 1; omega)
    | some v =>
      have hce : cur[i] = e0 := by
        rcases h0 with h | h
        · exact h
        · rw [h.1] at hav; cases hav
      have he0 : activeValue rules cv e0 = some v := by rw [← hce]; exact hav
      obtain ⟨hvv, hvn, htags⟩ := htarget e0 (List.mem_cons_self _ _) v he0
      obtain ⟨rtr, hrtr⟩ := Option.isSome_iff_exists.1 hvv
      obtain ⟨hpl, hpm, hpg⟩ := placeType_getElem rules cur v
      simp only [hrtr, List.filterMap_cons, he0, List.foldl_cons]
      apply ih (i + 1) (placeType rules cur v) (by omega) ?_ ?_ htarget1
      · intro k e c hk hck
        have hlt : i + 1 + k < cur.length := by
          have := List.getElem?_eq_some.1 hk
          obtain ⟨hk1, _⟩ := this
          omega
        have hidx : i + (k + 1) = i + 1 + k := by omega
        have hold := hinv (k + 1) e cur[i + 1 + k] (by simpa using hk)
          (by rw [hidx]; exact List.getElem?_eq_getElem hlt)
        rcases hpg (i + 1 + k) cur[i + 1 + k] (List.getElem?_eq_getElem hlt) with h | h
        · rw [h] at hck
          simp only [Option.some.injEq] at hck
          rw [← hck]; exact hold
        · rw [h.1] at hck
          simp only [Option.some.injEq] at hck
          subst hck
          right
          refine ⟨hvn, ?_⟩
          rcases hold with h1 | h1
          · by_contra hne
            have he : e ∈ e0 :: es := List.mem_cons_of_mem _ (List.mem_iff_getElem?.2 ⟨k, hk⟩)
            exact htags e he hne (by rw [← h1]; exact h.2)
          · exact h1.2
      · intro t ht
        rcases hpm t ht with h | h
        · exact hvalid t h
        · rw [h]; exact hvv

/-- The loop of `processConditionalTags` over a whole list, under the conditions of
`processConditionalTagsFrom_fold`, places the rule ids its entries resolve to, in the
order of the entries. -/
theorem processConditionalTags_fold (rules : List RouteTypeRule) (cv : RouteTypeRule → Nat)
    (types : List Nat) (hvalid : ∀ t ∈ types, (quickGetEncodingRule rules t).isSome)
    (htarget : ∀ t ∈ types, ∀ v, activeValue rules cv t = some v →
      (quickGetEncodingRule rules v).isSome ∧ activeValue rules cv v = none ∧
        ∀ t1 ∈ types, activeValue rules cv t1 ≠ none → typeTag rules t1 ≠ typeTag rules v) :
    processConditionalTags rules cv types =
      some ((types.filterMap (activeValue rules cv)).foldl (placeType rules) types) := by
  unfold processConditionalTags
  apply processConditionalTagsFrom_fold rules cv types 0 types (by omega) ?_ hvalid htarget
  intro k e c hk hck
  rw [Nat.zero_add, hk] at hck
  simp only [Option.some.injEq] at hck
  exact Or.inl hck.symm

/-- C23: `processConditionalTags(time)` on a type list whose entries are ids of the table,
where the rules that the conditional entries resolve to at the time are ids of the table
and no active conditional rules themselves, and no entry with an active conditional rule
carries the tag of a resolved rule: for each entry of the original list, in order, whose
rule is conditional and resolves to a rule id `v > 0`, `v` is placed: if some entry of
the list has a rule with the tag of rule `v`, the first such entry is replaced by `v` and
the length is unchanged, otherwise `v` is appended at the end; every other entry keeps
its value and position, and a list with no active conditional rule is left unchanged. -/
theorem processConditionalTags_replace_or_append (rules : List RouteTypeRule)
    (cv : RouteTypeRule → Nat) (types : List Nat)
    (hvalid : ∀ t ∈ types, (quickGetEncodingRule rules t).isSome)
    (htarget : ∀ t ∈ types, ∀ v, activeValue rules cv t = some v →
      (quickGetEncodingRule rules v).isSome ∧ activeValue rules cv v = none ∧
        ∀ t1 ∈ types, activeValue rules cv t1 ≠ none → typeTag rules t1 ≠ typeTag rules v) :
    processConditionalTags rules cv types =
      some ((types.filterMap (activeValue rules cv)).foldl (placeType rules) types) ∧
    (∀ (ts : List Nat) (v : Nat) (tag : String), typeTag rules v = some tag →
      (∀ ks, firstWithTag rules tag ts = some ks →
        placeType rules ts v = ts.set ks v ∧ (placeType rules ts v).length = ts.length ∧
        (∃ t, ts[ks]? = some t ∧ typeTag rules t = some tag) ∧
        ∀ (j : Nat) (t1 : Nat), j < ks → ts[j]? = some t1 → typeTag rules t1 ≠ some tag) ∧
      (firstWithTag rules tag ts = none →
        placeType rules ts v = ts ++ [v] ∧ ∀ t ∈ ts, typeTag rules t ≠ some tag)) ∧
    ((∀ t ∈ types, activeValue rules cv t = none) →
      processConditionalTags rules cv types = some types) := by
  have hfold := processConditionalTags_fold rules cv types hvalid htarget
  refine ⟨hfold, ?_, ?_⟩
  · intro ts v tag hv
    constructor
    · intro ks hks
      obtain ⟨t, h1, h2, h3⟩ := firstWithTag_some rules tag ts ks hks
      have e : placeType rules ts v = ts.set ks v := by simp [placeType, hv, hks]
      exact ⟨e, by rw [e]; simp, ⟨t, h1, h2⟩, h3⟩
    · intro hno
      exact ⟨by simp [placeType, hv, hno], firstWithTag_none rules tag ts hno⟩
  · intro hnone
    rw [hfold]
    have : types.filterMap (activeValue rules cv) = [] := by
      rw [List.filterMap_eq_nil_iff]
      exact hnone
    rw [this]; rfl

/-- Witness of C23: on the table with the rules `access=yes` (3) and `access=no` (4), the
road with the types `access=yes` and the conditional rule 2 has `access=yes` replaced by
`access=no` on Tuesday 08:00. -/
theorem processConditionalTags_replace_or_append_witness :
    processConditionalTags accessTable (RouteTypeRule.conditionalValue tuesdayMorning) [3, 2]
      = some [4, 2] ∧
    processConditionalTags accessTable (RouteTypeRule.conditionalValue tuesdayMorning) [3, 2]
      = some (([3, 2].filterMap
          (activeValue accessTable (RouteTypeRule.conditionalValue tuesdayMorning))).foldl
          (placeType accessTable) [3, 2]) :=
  ⟨by decide,
   (processConditionalTags_replace_or_append accessTable
      (RouteTypeRule.conditionalValue tuesdayMorning) [3, 2] (by decide) (by decide)).1⟩

/-- C24 (counterexample): with the rules 1 `highway=primary`, 2 the conditional
`access:conditional` rule and 3 `access=no`, the rule that rule 2 resolves to on Tuesday
08:00, the road with the types 1 and 2 has the types 1, 2 and 3 after
`processConditionalTags`, and the road with the type 2 alone the types 2 and 3: rule 3 is
appended and rule 2 stays where it was. With `access=yes` in the table and before the
conditional rule in the road, `access=no` takes the place of `access=yes`, not that of
the conditional rule. With two conditional rules in the road that resolve to rules of
one tag, `access=no` (4) and `access=destination` (5), the rule of the later entry takes
the place of the rule of the earlier, which is then not in the list. -/
theorem processConditionalTags_keeps_conditional :
    rulePairs conditionalTable = [("highway", "primary"), ("highway", "primary"),
      ("access:conditional", "no @ (Mo-Fr 07:00-09:00)"), ("access", "no")] ∧
    conditionalTable.map (fun r => RouteTypeRule.conditionalValue tuesdayMorning r)
      = [0, 0, 3, 0] ∧
    processConditionalTags conditionalTable (RouteTypeRule.conditionalValue tuesdayMorning)
      [1, 2] = some [1, 2, 3] ∧
    processConditionalTags conditionalTable (RouteTypeRule.conditionalValue tuesdayMorning)
      [2] = some [2, 3] ∧
    processConditionalTags accessTable (RouteTypeRule.conditionalValue tuesdayMorning)
      [3, 2] = some [4, 2] ∧
    destinationTable.map (fun r => RouteTypeRule.conditionalValue tuesdayMorning r)
      = [0, 0, 4, 5, 0, 0] ∧
    processConditionalTags destinationTable (RouteTypeRule.conditionalValue tuesdayMorning)
      [2, 3] = some [2, 3, 5] := by
  decide

/-- Placing a rule id leaves an entry whose rule has another tag where it is. -/
theorem placeType_keeps_entry (rules : List RouteTypeRule) (ts : List Nat) (w i c : Nat)
    (hi : ts[i]? = some c) (htag : typeTag rules c ≠ typeTag rules w) :
    (placeType rules ts w)[i]? = some c := by
  rcases (placeType_getElem rules ts w).2.2 i c hi with h | h
  · exact h
  · exact absurd h.2 htag

/-- Placing rule ids one after the other leaves an entry where it is when its rule has
the tag of none of them. -/
theorem foldl_placeType_keeps_entry (rules : List RouteTypeRule) (i c : Nat) :
    ∀ (ws ts : List Nat), ts[i]? = some c →
      (∀ w ∈ ws, typeTag rules c ≠ typeTag rules w) →
      (ws.foldl (placeType rules) ts)[i]? = some c := by
  intro ws
  induction ws with
  | nil => intro ts hi _; exact hi
  | cons w rest ih =>
    intro ts hi hws
    simp only [List.foldl_cons]
    exact ih _ (placeType_keeps_entry rules ts w i c hi (hws w (List.mem_cons_self _ _)))
      (fun w1 h1 => hws w1 (List.mem_cons_of_mem _ h1))

/-- Placing rule ids one after the other keeps, at every index of the list, the tag of
the rule of the entry, and does not shorten the list. -/
theorem foldl_placeType_tags (rules : List RouteTypeRule) :
    ∀ (ws ts : List Nat), ts.length ≤ (ws.foldl (placeType rules) ts).length ∧
      ∀ (k t : Nat), ts[k]? = some t →
        ∃ t1, (ws.foldl (placeType rules) ts)[k]? = some t1 ∧
          typeTag rules t1 = typeTag rules t := by
  intro ws
  induction ws with
  | nil => intro ts; exact ⟨le_refl _, fun k t hk => ⟨t, hk, rfl⟩⟩
  | cons w rest ih =>
    intro ts
    simp only [List.foldl_cons]
    obtain ⟨hl, _, hg⟩ := placeType_getElem rules ts w
    obtain ⟨hl2, hg2⟩ := ih (placeType rules ts w)
    refine ⟨le_trans hl hl2, ?_⟩
    intro k t hk
    rcases hg k t hk with h | h
    · exact hg2 k t h
    · obtain ⟨t1, a, b⟩ := hg2 k w h.1
      exact ⟨t1, a, by rw [b, h.2]⟩

/-- Placing a rule id of the table puts it at an index before which no entry has a rule
with its tag. -/
theorem placeType_first (rules : List RouteTypeRule) (ts : List Nat) (v : Nat)
    (hv : (quickGetEncodingRule rules v).isSome) :
    ∃ p, (placeType rules ts v)[p]? = some v ∧
      ∀ (j t1 : Nat), j < p → (placeType rules ts v)[j]? = some t1 →
        typeTag rules t1 ≠ typeTag rules v := by
  obtain ⟨rtr, hrtr⟩ := Option.isSome_iff_exists.1 hv
  have htagv : typeTag rules v = some rtr.t := by simp [typeTag, hrtr]
  cases hf : firstWithTag rules rtr.t ts with
  | none =>
    have e : placeType rules ts v = ts ++ [v] := by simp [placeType, htagv, hf]
    rw [e]
    refine ⟨ts.length, by simp, ?_⟩
    intro j t1 hj hj1
    rw [List.getElem?_append_left hj] at hj1
    rw [htagv]
    exact firstWithTag_none rules rtr.t ts hf t1 (List.mem_iff_getElem?.2 ⟨j, hj1⟩)
  | some ks =>
    obtain ⟨t0, ht0, _, hbefore⟩ := firstWithTag_some rules rtr.t ts ks hf
    have hlt : ks < ts.length := by
      by_contra hc
      rw [List.getElem?_eq_none (by omega)] at ht0
      cases ht0
    have e : placeType rules ts v = ts.set ks v := by simp [placeType, htagv, hf]
    rw [e]
    refine ⟨ks, by rw [List.getElem?_set_self hlt], ?_⟩
    intro j t1 hj hj1
    rw [List.getElem?_set_ne (by omega)] at hj1
    rw [htagv]
    exact hbefore j t1 hj hj1

/-- Placing a rule id that is `v` or has a rule with another tag than rule `v` leaves `v`
at an index before which no entry has a rule with the tag of rule `v`. -/
theorem placeType_keeps_first (rules : List RouteTypeRule) (ts : List Nat) (v w p : Nat)
    (hp : ts[p]? = some v)
    (hbefore : ∀ (j t1 : Nat), j < p → ts[j]? = some t1 →
      typeTag rules t1 ≠ typeTag rules v)
    (hw : typeTag rules w = typeTag rules v → w = v) :
    (placeType rules ts w)[p]? = some v ∧
    ∀ (j t1 : Nat), j < p → (placeType rules ts w)[j]? = some t1 →
      typeTag rules t1 ≠ typeTag rules v := by
  have hg := (placeType_getElem rules ts w).2.2
  have hplt : p < ts.length := by
    by_contra hc
    rw [List.getElem?_eq_none (by omega)] at hp
    cases hp
  constructor
  · rcases hg p v hp with h | h
    · exact h
    · rw [h.1, hw h.2.symm]
  · intro j t1 hj hj1
    have hjlt : j < ts.length := by omega
    rcases hg j ts[j] (List.getElem?_eq_getElem hjlt) with h | h
    · rw [h] at hj1
      simp only [Option.some.injEq] at hj1
      rw [← hj1]
      exact hbefore j ts[j] hj (List.getElem?_eq_getElem hjlt)
    · rw [h.1] at hj1
      simp only [Option.some.injEq] at hj1
      rw [← hj1, ← h.2]
      exact hbefore j ts[j] hj (List.getElem?_eq_getElem hjlt)

/-- Placing one after the other rule ids that are `v` or have a rule with another tag
than rule `v` leaves `v` at an index before which no entry has a rule with the tag of
rule `v`. -/
theorem foldl_placeType_keeps_first (rules : List RouteTypeRule) (v p : Nat) :
    ∀ (ws ts : List Nat), ts[p]? = some v →
      (∀ (j t1 : Nat), j < p → ts[j]? = some t1 → typeTag rules t1 ≠ typeTag rules v) →
      (∀ w ∈ ws, typeTag rules w = typeTag rules v → w = v) →
      (ws.foldl (placeType rules) ts)[p]? = some v ∧
      ∀ (j t1 : Nat), j < p → (ws.foldl (placeType rules) ts)[j]? = some t1 →
        typeTag rules t1 ≠ typeTag rules v := by
  intro ws
  induction ws with
  | nil => intro ts hp hb _; exact ⟨hp, hb⟩
  | cons w rest ih =>
    intro ts hp hb hws
    simp only [List.foldl_cons]
    obtain ⟨a, b⟩ := placeType_keeps_first rules ts v w p hp hb
      (hws w (List.mem_cons_self _ _))
    exact ih _ a b (fun w1 h1 => hws w1 (List.mem_cons_of_mem _ h1))

/-- C24 (amended): on a type list whose entries are ids of the table, where the rules
that the conditional entries resolve to at the time are ids of the table and no active
conditional rules themselves, and no entry with an active conditional rule carries the
tag of a resolved rule: if the list holds at index `i` the id `c` of a conditional rule
that resolves at the time to the rule id `v`, and no later entry resolves to another rule
with the tag of rule `v`, then after `processConditionalTags` the list holds `v` at the
first index `p` whose rule has the tag of rule `v`, which is the first such index of the
list given, or an index past the entries of the list given when none of them has that
tag; `c` still stands at index `i`, and no entry has been removed. -/
theorem processConditionalTags_resolved_placed (rules : List RouteTypeRule)
    (cv : RouteTypeRule → Nat) (types : List Nat) (i c v : Nat)
    (hvalid : ∀ t ∈ types, (quickGetEncodingRule rules t).isSome)
    (htarget : ∀ t ∈ types, ∀ v1, activeValue rules cv t = some v1 →
      (quickGetEncodingRule rules v1).isSome ∧ activeValue rules cv v1 = none ∧
        ∀ t1 ∈ types, activeValue rules cv t1 ≠ none → typeTag rules t1 ≠ typeTag rules v1)
    (hi : types[i]? = some c) (hav : activeValue rules cv c = some v)
    (hlast : ∀ t ∈ types.drop (i + 1), ∀ v1, activeValue rules cv t = some v1 →
      typeTag rules v1 = typeTag rules v → v1 = v) :
    ∃ (out : List Nat) (p : Nat),
      processConditionalTags rules cv types = some out ∧
      out[i]? = some c ∧ out[p]? = some v ∧ p ≠ i ∧
      (∀ (j t1 : Nat), j < p → out[j]? = some t1 → typeTag rules t1 ≠ typeTag rules v) ∧
      (∀ (j t1 : Nat), j < p → types[j]? = some t1 → typeTag rules t1 ≠ typeTag rules v) ∧
      (∀ t0 : Nat, types[p]? = some t0 → typeTag rules t0 = typeTag rules v) ∧
      types.length ≤ out.length := by
  have hilt : i < types.length := by
    by_contra hc
    rw [List.getElem?_eq_none (by omega)] at hi
    cases hi
  have hci : types[i] = c := by
    rw [List.getElem?_eq_getElem hilt] at hi
    simpa using hi
  have hcm : c ∈ types := List.mem_iff_getElem?.2 ⟨i, hi⟩
  obtain ⟨hv, _, htags⟩ := htarget c hcm v hav
  have hcv : typeTag rules c ≠ typeTag rules v := htags c hcm (by rw [hav]; simp)
  have hsplit : types = types.take i ++ c :: types.drop (i + 1) := by
    rw [← hci, ← List.drop_eq_getElem_cons hilt, List.take_append_drop]
  have hvs : types.filterMap (activeValue rules cv)
      = (types.take i).filterMap (activeValue rules cv)
          ++ v :: (types.drop (i + 1)).filterMap (activeValue rules cv) := by
    conv_lhs => rw [hsplit]
    rw [List.filterMap_append, List.filterMap_cons, hav]
  have hres : ∀ w ∈ types.filterMap (activeValue rules cv),
      typeTag rules c ≠ typeTag rules w := by
    intro w hw
    obtain ⟨t, ht, htw⟩ := List.mem_filterMap.1 hw
    exact (htarget t ht w htw).2.2 c hcm (by rw [hav]; simp)
  have hpost : ∀ w ∈ (types.drop (i + 1)).filterMap (activeValue rules cv),
      typeTag rules w = typeTag rules v → w = v := by
    intro w hw
    obtain ⟨t, ht, htw⟩ := List.mem_filterMap.1 hw
    exact hlast t ht w htw
  have hfold := processConditionalTags_fold rules cv types hvalid htarget
  obtain ⟨p, hp1, hp2⟩ := placeType_first rules
    (((types.take i).filterMap (activeValue rules cv)).foldl (placeType rules) types) v hv
  obtain ⟨hq1, hq2⟩ := foldl_placeType_keeps_first rules v p
    ((types.drop (i + 1)).filterMap (activeValue rules cv)) _ hp1 hp2 hpost
  have hout : (types.filterMap (activeValue rules cv)).foldl (placeType rules) types
      = ((types.drop (i + 1)).filterMap (activeValue rules cv)).foldl (placeType rules)
          (placeType rules
            (((types.take i).filterMap (activeValue rules cv)).foldl (placeType rules) types)
            v) := by
    rw [hvs, List.foldl_append, List.foldl_cons]
  rw [← hout] at hq1 hq2
  have hkeep := foldl_placeType_keeps_entry rules i c
    (types.filterMap (activeValue rules cv)) types hi hres
  obtain ⟨hlen, htagsAt⟩ := foldl_placeType_tags rules
    (types.filterMap (activeValue rules cv)) types
  refine ⟨_, p, hfold, hkeep, hq1, ?_, hq2, ?_, ?_, hlen⟩
  · intro hpi
    rw [hpi, hkeep] at hq1
    simp only [Option.some.injEq] at hq1
    rw [hq1] at hcv
    exact hcv rfl
  · intro j t1 hj hj1
    obtain ⟨t2, a, b⟩ := htagsAt j t1 hj1
    rw [← b]
    exact hq2 j t2 hj a
  · intro t0 ht0
    obtain ⟨t2, a, b⟩ := htagsAt p t0 ht0
    rw [hq1] at a
    simp only [Option.some.injEq] at a
    rw [← b, ← a]

/-- Witness of C24: on the table of the rules 1 `highway=primary`, 2 and 3 conditional,
4 `access=no` and 5 `access=destination`, the road with the types 2 and 3, which resolve
on Tuesday 08:00 to 4 and 5, has the types 2, 3 and 5 after `processConditionalTags`:
rule 5, to which the later entry resolves, stands at the index appended, and both
conditional entries stand where they were. -/
theorem processConditionalTags_resolved_placed_witness :
    processConditionalTags destinationTable (RouteTypeRule.conditionalValue tuesdayMorning)
      [2, 3] = some [2, 3, 5] ∧
    ∃ (out : List Nat) (p : Nat),
      processConditionalTags destinationTable (RouteTypeRule.conditionalValue tuesdayMorning)
        [2, 3] = some out ∧
      out[1]? = some 3 ∧ out[p]? = some 5 ∧ p ≠ 1 ∧
      (∀ (j t1 : Nat), j < p → out[j]? = some t1 →
        typeTag destinationTable t1 ≠ typeTag destinationTable 5) ∧
      (∀ (j t1 : Nat), j < p → [2, 3][j]? = some t1 →
        typeTag destinationTable t1 ≠ typeTag destinationTable 5) ∧
      (∀ t0 : Nat, [2, 3][p]? = some t0 →
        typeTag destinationTable t0 = typeTag destinationTable 5) ∧
      [2, 3].length ≤ out.length :=
  ⟨by decide,
   processConditionalTags_resolved_placed destinationTable
     (RouteTypeRule.conditionalValue tuesdayMorning) [2, 3] 1 3 5 (by decide) (by decide)
     (by decide) (by decide) (by decide)⟩

/-! ## Properties of the points -/

/-- The six assignments that link a new point and the point found in the map: the starts
stay, the new point gets the found point for its dual and ends where that point starts,
the found point gets the new point for its dual and ends where the new point starts, and
every other point stays as it is. -/
theorem linkDual_spec (points : Nat → NetworkDBPoint) (pnt d : Nat) :
    (∀ k, (linkDual points pnt d k).startX = (points k).startX ∧
      (linkDual points pnt d k).startY = (points k).startY) ∧
    ((linkDual points pnt d pnt).dualPoint = some d ∧
      (linkDual points pnt d pnt).endX = (points d).startX ∧
      (linkDual points pnt d pnt).endY = (points d).startY) ∧
    ((linkDual points pnt d d).dualPoint = some pnt ∧
      (linkDual points pnt d d).endX = (points pnt).startX ∧
      (linkDual points pnt d d).endY = (points pnt).startY) ∧
    ∀ k, k ≠ pnt → k ≠ d → linkDual points pnt d k = points k := by
  by_cases hd : d = pnt
  · subst hd
    refine ⟨?_, ?_, ?_, ?_⟩
    · intro k
      by_cases hk : k = d <;> simp [linkDual, setPoint, hk]
    · simp [linkDual, setPoint]
    · simp [linkDual, setPoint]
    · intro k hk _
      simp [linkDual, setPoint, hk]
  · have hd2 : ¬ pnt = d := fun h => hd h.symm
    refine ⟨?_, ?_, ?_, ?_⟩
    · intro k
      by_cases hk : k = d
      · subst hk; simp [linkDual, setPoint, hd]
      · by_cases hk2 : k = pnt
        · subst hk2; simp [linkDual, setPoint, hk]
        · simp [linkDual, setPoint, hk, hk2]
    · simp [linkDual, setPoint, hd, hd2]
    · simp [linkDual, setPoint, hd, hd2]
    · intro k hk hk2
      simp [linkDual, setPoint, hk, hk2]

/-- An entry of a list with one more record is an entry of the list or the record. -/
theorem getElem?_snoc {α : Type} (l : List α) (a x : α) (k : Nat) :
    (l ++ [a])[k]? = some x ↔ (k < l.length ∧ l[k]? = some x) ∨ (k = l.length ∧ x = a) := by
  by_cases hk : k < l.length
  · rw [List.getElem?_append_left hk]
    constructor
    · intro h; exact Or.inl ⟨hk, h⟩
    · rintro (h | h)
      · exact h.2
      · omega
  · by_cases hk2 : k = l.length
    · subst hk2
      simp only [List.getElem?_concat_length, Option.some.injEq, lt_self_iff_false, false_and,
        true_and, false_or]
      exact eq_comm
    · rw [List.getElem?_eq_none (by simp; omega)]
      constructor
      · intro h; cases h
      · rintro (h | h)
        · omega
        · omega

/-- One `readPoint` call keeps `PointsLinked`, when the records read so far and the new
one declare distinct indexes and declare their duals both ways. -/
theorem readPoint_linked (encodingRules : List (String × String)) (mapId : Int)
    (ds : List (NetworkDBPoint × Int)) (rec : Int × Int × List HHRouteNetworkPointField)
    (st : HHPoints) (mp : Int → Option Nat)
    (hdist : DistinctIndexes (ds ++ [declared encodingRules mapId rec]))
    (hsymm : SymmetricDuals (ds ++ [declared encodingRules mapId rec]))
    (hinv : PointsLinked ds st mp) :
    PointsLinked (ds ++ [declared encodingRules mapId rec])
      (readPoint encodingRules mapId rec.1 rec.2.1 rec.2.2 st mp).2.1
      (readPoint encodingRules mapId rec.1 rec.2.1 rec.2.2 st mp).2.2 := by
  obtain ⟨hcount, h2, h3, h4⟩ := hinv
  generalize hd : declared encodingRules mapId rec = d at hdist hsymm ⊢
  have hlast : (ds ++ [d])[ds.length]? = some d := by simp
  have hold : ∀ (k : Nat) (x : NetworkDBPoint × Int), ds[k]? = some x →
      k < ds.length ∧ (ds ++ [d])[k]? = some x := by
    intro k x hk
    have hlt : k < ds.length := by
      by_contra hc
      rw [List.getElem?_eq_none (by omega)] at hk
      cases hk
    exact ⟨hlt, by rw [List.getElem?_append_left hlt]; exact hk⟩
  have hnew : mp d.1.index = none := by
    cases h : mp d.1.index with
    | none => rfl
    | some k =>
      obtain ⟨x, hx, hxi⟩ := h3 _ k h
      obtain ⟨hlt, hx2⟩ := hold k x hx
      have := hdist k ds.length x d hx2 hlast hxi
      omega
  have hmp1 : mapInsert mp d.1.index st.count =
      fun key => if key = d.1.index then some ds.length else mp key := by
    simp [mapInsert, hnew, hcount]
  have hfind : ∀ (j : Nat) (x : NetworkDBPoint × Int), (ds ++ [d])[j]? = some x →
      mapInsert mp d.1.index st.count x.1.index = some j := by
    intro j x hj
    rw [hmp1]
    rcases (getElem?_snoc ds d x j).1 hj with ⟨hlt, hx⟩ | ⟨hjn, hxd⟩
    · have hne : ¬ x.1.index = d.1.index := by
        intro he
        have := hdist j ds.length x d hj hlast he
        omega
      simp only [if_neg hne]
      exact (h2 j x hx).1
    · subst hxd; subst hjn; simp
  have hfound : ∀ (key : Int) (k : Nat), mapInsert mp d.1.index st.count key = some k →
      ∃ x : NetworkDBPoint × Int, (ds ++ [d])[k]? = some x ∧ x.1.index = key := by
    intro key k hk
    rw [hmp1] at hk
    by_cases he : key = d.1.index
    · simp only [if_pos he, Option.some.injEq] at hk
      subst hk
      exact ⟨d, hlast, he.symm⟩
    · simp only [if_neg he] at hk
      obtain ⟨x, hx, hxi⟩ := h3 key k hk
      exact ⟨x, (hold k x hx).2, hxi⟩
  have hrp : readPoint encodingRules mapId rec.1 rec.2.1 rec.2.2 st mp =
      match (if d.2 ≥ 0 then mapInsert mp d.1.index st.count d.2 else none) with
      | some j0 =>
        (st.count,
          { points := linkDual (fun k => if k = st.count then d.1 else st.points k)
              st.count j0,
            count := st.count + 1 }, mapInsert mp d.1.index st.count)
      | none =>
        (st.count,
          { points := fun k => if k = st.count then d.1 else st.points k,
            count := st.count + 1 }, mapInsert mp d.1.index st.count) := by
    rw [← hd]; rfl
  rw [hrp]
  have hstart0 : ∀ (k : Nat) (x : NetworkDBPoint × Int), (ds ++ [d])[k]? = some x →
      ((fun k => if k = st.count then d.1 else st.points k) k).startX = x.1.startX ∧
      ((fun k => if k = st.count then d.1 else st.points k) k).startY = x.1.startY := by
    intro k x hk
    rcases (getElem?_snoc ds d x k).1 hk with ⟨hlt, hx⟩ | ⟨hkn, hxd⟩
    · have hne : ¬ k = st.count := by omega
      simp only [if_neg hne]
      exact (h2 k x hx).2
    · subst hxd
      have he : k = st.count := by omega
      simp only [if_pos he, and_self]
  cases hif : (if d.2 ≥ 0 then mapInsert mp d.1.index st.count d.2 else none) with
  | none =>
    simp only []
    refine ⟨by simp [hcount], ?_, hfound, ?_⟩
    · intro k x hk
      exact ⟨hfind k x hk, hstart0 k x hk⟩
    · intro i j di dj hi hj hpos hdual
      rcases (getElem?_snoc ds d di i).1 hi with ⟨hilt, hi1⟩ | ⟨hin, hid⟩
      · rcases (getElem?_snoc ds d dj j).1 hj with ⟨hjlt, hj1⟩ | ⟨hjn, hjd⟩
        · have hne : ¬ i = st.count := by omega
          simp only [if_neg hne]
          exact h4 i j di dj hi1 hj1 hpos hdual
        · exfalso
          subst hjd
          obtain ⟨hback, hipos⟩ := hsymm i j di dj hi hj hpos hdual
          have hpos2 : dj.2 ≥ 0 := by rw [hback]; exact hipos
          rw [if_pos hpos2, hback, hfind i di hi] at hif
          cases hif
      · exfalso
        subst hid
        have hpos2 : di.2 ≥ 0 := hpos
        rw [if_pos hpos2, hdual, hfind j dj hj] at hif
        cases hif
  | some j0 =>
    simp only []
    have hpos0 : d.2 ≥ 0 := by
      by_contra hc
      rw [if_neg hc] at hif
      cases hif
    rw [if_pos hpos0] at hif
    obtain ⟨x0, hx0, hx0i⟩ := hfound _ j0 hif
    obtain ⟨hs, hb, hc, ho⟩ := linkDual_spec
      (fun k => if k = st.count then d.1 else st.points k) st.count j0
    refine ⟨by simp [hcount], ?_, hfound, ?_⟩
    · intro k x hk
      refine ⟨hfind k x hk, ?_⟩
      rw [(hs k).1, (hs k).2]
      exact hstart0 k x hk
    · intro i j di dj hi hj hpos hdual
      simp only []
      by_cases hin : i = ds.length
      · -- the new point
        have hid : di = d := by
          rw [hin, hlast] at hi
          simp only [Option.some.injEq] at hi
          exact hi.symm
        subst hid
        have hjj : j = j0 := hdist j j0 dj x0 hj hx0 (by rw [hx0i, hdual])
        subst hjj
        have hxx : x0 = dj := by
          rw [hj] at hx0
          simp only [Option.some.injEq] at hx0
          exact hx0.symm
        subst hxx
        have hic : i = st.count := by omega
        rw [hic]
        refine ⟨hb.1, ?_, ?_⟩
        · rw [hb.2.1]; exact (hstart0 j x0 hj).1
        · rw [hb.2.2]; exact (hstart0 j x0 hj).2
      · by_cases hij0 : i = j0
        · -- the point found in the map
          subst hij0
          have hxx : x0 = di := by
            rw [hi] at hx0
            simp only [Option.some.injEq] at hx0
            exact hx0.symm
          subst hxx
          obtain ⟨hback, _⟩ := hsymm ds.length i d x0 hlast hi hpos0 hx0i.symm
          have hjn : j = ds.length :=
            hdist j ds.length dj d hj hlast (by rw [← hdual, hback])
          subst hjn
          have hjd : dj = d := by
            rw [hlast] at hj
            simp only [Option.some.injEq] at hj
            exact hj.symm
          subst hjd
          rw [← hcount]
          refine ⟨hc.1, ?_, ?_⟩
          · rw [hc.2.1]; simp
          · rw [hc.2.2]; simp
        · -- any other point
          have hic : i ≠ st.count := by omega
          rw [ho i hic hij0]
          simp only [if_neg hic]
          rcases (getElem?_snoc ds d di i).1 hi with ⟨hilt, hi1⟩ | ⟨hin2, _⟩
          · rcases (getElem?_snoc ds d dj j).1 hj with ⟨hjlt, hj1⟩ | ⟨hjn, hjd⟩
            · exact h4 i j di dj hi1 hj1 hpos hdual
            · exfalso
              subst hjd
              obtain ⟨hback, _⟩ := hsymm i j di dj hi hj hpos hdual
              rw [hback, hfind i di hi] at hif
              simp only [Option.some.injEq] at hif
              exact hij0 hif
          · exact absurd hin2 hin

theorem distinctIndexes_of_append (a b : List (NetworkDBPoint × Int))
    (h : DistinctIndexes (a ++ b)) : DistinctIndexes a := by
  intro i j di dj hi hj he
  have hil : i < a.length := by
    by_contra hc
    rw [List.getElem?_eq_none (by omega)] at hi
    cases hi
  have hjl : j < a.length := by
    by_contra hc
    rw [List.getElem?_eq_none (by omega)] at hj
    cases hj
  exact h i j di dj (by rw [List.getElem?_append_left hil]; exact hi)
    (by rw [List.getElem?_append_left hjl]; exact hj) he

theorem symmetricDuals_of_append (a b : List (NetworkDBPoint × Int))
    (h : SymmetricDuals (a ++ b)) : SymmetricDuals a := by
  intro i j di dj hi hj hpos he
  have hil : i < a.length := by
    by_contra hc
    rw [List.getElem?_eq_none (by omega)] at hi
    cases hi
  have hjl : j < a.length := by
    by_contra hc
    rw [List.getElem?_eq_none (by omega)] at hj
    cases hj
  exact h i j di dj (by rw [List.getElem?_append_left hil]; exact hi)
    (by rw [List.getElem?_append_left hjl]; exact hj) hpos he

/-- Reading further records keeps `PointsLinked`. -/
theorem readPoints_linked (encodingRules : List (String × String)) (mapId : Int)
    (recs : List (Int × Int × List HHRouteNetworkPointField)) :
    ∀ (pre : List (NetworkDBPoint × Int)) (st : HHPoints) (mp : Int → Option Nat),
      DistinctIndexes (pre ++ recs.map (declared encodingRules mapId)) →
      SymmetricDuals (pre ++ recs.map (declared encodingRules mapId)) →
      PointsLinked pre st mp →
      PointsLinked (pre ++ recs.map (declared encodingRules mapId))
        (readPoints encodingRules mapId recs st mp).1
        (readPoints encodingRules mapId recs st mp).2 := by
  induction recs with
  | nil =>
    intro pre st mp _ _ hinv
    simpa [readPoints] using hinv
  | cons rec rest ih =>
    intro pre st mp hdist hsymm hinv
    have hsplit : pre ++ (rec :: rest).map (declared encodingRules mapId) =
        (pre ++ [declared encodingRules mapId rec]) ++
          rest.map (declared encodingRules mapId) := by simp
    rw [hsplit] at hdist hsymm ⊢
    have hstep := readPoint_linked encodingRules mapId pre rec st mp
      (distinctIndexes_of_append _ _ hdist) (symmetricDuals_of_append _ _ hsymm) hinv
    exact ih _ _ _ hdist hsymm hstep

theorem pointsLinked_empty : PointsLinked [] {} (fun _ => none) := by
  refine ⟨rfl, ?_, ?_, ?_⟩
  · intro k d hk; simp at hk
  · intro key k hk; cases hk
  · intro i j di dj hi; simp at hi
/-- Two records that declare each other, read one after the other into a map that holds
neither index: the second read finds the first point and links the two. -/
theorem readPoints_pair (encodingRules : List (String × String)) (mapId : Int)
    (ra rb : Int × Int × List HHRouteNetworkPointField) (st : HHPoints)
    (mp : Int → Option Nat) (A B : NetworkDBPoint)
    (ha : declared encodingRules mapId ra = (A, B.index))
    (hb : declared encodingRules mapId rb = (B, A.index))
    (hne : A.index ≠ B.index) (hpos : 0 ≤ A.index)
    (hma : mp A.index = none) (hmb : mp B.index = none) :
    ((readPoints encodingRules mapId [ra, rb] st mp).1.points st.count).dualPoint =
        some (st.count + 1) ∧
      ((readPoints encodingRules mapId [ra, rb] st mp).1.points (st.count + 1)).dualPoint =
        some st.count ∧
      ((readPoints encodingRules mapId [ra, rb] st mp).1.points st.count).startX = A.startX ∧
      ((readPoints encodingRules mapId [ra, rb] st mp).1.points st.count).startY = A.startY ∧
      ((readPoints encodingRules mapId [ra, rb] st mp).1.points st.count).endX = B.startX ∧
      ((readPoints encodingRules mapId [ra, rb] st mp).1.points st.count).endY = B.startY ∧
      ((readPoints encodingRules mapId [ra, rb] st mp).1.points (st.count + 1)).startX =
        B.startX ∧
      ((readPoints encodingRules mapId [ra, rb] st mp).1.points (st.count + 1)).startY =
        B.startY ∧
      ((readPoints encodingRules mapId [ra, rb] st mp).1.points (st.count + 1)).endX =
        A.startX ∧
      ((readPoints encodingRules mapId [ra, rb] st mp).1.points (st.count + 1)).endY =
        A.startY ∧
      (readPoints encodingRules mapId [ra, rb] st mp).2 A.index = some st.count ∧
      (readPoints encodingRules mapId [ra, rb] st mp).2 B.index = some (st.count + 1) := by
  have hm1 : mapInsert mp A.index st.count =
      fun k => if k = A.index then some st.count else mp k := by
    simp [mapInsert, hma]
  have h1 : readPoint encodingRules mapId ra.1 ra.2.1 ra.2.2 st mp =
      (st.count,
        { points := fun k => if k = st.count then A else st.points k,
          count := st.count + 1 }, mapInsert mp A.index st.count) := by
    have e : readPoint encodingRules mapId ra.1 ra.2.1 ra.2.2 st mp =
        match (if (declared encodingRules mapId ra).2 ≥ 0 then
            mapInsert mp (declared encodingRules mapId ra).1.index st.count
              (declared encodingRules mapId ra).2 else none) with
        | some j0 =>
          (st.count,
            { points := linkDual
                (fun k => if k = st.count then (declared encodingRules mapId ra).1
                  else st.points k) st.count j0,
              count := st.count + 1 },
            mapInsert mp (declared encodingRules mapId ra).1.index st.count)
        | none =>
          (st.count,
            { points := fun k => if k = st.count then (declared encodingRules mapId ra).1
                else st.points k,
              count := st.count + 1 },
            mapInsert mp (declared encodingRules mapId ra).1.index st.count) := rfl
    rw [e, ha]
    have hn : (if B.index ≥ 0 then mapInsert mp A.index st.count B.index else none) =
        none := by
      rw [hm1]
      by_cases h : B.index ≥ 0
      · rw [if_pos h]
        simp only [if_neg (Ne.symm hne)]
        exact hmb
      · rw [if_neg h]
    simp only [hn]
  have hm2 : mapInsert (mapInsert mp A.index st.count) B.index (st.count + 1) =
      fun k => if k = B.index then some (st.count + 1)
        else if k = A.index then some st.count else mp k := by
    rw [hm1]
    simp [mapInsert, Ne.symm hne, hmb]
  have h2 : readPoint encodingRules mapId rb.1 rb.2.1 rb.2.2
      { points := fun k => if k = st.count then A else st.points k, count := st.count + 1 }
      (mapInsert mp A.index st.count) =
      (st.count + 1,
        { points := linkDual
            (fun k => if k = st.count + 1 then B
              else if k = st.count then A else st.points k) (st.count + 1) st.count,
          count := st.count + 1 + 1 },
        mapInsert (mapInsert mp A.index st.count) B.index (st.count + 1)) := by
    have e : readPoint encodingRules mapId rb.1 rb.2.1 rb.2.2
        { points := fun k => if k = st.count then A else st.points k,
          count := st.count + 1 }
        (mapInsert mp A.index st.count) =
        match (if (declared encodingRules mapId rb).2 ≥ 0 then
            mapInsert (mapInsert mp A.index st.count)
              (declared encodingRules mapId rb).1.index (st.count + 1)
              (declared encodingRules mapId rb).2 else none) with
        | some j0 =>
          (st.count + 1,
            { points := linkDual
                (fun k => if k = st.count + 1 then (declared encodingRules mapId rb).1
                  else if k = st.count then A else st.points k) (st.count + 1) j0,
              count := st.count + 1 + 1 },
            mapInsert (mapInsert mp A.index st.count)
              (declared encodingRules mapId rb).1.index (st.count + 1))
        | none =>
          (st.count + 1,
            { points := fun k => if k = st.count + 1 then (declared encodingRules mapId rb).1
                else if k = st.count then A else st.points k,
              count := st.count + 1 + 1 },
            mapInsert (mapInsert mp A.index st.count)
              (declared encodingRules mapId rb).1.index (st.count + 1)) := rfl
    rw [e, hb]
    have hs : (if A.index ≥ 0 then
        mapInsert (mapInsert mp A.index st.count) B.index (st.count + 1) A.index
          else none) = some st.count := by
      rw [if_pos hpos, hm2]
      simp [hne]
    simp only [hs]
  have hr : readPoints encodingRules mapId [ra, rb] st mp =
      ({ points := linkDual
            (fun k => if k = st.count + 1 then B
              else if k = st.count then A else st.points k) (st.count + 1) st.count,
          count := st.count + 1 + 1 },
        mapInsert (mapInsert mp A.index st.count) B.index (st.count + 1)) := by
    simp only [readPoints, h1, h2]
  rw [hr]
  obtain ⟨hs, hb1, hc1, _⟩ := linkDual_spec
    (fun k => if k = st.count + 1 then B else if k = st.count then A else st.points k)
    (st.count + 1) st.count
  simp only []
  refine ⟨hc1.1, hb1.1, ?_, ?_, ?_, ?_, ?_, ?_, ?_, ?_, ?_, ?_⟩
  · rw [(hs _).1]; simp
  · rw [(hs _).2]; simp
  · rw [hc1.2.1]; simp
  · rw [hc1.2.2]; simp
  · rw [(hs _).1]; simp
  · rw [(hs _).2]; simp
  · rw [hb1.2.1]; simp
  · rw [hb1.2.2]; simp
  · rw [hm2]; simp [hne]
  · rw [hm2]; simp

theorem declared_pointRecord (encodingRules : List (String × String)) (mapId : Int)
    (index dualPointId x y : Int) :
    declared encodingRules mapId (pointRecord index dualPointId x y) =
      ({ mapId := mapId, index := index, startX := i32 (x + 0), endX := i32 (x + 0),
         startY := i32 (y + 0), endY := i32 (y + 0) }, dualPointId) := rfl

/-- C25 (counterexample): three sequences of records read into an empty map. In the
first, the point with index 1 declares the dual 2 and the point with index 2, read after
it, declares no dual: both are in the map and the first point has no `dualPoint`. In the
second, two records carry the index 1 and declare the dual 2: the map keeps the first,
the record with index 2 is linked to it, and the second point with index 1 has no
`dualPoint`. In the third, the point with index -3 declares the dual 5 and the point with
index 5, read after it, declares the dual -3, which is below 0: the point with index -3
has no `dualPoint`. -/
theorem readPoints_dual_not_linked :
    ((readPoints [] 0 [pointRecord 1 2 10 20, pointRecord 2 (-1) 30 40] {}
        (fun _ => none)).2 1 = some 0 ∧
      (readPoints [] 0 [pointRecord 1 2 10 20, pointRecord 2 (-1) 30 40] {}
        (fun _ => none)).2 2 = some 1 ∧
      (declared [] 0 (pointRecord 1 2 10 20)).2 = 2 ∧
      ((readPoints [] 0 [pointRecord 1 2 10 20, pointRecord 2 (-1) 30 40] {}
        (fun _ => none)).1.points 0).dualPoint = none) ∧
    ((readPoints [] 0 [pointRecord 1 2 10 20, pointRecord 1 2 11 21, pointRecord 2 1 30 40]
        {} (fun _ => none)).2 1 = some 0 ∧
      (readPoints [] 0 [pointRecord 1 2 10 20, pointRecord 1 2 11 21, pointRecord 2 1 30 40]
        {} (fun _ => none)).2 2 = some 2 ∧
      (declared [] 0 (pointRecord 1 2 11 21)).2 = 2 ∧
      ((readPoints [] 0 [pointRecord 1 2 10 20, pointRecord 1 2 11 21, pointRecord 2 1 30 40]
        {} (fun _ => none)).1.points 1).dualPoint = none) ∧
    ((readPoints [] 0 [pointRecord (-3) 5 10 20, pointRecord 5 (-3) 30 40] {}
        (fun _ => none)).2 (-3) = some 0 ∧
      (readPoints [] 0 [pointRecord (-3) 5 10 20, pointRecord 5 (-3) 30 40] {}
        (fun _ => none)).2 5 = some 1 ∧
      (declared [] 0 (pointRecord (-3) 5 10 20)).2 = 5 ∧
      ((readPoints [] 0 [pointRecord (-3) 5 10 20, pointRecord 5 (-3) 30 40] {}
        (fun _ => none)).1.points 0).dualPoint = none) := by
  decide

/-- C25 (amended): records that declare pairwise distinct indexes and declare their duals
both ways (a record naming, with a `dualPointId` of 0 or above, the index of another has
an index of 0 or above and is named back by it), read by `readPoint` one after the other
into an empty map. Record `i` becomes point `i`, and for every record `i` whose
`dualPointId` of 0 or above is the index of a record `j`: the map holds both points,
the `dualPoint` of point `i` is point `j`, the `dualPoint` of point `j` is point `i`, and
point `i` ends where point `j` starts. -/
theorem readPoints_dual_invariant (encodingRules : List (String × String)) (mapId : Int)
    (recs : List (Int × Int × List HHRouteNetworkPointField))
    (hdist : DistinctIndexes (recs.map (declared encodingRules mapId)))
    (hsymm : SymmetricDuals (recs.map (declared encodingRules mapId)))
    (i j : Nat) (di dj : NetworkDBPoint × Int)
    (hi : (recs.map (declared encodingRules mapId))[i]? = some di)
    (hj : (recs.map (declared encodingRules mapId))[j]? = some dj)
    (hpos : 0 ≤ di.2) (hdual : di.2 = dj.1.index) :
    (readPoints encodingRules mapId recs {} (fun _ => none)).2 di.1.index = some i ∧
    (readPoints encodingRules mapId recs {} (fun _ => none)).2 dj.1.index = some j ∧
    ((readPoints encodingRules mapId recs {} (fun _ => none)).1.points i).dualPoint =
      some j ∧
    ((readPoints encodingRules mapId recs {} (fun _ => none)).1.points j).dualPoint =
      some i ∧
    ((readPoints encodingRules mapId recs {} (fun _ => none)).1.points i).endX =
      ((readPoints encodingRules mapId recs {} (fun _ => none)).1.points j).startX ∧
    ((readPoints encodingRules mapId recs {} (fun _ => none)).1.points i).endY =
      ((readPoints encodingRules mapId recs {} (fun _ => none)).1.points j).startY := by
  have hinv := readPoints_linked encodingRules mapId recs [] {} (fun _ => none)
    (by simpa using hdist) (by simpa using hsymm) pointsLinked_empty
  simp only [List.nil_append] at hinv
  obtain ⟨_, h2, _, h4⟩ := hinv
  obtain ⟨hback, hipos⟩ := hsymm i j di dj hi hj hpos hdual
  obtain ⟨a1, a2, a3⟩ := h4 i j di dj hi hj hpos hdual
  obtain ⟨b1, _, _⟩ := h4 j i dj di hj hi (by rw [hback]; exact hipos) hback
  obtain ⟨c1, c2, c3⟩ := h2 j dj hj
  exact ⟨(h2 i di hi).1, c1, a1, b1, by rw [a2, c2], by rw [a3, c3]⟩

theorem readPoints_dual_invariant_witness :
    ((readPoints [] 0 [pointRecord 100 200 1 2, pointRecord 200 100 3 4] {}
        (fun _ => none)).1.points 0).dualPoint = some 1 ∧
    ((readPoints [] 0 [pointRecord 100 200 1 2, pointRecord 200 100 3 4] {}
        (fun _ => none)).1.points 1).dualPoint = some 0 ∧
    ((readPoints [] 0 [pointRecord 100 200 1 2, pointRecord 200 100 3 4] {}
        (fun _ => none)).1.points 0).endX =
      ((readPoints [] 0 [pointRecord 100 200 1 2, pointRecord 200 100 3 4] {}
        (fun _ => none)).1.points 1).startX := by
  have hdist : DistinctIndexes
      ([pointRecord 100 200 1 2, pointRecord 200 100 3 4].map (declared [] 0)) := by
    intro i j di dj hi hj he
    rcases i with _ | _ | i <;> rcases j with _ | _ | j <;>
      simp [declared_pointRecord] at hi hj <;> subst hi <;> subst hj <;> simp at he ⊢
  have hsymm : SymmetricDuals
      ([pointRecord 100 200 1 2, pointRecord 200 100 3 4].map (declared [] 0)) := by
    intro i j di dj hi hj hpos he
    rcases i with _ | _ | i <;> rcases j with _ | _ | j <;>
      simp [declared_pointRecord] at hi hj <;> subst hi <;> subst hj <;> simp at he ⊢
  have h := readPoints_dual_invariant [] 0
    [pointRecord 100 200 1 2, pointRecord 200 100 3 4] hdist hsymm 0 1
    (declared [] 0 (pointRecord 100 200 1 2)) (declared [] 0 (pointRecord 200 100 3 4))
    (by simp) (by simp) (by decide) (by decide)
  exact ⟨h.2.2.1, h.2.2.2.1, h.2.2.2.2.1⟩

/-- C26 (counterexample): the records with the indexes 5 and -3 declare each other as dual
point. Read with the index 5 first, the second read finds index 5 in the map and links
the two points; read with the index -3 first, the second read has a `dualIdPoint` of -3,
the test `dualIdPoint >= 0` fails and neither point gets a `dualPoint`. -/
theorem readPoints_order_matters :
    ((readPoints [] 0 [pointRecord 5 (-3) 10 20, pointRecord (-3) 5 30 40] {}
        (fun _ => none)).1.points 0).dualPoint = some 1 ∧
    ((readPoints [] 0 [pointRecord 5 (-3) 10 20, pointRecord (-3) 5 30 40] {}
        (fun _ => none)).1.points 1).dualPoint = some 0 ∧
    ((readPoints [] 0 [pointRecord (-3) 5 30 40, pointRecord 5 (-3) 10 20] {}
        (fun _ => none)).1.points 0).dualPoint = none ∧
    ((readPoints [] 0 [pointRecord (-3) 5 30 40, pointRecord 5 (-3) 10 20] {}
        (fun _ => none)).1.points 1).dualPoint = none := by
  decide

/-- C26 (amended): two records that declare the points `A` and `B` with distinct indexes
of 0 or above, each with the index of the other as `dualPointId`, read by `readPoint`
into a map that holds neither index. The first record read becomes point `st.count`, the
second point `st.count + 1`. In either order the linking is the same: the map sends each
index to its point, the `dualPoint` of each point is the other, each point starts where
its record says and ends where the other starts. -/
theorem readPoints_either_order (encodingRules : List (String × String)) (mapId : Int)
    (ra rb : Int × Int × List HHRouteNetworkPointField) (st : HHPoints)
    (mp : Int → Option Nat) (A B : NetworkDBPoint)
    (ha : declared encodingRules mapId ra = (A, B.index))
    (hb : declared encodingRules mapId rb = (B, A.index))
    (hne : A.index ≠ B.index) (hposa : 0 ≤ A.index) (hposb : 0 ≤ B.index)
    (hma : mp A.index = none) (hmb : mp B.index = none) :
    ((readPoints encodingRules mapId [ra, rb] st mp).2 A.index = some st.count ∧
      (readPoints encodingRules mapId [ra, rb] st mp).2 B.index = some (st.count + 1) ∧
      ((readPoints encodingRules mapId [ra, rb] st mp).1.points st.count).dualPoint =
        some (st.count + 1) ∧
      ((readPoints encodingRules mapId [ra, rb] st mp).1.points (st.count + 1)).dualPoint =
        some st.count ∧
      ((readPoints encodingRules mapId [ra, rb] st mp).1.points st.count).startX =
        A.startX ∧
      ((readPoints encodingRules mapId [ra, rb] st mp).1.points st.count).startY =
        A.startY ∧
      ((readPoints encodingRules mapId [ra, rb] st mp).1.points st.count).endX =
        B.startX ∧
      ((readPoints encodingRules mapId [ra, rb] st mp).1.points st.count).endY =
        B.startY ∧
      ((readPoints encodingRules mapId [ra, rb] st mp).1.points (st.count + 1)).startX =
        B.startX ∧
      ((readPoints encodingRules mapId [ra, rb] st mp).1.points (st.count + 1)).startY =
        B.startY ∧
      ((readPoints encodingRules mapId [ra, rb] st mp).1.points (st.count + 1)).endX =
        A.startX ∧
      ((readPoints encodingRules mapId [ra, rb] st mp).1.points (st.count + 1)).endY =
        A.startY) ∧
    ((readPoints encodingRules mapId [rb, ra] st mp).2 A.index = some (st.count + 1) ∧
      (readPoints encodingRules mapId [rb, ra] st mp).2 B.index = some st.count ∧
      ((readPoints encodingRules mapId [rb, ra] st mp).1.points (st.count + 1)).dualPoint =
        some st.count ∧
      ((readPoints encodingRules mapId [rb, ra] st mp).1.points st.count).dualPoint =
        some (st.count + 1) ∧
      ((readPoints encodingRules mapId [rb, ra] st mp).1.points (st.count + 1)).startX =
        A.startX ∧
      ((readPoints encodingRules mapId [rb, ra] st mp).1.points (st.count + 1)).startY =
        A.startY ∧
      ((readPoints encodingRules mapId [rb, ra] st mp).1.points (st.count + 1)).endX =
        B.startX ∧
      ((readPoints encodingRules mapId [rb, ra] st mp).1.points (st.count + 1)).endY =
        B.startY ∧
      ((readPoints encodingRules mapId [rb, ra] st mp).1.points st.count).startX =
        B.startX ∧
      ((readPoints encodingRules mapId [rb, ra] st mp).1.points st.count).startY =
        B.startY ∧
      ((readPoints encodingRules mapId [rb, ra] st mp).1.points st.count).endX =
        A.startX ∧
      ((readPoints encodingRules mapId [rb, ra] st mp).1.points st.count).endY =
        A.startY) := by
  obtain ⟨p1, p2, p3, p4, p5, p6, p7, p8, p9, p10, p11, p12⟩ :=
    readPoints_pair encodingRules mapId ra rb st mp A B ha hb hne hposa hma hmb
  obtain ⟨q1, q2, q3, q4, q5, q6, q7, q8, q9, q10, q11, q12⟩ :=
    readPoints_pair encodingRules mapId rb ra st mp B A hb ha (Ne.symm hne) hposb hmb hma
  exact ⟨⟨p11, p12, p1, p2, p3, p4, p5, p6, p7, p8, p9, p10⟩,
    ⟨q12, q11, q2, q1, q7, q8, q9, q10, q3, q4, q5, q6⟩⟩

theorem readPoints_either_order_witness :
    ((readPoints [] 0 [pointRecord 100 200 1 2, pointRecord 200 100 3 4] {}
        (fun _ => none)).1.points 0).dualPoint = some 1 ∧
    ((readPoints [] 0 [pointRecord 200 100 3 4, pointRecord 100 200 1 2] {}
        (fun _ => none)).1.points 1).dualPoint = some 0 ∧
    ((readPoints [] 0 [pointRecord 100 200 1 2, pointRecord 200 100 3 4] {}
        (fun _ => none)).1.points 0).endX = 3 ∧
    ((readPoints [] 0 [pointRecord 200 100 3 4, pointRecord 100 200 1 2] {}
        (fun _ => none)).1.points 1).endX = 3 :=
  have h := readPoints_either_order [] 0 (pointRecord 100 200 1 2) (pointRecord 200 100 3 4)
    {} (fun _ => none)
    { mapId := 0, index := 100, startX := 1, endX := 1, startY := 2, endY := 2 }
    { mapId := 0, index := 200, startX := 3, endX := 3, startY := 4, endY := 4 }
    rfl rfl (by decide) (by decide) (by decide) rfl rfl
  ⟨h.1.2.2.1, h.2.2.2.1, h.1.2.2.2.2.2.2.1, h.2.2.2.2.2.2.2.1⟩

/-! ## Properties of the segments -/

theorem parseSegmentsFrom_eq (pointSegments : List Int) (lst : List Nat) (pnt : Nat)
    (out : Bool) (hlen : lst.length ≤ pointSegments.length) :
    ∀ (n i : Nat) (l : List NetworkDBSegment), i + n = lst.length →
      parseSegmentsFrom pointSegments lst pnt out n i l =
        some (l ++ ((pointSegments.drop i).zip (lst.drop i)).filterMap
          (fun x => if x.1 > 0 then some (segmentOf pnt out x.1 x.2) else none)) := by
  intro n
  induction n with
  | zero =>
    intro i l hi
    have : lst.drop i = [] := List.drop_eq_nil_of_le (by omega)
    simp [parseSegmentsFrom, this]
  | succ n ih =>
    intro i l hi
    have hil : i < lst.length := by omega
    have hip : i < pointSegments.length := by omega
    have e1 : pointSegments.drop i = pointSegments[i] :: pointSegments.drop (i + 1) :=
      List.drop_eq_getElem_cons hip
    have e2 : lst.drop i = lst[i] :: lst.drop (i + 1) := List.drop_eq_getElem_cons hil
    have g1 : pointSegments[i]? = some pointSegments[i] := List.getElem?_eq_getElem hip
    have g2 : lst[i]? = some lst[i] := List.getElem?_eq_getElem hil
    by_cases hd : pointSegments[i] ≤ 0
    · have hnd : ¬ pointSegments[i] > 0 := by omega
      have e : parseSegmentsFrom pointSegments lst pnt out (n + 1) i l =
          parseSegmentsFrom pointSegments lst pnt out n (i + 1) l := by
        simp [parseSegmentsFrom, g1, hd]
      rw [e, ih (i + 1) l (by omega), e1, e2]
      simp only [List.zip_cons_cons, List.filterMap_cons, if_neg hnd]
    · have hpd : pointSegments[i] > 0 := by omega
      have e : parseSegmentsFrom pointSegments lst pnt out (n + 1) i l =
          parseSegmentsFrom pointSegments lst pnt out n (i + 1)
            (l ++ [segmentOf pnt out pointSegments[i] lst[i]]) := by
        simp [parseSegmentsFrom, g1, g2, hd, segmentOf]
      rw [e, ih (i + 1) _ (by omega), e1, e2]
      simp only [List.zip_cons_cons, List.filterMap_cons, if_pos hpd, List.append_assoc,
        List.singleton_append]

/-- Function `parseSegments` returns on every input: no `at(i)` is out of range. -/
theorem parseSegments_isSome (points : Nat → NetworkDBPoint) (pointSegments : List Int)
    (lst : List Nat) (pnt : Nat) (out : Bool) :
    ∃ l, parseSegments points pointSegments lst pnt out = some l := by
  unfold parseSegments
  by_cases h1 : pointSegments.length = 0 ∨ (points pnt).incomplete = true
  · rw [if_pos h1]; exact ⟨_, rfl⟩
  · rw [if_neg h1]
    by_cases h2 : pointSegments.length < lst.length
    · rw [if_pos h2]; exact ⟨_, rfl⟩
    · rw [if_neg h2]
      exact ⟨_, parseSegmentsFrom_eq pointSegments lst pnt out (by omega) _ 0 [] (by omega)⟩

/-- C29: for a point that is not incomplete and an adjacency array at least as long as
the neighbour list, `parseSegments` returns the segments of the pairs
`(pointSegments[i], lst[i])`, `i < |lst|`, with `pointSegments[i] > 0`, in index order:
the segment of a pair has the distance `pointSegments[i] / 10`, `shortcut = false`, the
direction `out`, and goes from `pnt` to `lst[i]` when `out` and from `lst[i]` to `pnt`
otherwise. Entries of 0 or below and entries from index `|lst|` on give no segment. -/
theorem parseSegments_positive_entries (points : Nat → NetworkDBPoint)
    (pointSegments : List Int) (lst : List Nat) (pnt : Nat) (out : Bool)
    (hcomplete : (points pnt).incomplete = false)
    (hlen : lst.length ≤ pointSegments.length) :
    parseSegments points pointSegments lst pnt out =
      some ((pointSegments.zip lst).filterMap (fun x =>
        if x.1 > 0 then
          some { start := if out then pnt else x.2, end_ := if out then x.2 else pnt,
                 dist := (x.1 : Rat) / 10, direction := out, shortcut := false }
        else none)) := by
  unfold parseSegments
  by_cases h0 : pointSegments.length = 0
  · have hp : pointSegments = [] := List.length_eq_zero.1 h0
    subst hp
    simp
  · have h1 : ¬ (pointSegments.length = 0 ∨ (points pnt).incomplete = true) := by
      simp [h0, hcomplete]
    rw [if_neg h1, if_neg (by omega)]
    rw [parseSegmentsFrom_eq pointSegments lst pnt out hlen _ 0 [] (by omega)]
    simp [segmentOf]

theorem parseSegments_positive_entries_witness :
    parseSegments (fun _ => {}) [25, 0, -4, 70, 90] [11, 12, 13, 14] 7 true =
      some [{ start := 7, end_ := 11, dist := (25 : Rat) / 10, direction := true,
              shortcut := false },
            { start := 7, end_ := 14, dist := (70 : Rat) / 10, direction := true,
              shortcut := false }] :=
  (parseSegments_positive_entries (fun _ => {}) [25, 0, -4, 70, 90] [11, 12, 13, 14] 7 true
    rfl (by decide)).trans (by simp)

/-- C30: `parseSegments` returns the empty list, with no `at(i)` out of range, whenever
the point is flagged incomplete or the adjacency array is shorter than the neighbour
list. -/
theorem parseSegments_empty (points : Nat → NetworkDBPoint) (pointSegments : List Int)
    (lst : List Nat) (pnt : Nat) (out : Bool)
    (h : (points pnt).incomplete = true ∨ pointSegments.length < lst.length) :
    parseSegments points pointSegments lst pnt out = some [] := by
  unfold parseSegments
  by_cases h1 : pointSegments.length = 0 ∨ (points pnt).incomplete = true
  · rw [if_pos h1]
  · rw [if_neg h1]
    rcases h with h | h
    · exact absurd (Or.inr h) h1
    · rw [if_pos h]

theorem parseSegments_empty_witness :
    parseSegments (fun _ => { incomplete := true }) [25, 30] [11, 12] 7 true = some [] ∧
    parseSegments (fun _ => {}) [25] [11, 12] 7 false = some [] :=
  ⟨parseSegments_empty (fun _ => { incomplete := true }) [25, 30] [11, 12] 7 true
      (Or.inl rfl),
   parseSegments_empty (fun _ => {}) [25] [11, 12] 7 false (Or.inr (by decide))⟩

theorem loadNetworkSegmentPointSublist_first (content : Nat → List HHRouteBlockSegmentsField)
    (getPoint : Int → Option Nat) (incoming outgoing : Nat → List Nat) (searchInd : Int)
    (c : HHRouteBlockSegments) (post : List HHRouteBlockSegments) (st : HHLoadState)
    (hc : checkId searchInd c = true) :
    ∀ pre : List HHRouteBlockSegments, (∀ s ∈ pre, checkId searchInd s = false) →
      loadNetworkSegmentPointSublist content getPoint incoming outgoing searchInd
          (pre ++ c :: post) st =
        (loadNetworkSegmentPoint content getPoint incoming outgoing searchInd c st).map
          (fun r => (r.1, pre ++ r.2.1 :: post, r.2.2)) := by
  intro pre
  induction pre with
  | nil =>
    intro _
    simp only [List.nil_append, loadNetworkSegmentPointSublist, hc, if_true]
    cases loadNetworkSegmentPoint content getPoint incoming outgoing searchInd c st <;> rfl
  | cons s rest ih =>
    intro hpre
    have hs : checkId searchInd s = false := hpre s (List.mem_cons_self _ _)
    have hr := ih (fun x hx => hpre x (List.mem_cons_of_mem _ hx))
    have e : loadNetworkSegmentPointSublist content getPoint incoming outgoing searchInd
        (s :: (rest ++ c :: post)) st =
        match loadNetworkSegmentPointSublist content getPoint incoming outgoing searchInd
            (rest ++ c :: post) st with
        | none => none
        | some r => some (r.1, s :: r.2.1, r.2.2) := by
      simp only [loadNetworkSegmentPointSublist, hs, Bool.false_eq_true, if_false]
    rw [List.cons_append, e, hr]
    cases loadNetworkSegmentPoint content getPoint incoming outgoing searchInd c st <;> rfl

theorem loadNetworkSegmentPointSublist_none (content : Nat → List HHRouteBlockSegmentsField)
    (getPoint : Int → Option Nat) (incoming outgoing : Nat → List Nat) (searchInd : Int)
    (st : HHLoadState) :
    ∀ subs : List HHRouteBlockSegments, (∀ s ∈ subs, checkId searchInd s = false) →
      loadNetworkSegmentPointSublist content getPoint incoming outgoing searchInd subs st =
        some (0, subs, st) := by
  intro subs
  induction subs with
  | nil => intro _; rfl
  | cons s rest ih =>
    intro h
    have hs : checkId searchInd s = false := h s (List.mem_cons_self _ _)
    have hr := ih (fun x hx => h x (List.mem_cons_of_mem _ hx))
    simp [loadNetworkSegmentPointSublist, hs, hr]

theorem loadNetworkSegmentPoint_children (content : Nat → List HHRouteBlockSegmentsField)
    (getPoint : Int → Option Nat) (incoming outgoing : Nat → List Nat) (searchInd : Int)
    (block : HHRouteBlockSegments) (st : HHLoadState) (h : block.sublist ≠ []) :
    loadNetworkSegmentPoint content getPoint incoming outgoing searchInd block st =
      (loadNetworkSegmentPointSublist content getPoint incoming outgoing searchInd
        block.sublist st).map (fun r => (r.1, { block with sublist := r.2.1 }, r.2.2)) := by
  cases block with
  | mk s l p len fp subs =>
    have hl : subs.length > 0 := List.length_pos.2 h
    simp only [loadNetworkSegmentPoint, hl, if_true]
    cases loadNetworkSegmentPointSublist content getPoint incoming outgoing searchInd subs st
      <;> rfl

/-- C27: on a block that has child blocks in memory, `loadNetworkSegmentPoint(block,
searchInd)` returns what `loadNetworkSegmentPoint` returns on the first child whose range
holds `searchInd` (`checkId`: `idRangeStart ≤ searchInd < idRangeStart + idRangeLength`),
with the effects of that call, the child being left in its place in the list as the call
leaves it; when no child's range holds `searchInd` it returns 0 and leaves the block, the
points and the input as they were: nothing is read and no seek is made. -/
theorem loadNetworkSegmentPoint_in_memory (content : Nat → List HHRouteBlockSegmentsField)
    (getPoint : Int → Option Nat) (incoming outgoing : Nat → List Nat) (searchInd : Int)
    (block : HHRouteBlockSegments) (st : HHLoadState) :
    (∀ (pre post : List HHRouteBlockSegments) (c : HHRouteBlockSegments),
      block.sublist = pre ++ c :: post → (∀ s ∈ pre, checkId searchInd s = false) →
      checkId searchInd c = true →
      loadNetworkSegmentPoint content getPoint incoming outgoing searchInd block st =
        (loadNetworkSegmentPoint content getPoint incoming outgoing searchInd c st).map
          (fun r => (r.1, { block with sublist := pre ++ r.2.1 :: post }, r.2.2))) ∧
    (block.sublist ≠ [] → (∀ s ∈ block.sublist, checkId searchInd s = false) →
      loadNetworkSegmentPoint content getPoint incoming outgoing searchInd block st =
        some (0, block, st)) := by
  constructor
  · intro pre post c hsub hpre hc
    have hne : block.sublist ≠ [] := by rw [hsub]; simp
    rw [loadNetworkSegmentPoint_children content getPoint incoming outgoing searchInd block st
      hne, hsub,
      loadNetworkSegmentPointSublist_first content getPoint incoming outgoing searchInd c post
        st hc pre hpre]
    cases loadNetworkSegmentPoint content getPoint incoming outgoing searchInd c st <;> rfl
  · intro hne hall
    rw [loadNetworkSegmentPoint_children content getPoint incoming outgoing searchInd block st
      hne,
      loadNetworkSegmentPointSublist_none content getPoint incoming outgoing searchInd st _
        hall]
    cases block
    rfl

/-- Reading `pointSegments` fields in a block whose range holds `searchInd` goes through
all of them, returns, and changes neither the block nor the input. -/
theorem loadNetworkSegmentPointLoop_pointSegments (getPoint : Int → Option Nat)
    (incoming outgoing : Nat → List Nat) (searchInd : Int) :
    ∀ (segs : List (List Int × List Int)) (r : BlockRead),
      checkId searchInd r.block = true →
      ∃ r1 : BlockRead,
        loadNetworkSegmentPointLoop getPoint incoming outgoing searchInd
          (segs.map (fun s => HHRouteBlockSegmentsField.pointSegments s.1 s.2)) r = some r1 ∧
        r1.block = r.block ∧ r1.st.events = r.st.events ∧ r1.st.pos = r.st.pos := by
  intro segs
  induction segs with
  | nil => intro r _; exact ⟨r, rfl, rfl, rfl, rfl⟩
  | cons s rest ih =>
    intro r hr
    have hstep : ∃ r0 : BlockRead,
        loadNetworkSegmentPointField getPoint incoming outgoing searchInd
          (HHRouteBlockSegmentsField.pointSegments s.1 s.2) r = some (true, r0) ∧
        r0.block = r.block ∧ r0.st.events = r.st.events ∧ r0.st.pos = r.st.pos := by
      cases hg : getPoint (i32 (r.ind + r.block.idRangeStart)) with
      | none =>
        exact ⟨{ r with ind := i32 (r.ind + 1) },
          by simp [loadNetworkSegmentPointField, hr, hg], rfl, rfl, rfl⟩
      | some point =>
        obtain ⟨lin, hin⟩ := parseSegments_isSome r.st.points s.1 (incoming point) point false
        obtain ⟨lout, hout⟩ := parseSegments_isSome
          (setPoint r.st.points point (fun x => { x with connectedReverse := lin }))
          s.2 (outgoing point) point true
        exact ⟨{ r with ind := i32 (r.ind + 1),
                        loaded := i32 (r.loaded + (lin.length + lout.length : Nat)),
                        st := { r.st with
                          points := setPoint
                            (setPoint r.st.points point
                              (fun x => { x with connectedReverse := lin }))
                            point (fun x => { x with connected := lout }) } },
          by simp [loadNetworkSegmentPointField, hr, hg, hin, hout], rfl, rfl, rfl⟩
    obtain ⟨r0, h0, hb0, he0, hp0⟩ := hstep
    obtain ⟨r1, h1, hb1, he1, hp1⟩ := ih r0 (by rw [hb0]; exact hr)
    refine ⟨r1, ?_, by rw [hb1, hb0], by rw [he1, he0], by rw [hp1, hp0]⟩
    simp only [List.map_cons, loadNetworkSegmentPointLoop, h0]
    exact h1

/-- Reading the inner block for the ids from 64 up to 96 with a `searchInd` in that range
sets its range, returns, adds no child and leaves the input state as it was. -/
theorem loadNetworkSegmentPointLoop_inner (getPoint : Int → Option Nat)
    (incoming outgoing : Nat → List Nat) (searchInd : Int) (hlo : 64 ≤ searchInd)
    (hhi : searchInd < 96) (segs : List (List Int × List Int)) (r : BlockRead) :
    ∃ r1 : BlockRead,
      loadNetworkSegmentPointLoop getPoint incoming outgoing searchInd
        (innerBlockFields segs) r = some r1 ∧
      r1.block = { r.block with idRangeStart := 64, idRangeLength := 32 } ∧
      r1.st.events = r.st.events ∧ r1.st.pos = r.st.pos := by
  have hc : checkId searchInd
      { r.block with idRangeStart := 64, idRangeLength := 32 } = true := by
    simp only [checkId, decide_eq_true_eq]
    omega
  obtain ⟨r1, h1, hb1, he1, hp1⟩ := loadNetworkSegmentPointLoop_pointSegments getPoint
    incoming outgoing searchInd segs
    { r with block := { r.block with idRangeStart := 64, idRangeLength := 32 } } hc
  refine ⟨r1, ?_, hb1, he1, hp1⟩
  simp only [innerBlockFields, List.cons_append, List.nil_append, loadNetworkSegmentPointLoop,
    loadNetworkSegmentPointField]
  exact h1

/-- First call on the outer block, with no child in memory yet: the outer block and the
inner block are read, the inner block is pushed. -/
theorem loadNetworkSegmentPoint_first_call (content : Nat → List HHRouteBlockSegmentsField)
    (getPoint : Int → Option Nat) (incoming outgoing : Nat → List Nat) (searchInd : Int)
    (hlo : 64 ≤ searchInd) (hhi : searchInd < 96) (length filePointer length1 filePointer1 : Nat)
    (segs : List (List Int × List Int)) (st : HHLoadState)
    (hcontent : content filePointer = outerBlockFields length1 filePointer1 segs) :
    ∃ (n : Int) (st1 : HHLoadState),
      loadNetworkSegmentPoint content getPoint incoming outgoing searchInd
        (outerBlock length filePointer []) st =
          some (n, outerBlock length filePointer [innerBlock length1 filePointer1], st1) ∧
      st1.events = (if st.pos ≠ filePointer then st.events ++ [.seek filePointer]
        else st.events) ++ [.read filePointer, .read filePointer1] ∧
      st1.pos = filePointer + length := by
  obtain ⟨c, hc, hcb, hce, hcp⟩ := loadNetworkSegmentPointLoop_inner getPoint incoming outgoing
    searchInd hlo hhi segs
    { block := { idRangeStart := 0, idRangeLength := 0, profileId := 0, length := length1,
                 filePointer := filePointer1, sublist := [] },
      loaded := 0, ind := 0,
      st := { points := st.points, pos := filePointer,
              events := ((if st.pos ≠ filePointer then st.events ++ [.seek filePointer]
                else st.events) ++ [.read filePointer]) ++ [.read filePointer1] } }
  have hck : checkId searchInd
      { idRangeStart := 0, idRangeLength := 256, profileId := 0, length := length,
        filePointer := filePointer, sublist := [] } = true := by
    simp only [checkId, decide_eq_true_eq]
    omega
  refine ⟨i32 (0 + c.loaded), { c.st with pos := filePointer + length }, ?_, ?_, rfl⟩
  · simp only [outerBlock, loadNetworkSegmentPoint, List.length_nil, gt_iff_lt, lt_self_iff_false,
      if_false, hcontent, outerBlockFields]
    generalize innerBlockFields segs = body at hc ⊢
    simp only [loadNetworkSegmentPointLoop, loadNetworkSegmentPointField, hck,
      Bool.true_eq_false, if_false, hc, List.nil_append, hcb, innerBlock]
  · simp only [hce, List.append_assoc, List.singleton_append]

/-- Later call on the outer block with the inner block in memory: the call is passed on
to the inner block, which has no children, so the inner block is read again, after a seek
when the input stands elsewhere; the outer block is not read and gets no further
child. -/
theorem loadNetworkSegmentPoint_later_call (content : Nat → List HHRouteBlockSegmentsField)
    (getPoint : Int → Option Nat) (incoming outgoing : Nat → List Nat) (searchInd : Int)
    (hlo : 64 ≤ searchInd) (hhi : searchInd < 96) (length filePointer length1 filePointer1 : Nat)
    (segs : List (List Int × List Int)) (st : HHLoadState)
    (hcontent : content filePointer1 = innerBlockFields segs) :
    ∃ (n : Int) (st1 : HHLoadState),
      loadNetworkSegmentPoint content getPoint incoming outgoing searchInd
        (outerBlock length filePointer [innerBlock length1 filePointer1]) st =
          some (n, outerBlock length filePointer [innerBlock length1 filePointer1], st1) ∧
      st1.events = (if st.pos ≠ filePointer1 then st.events ++ [.seek filePointer1]
        else st.events) ++ [.read filePointer1] ∧
      st1.pos = filePointer1 + length1 := by
  obtain ⟨c, hc, hcb, hce, hcp⟩ := loadNetworkSegmentPointLoop_inner getPoint incoming outgoing
    searchInd hlo hhi segs
    { block := { idRangeStart := 64, idRangeLength := 32, profileId := 0, length := length1,
                 filePointer := filePointer1, sublist := [] },
      loaded := 0, ind := 0,
      st := { points := st.points, pos := filePointer1,
              events := (if st.pos ≠ filePointer1 then st.events ++ [.seek filePointer1]
                else st.events) ++ [.read filePointer1] } }
  have hck : checkId searchInd
      { idRangeStart := 64, idRangeLength := 32, profileId := 0, length := length1,
        filePointer := filePointer1, sublist := [] } = true := by
    simp only [checkId, decide_eq_true_eq]
    omega
  refine ⟨c.loaded, { c.st with pos := filePointer1 + length1 }, ?_, hce, rfl⟩
  simp only [outerBlock, innerBlock, loadNetworkSegmentPoint, List.length_cons, List.length_nil,
    gt_iff_lt, Nat.zero_lt_succ, if_true, loadNetworkSegmentPointSublist, hck,
    lt_self_iff_false, if_false, hcontent]
  generalize innerBlockFields segs = body at hc ⊢
  simp only [hc, hcb]

theorem loadNetworkSegmentPoint_in_memory_witness :
    loadNetworkSegmentPoint sampleSegments sampleGetPoint sampleIncoming sampleOutgoing 81
        (outerBlock 60 100 [innerBlock 40 120]) sampleLoadState =
      (loadNetworkSegmentPoint sampleSegments sampleGetPoint sampleIncoming sampleOutgoing 81
        (innerBlock 40 120) sampleLoadState).map
          (fun r => (r.1, { outerBlock 60 100 [innerBlock 40 120] with
            sublist := [] ++ r.2.1 :: [] }, r.2.2)) ∧
    loadNetworkSegmentPoint sampleSegments sampleGetPoint sampleIncoming sampleOutgoing 200
        (outerBlock 60 100 [innerBlock 40 120]) sampleLoadState =
      some (0, outerBlock 60 100 [innerBlock 40 120], sampleLoadState) :=
  ⟨(loadNetworkSegmentPoint_in_memory sampleSegments sampleGetPoint sampleIncoming
      sampleOutgoing 81 (outerBlock 60 100 [innerBlock 40 120]) sampleLoadState).1
      [] [] (innerBlock 40 120) rfl (by simp) (by decide),
   (loadNetworkSegmentPoint_in_memory sampleSegments sampleGetPoint sampleIncoming
      sampleOutgoing 200 (outerBlock 60 100 [innerBlock 40 120]) sampleLoadState).2
      (by simp [outerBlock]) (by simp [outerBlock, innerBlock, checkId])⟩

/-- C28 (counterexample): on the sample file, with the outer block for the ids from 0 up
to 256 at position 100 and its inner block for the ids from 64 up to 96 at position 120,
the call with 80 seeks 100 and reads the blocks at 100 and 120; the call with 81 that
follows, on the block and the input as the first call left them, seeks 120 and reads the
block at 120 again. The outer block has one child after either call. -/
theorem loadNetworkSegmentPoint_second_call_reads :
    (loadNetworkSegmentPoint sampleSegments sampleGetPoint sampleIncoming sampleOutgoing 80
        (outerBlock 60 100 []) sampleLoadState).bind
      (fun r =>
        (loadNetworkSegmentPoint sampleSegments sampleGetPoint sampleIncoming sampleOutgoing
          81 r.2.1 r.2.2).map
          (fun r2 => (r.2.2.events, r.2.1.sublist.length, r2.2.2.events,
            r2.2.1.sublist.length))) =
      some ([.seek 100, .read 100, .read 120], 1,
        [.seek 100, .read 100, .read 120, .seek 120, .read 120], 1) := by
  obtain ⟨n1, st1, h1, he1, hp1⟩ := loadNetworkSegmentPoint_first_call sampleSegments
    sampleGetPoint sampleIncoming sampleOutgoing 80 (by decide) (by decide) 60 100 40 120
    [([15], [25, 35]), ([], [45])] sampleLoadState rfl
  obtain ⟨n2, st2, h2, he2, _⟩ := loadNetworkSegmentPoint_later_call sampleSegments
    sampleGetPoint sampleIncoming sampleOutgoing 81 (by decide) (by decide) 60 100 40 120
    [([15], [25, 35]), ([], [45])] st1 rfl
  rw [h1]
  simp only [Option.bind]
  rw [h2]
  simp [he1, he2, hp1, outerBlock, sampleLoadState]

/-- C28 (amended): a block for the ids from 0 up to 256 at `filePointer` whose one inner
block, for the ids from 64 up to 96 at `filePointer1`, holds point segments only.
`loadNetworkSegmentPoint` with 80 on the block without children in memory returns, reads
the outer block and the inner block, after a seek to the outer block when the input
stands elsewhere, and leaves the inner block as the one child. The call with 81 that
follows on the same block returns and leaves the block as it was, with no further
child, and does not read the outer block; it is passed on through the child list to the
inner block, which it reads again, after a seek to it unless the input stands there. -/
theorem loadNetworkSegmentPoint_second_call (content : Nat → List HHRouteBlockSegmentsField)
    (getPoint : Int → Option Nat) (incoming outgoing : Nat → List Nat)
    (length filePointer length1 filePointer1 : Nat) (segs : List (List Int × List Int))
    (st : HHLoadState)
    (houter : content filePointer = outerBlockFields length1 filePointer1 segs)
    (hinner : content filePointer1 = innerBlockFields segs) :
    ∃ (n1 n2 : Int) (st1 st2 : HHLoadState),
      loadNetworkSegmentPoint content getPoint incoming outgoing 80
        (outerBlock length filePointer []) st =
          some (n1, outerBlock length filePointer [innerBlock length1 filePointer1], st1) ∧
      st1.events = st.events ++
        (if st.pos ≠ filePointer then [StreamEvent.seek filePointer] else []) ++
          [.read filePointer, .read filePointer1] ∧
      loadNetworkSegmentPoint content getPoint incoming outgoing 81
        (outerBlock length filePointer [innerBlock length1 filePointer1]) st1 =
          some (n2, outerBlock length filePointer [innerBlock length1 filePointer1], st2) ∧
      st2.events = st1.events ++
        (if filePointer + length ≠ filePointer1 then [StreamEvent.seek filePointer1] else []) ++
          [.read filePointer1] := by
  obtain ⟨n1, st1, h1, he1, hp1⟩ := loadNetworkSegmentPoint_first_call content getPoint
    incoming outgoing 80 (by decide) (by decide) length filePointer length1 filePointer1 segs
    st houter
  obtain ⟨n2, st2, h2, he2, _⟩ := loadNetworkSegmentPoint_later_call content getPoint
    incoming outgoing 81 (by decide) (by decide) length filePointer length1 filePointer1 segs
    st1 hinner
  refine ⟨n1, n2, st1, st2, h1, ?_, h2, ?_⟩
  · rw [he1]
    by_cases h : st.pos ≠ filePointer
    · rw [if_pos h, if_pos h]
    · rw [if_neg h, if_neg h]; simp
  · rw [he2, hp1]
    by_cases h : filePointer + length ≠ filePointer1
    · rw [if_pos h, if_pos h]
    · rw [if_neg h, if_neg h]; simp

theorem loadNetworkSegmentPoint_second_call_witness :
    ∃ (n1 n2 : Int) (st1 st2 : HHLoadState),
      loadNetworkSegmentPoint sampleSegments sampleGetPoint sampleIncoming sampleOutgoing 80
        (outerBlock 60 100 []) sampleLoadState =
          some (n1, outerBlock 60 100 [innerBlock 40 120], st1) ∧
      st1.events = sampleLoadState.events ++
        (if sampleLoadState.pos ≠ 100 then [StreamEvent.seek 100] else []) ++
          [.read 100, .read 120] ∧
      loadNetworkSegmentPoint sampleSegments sampleGetPoint sampleIncoming sampleOutgoing 81
        (outerBlock 60 100 [innerBlock 40 120]) st1 =
          some (n2, outerBlock 60 100 [innerBlock 40 120], st2) ∧
      st2.events = st1.events ++
        (if 100 + 60 ≠ 120 then [StreamEvent.seek 120] else []) ++ [.read 120] :=
  loadNetworkSegmentPoint_second_call sampleSegments sampleGetPoint sampleIncoming
    sampleOutgoing 60 100 40 120 [([15], [25, 35]), ([], [45])] sampleLoadState rfl rfl

/-! ## Properties of the reads of four bytes -/

theorem shiftLeft24 (x : Int) : x <<< (24 : Int) = x * 16777216 := by
  have := Int.shiftLeft_eq_mul_pow x 24
  simpa using this

theorem shiftLeft16 (x : Int) : x <<< (16 : Int) = x * 65536 := by
  have := Int.shiftLeft_eq_mul_pow x 16
  simpa using this

theorem shiftLeft8 (x : Int) : x <<< (8 : Int) = x * 256 := by
  have := Int.shiftLeft_eq_mul_pow x 8
  simpa using this

/-- Conversion to `int` keeps the value modulo 2^32. -/
theorem i32_emod (x : Int) : i32 x % 4294967296 = x % 4294967296 := by
  unfold i32; omega

theorem u32_i32 (x : Int) : u32 (i32 x) = u32 x := by
  unfold u32; rw [i32_emod]

theorem add_emod_congr (a a1 b b1 m : Int) (ha : a % m = a1 % m) (hb : b % m = b1 % m) :
    (a + b) % m = (a1 + b1) % m := by
  rw [Int.add_emod, ha, hb, ← Int.add_emod]

/-- The expression of `readInt` is the big-endian value modulo 2^32. -/
theorem readIntValue_emod (b0 b1 b2 b3 : Nat) :
    readIntValue (b0, b1, b2, b3) % 4294967296 =
      ((b0 : Int) * 16777216 + (b1 : Int) * 65536 + (b2 : Int) * 256 + (b3 : Int)) %
        4294967296 := by
  simp only [readIntValue, shiftLeft24, shiftLeft16, shiftLeft8]
  rw [i32_emod]
  refine add_emod_congr _ _ _ _ _ ?_ rfl
  rw [i32_emod]
  refine add_emod_congr _ _ _ _ _ ?_ (i32_emod _)
  rw [i32_emod]
  exact add_emod_congr _ _ _ _ _ (i32_emod _) (i32_emod _)

/-- The 32-bit overload gives the unsigned big-endian value of the four bytes. -/
theorem readInt_bigEndian (b0 b1 b2 b3 : Nat) (rest : List Nat) (h0 : b0 < 256)
    (h1 : b1 < 256) (h2 : b2 < 256) (h3 : b3 < 256) :
    readInt (b0 :: b1 :: b2 :: b3 :: rest) = some (bigEndian (b0, b1, b2, b3), rest) := by
  have hv : u32 (readIntValue (b0, b1, b2, b3)) = bigEndian (b0, b1, b2, b3) := by
    unfold u32
    rw [readIntValue_emod]
    simp only [bigEndian]
    omega
  simp only [readInt, readRaw4, hv]

/-- Either overload fails exactly when fewer than four bytes are left. -/
theorem readInt_none_iff (bytes : List Nat) :
    (readInt bytes = none ↔ bytes.length < 4) ∧ (readInt64 bytes = none ↔ bytes.length < 4) := by
  match bytes with
  | [] => simp [readInt, readInt64, readRaw4]
  | [_] => simp [readInt, readInt64, readRaw4]
  | [_, _] => simp [readInt, readInt64, readRaw4]
  | [_, _, _] => simp [readInt, readInt64, readRaw4]
  | _ :: _ :: _ :: _ :: _ => simp [readInt, readInt64, readRaw4]

/-- The 64-bit overload gives the big-endian value when the first byte is below 128, and
that value with the upper 32 bits set otherwise: the `int` is negative and is converted
to `uint64_t`. -/
theorem readInt64_value (b0 b1 b2 b3 : Nat) (rest : List Nat) (h0 : b0 < 256)
    (h1 : b1 < 256) (h2 : b2 < 256) (h3 : b3 < 256) :
    readInt64 (b0 :: b1 :: b2 :: b3 :: rest) =
      some (if b0 < 128 then bigEndian (b0, b1, b2, b3)
        else bigEndian (b0, b1, b2, b3) + 18446744069414584320, rest) := by
  have hr : -2147483648 ≤ readIntValue (b0, b1, b2, b3) ∧
      readIntValue (b0, b1, b2, b3) ≤ 2147483647 := i32_range _
  have he := readIntValue_emod b0 b1 b2 b3
  have hv : u64 (readIntValue (b0, b1, b2, b3)) =
      if b0 < 128 then bigEndian (b0, b1, b2, b3)
      else bigEndian (b0, b1, b2, b3) + 18446744069414584320 := by
    generalize readIntValue (b0, b1, b2, b3) = v at hr he
    unfold u64
    simp only [bigEndian]
    by_cases hb : b0 < 128
    · rw [if_pos hb]; omega
    · rw [if_neg hb]; omega
  simp only [readInt64, readRaw4, hv]

/-- C32: on the bytes 0x80 0 0 0, whose unsigned big-endian value is 2^31, the 32-bit
overload of `readInt` stores 2^31 and the 64-bit overload stores 2^64 - 2^31: the sum of
the shifted bytes is an `int`, negative here, and its conversion to `uint64_t` sets the
upper 32 bits. -/
theorem readInt64_sign_extended :
    bigEndian (128, 0, 0, 0) = 2147483648 ∧
    readInt [128, 0, 0, 0] = some (2147483648, []) ∧
    readInt64 [128, 0, 0, 0] = some (18446744071562067968, []) := by
  decide

/-! ## Properties of the private access -/

/-- For a profile other than `CAR` and `BICYCLE`, on a type list whose entries are ids of
the table, `hasPrivateAccess` is true exactly when some rule of the list has the value
`private` and the tag `vehicle` or `access`. -/
theorem hasPrivateAccess_other (rules : List RouteTypeRule) (profile : GeneralRouterProfile)
    (hc : profile ≠ .CAR) (hb : profile ≠ .BICYCLE) :
    ∀ types : List Nat, (∀ t ∈ types, (quickGetEncodingRule rules t).isSome) →
      hasPrivateAccess rules types profile = some (somePrivateRule rules types profile) := by
  intro types
  induction types with
  | nil => intro _; rfl
  | cons t rest ih =>
    intro hvalid
    have ht := hvalid t (List.mem_cons_self _ _)
    have hr := ih (fun x hx => hvalid x (List.mem_cons_of_mem _ hx))
    simp only [hasPrivateAccess] at hr ⊢
    cases hq : quickGetEncodingRule rules t with
    | none => rw [hq] at ht; cases ht
    | some r =>
      simp only [hasPrivateAccessFrom, hq, somePrivateRule, List.any_cons, restrictsProfile,
        hc, hb, decide_False, Bool.false_and, Bool.or_false]
      by_cases hv : r.v = "private"
      · by_cases hta : r.t = "vehicle" ∨ r.t = "access"
        · simp [hv, hta]
        · simp only [hv, hta, if_true, if_false, hr, somePrivateRule, restrictsProfile, hc, hb,
            decide_False, Bool.false_and, Bool.or_false, decide_True, Bool.true_and,
            Bool.false_or]
      · simp only [hv, if_false, hr, somePrivateRule, restrictsProfile, hc, hb,
          decide_False, Bool.false_and, Bool.or_false, Bool.false_or]

/-- C38: in the table with the rules 1 `bicycle=private` and 2 `access=private`, the road
with the types 1 and 2 has a rule that restricts the profile `CAR` (`access=private`), and
`hasPrivateAccess(CAR)` is false: the loop returns at the first rule with the value
`private`, whose tag `bicycle` does not restrict a car. With the types in the order 2, 1
the result is true. -/
theorem hasPrivateAccess_first_private_rule :
    somePrivateRule accessRules [1, 2] .CAR = true ∧
    hasPrivateAccess accessRules [1, 2] .CAR = some false ∧
    hasPrivateAccess accessRules [2, 1] .CAR = some true := by
  decide

/-! ## Properties of the order of the primitives -/

/-- C40 (counterexample): a polygon (`objectType` 3) with `typeInd` 2 and a line
(`objectType` 2) with `typeInd` 1, both of order 5: the polygon is before the line by
`typeInd >`, and the line is before the polygon by `typeInd <`. -/
theorem sortByOrder_both_ways :
    sortByOrder { points := 4, typeInd := 2, order := 5, objectType := 3 }
        { points := 4, typeInd := 1, order := 5, objectType := 2 } = true ∧
    sortByOrder { points := 4, typeInd := 1, order := 5, objectType := 2 }
        { points := 4, typeInd := 2, order := 5, objectType := 3 } = true := by
  decide

/-- C40 (amended): `sortByOrder` is irreflexive on all primitives, and it is asymmetric on
every two primitives that are both polygons (`objectType` 3) or both no polygons, also
when they have the same order and different `typeInd`. -/
theorem sortByOrder_asymmetric (a b : MapDataObjectPrimitive)
    (h : a.objectType = 3 ↔ b.objectType = 3) :
    sortByOrder a a = false ∧ (sortByOrder a b = true → sortByOrder b a = false) := by
  constructor
  · simp [sortByOrder]
  · intro hab
    unfold sortByOrder at hab ⊢
    by_cases ho : a.order = b.order
    · have ho2 : b.order = a.order := ho.symm
      rw [if_pos ho] at hab
      rw [if_pos ho2]
      by_cases ht : a.typeInd = b.typeInd
      · have ht2 : b.typeInd = a.typeInd := ht.symm
        rw [if_pos ht] at hab
        rw [if_pos ht2]
        simp only [decide_eq_true_eq, decide_eq_false_iff_not] at hab ⊢
        omega
      · have ht2 : ¬ b.typeInd = a.typeInd := fun e => ht e.symm
        rw [if_neg ht] at hab
        rw [if_neg ht2]
        by_cases h3 : a.objectType = 3
        · rw [if_pos h3] at hab
          rw [if_pos (h.1 h3)]
          simp only [decide_eq_true_eq, decide_eq_false_iff_not] at hab ⊢
          omega
        · rw [if_neg h3] at hab
          rw [if_neg (fun e => h3 (h.2 e))]
          simp only [decide_eq_true_eq, decide_eq_false_iff_not] at hab ⊢
          omega
    · have ho2 : ¬ b.order = a.order := fun e => ho e.symm
      rw [if_neg ho] at hab
      rw [if_neg ho2]
      simp only [decide_eq_true_eq, decide_eq_false_iff_not] at hab ⊢
      exact not_lt.2 (le_of_lt hab)

theorem sortByOrder_asymmetric_witness :
    sortByOrder { points := 4, typeInd := 1, order := 5, objectType := 3 }
        { points := 4, typeInd := 1, order := 5, objectType := 3 } = false ∧
    (sortByOrder { points := 4, typeInd := 2, order := 5, objectType := 3 }
        { points := 4, typeInd := 1, order := 5, objectType := 3 } = true →
      sortByOrder { points := 4, typeInd := 1, order := 5, objectType := 3 }
        { points := 4, typeInd := 2, order := 5, objectType := 3 } = false) :=
  ⟨by decide,
   (sortByOrder_asymmetric { points := 4, typeInd := 2, order := 5, objectType := 3 }
      { points := 4, typeInd := 1, order := 5, objectType := 3 } (by decide)).2⟩

/-! ## Properties of the direction points -/

theorem getTestKyivPointsFrom_length (rand : Nat → Nat) (RAND_MAX : Nat)
    (get31TileNumberX get31TileNumberY : Rat → Int) :
    ∀ (n i : Nat) (result : List DirectionPoint),
      (getTestKyivPointsFrom rand RAND_MAX get31TileNumberX get31TileNumberY n i
        result).length = result.length + n := by
  intro n
  induction n with
  | zero => intro i result; rfl
  | succ n ih =>
    intro i result
    simp only [getTestKyivPointsFrom]
    rw [ih]
    simp only [List.length_append, List.length_singleton]
    omega

/-- C36: whatever list `setDirectionPoints` has stored, `build` returns a configuration
whose direction points are the 2000 points of `getTestKyivPoints`, each inserted with the
rectangle of its own coordinates, and leaves those points in the builder: the list of the
caller is overwritten before it is read. With the empty list, and in a new builder, the
configuration has 2000 points, not none. -/
theorem build_directionPoints_from_test (rand : Nat → Nat) (RAND_MAX : Nat)
    (get31TileNumberX get31TileNumberY : Rat → Int) (b : RoutingConfigurationBuilder)
    (directionPoints : List DirectionPoint) :
    (build rand RAND_MAX get31TileNumberX get31TileNumberY
        (setDirectionPoints b directionPoints)).1.directionPoints.map Prod.fst =
      getTestKyivPoints rand RAND_MAX get31TileNumberX get31TileNumberY ∧
    (build rand RAND_MAX get31TileNumberX get31TileNumberY
        (setDirectionPoints b directionPoints)).1.directionPoints.length = 2000 ∧
    (build rand RAND_MAX get31TileNumberX get31TileNumberY
        (setDirectionPoints b [])).1.directionPoints.length = 2000 ∧
    (build rand RAND_MAX get31TileNumberX get31TileNumberY {}).1.directionPoints.length =
      2000 ∧
    (build rand RAND_MAX get31TileNumberX get31TileNumberY
        (setDirectionPoints b directionPoints)).2.directionPointsBuilder =
      getTestKyivPoints rand RAND_MAX get31TileNumberX get31TileNumberY := by
  have hlen : (getTestKyivPoints rand RAND_MAX get31TileNumberX get31TileNumberY).length =
      2000 := by
    unfold getTestKyivPoints
    rw [getTestKyivPointsFrom_length]
    simp only [List.length_nil, Nat.zero_add]
  have hpos : (getTestKyivPoints rand RAND_MAX get31TileNumberX get31TileNumberY).length >
      0 := by rw [hlen]; omega
  refine ⟨?_, ?_, ?_, ?_, ?_⟩
  · simp only [build]
    rw [if_pos hpos]
    simp only [List.map_map]
    exact List.map_id _
  · simp only [build]
    rw [if_pos hpos]
    simp only [List.length_map, hlen]
  · simp only [build]
    rw [if_pos hpos]
    simp only [List.length_map, hlen]
  · simp only [build]
    rw [if_pos hpos]
    simp only [List.length_map, hlen]
  · simp only [build]

/-! ## Properties of the depth of the reads -/

/-- A call of `readRouteTree` with the depth 0 has no call nested in it. -/
theorem readRouteTreeCalls_zero :
    ∀ fields : List RouteDataBoxField, readRouteTreeCalls 0 fields = 0 := by
  intro fields
  induction fields with
  | nil => simp [readRouteTreeCalls]
  | cons f rest ih =>
    cases f with
    | boxes length filePointer skipped body =>
      cases skipped <;> simp [readRouteTreeCalls, ih]
    | unknown skipped => cases skipped <;> simp [readRouteTreeCalls, ih]
    | endGroup => simp [readRouteTreeCalls]
    | left v => simpa [readRouteTreeCalls] using ih
    | right v => simpa [readRouteTreeCalls] using ih
    | top v => simpa [readRouteTreeCalls] using ih
    | bottom v => simpa [readRouteTreeCalls] using ih
    | shiftToData v => simpa [readRouteTreeCalls] using ih

/-- A call of `readRouteTree` with a depth of 0 or above has at most that many calls
nested in it. -/
theorem readRouteTreeCalls_le (d : Nat) :
    ∀ fields : List RouteDataBoxField, readRouteTreeCalls (d : Int) fields ≤ d := by
  induction d with
  | zero =>
    intro fields
    simp [readRouteTreeCalls_zero]
  | succ d ihd =>
    intro fields
    induction fields with
    | nil => simp [readRouteTreeCalls]
    | cons f rest ih =>
      cases f with
      | boxes length filePointer skipped body =>
        have hne : ((d + 1 : Nat) : Int) ≠ 0 := by omega
        have hd : ((d + 1 : Nat) : Int) - 1 = (d : Int) := by omega
        simp only [readRouteTreeCalls, if_pos hne, hd]
        have hb := ihd body
        omega
      | unknown skipped =>
        cases skipped
        · simp [readRouteTreeCalls]
        · simpa [readRouteTreeCalls] using ih
      | endGroup => simp [readRouteTreeCalls]
      | left v => simpa [readRouteTreeCalls] using ih
      | right v => simpa [readRouteTreeCalls] using ih
      | top v => simpa [readRouteTreeCalls] using ih
      | bottom v => simpa [readRouteTreeCalls] using ih
      | shiftToData v => simpa [readRouteTreeCalls] using ih

/-- A call of `readRouteTree` with a depth below 0 on boxes nested `n` deep has `n` calls
nested in it. -/
theorem readRouteTreeCalls_nestedBoxes :
    ∀ (n filePointer : Nat) (depth : Int), depth < 0 →
      readRouteTreeCalls depth (nestedBoxes n filePointer) = n := by
  intro n
  induction n with
  | zero => intro filePointer depth _; simp [nestedBoxes, readRouteTreeCalls]
  | succ n ih =>
    intro filePointer depth hd
    have hne : depth ≠ 0 := by omega
    simp only [nestedBoxes, readRouteTreeCalls, if_pos hne, ih _ (depth - 1) (by omega)]
    omega

theorem forestLevels_append_singleton (l : List RouteSubregion) (c : RouteSubregion) :
    forestLevels (l ++ [c]) = max (forestLevels l) c.levels := by
  induction l with
  | nil => simp [forestLevels]
  | cons a l ih =>
    simp only [List.cons_append, forestLevels, List.append_eq, ih]
    omega

/-- The levels of the tree that `readRouteTree` builds under a box are the levels the box
had and one level for each call nested in the call. -/
theorem readRouteTree_levels_aux :
    ∀ (n : Nat) (fields : List RouteDataBoxField), sizeOf fields ≤ n →
      ∀ (parentTree : Option RouteSubregion) (depth : Int) (readCoordinates : Bool)
        (t : RouteSubregion) (i : Int),
        forestLevels (readRouteTree parentTree depth readCoordinates fields t i).2.subregions =
          max (forestLevels t.subregions) (readRouteTreeCalls depth fields) := by
  intro n
  induction n with
  | zero =>
    intro fields h
    cases fields with
    | nil => simp at h
    | cons f rest => simp at h
  | succ n ih =>
    intro fields h parentTree depth readCoordinates t i
    cases fields with
    | nil => simp [readRouteTree, readRouteTreeCalls]
    | cons f rest =>
      have hsz : sizeOf f + sizeOf rest ≤ n := by
        simp only [List.cons.sizeOf_spec] at h
        omega
      have hrest : sizeOf rest ≤ n := by omega
      cases f with
      | left v =>
        simp only [readRouteTree, readRouteTreeField, readRouteTreeCalls]
        rw [ih rest hrest]
        cases readCoordinates <;> rfl
      | right v =>
        simp only [readRouteTree, readRouteTreeField, readRouteTreeCalls]
        rw [ih rest hrest]
        cases readCoordinates <;> rfl
      | top v =>
        simp only [readRouteTree, readRouteTreeField, readRouteTreeCalls]
        rw [ih rest hrest]
        cases readCoordinates <;> rfl
      | bottom v =>
        simp only [readRouteTree, readRouteTreeField, readRouteTreeCalls]
        rw [ih rest hrest]
        cases readCoordinates <;> rfl
      | shiftToData v =>
        simp only [readRouteTree, readRouteTreeField, readRouteTreeCalls]
        rw [ih rest hrest]
      | endGroup => simp [readRouteTree, readRouteTreeField, readRouteTreeCalls]
      | unknown skipped =>
        cases skipped
        · simp [readRouteTree, readRouteTreeField, readRouteTreeCalls]
        · simp only [readRouteTree, readRouteTreeField, readRouteTreeCalls, if_true]
          exact ih rest hrest _ _ _ _ _
      | boxes length filePointer skipped body =>
        have hbody : sizeOf body ≤ n := by
          simp only [RouteDataBoxField.boxes.sizeOf_spec] at hsz
          omega
        simp only [readRouteTree, readRouteTreeField, readRouteTreeCalls]
        by_cases hd : depth ≠ 0
        · rw [if_pos hd, if_pos hd]
          simp only []
          rw [ih rest hrest]
          have hc := ih body hbody (some t) (depth - 1) true
            { length := length, filePointer := filePointer, subregions := [] } 0
          simp only [forestLevels_append_singleton, RouteSubregion.levels_eq, hc, forestLevels]
          omega
        · rw [if_neg hd, if_neg hd]
          cases skipped
          · simp
          · simp only [if_true]
            exact ih rest hrest _ _ _ _ _

/-- The tree that `readRouteTree` builds under a box without children has one level of
children for each call nested in the call. -/
theorem readRouteTree_levels (parentTree : Option RouteSubregion) (depth : Int)
    (readCoordinates : Bool) (fields : List RouteDataBoxField) (t : RouteSubregion) (i : Int)
    (ht : t.subregions = []) :
    (readRouteTree parentTree depth readCoordinates fields t i).2.levels =
      readRouteTreeCalls depth fields + 1 := by
  rw [RouteSubregion.levels_eq,
    readRouteTree_levels_aux _ fields (Nat.le_refl _) parentTree depth readCoordinates t i, ht]
  simp [forestLevels]

/-- C35 (counterexample): on boxes nested six deep, `readRouteTree` with the depth -1,
which is how `searchRouteRegion` calls it, has six calls nested in one another and builds
a tree of seven levels; with the depth 1 it has one. -/
theorem readRouteTree_depth_grows :
    readRouteTreeCalls (-1) (nestedBoxes 6 0) = 6 ∧
    (readRouteTree none (-1) false (nestedBoxes 6 0) { subregions := [] } 0).2.levels = 7 ∧
    readRouteTreeCalls 1 (nestedBoxes 6 0) = 1 := by
  refine ⟨readRouteTreeCalls_nestedBoxes 6 0 (-1) (by decide), ?_, ?_⟩
  · rw [readRouteTree_levels none (-1) false (nestedBoxes 6 0) { subregions := [] } 0 rfl,
      readRouteTreeCalls_nestedBoxes 6 0 (-1) (by decide)]
  · simp [nestedBoxes, readRouteTreeCalls]

/-- C35 (amended): a call of `readRouteTree` that starts with a depth `d` of 0 or above has
at most `d` calls nested in one another, whatever the input. A call with the depth -1,
the depth `searchRouteRegion` passes, on boxes nested `n` deep has `n` calls nested in one
another, for every `n`, and builds a tree with one level for each. -/
theorem readRouteTree_depth_counter (d n filePointer : Nat)
    (fields : List RouteDataBoxField) :
    readRouteTreeCalls (d : Int) fields ≤ d ∧
    readRouteTreeCalls (-1) (nestedBoxes n filePointer) = n ∧
    (readRouteTree none (-1) false (nestedBoxes n filePointer) { subregions := [] }
      0).2.levels = n + 1 := by
  refine ⟨readRouteTreeCalls_le d fields,
    readRouteTreeCalls_nestedBoxes n filePointer (-1) (by decide), ?_⟩
  rw [readRouteTree_levels none (-1) false (nestedBoxes n filePointer) { subregions := [] } 0
    rfl, readRouteTreeCalls_nestedBoxes n filePointer (-1) (by decide)]


/-! ## Properties of the route segments -/

theorem setOppositeDirection_segments (h : SegmentHeap) (s : Nat) (v : Option Nat) :
    (setOppositeDirection h s v).segments = h.segments ∧
      (setOppositeDirection h s v).count = h.count := by
  unfold setOppositeDirection
  cases (h.segments s).segmentStructure <;> exact ⟨rfl, rfl⟩

theorem getOppositeDirection_set_self (h : SegmentHeap) (s k : Nat) (v : Option Nat)
    (hk : (h.segments s).segmentStructure = some k) :
    getOppositeDirection (setOppositeDirection h s v) s = v := by
  have hs := (setOppositeDirection_segments h s v).1
  unfold getOppositeDirection
  rw [hs, hk]
  simp [setOppositeDirection, hk]

theorem getOppositeDirection_set_other (h : SegmentHeap) (s s1 : Nat) (v : Option Nat)
    (hne : s1 ≠ s) :
    getOppositeDirection (setOppositeDirection h s v) s1 = getOppositeDirection h s1 := by
  have hs := (setOppositeDirection_segments h s v).1
  unfold getOppositeDirection
  rw [hs]
  cases h1 : (h.segments s1).segmentStructure with
  | none => rfl
  | some k1 =>
    cases hk : (h.segments s).segmentStructure with
    | none => simp [setOppositeDirection, hk]
    | some k => simp [setOppositeDirection, hk, hne]

theorem getOppositeDirection_congr (h g : SegmentHeap) (s : Nat)
    (hseg : g.segments s = h.segments s) (hopp : g.oppositeDirection = h.oppositeDirection) :
    getOppositeDirection g s = getOppositeDirection h s := by
  unfold getOppositeDirection
  rw [hseg, hopp]

/-- The branch of `initRouteSegment` that creates the segment of the opposite direction:
the new segment is the pointer `h.count`, linked both ways with `th`; nothing else
changes. -/
theorem initRouteSegment_create (pointsLength : Nat → Int) (th : Nat)
    (positiveDirection : Bool) (k : Nat) (h : SegmentHeap)
    (hth : th < h.count) (hlive : (h.segments th).segmentStructure = some k)
    (h1 : ¬ ((h.segments th).segmentStart = 0 ∧ positiveDirection = false))
    (h2 : ¬ (((h.segments th).segmentStart : Int) = pointsLength (h.segments th).road - 1 ∧
      positiveDirection = true))
    (h3 : (h.segments th).segmentStart ≠ (h.segments th).segmentEnd)
    (h4 : positiveDirection ≠
      decide ((h.segments th).segmentEnd > (h.segments th).segmentStart))
    (hopp : getOppositeDirection h th = none) :
    ∃ h5 : SegmentHeap,
      initRouteSegment pointsLength th positiveDirection (some k) h =
        some (some h.count, h5) ∧
      h5.count = h.count + 1 ∧
      (∀ p, p ≠ h.count → h5.segments p = h.segments p) ∧
      h5.segments h.count =
        { segmentStart := u16 (h.segments th).segmentStart,
          segmentEnd := u16
            (if (h.segments th).segmentEnd > (h.segments th).segmentStart then
              ((h.segments th).segmentStart : Int) - 1
            else ((h.segments th).segmentStart : Int) + 1),
          road := (h.segments th).road, segmentStructure := some k } ∧
      getOppositeDirection h5 th = some h.count ∧
      getOppositeDirection h5 h.count = some th ∧
      ∀ s, s ≠ th → s ≠ h.count → getOppositeDirection h5 s = getOppositeDirection h s := by
  have hne : th ≠ h.count := by omega
  let seg : RouteSegment :=
    { segmentStart := u16 (h.segments th).segmentStart,
      segmentEnd := u16
        (if (h.segments th).segmentEnd > (h.segments th).segmentStart then
          ((h.segments th).segmentStart : Int) - 1
        else ((h.segments th).segmentStart : Int) + 1),
      road := (h.segments th).road, segmentStructure := some k }
  let g1 : SegmentHeap :=
    { h with segments := fun p => if p = h.count then seg else h.segments p,
             count := h.count + 1 }
  have hg1th : (g1.segments th).segmentStructure = some k := by
    show ((if th = h.count then seg else h.segments th)).segmentStructure = some k
    rw [if_neg hne]; exact hlive
  have hg1c : (g1.segments h.count).segmentStructure = some k := by
    show ((if h.count = h.count then seg else h.segments h.count)).segmentStructure = some k
    rw [if_pos rfl]
  let g2 := setOppositeDirection g1 th (some h.count)
  have hg2seg : g2.segments = g1.segments := (setOppositeDirection_segments g1 th _).1
  have hg2cnt : g2.count = g1.count := (setOppositeDirection_segments g1 th _).2
  have hg2th : getOppositeDirection g2 th = some h.count :=
    getOppositeDirection_set_self g1 th k _ hg1th
  let g3 := setOppositeDirection g2 h.count (some th)
  have hg3seg : g3.segments = g1.segments := by
    rw [← hg2seg]; exact (setOppositeDirection_segments g2 h.count _).1
  have hg3cnt : g3.count = h.count + 1 := by
    have := (setOppositeDirection_segments g2 h.count (some th)).2
    rw [this, hg2cnt]
  have hg3th : getOppositeDirection g3 th = some h.count := by
    rw [getOppositeDirection_set_other g2 h.count th _ hne]; exact hg2th
  have hg3c : getOppositeDirection g3 h.count = some th :=
    getOppositeDirection_set_self g2 h.count k _ (by rw [hg2seg]; exact hg1c)
  have hres : initRouteSegment pointsLength th positiveDirection (some k) h =
      some (some h.count, g3) := by
    unfold initRouteSegment
    simp only []
    rw [if_neg h1, if_neg h2, if_neg h3, if_neg h4, hopp]
    simp only []
    have e2 : getOppositeDirection (setOppositeDirection g1 th (some h.count)) th =
        some h.count := hg2th
    rw [e2]
    simp only []
    have e3 : getOppositeDirection
        (setOppositeDirection (setOppositeDirection g1 th (some h.count)) h.count (some th))
        th = some h.count := hg3th
    rw [e3]
  refine ⟨g3, hres, hg3cnt, ?_, ?_, hg3th, hg3c, ?_⟩
  · intro p hp
    rw [hg3seg]
    show (if p = h.count then seg else h.segments p) = h.segments p
    rw [if_neg hp]
  · rw [hg3seg]
    show (if h.count = h.count then seg else h.segments h.count) = seg
    rw [if_pos rfl]
  · intro s hs hsc
    rw [getOppositeDirection_set_other g2 h.count s _ hsc,
      getOppositeDirection_set_other g1 th s _ hs]
    exact getOppositeDirection_congr h g1 s (if_neg hsc) rfl

theorem u16_id (z : Int) (h1 : 0 ≤ z) (h2 : z < 65536) : (u16 z : Int) = z := by
  unfold u16; omega

/-- C39 (amended): for a segment `th` on a road with `n` points, `2 ≤ n ≤ 65536`, with
`segmentStart ≤ n - 1` and `segmentEnd` next to `segmentStart`, whose segment structure
is live and is the one passed to the call, in a heap where every opposite direction
recorded is one that `initRouteSegment` made (`OppositeLinked`):
`initRouteSegment(th, positiveDirection)` returns without exception; it returns null
exactly when `segmentStart = 0` and the direction is negative, or `segmentStart = n - 1`
and the direction is positive; otherwise the segment returned has the road and the
`segmentStart` of `th` and `segmentEnd = segmentStart + 1` if positive, `segmentStart - 1`
otherwise, which is at most `n - 1`; when it is not `th` itself, it and `th` are each
other's `oppositeDirection`. The segment `th` is left as it was and the heap stays
`OppositeLinked`. -/
theorem initRouteSegment_direction (pointsLength : Nat → Int) (th : Nat)
    (positiveDirection : Bool) (k : Nat) (h : SegmentHeap)
    (hth : th < h.count) (hlive : (h.segments th).segmentStructure = some k)
    (hn : 2 ≤ pointsLength (h.segments th).road)
    (hmax : pointsLength (h.segments th).road ≤ 65536)
    (hstart : ((h.segments th).segmentStart : Int) ≤ pointsLength (h.segments th).road - 1)
    (hadj : (h.segments th).segmentEnd = (h.segments th).segmentStart + 1 ∨
      (h.segments th).segmentEnd + 1 = (h.segments th).segmentStart)
    (hinv : OppositeLinked h) :
    ∃ (r : Option Nat) (h5 : SegmentHeap),
      initRouteSegment pointsLength th positiveDirection (some k) h = some (r, h5) ∧
      (r = none ↔
        ((h.segments th).segmentStart = 0 ∧ positiveDirection = false) ∨
        (((h.segments th).segmentStart : Int) = pointsLength (h.segments th).road - 1 ∧
          positiveDirection = true)) ∧
      (∀ s, r = some s →
        (h5.segments s).road = (h.segments th).road ∧
        (h5.segments s).segmentStart = (h.segments th).segmentStart ∧
        ((h5.segments s).segmentEnd : Int) =
          (if positiveDirection = true then ((h.segments th).segmentStart : Int) + 1
            else ((h.segments th).segmentStart : Int) - 1) ∧
        ((h5.segments s).segmentEnd : Int) ≤ pointsLength (h.segments th).road - 1 ∧
        (s ≠ th → getOppositeDirection h5 th = some s ∧
          getOppositeDirection h5 s = some th)) ∧
      h5.segments th = h.segments th ∧
      OppositeLinked h5 := by
  by_cases h1 : (h.segments th).segmentStart = 0 ∧ positiveDirection = false
  · refine ⟨none, h, ?_, ?_, ?_, rfl, hinv⟩
    · unfold initRouteSegment
      simp only []
      rw [if_pos h1]
    · exact ⟨fun _ => Or.inl h1, fun _ => rfl⟩
    · intro s hs; cases hs
  by_cases h2 : ((h.segments th).segmentStart : Int) = pointsLength (h.segments th).road - 1 ∧
      positiveDirection = true
  · refine ⟨none, h, ?_, ?_, ?_, rfl, hinv⟩
    · unfold initRouteSegment
      simp only []
      rw [if_neg h1, if_pos h2]
    · exact ⟨fun _ => Or.inr h2, fun _ => rfl⟩
    · intro s hs; cases hs
  have h3 : (h.segments th).segmentStart ≠ (h.segments th).segmentEnd := by omega
  have hnone : ∀ s : Nat, ¬ ((some s : Option Nat) = none ↔
      ((h.segments th).segmentStart = 0 ∧ positiveDirection = false) ∨
      (((h.segments th).segmentStart : Int) = pointsLength (h.segments th).road - 1 ∧
        positiveDirection = true)) → False := by
    intro s hc
    apply hc
    constructor
    · intro e; cases e
    · intro e
      rcases e with e | e
      · exact absurd e h1
      · exact absurd e h2
  by_cases h4 : positiveDirection =
      decide ((h.segments th).segmentEnd > (h.segments th).segmentStart)
  · refine ⟨some th, h, ?_, ?_, ?_, rfl, hinv⟩
    · unfold initRouteSegment
      simp only []
      rw [if_neg h1, if_neg h2, if_neg h3, if_pos h4]
    · by_contra hc; exact hnone th hc
    · intro s hs
      simp only [Option.some.injEq] at hs
      subst hs
      refine ⟨rfl, rfl, ?_, ?_, fun hc => absurd rfl hc⟩
      · cases positiveDirection with
        | true =>
          have : (h.segments th).segmentEnd > (h.segments th).segmentStart := by
            simpa using h4.symm
          simp only [if_true]
          omega
        | false =>
          have : ¬ (h.segments th).segmentEnd > (h.segments th).segmentStart := by
            simpa using h4.symm
          simp only [Bool.false_eq_true, if_false]
          omega
      · cases positiveDirection with
        | true =>
          have h2b : ¬ ((h.segments th).segmentStart : Int) =
              pointsLength (h.segments th).road - 1 := fun e => h2 ⟨e, rfl⟩
          have : (h.segments th).segmentEnd > (h.segments th).segmentStart := by
            simpa using h4.symm
          omega
        | false =>
          have : ¬ (h.segments th).segmentEnd > (h.segments th).segmentStart := by
            simpa using h4.symm
          omega
  cases hopp : getOppositeDirection h th with
  | some o =>
    obtain ⟨ho, hos, hstr, hroad, hst, hend, hback⟩ := hinv th o hth hopp
    refine ⟨some o, h, ?_, ?_, ?_, rfl, hinv⟩
    · unfold initRouteSegment
      simp only []
      rw [if_neg h1, if_neg h2, if_neg h3, if_neg h4, hopp]
    · by_contra hc; exact hnone o hc
    · intro s hs
      simp only [Option.some.injEq] at hs
      subst hs
      refine ⟨hroad, hst, ?_, ?_, fun _ => ⟨hopp, hback⟩⟩
      · cases positiveDirection with
        | true =>
          have : ¬ (h.segments th).segmentEnd > (h.segments th).segmentStart := by
            simpa using h4
          simp only [if_true]
          omega
        | false =>
          have : (h.segments th).segmentEnd > (h.segments th).segmentStart := by
            simpa using h4
          simp only [Bool.false_eq_true, if_false]
          omega
      · cases positiveDirection with
        | true =>
          have h2b : ¬ ((h.segments th).segmentStart : Int) =
              pointsLength (h.segments th).road - 1 := fun e => h2 ⟨e, rfl⟩
          have : ¬ (h.segments th).segmentEnd > (h.segments th).segmentStart := by
            simpa using h4
          omega
        | false =>
          have : (h.segments th).segmentEnd > (h.segments th).segmentStart := by
            simpa using h4
          omega
  | none =>
    obtain ⟨h5, hres, hcnt, hseg, hnew, hoth, hoc, hrest⟩ :=
      initRouteSegment_create pointsLength th positiveDirection k h hth hlive h1 h2 h3 h4 hopp
    have hne : th ≠ h.count := by omega
    have hsegth : h5.segments th = h.segments th := hseg th hne
    have hs16 : (u16 ((h.segments th).segmentStart : Int) : Int) =
        (h.segments th).segmentStart := u16_id _ (by omega) (by omega)
    have hs16n : u16 ((h.segments th).segmentStart : Int) = (h.segments th).segmentStart := by
      exact_mod_cast hs16
    -- the end of the new segment
    have hend : ((h5.segments h.count).segmentEnd : Int) =
        (if positiveDirection = true then ((h.segments th).segmentStart : Int) + 1
          else ((h.segments th).segmentStart : Int) - 1) ∧
        ((h5.segments h.count).segmentEnd : Int) ≤ pointsLength (h.segments th).road - 1 ∧
        (h5.segments h.count).segmentEnd + (h.segments th).segmentEnd =
          2 * (h.segments th).segmentStart := by
      rw [hnew]
      simp only []
      cases positiveDirection with
      | true =>
        have hgt : ¬ (h.segments th).segmentEnd > (h.segments th).segmentStart := by
          simpa using h4
        have h2b : ¬ ((h.segments th).segmentStart : Int) =
            pointsLength (h.segments th).road - 1 := fun e => h2 ⟨e, rfl⟩
        rw [if_neg hgt]
        have e := u16_id (((h.segments th).segmentStart : Int) + 1) (by omega) (by omega)
        simp only [if_true]
        omega
      | false =>
        have hgt : (h.segments th).segmentEnd > (h.segments th).segmentStart := by
          simpa using h4
        have h1b : ¬ (h.segments th).segmentStart = 0 := fun e => h1 ⟨e, rfl⟩
        rw [if_pos hgt]
        have e := u16_id (((h.segments th).segmentStart : Int) - 1) (by omega) (by omega)
        simp only [Bool.false_eq_true, if_false]
        omega
    have hroadc : (h5.segments h.count).road = (h.segments th).road := by rw [hnew]
    have hstartc : (h5.segments h.count).segmentStart = (h.segments th).segmentStart := by
      rw [hnew]; exact hs16n
    have hstrc : (h5.segments h.count).segmentStructure = some k := by rw [hnew]
    refine ⟨some h.count, h5, hres, ?_, ?_, hsegth, ?_⟩
    · by_contra hc; exact hnone h.count hc
    · intro s hs
      simp only [Option.some.injEq] at hs
      subst hs
      exact ⟨hroadc, hstartc, hend.1, hend.2.1, fun _ => ⟨hoth, hoc⟩⟩
    · intro s o hs hso
      by_cases hsth : s = th
      · subst hsth
        rw [hoth] at hso
        simp only [Option.some.injEq] at hso
        subst hso
        refine ⟨by omega, fun e => hne e.symm, ?_, ?_, ?_, ?_, hoc⟩
        · rw [hstrc, hsegth, hlive]
        · rw [hroadc, hsegth]
        · rw [hstartc, hsegth]
        · rw [hsegth]; exact hend.2.2
      · by_cases hsc : s = h.count
        · subst hsc
          rw [hoc] at hso
          simp only [Option.some.injEq] at hso
          subst hso
          refine ⟨by omega, hne, ?_, ?_, ?_, ?_, hoth⟩
          · rw [hstrc, hsegth, hlive]
          · rw [hroadc, hsegth]
          · rw [hstartc, hsegth]
          · rw [hsegth, hstartc]
            have := hend.2.2
            omega
        · rw [hrest s hsth hsc] at hso
          have hslt : s < h.count := by omega
          obtain ⟨ho, hos, hstr, hroad, hst, hen, hback⟩ := hinv s o hslt hso
          have hoc2 : o ≠ h.count := by omega
          have hoth2 : o ≠ th := by
            intro e
            rw [e, hopp] at hback
            cases hback
          rw [hseg o hoc2, hseg s hsc, hrest o hoth2 hoc2]
          exact ⟨by omega, hos, hstr, hroad, hst, hen, hback⟩

/-- C39 (counterexample): on a road with 70000 points, the segment from point 65535 to
point 65534 asked for the positive direction gets a new segment whose `segmentEnd` is 0,
not 65536: the member is a `uint16_t`. In a heap where `setOppositeDirection` has given
the segment 0, from point 3 to point 4 of the road 0, a segment of the road 9 from point 7
as its opposite direction, the call for the negative direction returns that segment. -/
theorem initRouteSegment_other_segment :
    (initRouteSegment (fun _ => 70000) 0 true (some 0) (oneSegment 65535 65534)).map
        (fun r => (r.1, (r.2.segments 1).segmentStart, (r.2.segments 1).segmentEnd)) =
      some (some 1, 65535, 0) ∧
    (initRouteSegment (fun _ => 10) 0 false (some 0) foreignOpposite).map
        (fun r => (r.1, (r.2.segments 1).road, (r.2.segments 1).segmentStart,
          (r.2.segments 1).segmentEnd)) =
      some (some 1, 9, 7, 8) := by
  decide

theorem initRouteSegment_direction_witness :
    ∃ (r : Option Nat) (h5 : SegmentHeap),
      initRouteSegment (fun _ => 10) 0 false (some 0) (oneSegment 3 4) = some (r, h5) ∧
      (r = none ↔
        (((oneSegment 3 4).segments 0).segmentStart = 0 ∧ false = false) ∨
        ((((oneSegment 3 4).segments 0).segmentStart : Int) =
          (fun _ => 10) ((oneSegment 3 4).segments 0).road - 1 ∧ false = true)) ∧
      (∀ s, r = some s →
        (h5.segments s).road = ((oneSegment 3 4).segments 0).road ∧
        (h5.segments s).segmentStart = ((oneSegment 3 4).segments 0).segmentStart ∧
        ((h5.segments s).segmentEnd : Int) =
          (if false = true then (((oneSegment 3 4).segments 0).segmentStart : Int) + 1
            else (((oneSegment 3 4).segments 0).segmentStart : Int) - 1) ∧
        ((h5.segments s).segmentEnd : Int) ≤
          (fun _ => 10) ((oneSegment 3 4).segments 0).road - 1 ∧
        (s ≠ 0 → getOppositeDirection h5 0 = some s ∧
          getOppositeDirection h5 s = some 0)) ∧
      h5.segments 0 = (oneSegment 3 4).segments 0 ∧
      OppositeLinked h5 :=
  initRouteSegment_direction (fun _ => 10) 0 false 0 (oneSegment 3 4) (by decide) rfl
    (by decide) (by decide) (by decide) (Or.inl (by decide))
    (by intro s o _ hso; simp [getOppositeDirection, oneSegment] at hso)


/-! ## Properties of the road objects -/

/-- A value of type `uint32_t`, as an integer, is the value modulo 2^32. -/
theorem u32_cast (z : Int) : (u32 z : Int) = z % 4294967296 := by
  unfold u32; omega

/-- The shift `x << 4` of a `uint32_t` that is `b` modulo 2^32 is `b * 16` modulo 2^32. -/
theorem shiftLeft_u32 (z b : Int) (h : z % 4294967296 = b % 4294967296) :
    (u32 z <<< ROUTE_SHIFT_COORDINATES) % 4294967296 = u32 (b * 16) := by
  simp only [ROUTE_SHIFT_COORDINATES, Nat.shiftLeft_eq]
  unfold u32
  omega

/-- The loop of the `points` field, started with `px` and `py` that are `bx` and `by_`
modulo 2^32, stores for the vertex `k` the sums of the deltas up to `k` on `bx` and `by_`,
shifted by 4 in 32-bit arithmetic. -/
theorem readRoutePoints_deltaReads :
    ∀ (ds : List (Int × Int)) (px py bx by_ : Int) (obj : RouteDataObject),
      px % 4294967296 = bx % 4294967296 → py % 4294967296 = by_ % 4294967296 →
      readRoutePoints (deltaReads ds) px py obj =
        (true,
          { obj with
            pointsX := obj.pointsX ++ (List.range ds.length).map (fun k =>
              u32 ((bx + ((ds.take (k + 1)).map Prod.fst).sum) * 16)),
            pointsY := obj.pointsY ++ (List.range ds.length).map (fun k =>
              u32 ((by_ + ((ds.take (k + 1)).map Prod.snd).sum) * 16)) }) := by
  intro ds
  induction ds with
  | nil =>
    intro px py bx by_ obj _ _
    simp [deltaReads, readRoutePoints]
  | cons d rest ih =>
    intro px py bx by_ obj hx hy
    have hx1 : i32 (d.1 + px) % 4294967296 = (bx + d.1) % 4294967296 := by
      rw [i32_emod, Int.add_comm]
      exact add_emod_congr _ _ _ _ _ hx rfl
    have hy1 : i32 (d.2 + py) % 4294967296 = (by_ + d.2) % 4294967296 := by
      rw [i32_emod, Int.add_comm]
      exact add_emod_congr _ _ _ _ _ hy rfl
    have hx2 : i32 (u32 (i32 (d.1 + px)) : Int) % 4294967296 = (bx + d.1) % 4294967296 := by
      rw [i32_emod, u32_cast, Int.emod_emod_of_dvd _ (by decide), hx1]
    have hy2 : i32 (u32 (i32 (d.2 + py)) : Int) % 4294967296 = (by_ + d.2) % 4294967296 := by
      rw [i32_emod, u32_cast, Int.emod_emod_of_dvd _ (by decide), hy1]
    simp only [deltaReads, readRoutePoints]
    rw [ih _ _ (bx + d.1) (by_ + d.2) _ hx2 hy2, shiftLeft_u32 _ _ hx1, shiftLeft_u32 _ _ hy1]
    simp only [List.length_cons, List.range_succ_eq_map, List.map_cons, List.map_map,
      List.append_assoc, List.singleton_append, List.take_succ_cons, List.take_zero,
      List.map_nil, List.sum_cons, List.sum_nil, Int.add_zero, Function.comp_def,
      Int.add_assoc]

/-- C34: `readRouteDataObject` for a subregion with the corner `(left, top)` on a message
with one points field that holds the delta pairs `ds` returns true and stores one vertex
for each pair, in order: the vertex `k` is `((left >> 4) + dx_1 + … + dx_k) << 4` and
`((top >> 4) + dy_1 + … + dy_k) << 4`, taken modulo 2^32. Every coordinate stored in a new
object is a multiple of 16. -/
theorem readRouteDataObject_points (left top : Nat) (ds : List (Int × Int))
    (obj : RouteDataObject) :
    readRouteDataObject left top [.points (some (deltaReads ds))] obj =
      (true,
        { obj with
          pointsX := obj.pointsX ++ (List.range ds.length).map (fun k =>
            u32 ((((left >>> 4 : Nat) : Int) + ((ds.take (k + 1)).map Prod.fst).sum) * 16)),
          pointsY := obj.pointsY ++ (List.range ds.length).map (fun k =>
            u32 ((((top >>> 4 : Nat) : Int) + ((ds.take (k + 1)).map Prod.snd).sum) * 16)) }) ∧
    (∀ v ∈ (readRouteDataObject left top [.points (some (deltaReads ds))] {}).2.pointsX,
      v % 16 = 0) ∧
    (∀ v ∈ (readRouteDataObject left top [.points (some (deltaReads ds))] {}).2.pointsY,
      v % 16 = 0) := by
  have hloop := fun o : RouteDataObject => readRoutePoints_deltaReads ds
    (i32 ((left >>> ROUTE_SHIFT_COORDINATES : Nat) : Int))
    (i32 ((top >>> ROUTE_SHIFT_COORDINATES : Nat) : Int))
    ((left >>> 4 : Nat) : Int) ((top >>> 4 : Nat) : Int) o (i32_emod _) (i32_emod _)
  have hread : ∀ o : RouteDataObject,
      readRouteDataObject left top [.points (some (deltaReads ds))] o =
        (true,
          { o with
            pointsX := o.pointsX ++ (List.range ds.length).map (fun k =>
              u32 ((((left >>> 4 : Nat) : Int) + ((ds.take (k + 1)).map Prod.fst).sum) * 16)),
            pointsY := o.pointsY ++ (List.range ds.length).map (fun k =>
              u32 ((((top >>> 4 : Nat) : Int) + ((ds.take (k + 1)).map Prod.snd).sum) * 16)) }) := by
    intro o
    simp only [readRouteDataObject, readRouteDataObjectField, hloop o, if_true]
  have h16 : ∀ z : Int, u32 (z * 16) % 16 = 0 := by
    intro z; unfold u32; omega
  refine ⟨hread obj, ?_, ?_⟩
  · intro v hv
    rw [hread {}] at hv
    simp only [List.nil_append, List.mem_map] at hv
    obtain ⟨k, _, rfl⟩ := hv
    exact h16 _
  · intro v hv
    rw [hread {}] at hv
    simp only [List.nil_append, List.mem_map] at hv
    obtain ⟨k, _, rfl⟩ := hv
    exact h16 _

/-! ## Properties of the routing blocks -/

/-- Conversion to `int64_t` keeps the value modulo 2^64. -/
theorem i64_emod (x : Int) :
    i64 x % 18446744073709551616 = x % 18446744073709551616 := by
  unfold i64; omega

/-- The loop of the `idTable` field over the deltas given, started at the value
`routeId`, which is `base` modulo 2^64, adds to the table, for each `k`, the sum of
`base` and the deltas up to `k` as an `int64_t`. -/
theorem readIdTable_sums :
    ∀ (vals : List Int) (routeId base : Int) (idTables : List Int),
      routeId % 18446744073709551616 = base % 18446744073709551616 →
      readIdTable (idTableOf vals) routeId idTables =
        .next (idTables ++ (List.range vals.length).map (fun k =>
          i64 (base + (vals.take (k + 1)).sum))) := by
  intro vals
  induction vals with
  | nil => intro routeId base idTables _; simp [idTableOf, readIdTable]
  | cons val rest ih =>
    intro routeId base idTables hr
    have h1 : i64 (routeId + val) % 18446744073709551616 =
        (base + val) % 18446744073709551616 := by
      rw [i64_emod]
      exact add_emod_congr _ _ _ _ _ hr rfl
    have h2 : i64 (routeId + val) = i64 (base + val) := by
      unfold i64
      have := add_emod_congr (routeId + val) (base + val) 9223372036854775808
        9223372036854775808 18446744073709551616
        (by rw [← i64_emod, h1]) rfl
      rw [this]
    have ih1 := ih (i64 (routeId + val)) (base + val) (idTables ++ [i64 (routeId + val)]) h1
    simp only [idTableOf, List.map_cons, readIdTable] at ih1 ⊢
    rw [ih1, h2]
    simp only [List.length_cons, List.range_succ_eq_map, List.map_cons, List.map_map,
      List.append_assoc, List.singleton_append, List.take_succ_cons, List.take_zero,
      List.sum_cons, List.sum_nil, Int.add_zero, Function.comp_def, Int.add_assoc]

/-- The rewriting of the restrictions of a road goes through exactly when every `to`, and
every `via` other than 0, is an index of the id table. -/
theorem finalizeRestrictionInfos_isSome_iff (idTables : List Int) :
    ∀ infos : List RestrictionInfo,
      (finalizeRestrictionInfos idTables infos).isSome = true ↔
        ∀ info ∈ infos, (indexInt idTables info.to_).isSome = true ∧
          (info.via ≠ 0 → (indexInt idTables info.via).isSome = true) := by
  intro infos
  induction infos with
  | nil => simp [finalizeRestrictionInfos]
  | cons info rest ih =>
    simp only [finalizeRestrictionInfos, List.mem_cons, forall_eq_or_imp]
    cases hto : indexInt idTables info.to_ with
    | none => simp
    | some to1 =>
      by_cases hv : info.via ≠ 0
      · rw [if_pos hv]
        cases hvia : indexInt idTables info.via with
        | none => simp [hv]
        | some via1 =>
          cases hr : finalizeRestrictionInfos idTables rest with
          | none => rw [hr] at ih; simpa [hv] using ih
          | some rest1 => rw [hr] at ih; simpa [hv] using ih
      · rw [if_neg hv]
        cases hr : finalizeRestrictionInfos idTables rest with
        | none => rw [hr] at ih; simpa [hv] using ih
        | some rest1 => rw [hr] at ih; simpa [hv] using ih

/-- C33: in a block with the roads 0 and 1 and the id table 100, 105, a restriction from
road 0 to road 1 is rewritten (the roads get the ids 100 and 105, the restriction goes to
105). A restriction from road 0 to the index 2 reads `idTables[2]`, and a restriction
from the index 2 reads `dataObjects[2]`: both are out of range, no test comes before
them. -/
theorem readRouteTreeData_restriction_out_of_range :
    readRouteTreeData 0 0 (restrictionBlock 0 1) [] =
      some (true,
        [some { id := 100, restrictions := [{ to_ := 105, via := 0, type := 2 }] },
          some { id := 105 }]) ∧
    readRouteTreeData 0 0 (restrictionBlock 0 2) [] = none ∧
    readRouteTreeData 0 0 (restrictionBlock 2 1) [] = none := by
  decide

/-! ## Properties of the map blocks -/

/-- The names of an object are resolved exactly when every string id of the object is
below the size of the string table. -/
theorem resolveObjectNames_isSome_iff (stringTable : List String) :
    ∀ (stringIds : List (String × Nat)) (objectNames : List (String × String)),
      (resolveObjectNames stringTable stringIds objectNames).isSome = true ↔
        ∀ p ∈ stringIds, p.2 < stringTable.length := by
  intro stringIds
  induction stringIds with
  | nil => intro objectNames; simp [resolveObjectNames]
  | cons p rest ih =>
    intro objectNames
    obtain ⟨first, second⟩ := p
    simp only [resolveObjectNames, List.mem_cons, forall_eq_or_imp]
    by_cases hlt : second < stringTable.length
    · rw [List.getElem?_eq_getElem hlt]
      simp only [hlt, true_and]
      exact ih _
    · rw [List.getElem?_eq_none (by omega)]
      simp [hlt]

/-- C31: in a block with one accepted object and a string table of two strings, the name
ids 0 and 1 are resolved; with the name ids 0 and 2 the reader indexes the table at 2,
which is out of range: no test of the id comes before `stringTable[val->second]`. -/
theorem readMapDataBlocks_string_id_out_of_range :
    (readMapDataBlocks { left := 0, right := 0, top := 0, bottom := 0 } 15 {}
        (namedBlock 1)).map (fun r => (r.1, r.2.1.map (fun o => o.objectNames))) =
      some (true, [[("name", "Main Street"), ("ref", "A1")]]) ∧
    (readMapDataBlocks { left := 0, right := 0, top := 0, bottom := 0 } 15 {}
        (namedBlock 2)).isNone = true := by
  decide

/-! ## Properties of the search of an encoding rule -/

theorem mapAssign_ne_nil (m : List (String × Nat)) (k : String) (v : Nat) :
    mapAssign m k v ≠ [] := by
  cases m with
  | nil => simp [mapAssign]
  | cons a rest =>
    obtain ⟨k1, v1⟩ := a
    simp only [mapAssign]
    by_cases h : (k1 == k) = true
    · rw [if_pos h]; simp
    · rw [if_neg h]; simp

theorem fillDecodingRules_ne_nil :
    ∀ (rules : List RouteTypeRule) (i : Nat) (m : List (String × Nat)),
      rules ≠ [] ∨ m ≠ [] → fillDecodingRules i rules m ≠ [] := by
  intro rules
  induction rules with
  | nil =>
    intro i m h
    rcases h with h | h
    · exact absurd rfl h
    · simpa [fillDecodingRules] using h
  | cons rt rest ih =>
    intro i m _
    simp only [fillDecodingRules]
    exact ih _ _ (Or.inr (mapAssign_ne_nil _ _ _))

/-- A search on a table with a rule at index 1 or above leaves `decodingRules` filled. -/
theorem searchRouteEncodingRule_fills (tag value : String) (rr : RouteRules)
    (h : 2 ≤ rr.routeEncodingRules.length) :
    (searchRouteEncodingRule tag value rr).2.decodingRules ≠ [] := by
  have hd : rr.routeEncodingRules.drop 1 ≠ [] := by
    intro e
    have := congrArg List.length e
    simp at this
    omega
  unfold searchRouteEncodingRule
  by_cases he : rr.decodingRules.isEmpty = true
  · simp only [he, if_true]
    have hf := fillDecodingRules_ne_nil (rr.routeEncodingRules.drop 1) 1 rr.decodingRules
      (Or.inl hd)
    cases hm : mapFind (fillDecodingRules 1 (rr.routeEncodingRules.drop 1) rr.decodingRules)
      (ruleKey tag value) <;> simpa using hf
  · have hne : rr.decodingRules ≠ [] := by
      intro e; rw [e] at he; exact he rfl
    simp only [he, Bool.false_eq_true, if_false]
    cases hm : mapFind rr.decodingRules (ruleKey tag value) <;> simpa using hne

/-- With `decodingRules` filled, the id that a search returns depends on `decodingRules`
alone. -/
theorem searchRouteEncodingRule_filled (tag value : String) (rr rr1 : RouteRules)
    (h : rr.decodingRules ≠ []) (he : rr1.decodingRules = rr.decodingRules) :
    (searchRouteEncodingRule tag value rr1).1 = (searchRouteEncodingRule tag value rr).1 := by
  have h1 : rr.decodingRules.isEmpty = false := by
    cases hd : rr.decodingRules with
    | nil => exact absurd hd h
    | cons a l => rfl
  have h2 : rr1.decodingRules.isEmpty = false := by rw [he]; exact h1
  unfold searchRouteEncodingRule
  simp only [h1, h2, Bool.false_eq_true, if_false, he]
  cases mapFind rr.decodingRules (ruleKey tag value) <;> rfl

/-- C37 (counterexample): in the table loaded from the rules `highway=primary` and
`highway=secondary`, after a search for `highway=primary` (id 1), the rule
`highway=tertiary` appended by `findOrCreateRouteType` at index 3 and the rule
`oneway=yes` placed by `initRouteEncodingRule` at index 5 are both answered
4294967295, the value of -1. -/
theorem searchRouteEncodingRule_stale :
    (searchRouteEncodingRule "highway" "primary"
      (readRoutingIndexRules plainSyntax false twoRuleIndex {}).2).1 = 1 ∧
    (findOrCreateRouteType plainSyntax "highway" "tertiary"
      (searchRouteEncodingRule "highway" "primary"
        (readRoutingIndexRules plainSyntax false twoRuleIndex {}).2).2.routeEncodingRules).1
      = 3 ∧
    (searchRouteEncodingRule "highway" "tertiary"
      { (searchRouteEncodingRule "highway" "primary"
          (readRoutingIndexRules plainSyntax false twoRuleIndex {}).2).2 with
        routeEncodingRules :=
          (findOrCreateRouteType plainSyntax "highway" "tertiary"
            (searchRouteEncodingRule "highway" "primary"
              (readRoutingIndexRules plainSyntax false twoRuleIndex {}).2).2.routeEncodingRules).2
      }).1 = 4294967295 ∧
    (searchRouteEncodingRule "oneway" "yes"
      (initRouteEncodingRule plainSyntax 5 "oneway" "yes"
        (searchRouteEncodingRule "highway" "primary"
          (readRoutingIndexRules plainSyntax false twoRuleIndex {}).2).2)).1 = 4294967295 := by
  decide

/-- C37 (amended): after a `searchRouteEncodingRule` call on a table with a rule at index
1 or above, which fills `decodingRules`, every later search returns the id it would have
returned right after that call, whatever rules `initRouteEncodingRule` has placed and
`findOrCreateRouteType` has appended in between: the answers are those of the table as it
was at that call. -/
theorem searchRouteEncodingRule_first_table (syn : RuleSyntax) (rr : RouteRules)
    (tag0 value0 : String) (h : 2 ≤ rr.routeEncodingRules.length) :
    (∀ (id : Nat) (t v tag value : String),
      (searchRouteEncodingRule tag value
        (initRouteEncodingRule syn id t v (searchRouteEncodingRule tag0 value0 rr).2)).1 =
      (searchRouteEncodingRule tag value (searchRouteEncodingRule tag0 value0 rr).2).1) ∧
    (∀ (t v tag value : String),
      (searchRouteEncodingRule tag value
        { (searchRouteEncodingRule tag0 value0 rr).2 with
          routeEncodingRules :=
            (findOrCreateRouteType syn t v
              (searchRouteEncodingRule tag0 value0 rr).2.routeEncodingRules).2 }).1 =
      (searchRouteEncodingRule tag value (searchRouteEncodingRule tag0 value0 rr).2).1) := by
  have hf := searchRouteEncodingRule_fills tag0 value0 rr h
  constructor
  · intro id t v tag value
    apply searchRouteEncodingRule_filled tag value _ _ hf
    unfold initRouteEncodingRule
    exact (cacheRuleId_rules _ _ _ _).2
  · intro t v tag value
    exact searchRouteEncodingRule_filled tag value _ _ hf rfl

theorem searchRouteEncodingRule_first_table_witness :
    (searchRouteEncodingRule "highway" "tertiary"
      { (searchRouteEncodingRule "highway" "primary"
          (readRoutingIndexRules plainSyntax false twoRuleIndex {}).2).2 with
        routeEncodingRules :=
          (findOrCreateRouteType plainSyntax "highway" "tertiary"
            (searchRouteEncodingRule "highway" "primary"
              (readRoutingIndexRules plainSyntax false twoRuleIndex {}).2).2.routeEncodingRules).2
      }).1 =
    (searchRouteEncodingRule "highway" "tertiary"
      (searchRouteEncodingRule "highway" "primary"
        (readRoutingIndexRules plainSyntax false twoRuleIndex {}).2).2).1 :=
  (searchRouteEncodingRule_first_table plainSyntax
    (readRoutingIndexRules plainSyntax false twoRuleIndex {}).2 "highway" "primary"
    (by decide)).2 "highway" "tertiary" "highway" "tertiary"

end OsmAnd
